import Mathlib

/-!
# btcrpc: the JSON-RPC dispatch layer of a Bitcoin Core client

A verification development for the Go package `btcrpc` (files `client.go`,
`types.go`, `wallet.go`, `blockchain.go`, `advanced.go`).

The package is a thin layer over three libraries of the Go distribution:
`encoding/json`, `net/http` and `fmt`.  The development therefore has two layers.

* Part I models the library behaviour the package relies on: the `encoding/json`
  scanner (a pushdown automaton over the input bytes), the value decoder driven by
  the Go type of the target, the encoder, and the outcome of one HTTP exchange.
* Part II transcribes the package itself: `callWithWallet`, `call` and the typed
  operations, statement by statement.

Conventions.  Go byte strings are modelled as sequences of Unicode characters
(`String` at the interface of the package, `List Char` inside the scanner), so the
development covers texts that are valid UTF-8.  Go `int` is 64 bits wide; integers are
`Int` with explicit range checks where the library checks the range.  A Go `error` made
by `fmt.Errorf` is determined by its text, and is modelled as that text.
-/

namespace btcrpc

/-! ## Part I.a  Characters, digits and integers -/

/-- The characters `encoding/json` treats as white space. -/
def isSpace (c : Char) : Bool :=
  c == ' ' || c == '\t' || c == '\r' || c == '\n'

/-- A decimal digit. -/
def isDigit (c : Char) : Bool :=
  '0'.toNat ≤ c.toNat && c.toNat ≤ '9'.toNat

/-- A digit from 1 to 9. -/
def isDigit19 (c : Char) : Bool :=
  '1'.toNat ≤ c.toNat && c.toNat ≤ '9'.toNat

/-- A hexadecimal digit, either case. -/
def isHex (c : Char) : Bool :=
  isDigit c || ('a'.toNat ≤ c.toNat && c.toNat ≤ 'f'.toNat)
    || ('A'.toNat ≤ c.toNat && c.toNat ≤ 'F'.toNat)

/-- The value of a hexadecimal digit (0 for any other character). -/
def hexVal (c : Char) : Nat :=
  if isDigit c then c.toNat - '0'.toNat
  else if 'a'.toNat ≤ c.toNat && c.toNat ≤ 'f'.toNat then c.toNat - 'a'.toNat + 10
  else if 'A'.toNat ≤ c.toNat && c.toNat ≤ 'F'.toNat then c.toNat - 'A'.toNat + 10
  else 0

/-- The lower-case hexadecimal digit of a number below 16. -/
def hexDigit (n : Nat) : Char :=
  if n < 10 then Char.ofNat ('0'.toNat + n) else Char.ofNat ('a'.toNat + (n - 10))

/-- The decimal digit of a number below 10. -/
def digitChar (n : Nat) : Char :=
  Char.ofNat ('0'.toNat + n)

/-- The decimal digits of `n`, most significant first; `fuel` bounds the number of digits. -/
def decimalDigits : Nat → Nat → List Char
  | 0, _ => []
  | fuel + 1, n =>
    if n < 10 then [digitChar n] else decimalDigits fuel (n / 10) ++ [digitChar (n % 10)]

/-- The decimal text of a natural number (`strconv.FormatUint(n, 10)`). -/
def formatNat (n : Nat) : List Char :=
  decimalDigits (n + 1) n

/-- The decimal text of an integer (`strconv.FormatInt(i, 10)`, the verb `%d`). -/
def formatInt : Int → List Char
  | Int.ofNat n => formatNat n
  | Int.negSucc n => '-' :: formatNat (n + 1)

/-- The number written by a list of decimal digits, after the accumulator `acc`. -/
def digitsValue (acc : Nat) : List Char → Nat
  | [] => acc
  | c :: cs => digitsValue (acc * 10 + (c.toNat - '0'.toNat)) cs

/-- The bounds of the Go type `int` (64 bits). -/
def minInt64 : Int := -9223372036854775808

/-- The largest value of the Go type `int`. -/
def maxInt64 : Int := 9223372036854775807

/-- The result of `strconv.ParseInt(s, 10, bits)`: an optional sign, then one or more
decimal digits, and a value that fits the signed range of `bits` bits. -/
def parseInt (bits : Nat) (s : List Char) : Option Int :=
  let (negative, ds) :=
    match s with
    | '-' :: r => (true, r)
    | '+' :: r => (false, r)
    | r => (false, r)
  if ds.isEmpty || !ds.all isDigit then none
  else
    let n : Int := digitsValue 0 ds
    let v : Int := if negative then -n else n
    if -(2 : Int) ^ (bits - 1) ≤ v ∧ v < (2 : Int) ^ (bits - 1) then some v else none

/-- The result of `strconv.ParseUint(s, 10, bits)`: one or more decimal digits and a value
below `2 ^ bits`. -/
def parseUint (bits : Nat) (s : List Char) : Option Int :=
  if s.isEmpty || !s.all isDigit then none
  else
    let n := digitsValue 0 s
    if n < 2 ^ bits then some (n : Int) else none

/-- Whether `sub` occurs in `s` as a contiguous block (`strings.Contains`). -/
def containsSub (s sub : List Char) : Bool :=
  match s with
  | [] => sub.isEmpty
  | c :: cs => sub.isPrefixOf (c :: cs) || containsSub cs sub

deriving instance DecidableEq for Except

/-! ## Part I.b  The scanner of `encoding/json`

`scanner.go` validates a text with a pushdown automaton: a current step function and a
stack of open composite values.  `Step` names the step functions, `ParseState` the stack
entries, and `scanStep` is one transition. -/

/-- What the scanner is in the middle of, for each open composite value. -/
inductive ParseState where
  | parseObjectKey
  | parseObjectValue
  | parseArrayValue
  deriving DecidableEq, Repr

/-- The step functions of the scanner (`stateBeginValue`, `stateInString`, ...). -/
inductive Step where
  | beginValueOrEmpty | beginValue | beginStringOrEmpty | beginString
  | endValue | endTop
  | inString | inStringEsc | inStringEscU | inStringEscU1 | inStringEscU12 | inStringEscU123
  | neg | s1 | s0 | dot | dot0 | e | eSign | e0
  | t | tr | tru | f | fa | fal | fals | n | nu | nul
  deriving DecidableEq, Repr

/-- The scanner: its step function and its stack (top first).  The flag `endTop` of the Go
scanner is set exactly when the step function becomes `stateEndTop`. -/
structure Scanner where
  step : Step
  parseState : List ParseState
  deriving DecidableEq, Repr

/-- The greatest number of nested composite values the scanner accepts. -/
def maxNestingDepth : Nat := 10000

/-- The text of a character inside a scanner error (`quoteChar`); exact for printable
ASCII, which is all this development evaluates it on. -/
def quoteChar (c : Char) : String :=
  if c == '\'' then "'\\''" else if c == '"' then "'\"'" else "'" ++ String.singleton c ++ "'"

/-- The text of a scanner error: `invalid character <c> <context>`. -/
def scanError (c : Char) (context : String) : String :=
  "invalid character " ++ quoteChar c ++ " " ++ context

/-- `pushParseState`: open a composite value, unless the nesting is too deep. -/
def pushParseState (s : Scanner) (c : Char) (newParseState : ParseState) (next : Step) :
    Except String Scanner :=
  if s.parseState.length + 1 ≤ maxNestingDepth then
    .ok { step := next, parseState := newParseState :: s.parseState }
  else .error (scanError c "exceeded max depth")

/-- `popParseState`: close the innermost composite value. -/
def popParseState (s : Scanner) : Scanner :=
  match s.parseState.tail with
  | [] => { step := .endTop, parseState := [] }
  | ps => { step := .endValue, parseState := ps }

/-- `stateEndTop`: only white space may follow the top-level value. -/
def stateEndTop (c : Char) : Except String Scanner :=
  if isSpace c then .ok { step := .endTop, parseState := [] }
  else .error (scanError c "after top-level value")

/-- `stateEndValue`: the character after a complete value. -/
def stateEndValue (s : Scanner) (c : Char) : Except String Scanner :=
  match s.parseState with
  | [] => stateEndTop c
  | ps :: rest =>
    if isSpace c then .ok { s with step := .endValue }
    else
      match ps with
      | .parseObjectKey =>
        if c == ':' then .ok { step := .beginValue, parseState := .parseObjectValue :: rest }
        else .error (scanError c "after object key")
      | .parseObjectValue =>
        if c == ',' then .ok { step := .beginString, parseState := .parseObjectKey :: rest }
        else if c == '}' then .ok (popParseState s)
        else .error (scanError c "after object key:value pair")
      | .parseArrayValue =>
        if c == ',' then .ok { s with step := .beginValue }
        else if c == ']' then .ok (popParseState s)
        else .error (scanError c "after array element")

/-- `stateBeginValue`: the first character of a value. -/
def stateBeginValue (s : Scanner) (c : Char) : Except String Scanner :=
  if isSpace c then .ok s
  else if c == '{' then pushParseState s c .parseObjectKey .beginStringOrEmpty
  else if c == '[' then pushParseState s c .parseArrayValue .beginValueOrEmpty
  else if c == '"' then .ok { s with step := .inString }
  else if c == '-' then .ok { s with step := .neg }
  else if c == '0' then .ok { s with step := .s0 }
  else if c == 't' then .ok { s with step := .t }
  else if c == 'f' then .ok { s with step := .f }
  else if c == 'n' then .ok { s with step := .n }
  else if isDigit19 c then .ok { s with step := .s1 }
  else .error (scanError c "looking for beginning of value")

/-- `stateBeginString`: the opening quote of an object key. -/
def stateBeginString (s : Scanner) (c : Char) : Except String Scanner :=
  if isSpace c then .ok s
  else if c == '"' then .ok { s with step := .inString }
  else .error (scanError c "looking for beginning of object key string")

/-- `state0`: after the integer part of a number. -/
def state0 (s : Scanner) (c : Char) : Except String Scanner :=
  if c == '.' then .ok { s with step := .dot }
  else if c == 'e' || c == 'E' then .ok { s with step := .e }
  else stateEndValue s c

/-- `stateESign`: after the `e` and the sign of an exponent. -/
def stateESign (s : Scanner) (c : Char) : Except String Scanner :=
  if isDigit c then .ok { s with step := .e0 }
  else .error (scanError c "in exponent of numeric literal")

/-- One letter of a literal `true`, `false` or `null`. -/
def literalStep (s : Scanner) (c expected : Char) (next : Step) (context : String) :
    Except String Scanner :=
  if c == expected then .ok { s with step := next } else .error (scanError c context)

/-- One hexadecimal digit of a `\u` escape. -/
def hexStep (s : Scanner) (c : Char) (next : Step) : Except String Scanner :=
  if isHex c then .ok { s with step := next }
  else .error (scanError c "in \\u hexadecimal character escape")

/-- One transition of the scanner on the character `c` (`s.step(s, c)`). -/
def scanStep (s : Scanner) (c : Char) : Except String Scanner :=
  match s.step with
  | .beginValueOrEmpty =>
    if isSpace c then .ok s
    else if c == ']' then stateEndValue s c
    else stateBeginValue s c
  | .beginValue => stateBeginValue s c
  | .beginStringOrEmpty =>
    if isSpace c then .ok s
    else if c == '}' then
      stateEndValue { s with parseState := .parseObjectValue :: s.parseState.tail } c
    else stateBeginString s c
  | .beginString => stateBeginString s c
  | .endValue => stateEndValue s c
  | .endTop => stateEndTop c
  | .inString =>
    if c == '"' then .ok { s with step := .endValue }
    else if c == '\\' then .ok { s with step := .inStringEsc }
    else if c.toNat < 0x20 then .error (scanError c "in string literal")
    else .ok s
  | .inStringEsc =>
    if c == 'b' || c == 'f' || c == 'n' || c == 'r' || c == 't' || c == '\\' || c == '/'
        || c == '"' then .ok { s with step := .inString }
    else if c == 'u' then .ok { s with step := .inStringEscU }
    else .error (scanError c "in string escape code")
  | .inStringEscU => hexStep s c .inStringEscU1
  | .inStringEscU1 => hexStep s c .inStringEscU12
  | .inStringEscU12 => hexStep s c .inStringEscU123
  | .inStringEscU123 => hexStep s c .inString
  | .neg =>
    if c == '0' then .ok { s with step := .s0 }
    else if isDigit19 c then .ok { s with step := .s1 }
    else .error (scanError c "in numeric literal")
  | .s1 => if isDigit c then .ok s else state0 s c
  | .s0 => state0 s c
  | .dot =>
    if isDigit c then .ok { s with step := .dot0 }
    else .error (scanError c "after decimal point in numeric literal")
  | .dot0 =>
    if isDigit c then .ok s
    else if c == 'e' || c == 'E' then .ok { s with step := .e }
    else stateEndValue s c
  | .e => if c == '+' || c == '-' then .ok { s with step := .eSign } else stateESign s c
  | .eSign => stateESign s c
  | .e0 => if isDigit c then .ok s else stateEndValue s c
  | .t => literalStep s c 'r' .tr "in literal true (expecting 'r')"
  | .tr => literalStep s c 'u' .tru "in literal true (expecting 'u')"
  | .tru => literalStep s c 'e' .endValue "in literal true (expecting 'e')"
  | .f => literalStep s c 'a' .fa "in literal false (expecting 'a')"
  | .fa => literalStep s c 'l' .fal "in literal false (expecting 'l')"
  | .fal => literalStep s c 's' .fals "in literal false (expecting 's')"
  | .fals => literalStep s c 'e' .endValue "in literal false (expecting 'e')"
  | .n => literalStep s c 'u' .nu "in literal null (expecting 'u')"
  | .nu => literalStep s c 'l' .nul "in literal null (expecting 'l')"
  | .nul => literalStep s c 'l' .endValue "in literal null (expecting 'l')"

/-- The scanner run over a text from the state `s`. -/
def scanRun (s : Scanner) : List Char → Except String Scanner
  | [] => .ok s
  | c :: cs =>
    match scanStep s c with
    | .error e => .error e
    | .ok s1 => scanRun s1 cs

/-- The scanner at the start of a text (`reset`). -/
def Scanner.reset : Scanner := { step := .beginValue, parseState := [] }

/-- `checkValid`: the whole text is one JSON value, white space around it allowed.  At the
end of the text the scanner is fed one space (`eof`); the text is complete when that
brings it to `stateEndTop`. -/
def checkValid (data : List Char) : Except String Unit :=
  match scanRun Scanner.reset data with
  | .error e => .error e
  | .ok s =>
    if s.step = .endTop then .ok ()
    else
      match scanStep s ' ' with
      | .ok s1 => if s1.step = .endTop then .ok () else .error "unexpected end of JSON input"
      | .error _ => .error "unexpected end of JSON input"

/-- A step function in which a number may end: the next character decides. -/
def Step.numberMayEnd : Step → Bool
  | .s1 | .s0 | .dot0 | .e0 => true
  | _ => false

/-- Whether the character `c` continues the number the scanner is in. -/
def continuesNumber (st : Step) (c : Char) : Bool :=
  match st with
  | .s1 => isDigit c || c == '.' || c == 'e' || c == 'E'
  | .s0 => c == '.' || c == 'e' || c == 'E'
  | .dot0 => isDigit c || c == 'e' || c == 'E'
  | .e0 => isDigit c
  | _ => true

/-- The decoder's walk over one value: from the scanner state `s`, reached inside the value,
the rest of the value and what follows it.  A string, a literal or a composite value ends
with its last character; a number ends before the first character that cannot continue
it, or with the text. -/
def scanValueFrom (s : Scanner) : List Char → Option (List Char × List Char)
  | [] => if s.parseState.isEmpty && s.step.numberMayEnd then some ([], []) else none
  | c :: cs =>
    if s.parseState.isEmpty && s.step.numberMayEnd && !continuesNumber s.step c then
      some ([], c :: cs)
    else
      match scanStep s c with
      | .error _ => none
      | .ok s1 =>
        if s1.parseState.isEmpty && (s1.step = .endValue || s1.step = .endTop) then
          some ([c], cs)
        else
          match scanValueFrom s1 cs with
          | some (raw, rest) => some (c :: raw, rest)
          | none => none

/-- The bytes of the value that starts a text, and the text after it.  The text starts
with the first character of the value (no white space). -/
def scanValue (data : List Char) : Option (List Char × List Char) :=
  match data with
  | [] => none
  | c :: _ => if isSpace c then none else scanValueFrom Scanner.reset data

/-- The text without its leading white space (`scanWhile(scanSkipSpace)`). -/
def skipSpace : List Char → List Char
  | [] => []
  | c :: cs => if isSpace c then skipSpace cs else c :: cs

/-- The text without the white space around it: for a valid text, the bytes of its one
value. -/
def trimSpace (data : List Char) : List Char :=
  (skipSpace (skipSpace data).reverse).reverse

/-! ## Part I.c  Strings, arrays and objects in a validated text -/

/-- The code point written by four hexadecimal digits (`getu4`). -/
def getu4 (a b c d : Char) : Nat :=
  ((hexVal a * 16 + hexVal b) * 16 + hexVal c) * 16 + hexVal d

/-- The character with code point `n`, or U+FFFD when `n` is not a scalar value. -/
def runeOf (n : Nat) : Char :=
  if n < 0xd800 ∨ (0xe000 ≤ n ∧ n < 0x110000) then Char.ofNat n else Char.ofNat 0xfffd

/-- Whether `n` is a UTF-16 surrogate (`utf16.IsSurrogate`). -/
def isSurrogate (n : Nat) : Bool :=
  decide (0xd800 ≤ n) && decide (n < 0xe000)

/-- The character for the escape `\u` with value `r`, after a pending surrogate `hi`, and
what is pending afterwards.  A surrogate is held back until the next escape is seen: a high
one followed by a low one is one character (`utf16.DecodeRune`), any other surrogate is
U+FFFD. -/
def escapeRune (hi : Option Nat) (r : Nat) : List Char × Option Nat :=
  match hi with
  | some rr =>
    if rr < 0xdc00 ∧ 0xdc00 ≤ r ∧ r < 0xe000 then
      ([Char.ofNat ((rr - 0xd800) * 0x400 + (r - 0xdc00) + 0x10000)], none)
    else if isSurrogate r then ([Char.ofNat 0xfffd], some r)
    else ([Char.ofNat 0xfffd, runeOf r], none)
  | none => if isSurrogate r then ([], some r) else ([runeOf r], none)

/-- What a pending surrogate becomes when no `\u` escape follows it. -/
def flushSurrogate (hi : Option Nat) : List Char :=
  match hi with
  | some _ => [Char.ofNat 0xfffd]
  | none => []

/-- The character a one-letter escape stands for (`unquoteBytes`). -/
def plainEscape (c : Char) : Option Char :=
  if c == '"' || c == '\\' || c == '/' || c == '\'' then some c
  else if c == 'b' then some (Char.ofNat 8)
  else if c == 'f' then some (Char.ofNat 12)
  else if c == 'n' then some '\n'
  else if c == 'r' then some '\r'
  else if c == 't' then some '\t'
  else none

/-- The content of a string literal after its opening quote (`unquoteBytes`): escapes are
replaced by the characters they stand for and the closing quote is the last character of
the text.  `hi` is the surrogate read by the preceding `\u` escape, if any. -/
def unquoteBody (hi : Option Nat) : List Char → Option (List Char)
  | [] => none
  | '\\' :: 'u' :: a :: b :: c :: d :: rest =>
    if isHex a && isHex b && isHex c && isHex d then
      let (out, hi1) := escapeRune hi (getu4 a b c d)
      (unquoteBody hi1 rest).map (fun r => out ++ r)
    else none
  | '\\' :: c :: rest =>
    match plainEscape c with
    | some x => (unquoteBody none rest).map (fun r => flushSurrogate hi ++ x :: r)
    | none => none
  | ['\\'] => none
  | c :: rest =>
    if c == '"' then (if rest.isEmpty then some (flushSurrogate hi) else none)
    else if c.toNat < 0x20 then none
    else (unquoteBody none rest).map (fun r => flushSurrogate hi ++ c :: r)

/-- The Go string written by a JSON string literal, quotes included (`unquote`). -/
def unquote (raw : List Char) : Option String :=
  match raw with
  | '"' :: body => (unquoteBody none body).map String.mk
  | _ => none

/-- The elements of an array, from the first character of an element on: each element's
bytes, separated by commas, up to the closing bracket.  `fuel` bounds the number of
elements. -/
def splitElems : Nat → List Char → Option (List (List Char))
  | 0, _ => none
  | fuel + 1, data =>
    match scanValue data with
    | none => none
    | some (v, rest) =>
      match skipSpace rest with
      | ',' :: rest1 => (splitElems fuel (skipSpace rest1)).map (fun vs => v :: vs)
      | ']' :: _ => some [v]
      | _ => none

/-- The bytes of each element of the array that a text starts with. -/
def splitArray (raw : List Char) : Option (List (List Char)) :=
  match raw with
  | '[' :: rest =>
    match skipSpace rest with
    | ']' :: _ => some []
    | data => splitElems data.length data
  | _ => none

/-- The members of an object, from the opening quote of a key on: each key (unquoted) and
the bytes of its value.  `fuel` bounds the number of members. -/
def splitMembers : Nat → List Char → Option (List (String × List Char))
  | 0, _ => none
  | fuel + 1, data =>
    match scanValue data with
    | none => none
    | some (k, rest) =>
      match unquote k, skipSpace rest with
      | some key, ':' :: rest1 =>
        match scanValue (skipSpace rest1) with
        | none => none
        | some (v, rest2) =>
          match skipSpace rest2 with
          | ',' :: rest3 => (splitMembers fuel (skipSpace rest3)).map (fun ms => (key, v) :: ms)
          | '}' :: _ => some [(key, v)]
          | _ => none
      | _, _ => none

/-- The members of the object that a text starts with, in the order of the text. -/
def splitObject (raw : List Char) : Option (List (String × List Char)) :=
  match raw with
  | '{' :: rest =>
    match skipSpace rest with
    | '}' :: _ => some []
    | data => splitMembers data.length data
  | _ => none

/-! ## Part I.d  Go values and Go types

`encoding/json` works by reflection on the Go type of its operand.  `GoType` describes the
types the package declares and `GoVal` the values of those types. -/

/-- A `float64`.  The package never computes with floating-point numbers: it passes them
on and compares them with zero.  A value is carried by the text that names it: the decimal
literal `encoding/json` writes for it, or read it from; a text that is not a JSON number
(`NaN`, `+Inf`, `-Inf`) names a value that is not finite. -/
structure Float64 where
  text : String
  deriving DecidableEq, Repr

/-- The `json` tag of a struct field: the member name and the `omitempty` option. -/
structure FieldTag where
  name : String
  omitempty : Bool
  deriving DecidableEq, Repr

/-- The Go types that occur in the package. -/
inductive GoType where
  | bool
  | string
  | float64
  | int (name : String) (bits : Nat)
  | uint (name : String) (bits : Nat)
  | rawMessage
  | iface
  | slice (elem : GoType)
  | map (elem : GoType)
  | ptr (elem : GoType)
  | struct (name : String) (fields : List (FieldTag × GoType))
  | named (name : String) (underlying : GoType)

/-- The values of the Go types that occur in the package.  `nil` is the nil pointer, the
nil interface, the nil slice and the nil map; a map lists its entries by increasing key. -/
inductive GoVal where
  | nil
  | bool (b : Bool)
  | int (i : Int)
  | float (f : Float64)
  | str (s : String)
  | raw (bytes : List Char)
  | slice (xs : List GoVal)
  | map (kvs : List (String × GoVal))
  | struct (fields : List (FieldTag × GoVal))

/-- The text of a type (`reflect.Type.String`). -/
def GoType.toString : GoType → String
  | .bool => "bool"
  | .string => "string"
  | .float64 => "float64"
  | .int name _ => name
  | .uint name _ => name
  | .rawMessage => "json.RawMessage"
  | .iface => "interface \x7b\x7d"
  | .slice e => "[]" ++ e.toString
  | .map e => "map[string]" ++ e.toString
  | .ptr e => "*" ++ e.toString
  | .struct name _ => "btcrpc." ++ name
  | .named name _ => "btcrpc." ++ name

mutual
/-- The zero value of a type. -/
def GoType.zero : GoType → GoVal
  | .bool => .bool false
  | .string => .str ""
  | .float64 => .float ⟨"0"⟩
  | .int _ _ => .int 0
  | .uint _ _ => .int 0
  | .rawMessage => .nil
  | .iface => .nil
  | .slice _ => .nil
  | .map _ => .nil
  | .ptr _ => .nil
  | .struct _ fields => .struct (GoType.zeroFields fields)
  | .named _ u => u.zero
/-- The zero values of the fields of a struct type. -/
def GoType.zeroFields : List (FieldTag × GoType) → List (FieldTag × GoVal)
  | [] => []
  | (tag, t) :: rest => (tag, t.zero) :: GoType.zeroFields rest
end

mutual
/-- The number of constructors of a type; bounds how often a decoder can unwrap it. -/
def GoType.size : GoType → Nat
  | .slice e => e.size + 1
  | .map e => e.size + 1
  | .ptr e => e.size + 1
  | .struct _ fields => GoType.sizeFields fields + 1
  | .named _ u => u.size + 1
  | _ => 1
/-- The number of constructors of the field types of a struct. -/
def GoType.sizeFields : List (FieldTag × GoType) → Nat
  | [] => 0
  | (_, t) :: rest => t.size + GoType.sizeFields rest
end

/-- The type a named type stands for. -/
def GoType.underlying : GoType → GoType
  | .named _ u => u.underlying
  | t => t

/-- The value of a field of a struct value, by member name. -/
def GoVal.field (v : GoVal) (name : String) : Option GoVal :=
  match v with
  | .struct fields => (fields.find? (fun f => f.1.name == name)).map (fun f => f.2)
  | _ => none

/-! ## Part I.e  The decoder of `encoding/json`

`json.Unmarshal(data, &v)` first validates the whole text (`checkValid`) and then walks it
once, storing each JSON value into the Go value its position corresponds to.  The walk is
driven by the Go type.  A value that does not fit its target is an `UnmarshalTypeError`;
the decoder reports the first one in the order of the text. -/

/-- Where in the target a decoding error occurred: the struct type and the path of member
names that lead to the field. -/
structure ErrorContext where
  Struct : String
  FieldStack : List String
  deriving DecidableEq, Repr

/-- The text of an `UnmarshalTypeError`. -/
def typeError (value : String) (t : GoType) (ctx : ErrorContext) : String :=
  if ctx.Struct ≠ "" ∨ ctx.FieldStack ≠ [] then
    "json: cannot unmarshal " ++ value ++ " into Go struct field " ++ ctx.Struct ++ "."
      ++ ".".intercalate ctx.FieldStack ++ " of type " ++ t.toString
  else "json: cannot unmarshal " ++ value ++ " into Go value of type " ++ t.toString

/-- The kind of JSON value a text starts with, as decoding errors name it. -/
def jsonKind (raw : List Char) : String :=
  match raw with
  | '{' :: _ => "object"
  | '[' :: _ => "array"
  | '"' :: _ => "string"
  | 't' :: _ => "bool"
  | 'f' :: _ => "bool"
  | 'n' :: _ => "null"
  | _ => "number"

/-- The canonical form of one character of a member name (`foldRune`): an ASCII letter
becomes its capital, and so do the two letters outside ASCII whose case orbit contains an
ASCII letter.  Every other character stands for itself, which agrees with the library
whenever one of the two names compared is ASCII, as every member name of the package is. -/
def foldRune (c : Char) : Char :=
  if 'a'.toNat ≤ c.toNat ∧ c.toNat ≤ 'z'.toNat then Char.ofNat (c.toNat - 32)
  else if c.toNat = 0x17f then 'S'
  else if c.toNat = 0x212a then 'K'
  else c

/-- The canonical form of a member name (`foldName`). -/
def foldName (s : String) : List Char :=
  s.data.map foldRune

/-- The struct field a member name selects: the field with exactly that name, or else the
first field whose name differs from it only by case. -/
def lookupField {α : Type} (fields : List (FieldTag × α)) (key : String) : Option Nat :=
  match fields.findIdx? (fun f => f.1.name == key) with
  | some i => some i
  | none => fields.findIdx? (fun f => foldName f.1.name == foldName key)

/-- The order of Go strings (`<`): lexicographic, character by character. -/
def stringLess : List Char → List Char → Bool
  | _, [] => false
  | [], _ :: _ => true
  | a :: as, b :: bs => decide (a.toNat < b.toNat) || (a == b && stringLess as bs)

/-- A map with the entry for `k` set to `v`. -/
def mapInsert {α : Type} (k : String) (v : α) : List (String × α) → List (String × α)
  | [] => [(k, v)]
  | (k1, v1) :: rest =>
    if k = k1 then (k, v) :: rest
    else if stringLess k.data k1.data then (k, v) :: (k1, v1) :: rest
    else (k1, v1) :: mapInsert k v rest

/-- The mantissa digits and the decimal exponent of a number literal without its sign:
the literal denotes `mantissa * 10 ^ exponent`. -/
def literalParts (lit : List Char) : Nat × Int :=
  let intDigits := lit.takeWhile isDigit
  let rest := lit.dropWhile isDigit
  let (fracDigits, rest1) :=
    match rest with
    | '.' :: r => (r.takeWhile isDigit, r.dropWhile isDigit)
    | r => ([], r)
  let exponent : Int :=
    match rest1 with
    | _ :: '-' :: ds => -(digitsValue 0 ds : Int)
    | _ :: '+' :: ds => digitsValue 0 ds
    | _ :: ds => digitsValue 0 ds
    | [] => 0
  (digitsValue 0 (intDigits ++ fracDigits), exponent - fracDigits.length)

/-- The least magnitude that `strconv.ParseFloat` rounds to infinity: half a unit in the
last place above the largest `float64`, that is `2 ^ 1024 - 2 ^ 970`. -/
def float64Bound : Nat :=
  179769313486231580793728971405303415079934132710037826936173778980444968292764750946649017977587207096330286416692887910946555547851940402630657488671505820681908902000708383676273854845817711531764475730270069855571366959622842914819860834936475292719074168444365510704342711559699508093042880177904174497792

/-- Whether `strconv.ParseFloat(lit, 64)` reports a range error: the literal is at least
half a unit in the last place above the largest `float64`, `2 ^ 1024 - 2 ^ 970` in
magnitude. -/
def parseFloatOverflows (lit : List Char) : Bool :=
  let body := match lit with
    | '-' :: r => r
    | r => r
  let (m, e) := literalParts body
  match e with
  | Int.ofNat k => decide (float64Bound ≤ m * 10 ^ k)
  | Int.negSucc k => decide (float64Bound * 10 ^ (k + 1) ≤ m)

/-- The text of the error of a decoder that is asked to go deeper than its bound; the
bound given by `Unmarshal` is never reached. -/
def fuelError : String := "json: decoder bound exceeded"

/-- The text of the error of a decoder whose input is not a valid JSON text; `Unmarshal`
validates the text first, so the decoder never produces it. -/
def phaseError : String := "JSON decoder out of sync - data changing underfoot?"

/-- The decoding of a JSON value into an empty interface (`valueInterface`): an object
becomes a `map[string]interface{}`, an array a `[]interface{}`, a number a `float64`. -/
def decodeInterface : Nat → ErrorContext → List Char → Except String GoVal
  | 0, _, _ => .error fuelError
  | fuel + 1, ctx, raw =>
    match raw with
    | '{' :: _ =>
      match splitObject raw with
      | none => .error phaseError
      | some ms =>
        (ms.foldlM (fun acc m =>
          (decodeInterface fuel ctx m.2).map (fun v => mapInsert m.1 v acc)) []).map GoVal.map
    | '[' :: _ =>
      match splitArray raw with
      | none => .error phaseError
      | some es => (es.mapM (decodeInterface fuel ctx)).map GoVal.slice
    | '"' :: _ =>
      match unquote raw with
      | none => .error phaseError
      | some str => .ok (.str str)
    | 'n' :: _ => .ok .nil
    | 't' :: _ => .ok (.bool true)
    | 'f' :: _ => .ok (.bool false)
    | _ =>
      if parseFloatOverflows raw then
        .error (typeError ("number " ++ String.mk raw) .float64 ctx)
      else .ok (.float ⟨String.mk raw⟩)

/-- The elements of an array decoded one by one with `dec`, the element at index `i` into
the element the slice already has at index `i`, or into a zero value. -/
def decodeElems (dec : GoVal → List Char → Except String GoVal) (zero : GoVal) :
    List GoVal → List (List Char) → Except String (List GoVal)
  | _, [] => .ok []
  | cur, r :: rs =>
    match dec (cur.headD zero) r with
    | .error e => .error e
    | .ok v =>
      match decodeElems dec zero cur.tail rs with
      | .error e => .error e
      | .ok vs => .ok (v :: vs)

/-- The members of an object decoded one by one with `dec` into a map: each value into a
fresh zero value, stored under its key. -/
def decodeEntries (dec : GoVal → List Char → Except String GoVal) (zero : GoVal) :
    List (String × GoVal) → List (String × List Char) → Except String (List (String × GoVal))
  | acc, [] => .ok acc
  | acc, (key, raw) :: ms =>
    match dec zero raw with
    | .error e => .error e
    | .ok v => decodeEntries dec zero (mapInsert key v acc) ms

/-- The members of an object decoded one by one with `dec` into the fields of a struct: a
member whose name selects a field is decoded into the current value of that field, any
other member is skipped. -/
def decodeMembers (dec : GoType → ErrorContext → GoVal → List Char → Except String GoVal)
    (name : String) (ctx : ErrorContext) (fields : List (FieldTag × GoType)) :
    List (FieldTag × GoVal) → List (String × List Char) → Except String (List (FieldTag × GoVal))
  | vals, [] => .ok vals
  | vals, (key, raw) :: ms =>
    match lookupField fields key with
    | none => decodeMembers dec name ctx fields vals ms
    | some i =>
      match fields.get? i, vals.get? i with
      | some (tag, ft), some (_, cv) =>
        match dec ft { Struct := name, FieldStack := ctx.FieldStack ++ [tag.name] } cv raw with
        | .error e => .error e
        | .ok v => decodeMembers dec name ctx fields (vals.set i (tag, v)) ms
      | _, _ => decodeMembers dec name ctx fields vals ms

/-- Whether a text is the literal `null`. -/
def isNull (raw : List Char) : Bool :=
  raw.head? == some 'n'

/-- The decoding of the JSON value `raw` into a Go value of type `t` whose current value
is `cur` (`decodeState.value`).  `null` clears a pointer, interface, slice or map and
leaves any other target as it is; a `json.RawMessage` takes the bytes of the value. -/
def decode : Nat → GoType → ErrorContext → GoVal → List Char → Except String GoVal
  | 0, _, _, _, _ => .error fuelError
  | fuel + 1, t, ctx, cur, raw =>
    match t.underlying with
    | .rawMessage => .ok (.raw raw)
    | .ptr e =>
      if isNull raw then .ok .nil
      else
        decode fuel e ctx (match cur with
          | .nil => e.zero
          | v => v) raw
    | .iface => decodeInterface (fuel + 1) ctx raw
    | .bool =>
      match raw with
      | 't' :: _ => .ok (.bool true)
      | 'f' :: _ => .ok (.bool false)
      | 'n' :: _ => .ok cur
      | _ => .error (typeError (jsonKind raw) t ctx)
    | .string =>
      match raw with
      | '"' :: _ =>
        match unquote raw with
        | none => .error phaseError
        | some str => .ok (.str str)
      | 'n' :: _ => .ok cur
      | _ => .error (typeError (jsonKind raw) t ctx)
    | .int _ bits =>
      if isNull raw then .ok cur
      else if jsonKind raw = "number" then
        match parseInt bits raw with
        | some i => .ok (.int i)
        | none => .error (typeError ("number " ++ String.mk raw) t ctx)
      else .error (typeError (jsonKind raw) t ctx)
    | .uint _ bits =>
      if isNull raw then .ok cur
      else if jsonKind raw = "number" then
        match parseUint bits raw with
        | some i => .ok (.int i)
        | none => .error (typeError ("number " ++ String.mk raw) t ctx)
      else .error (typeError (jsonKind raw) t ctx)
    | .float64 =>
      if isNull raw then .ok cur
      else if jsonKind raw = "number" then
        if parseFloatOverflows raw then
          .error (typeError ("number " ++ String.mk raw) t ctx)
        else .ok (.float ⟨String.mk raw⟩)
      else .error (typeError (jsonKind raw) t ctx)
    | .slice e =>
      match raw with
      | '[' :: _ =>
        match splitArray raw with
        | none => .error phaseError
        | some es =>
          (decodeElems (decode fuel e ctx) e.zero (match cur with
            | .slice xs => xs
            | _ => []) es).map GoVal.slice
      | 'n' :: _ => .ok .nil
      | _ => .error (typeError (jsonKind raw) t ctx)
    | .map e =>
      match raw with
      | '{' :: _ =>
        match splitObject raw with
        | none => .error phaseError
        | some ms =>
          (decodeEntries (decode fuel e ctx) e.zero (match cur with
            | .map kvs => kvs
            | _ => []) ms).map GoVal.map
      | 'n' :: _ => .ok .nil
      | _ => .error (typeError (jsonKind raw) t ctx)
    | .struct name fields =>
      match raw with
      | '{' :: _ =>
        match splitObject raw with
        | none => .error phaseError
        | some ms =>
          (decodeMembers (decode fuel) name ctx fields (match cur with
            | .struct vals => vals
            | _ => GoType.zeroFields fields) ms).map GoVal.struct
      | 'n' :: _ => .ok cur
      | _ => .error (typeError (jsonKind raw) t ctx)
    | .named _ _ => .error phaseError

/-- `json.Unmarshal(data, &v)` for a variable `v` of type `t` holding `cur`: the text is
validated as a whole, then the value it holds, the text without the white space around
it, is decoded into `v`.  The result is the new
value of `v`, or the text of the error. -/
def Unmarshal (t : GoType) (cur : GoVal) (data : List Char) : Except String GoVal :=
  match checkValid data with
  | .error e => .error e
  | .ok _ =>
    let raw := trimSpace data
    decode (raw.length + t.size + 1) t ⟨"", []⟩ cur raw

/-! ## Part I.f  The encoder of `encoding/json` -/

/-- The encoding of one character of a string (`appendString` with HTML escaping, as
`json.Marshal` uses it). -/
def escapeChar (c : Char) : List Char :=
  if c == '"' then ['\\', '"']
  else if c == '\\' then ['\\', '\\']
  else if c.toNat = 8 then ['\\', 'b']
  else if c.toNat = 12 then ['\\', 'f']
  else if c == '\n' then ['\\', 'n']
  else if c == '\r' then ['\\', 'r']
  else if c == '\t' then ['\\', 't']
  else if c.toNat < 0x20 ∨ c == '<' ∨ c == '>' ∨ c == '&' then
    ['\\', 'u', '0', '0', hexDigit (c.toNat / 16), hexDigit (c.toNat % 16)]
  else if c.toNat = 0x2028 ∨ c.toNat = 0x2029 then
    ['\\', 'u', '2', '0', '2', hexDigit (c.toNat % 16)]
  else [c]

/-- The encoding of the characters of a string, without the quotes. -/
def escapeString : List Char → List Char
  | [] => []
  | c :: cs => escapeChar c ++ escapeString cs

/-- The JSON string literal for a Go string. -/
def quoteString (s : String) : List Char :=
  '"' :: escapeString s.data ++ ['"']

/-- Whether a `float64` is finite: its text is a JSON number. -/
def Float64.isFinite (f : Float64) : Bool :=
  match f.text.data with
  | [] => false
  | c :: cs => (c == '-' || isDigit c) && scanValue (c :: cs) == some (c :: cs, [])

/-- Whether a `float64` equals zero. -/
def Float64.isZero (f : Float64) : Bool :=
  f.isFinite && (literalParts (match f.text.data with
    | '-' :: r => r
    | r => r)).1 == 0

/-- Whether a value is left out of a struct by `omitempty` (`isEmptyValue`). -/
def isEmptyValue : GoVal → Bool
  | .nil => true
  | .bool b => !b
  | .int i => i == 0
  | .float f => f.isZero
  | .str str => str.data.isEmpty
  | .raw bytes => bytes.isEmpty
  | .slice xs => xs.isEmpty
  | .map kvs => kvs.isEmpty
  | .struct _ => false

/-- Whether the scanner is inside a string literal. -/
def Step.inStringLiteral : Step → Bool
  | .inString | .inStringEsc | .inStringEscU | .inStringEscU1 | .inStringEscU12
  | .inStringEscU123 => true
  | _ => false

/-- The bytes of a `json.RawMessage` as the encoder writes them (`compact` with HTML
escaping): white space between tokens is dropped, and the text must be valid. -/
def compactFrom (s : Scanner) : List Char → Except String (List Char)
  | [] =>
    if s.step = .endTop then .ok []
    else
      match scanStep s ' ' with
      | .ok s1 => if s1.step = .endTop then .ok [] else .error "unexpected end of JSON input"
      | .error _ => .error "unexpected end of JSON input"
  | c :: cs =>
    match scanStep s c with
    | .error e => .error e
    | .ok s1 =>
      let out : List Char :=
        if c == '<' ∨ c == '>' ∨ c == '&' ∨ c.toNat = 0x2028 ∨ c.toNat = 0x2029 then escapeChar c
        else if isSpace c && !s.step.inStringLiteral then []
        else [c]
      match compactFrom s1 cs with
      | .error e => .error e
      | .ok r => .ok (out ++ r)

/-- The texts joined by commas. -/
def joinComma : List (List Char) → List Char
  | [] => []
  | [x] => x
  | x :: y :: rest => x ++ ',' :: joinComma (y :: rest)

/-- The entry `e` put in its place, by key, in a list of entries in key order. -/
def insertEntry (e : String × List Char) : List (String × List Char) → List (String × List Char)
  | [] => [e]
  | e1 :: rest =>
    if stringLess e1.1.data e.1.data then e1 :: insertEntry e rest else e :: e1 :: rest

/-- The entries of a map in the order of their keys, as the encoder writes them. -/
def sortEntries : List (String × List Char) → List (String × List Char)
  | [] => []
  | e :: rest => insertEntry e (sortEntries rest)

/-- The member `"name":value`. -/
def memberText (e : String × List Char) : List Char :=
  quoteString e.1 ++ ':' :: e.2

mutual
/-- The JSON text of a Go value (`json.Marshal`).  A nil slice, map, pointer or interface
is `null`; a map is written in key order; a struct field marked `omitempty` is left out
when it is empty; a `float64` that is not finite has no JSON text. -/
def marshalValue : GoVal → Except String (List Char)
  | .nil => .ok "null".data
  | .bool b => .ok (if b then "true".data else "false".data)
  | .int i => .ok (formatInt i)
  | .float f =>
    if f.isFinite then .ok f.text.data else .error ("json: unsupported value: " ++ f.text)
  | .str str => .ok (quoteString str)
  | .raw bytes =>
    match compactFrom Scanner.reset bytes with
    | .ok r => .ok r
    | .error e => .error ("json: error calling MarshalJSON for type json.RawMessage: " ++ e)
  | .slice xs =>
    match marshalElems xs with
    | .error e => .error e
    | .ok texts => .ok ('[' :: joinComma texts ++ [']'])
  | .map kvs =>
    match marshalEntries kvs with
    | .error e => .error e
    | .ok es => .ok ('{' :: joinComma ((sortEntries es).map memberText) ++ ['}'])
  | .struct fields =>
    match marshalFields fields with
    | .error e => .error e
    | .ok es => .ok ('{' :: joinComma (es.map memberText) ++ ['}'])
/-- The JSON texts of the elements of a slice. -/
def marshalElems : List GoVal → Except String (List (List Char))
  | [] => .ok []
  | x :: rest =>
    match marshalValue x with
    | .error e => .error e
    | .ok t =>
      match marshalElems rest with
      | .error e => .error e
      | .ok ts => .ok (t :: ts)
/-- The keys of a map with the JSON texts of their values. -/
def marshalEntries : List (String × GoVal) → Except String (List (String × List Char))
  | [] => .ok []
  | (k, x) :: rest =>
    match marshalValue x with
    | .error e => .error e
    | .ok t =>
      match marshalEntries rest with
      | .error e => .error e
      | .ok ts => .ok ((k, t) :: ts)
/-- The member names of a struct with the JSON texts of their values, fields left out by
`omitempty` dropped. -/
def marshalFields : List (FieldTag × GoVal) → Except String (List (String × List Char))
  | [] => .ok []
  | (tag, x) :: rest =>
    if tag.omitempty && isEmptyValue x then marshalFields rest
    else
      match marshalValue x with
      | .error e => .error e
      | .ok t =>
        match marshalFields rest with
        | .error e => .error e
        | .ok ts => .ok ((tag.name, t) :: ts)
end

/-! ## Part I.g  One HTTP exchange (`net/http`)

The network is not part of the package.  What the package can observe of it is the answer
to one request: an error of the transport, or a response with a status line and a body
that can be read or fails to be read. -/

/-- The request that `callWithWallet` builds: `http.NewRequest` with a method, a URL and a
body, one header set by `Header.Set` and the credentials given to `SetBasicAuth`. -/
structure Request where
  Method : String
  URL : String
  Body : List Char
  Header : List (String × String)
  BasicAuth : Option (String × String)
  deriving DecidableEq, Repr

/-- The response to a request: the status line (`resp.Status`, for instance
`401 Unauthorized`), the status code and what `io.ReadAll(resp.Body)` returns. -/
structure Response where
  Status : String
  StatusCode : Int
  Body : Except String (List Char)

/-- The behaviour of `net/http` that one client meets.  `NewRequest url` is the text of the
error of `http.NewRequest("POST", url, body)`, which fails when the URL does not parse, and
`Do req` is what `(*http.Client).Do` returns for a request. -/
structure HTTPClient where
  NewRequest : String → Option String
  Do : Request → Except String Response

/-- How a Go function with the result type `(T, error)` ends: it returns a value and a nil
error, it returns an error (whose text is given), or it panics. -/
inductive Result (α : Type) where
  | ok (v : α)
  | error (err : String)
  | panic (msg : String)
  deriving DecidableEq, Repr

/-- What a call did: the requests it handed to `(*http.Client).Do`, in order, and how it
ended. -/
structure Outcome (α : Type) where
  sent : List Request
  result : Result α

/-! ## Part II.a  `types.go`: the envelope types -/

/-- `RPCRequest`: a JSON-RPC request.  `Params` is a slice of `interface{}`; `none` is the
nil slice. -/
structure RPCRequest where
  Method : String
  Params : Option (List GoVal)
  ID : Int
  JsonRPC : String

/-- `RPCError`: a JSON-RPC error. -/
structure RPCError where
  Code : Int
  Message : String
  deriving DecidableEq, Repr

/-- `RPCResponse`: a JSON-RPC response.  `Result` is a `json.RawMessage`, the bytes of the
member `result` (no bytes when it is nil); `Error` is a pointer, `none` when nil. -/
structure RPCResponse where
  Result : List Char
  Error : Option RPCError
  ID : Int
  deriving DecidableEq, Repr

/-- A slice of `interface{}` as a Go value. -/
def sliceValue (xs : Option (List GoVal)) : GoVal :=
  match xs with
  | none => .nil
  | some l => .slice l

/-- The Go value of an `RPCRequest`, with the `json` tags of its fields. -/
def RPCRequest.value (r : RPCRequest) : GoVal :=
  .struct [(⟨"method", false⟩, .str r.Method), (⟨"params", false⟩, sliceValue r.Params),
    (⟨"id", false⟩, .int r.ID), (⟨"jsonrpc", false⟩, .str r.JsonRPC)]

/-- The Go type `int`. -/
def GoType.goInt : GoType := .int "int" 64

/-- The Go type `int64`. -/
def GoType.goInt64 : GoType := .int "int64" 64

/-- The Go type `RPCError`. -/
def RPCError.type : GoType :=
  .struct "RPCError" [(⟨"code", false⟩, .goInt), (⟨"message", false⟩, .string)]

/-- The Go type `RPCResponse`. -/
def RPCResponse.type : GoType :=
  .struct "RPCResponse" [(⟨"result", false⟩, .rawMessage), (⟨"error", false⟩, .ptr RPCError.type),
    (⟨"id", false⟩, .goInt)]

/-- The `RPCError` held by a Go value of that type. -/
def RPCError.ofValue (v : GoVal) : RPCError :=
  { Code := match v.field "code" with
      | some (.int i) => i
      | _ => 0
    Message := match v.field "message" with
      | some (.str str) => str
      | _ => "" }

/-- The `RPCResponse` held by a Go value of that type. -/
def RPCResponse.ofValue (v : GoVal) : RPCResponse :=
  { Result := match v.field "result" with
      | some (.raw bytes) => bytes
      | _ => []
    Error := match v.field "error" with
      | some (.struct fields) => some (RPCError.ofValue (.struct fields))
      | _ => none
    ID := match v.field "id" with
      | some (.int i) => i
      | _ => 0 }

/-! ## Part II.b  `client.go` -/

/-- `Client`: a Bitcoin Core RPC client. -/
structure Client where
  url : String
  username : String
  password : String
  client : HTTPClient

/-- `NewClient` creates a client; the HTTP client it allocates is the behaviour `client`. -/
def NewClient (url username password : String) (client : HTTPClient) : Client :=
  { url := url, username := username, password := password, client := client }

/-- `callWithWallet` performs a JSON-RPC call to Bitcoin Core with a specific wallet. -/
def Client.callWithWallet (c : Client) (method : String) (params : Option (List GoVal))
    (walletName : String) : Outcome RPCResponse :=
  -- Create RPC request
  let rpcReq : RPCRequest := { Method := method, Params := params, ID := 1, JsonRPC := "1.0" }
  -- Serialize request to JSON
  match marshalValue rpcReq.value with
  | .error err => ⟨[], .error ("failed to marshal request: " ++ err)⟩
  | .ok reqBody =>
    -- Create URL with wallet endpoint if needed
    let url := if walletName ≠ "" then c.url ++ "/wallet/" ++ walletName else c.url
    -- Create HTTP request
    match c.client.NewRequest url with
    | some err => ⟨[], .error ("failed to create HTTP request: " ++ err)⟩
    | none =>
      -- Set headers
      let req : Request :=
        { Method := "POST", URL := url, Body := reqBody,
          Header := [("Content-Type", "application/json")],
          BasicAuth := some (c.username, c.password) }
      -- Perform HTTP request
      { sent := [req]
        result :=
          match c.client.Do req with
          | .error err => .error ("failed to perform HTTP request: " ++ err)
          | .ok resp =>
            -- Read response body
            match resp.Body with
            | .error err => .error ("failed to read response body: " ++ err)
            | .ok body =>
              -- Check HTTP status
              if resp.StatusCode ≠ 200 then
                .error ("HTTP error: " ++ resp.Status ++ ", body: " ++ String.mk body)
              else
                -- Parse JSON-RPC response
                match Unmarshal RPCResponse.type RPCResponse.type.zero body with
                | .error err => .error ("failed to unmarshal response: " ++ err)
                | .ok v =>
                  let rpcResp := RPCResponse.ofValue v
                  -- Check for RPC error
                  match rpcResp.Error with
                  | some e =>
                    .error ("RPC error " ++ String.mk (formatInt e.Code) ++ ": " ++ e.Message)
                  | none => .ok rpcResp }

/-- `call` performs a JSON-RPC call to Bitcoin Core. -/
def Client.call (c : Client) (method : String) (params : Option (List GoVal)) :
    Outcome RPCResponse :=
  c.callWithWallet method params ""

/-- The three kinds of failure of a call that the specification tells apart. -/
inductive FailureKind where
  | transport
  | rpc
  | decode
  deriving DecidableEq, Repr

/-- The kind of failure that the answer of the transport leads to, if any: a failure of the
transport when the request fails, the body cannot be read or the status is not 200; a
decode failure when the body is not an envelope; an RPC failure when the envelope carries
an error. -/
def failureKindOf (answer : Except String Response) : Option FailureKind :=
  match answer with
  | .error _ => some .transport
  | .ok resp =>
    match resp.Body with
    | .error _ => some .transport
    | .ok body =>
      if resp.StatusCode ≠ 200 then some .transport
      else
        match Unmarshal RPCResponse.type RPCResponse.type.zero body with
        | .error _ => some .decode
        | .ok v =>
          match (RPCResponse.ofValue v).Error with
          | some _ => some .rpc
          | none => none

/-- What a caller can tell about a failure from the text of the error alone: the kind that
the beginning of the text stands for. -/
def classifyError (e : String) : Option FailureKind :=
  if "RPC error ".data.isPrefixOf e.data then some .rpc
  else if "failed to unmarshal response: ".data.isPrefixOf e.data then some .decode
  else if "HTTP error: ".data.isPrefixOf e.data
      || "failed to perform HTTP request: ".data.isPrefixOf e.data
      || "failed to read response body: ".data.isPrefixOf e.data then some .transport
  else none

/-! ## Part II.b.1  Requests and `json.Unmarshal`

`json.Unmarshal` of a request into the type `RPCRequest` hands out the parameters as the
values `encoding/json` puts in an `interface{}`, which are the values below. -/

/-- The Go type `RPCRequest`. -/
def RPCRequest.type : GoType :=
  .struct "RPCRequest" [(⟨"method", false⟩, .string), (⟨"params", false⟩, .slice .iface),
    (⟨"id", false⟩, .goInt), (⟨"jsonrpc", false⟩, .string)]

/-- Whether the keys of a list of entries are strictly increasing: each key is less than
every later key. -/
def keysIncreasing : List String → Bool
  | [] => true
  | k :: ks => ks.all (fun k1 => stringLess k.data k1.data) && keysIncreasing ks

mutual
/-- Whether a Go value is a JSON value as `encoding/json` hands it out in an
`interface{}`: nil, a boolean, a string, a finite `float64` in range, a slice of JSON
values, or a map of JSON values (with its keys in increasing order, as a map is listed). -/
def GoVal.isJSON : GoVal → Bool
  | .nil => true
  | .bool _ => true
  | .str _ => true
  | .float f => f.isFinite && !parseFloatOverflows f.text.data
  | .slice xs => GoVal.allJSON xs
  | .map kvs => GoVal.entriesJSON kvs && keysIncreasing (kvs.map (fun e => e.1))
  | .int _ => false
  | .raw _ => false
  | .struct _ => false
/-- Whether every value of a list is a JSON value. -/
def GoVal.allJSON : List GoVal → Bool
  | [] => true
  | x :: rest => x.isJSON && GoVal.allJSON rest
/-- Whether every value of a list of entries is a JSON value. -/
def GoVal.entriesJSON : List (String × GoVal) → Bool
  | [] => true
  | (_, x) :: rest => x.isJSON && GoVal.entriesJSON rest
end

mutual
/-- The number of composite values nested in a Go value, itself included. -/
def GoVal.depth : GoVal → Nat
  | .slice xs => GoVal.depthList xs + 1
  | .map kvs => GoVal.depthEntries kvs + 1
  | .struct fields => GoVal.depthFields fields + 1
  | _ => 0
/-- The greatest depth of the values of a list. -/
def GoVal.depthList : List GoVal → Nat
  | [] => 0
  | x :: rest => max x.depth (GoVal.depthList rest)
/-- The greatest depth of the values of a list of entries. -/
def GoVal.depthEntries : List (String × GoVal) → Nat
  | [] => 0
  | (_, x) :: rest => max x.depth (GoVal.depthEntries rest)
/-- The greatest depth of the values of the fields of a struct. -/
def GoVal.depthFields : List (FieldTag × GoVal) → Nat
  | [] => 0
  | (_, x) :: rest => max x.depth (GoVal.depthFields rest)
end

/-- A text that the decoder's walk passes over inside a composite value: from the start of
a value with the stack `σ` the walk takes the whole text and goes on with the same stack,
at the end of a value or in a number that may end. -/
def WalksOver (σ : List ParseState) (text : List Char) : Prop :=
  ∃ fin : Step, (fin = .endValue ∨ fin.numberMayEnd = true) ∧
    ∀ (st : Step) (rest : List Char), st = .beginValue ∨ st = .beginValueOrEmpty →
      scanValueFrom ⟨st, σ⟩ (text ++ rest)
        = (scanValueFrom ⟨fin, σ⟩ rest).map (fun p => (text ++ p.1, p.2))

/-- The slice that holds nothing but a slice, `k` times over, around the empty slice. -/
def nestedSlice : Nat → GoVal
  | 0 => .slice []
  | k + 1 => .slice [nestedSlice k]

/-! ## Part II.c  `types.go`: the types of the results

Each definition gives one Go type of `types.go`: its name and, for a struct, the member
name and the `omitempty` option of the `json` tag of every field, with the type of the
field. -/

/-- The Go type `BlockchainInfo`. -/
def BlockchainInfo.type : GoType :=
  .struct "BlockchainInfo" [
    (⟨"chain", false⟩, .string),
    (⟨"blocks", false⟩, .goInt64),
    (⟨"headers", false⟩, .goInt64),
    (⟨"bestblockhash", false⟩, .string),
    (⟨"difficulty", false⟩, .float64),
    (⟨"mediantime", false⟩, .goInt64),
    (⟨"verificationprogress", false⟩, .float64),
    (⟨"initialblockdownload", false⟩, .bool),
    (⟨"chainwork", false⟩, .string),
    (⟨"size_on_disk", false⟩, .goInt64),
    (⟨"pruned", false⟩, .bool)]

/-- The Go type `Network`. -/
def Network.type : GoType :=
  .struct "Network" [
    (⟨"name", false⟩, .string),
    (⟨"limited", false⟩, .bool),
    (⟨"reachable", false⟩, .bool),
    (⟨"proxy", false⟩, .string),
    (⟨"proxy_randomize_credentials", false⟩, .bool)]

/-- The Go type `LocalAddress`. -/
def LocalAddress.type : GoType :=
  .struct "LocalAddress" [
    (⟨"address", false⟩, .string),
    (⟨"port", false⟩, .goInt),
    (⟨"score", false⟩, .goInt)]

/-- The Go type `NetworkInfo`. -/
def NetworkInfo.type : GoType :=
  .struct "NetworkInfo" [
    (⟨"version", false⟩, .goInt),
    (⟨"subversion", false⟩, .string),
    (⟨"protocolversion", false⟩, .goInt),
    (⟨"localservices", false⟩, .string),
    (⟨"localrelay", false⟩, .bool),
    (⟨"timeoffset", false⟩, .goInt),
    (⟨"connections", false⟩, .goInt),
    (⟨"networkactive", false⟩, .bool),
    (⟨"networks", false⟩, .slice Network.type),
    (⟨"relayfee", false⟩, .float64),
    (⟨"incrementalfee", false⟩, .float64),
    (⟨"localaddresses", false⟩, .slice LocalAddress.type),
    (⟨"warnings", false⟩, .string)]

/-- The Go type `CreateWalletResponse`. -/
def CreateWalletResponse.type : GoType :=
  .struct "CreateWalletResponse" [
    (⟨"name", false⟩, .string),
    (⟨"warning", false⟩, .string)]

/-- The Go type `Transaction`. -/
def Transaction.type : GoType :=
  .struct "Transaction" [
    (⟨"account", false⟩, .string),
    (⟨"address", false⟩, .string),
    (⟨"category", false⟩, .string),
    (⟨"amount", false⟩, .float64),
    (⟨"label", false⟩, .string),
    (⟨"vout", false⟩, .goInt),
    (⟨"fee", true⟩, .float64),
    (⟨"confirmations", false⟩, .goInt),
    (⟨"blockhash", true⟩, .string),
    (⟨"blockindex", true⟩, .goInt),
    (⟨"blocktime", true⟩, .goInt64),
    (⟨"txid", false⟩, .string),
    (⟨"walletconflicts", false⟩, .slice .string),
    (⟨"time", false⟩, .goInt64),
    (⟨"timereceived", false⟩, .goInt64),
    (⟨"bip125-replaceable", true⟩, .string),
    (⟨"comment", true⟩, .string),
    (⟨"to", true⟩, .string)]

/-- The Go type `ValidateAddressResponse`. -/
def ValidateAddressResponse.type : GoType :=
  .struct "ValidateAddressResponse" [
    (⟨"isvalid", false⟩, .bool),
    (⟨"address", true⟩, .string),
    (⟨"scriptPubKey", true⟩, .string),
    (⟨"ismine", true⟩, .bool),
    (⟨"isscript", true⟩, .bool),
    (⟨"iswitness", true⟩, .bool),
    (⟨"witness_version", true⟩, .goInt),
    (⟨"witness_program", true⟩, .string)]

/-- The Go type `UTXO`. -/
def UTXO.type : GoType :=
  .struct "UTXO" [
    (⟨"txid", false⟩, .string),
    (⟨"vout", false⟩, .goInt),
    (⟨"address", false⟩, .string),
    (⟨"label", false⟩, .string),
    (⟨"scriptPubKey", false⟩, .string),
    (⟨"amount", false⟩, .float64),
    (⟨"confirmations", false⟩, .goInt),
    (⟨"redeemScript", true⟩, .string),
    (⟨"witnessScript", true⟩, .string),
    (⟨"spendable", false⟩, .bool),
    (⟨"solvable", false⟩, .bool),
    (⟨"safe", false⟩, .bool)]

/-- The Go type `TransactionDetail`. -/
def TransactionDetail.type : GoType :=
  .struct "TransactionDetail" [
    (⟨"account", true⟩, .string),
    (⟨"address", true⟩, .string),
    (⟨"category", false⟩, .string),
    (⟨"amount", false⟩, .float64),
    (⟨"label", true⟩, .string),
    (⟨"vout", false⟩, .goInt),
    (⟨"fee", true⟩, .float64),
    (⟨"abandoned", true⟩, .bool)]

/-- The Go type `GetTransactionResponse`. -/
def GetTransactionResponse.type : GoType :=
  .struct "GetTransactionResponse" [
    (⟨"amount", false⟩, .float64),
    (⟨"fee", true⟩, .float64),
    (⟨"confirmations", false⟩, .goInt),
    (⟨"blockhash", true⟩, .string),
    (⟨"blockindex", true⟩, .goInt),
    (⟨"blocktime", true⟩, .goInt64),
    (⟨"txid", false⟩, .string),
    (⟨"walletconflicts", false⟩, .slice .string),
    (⟨"time", false⟩, .goInt64),
    (⟨"timereceived", false⟩, .goInt64),
    (⟨"bip125-replaceable", true⟩, .string),
    (⟨"details", false⟩, .slice TransactionDetail.type),
    (⟨"hex", false⟩, .string)]

/-- The Go type `EstimateSmartFeeResponse`. -/
def EstimateSmartFeeResponse.type : GoType :=
  .struct "EstimateSmartFeeResponse" [
    (⟨"feerate", true⟩, .float64),
    (⟨"errors", true⟩, .slice .string),
    (⟨"blocks", false⟩, .goInt)]

/-- The Go type `GetBlockResponse`. -/
def GetBlockResponse.type : GoType :=
  .struct "GetBlockResponse" [
    (⟨"hash", false⟩, .string),
    (⟨"confirmations", false⟩, .goInt),
    (⟨"height", false⟩, .goInt),
    (⟨"version", false⟩, .goInt),
    (⟨"versionHex", false⟩, .string),
    (⟨"merkleroot", false⟩, .string),
    (⟨"time", false⟩, .goInt64),
    (⟨"mediantime", false⟩, .goInt64),
    (⟨"nonce", false⟩, .uint "uint32" 32),
    (⟨"bits", false⟩, .string),
    (⟨"difficulty", false⟩, .float64),
    (⟨"chainwork", false⟩, .string),
    (⟨"nTx", false⟩, .goInt),
    (⟨"previousblockhash", true⟩, .string),
    (⟨"nextblockhash", true⟩, .string),
    (⟨"strippedsize", false⟩, .goInt),
    (⟨"size", false⟩, .goInt),
    (⟨"weight", false⟩, .goInt),
    (⟨"tx", false⟩, .slice .string)]

/-- The Go type `GetWalletInfoResponse`. -/
def GetWalletInfoResponse.type : GoType :=
  .struct "GetWalletInfoResponse" [
    (⟨"walletname", false⟩, .string),
    (⟨"walletversion", false⟩, .goInt),
    (⟨"format", false⟩, .string),
    (⟨"balance", false⟩, .float64),
    (⟨"unconfirmed_balance", false⟩, .float64),
    (⟨"immature_balance", false⟩, .float64),
    (⟨"txcount", false⟩, .goInt),
    (⟨"keypoololdest", false⟩, .goInt64),
    (⟨"keypoolsize", false⟩, .goInt),
    (⟨"keypoolsize_hd_internal", true⟩, .goInt),
    (⟨"unlocked_until", true⟩, .goInt64),
    (⟨"paytxfee", false⟩, .float64),
    (⟨"hdseedid", true⟩, .string),
    (⟨"private_keys_enabled", false⟩, .bool),
    (⟨"avoid_reuse", false⟩, .bool),
    (⟨"scanning", false⟩, .iface),
    (⟨"descriptors", false⟩, .bool)]

/-- The Go type `RawTransactionScriptSig`. -/
def RawTransactionScriptSig.type : GoType :=
  .struct "RawTransactionScriptSig" [
    (⟨"asm", false⟩, .string),
    (⟨"hex", false⟩, .string)]

/-- The Go type `RawTransactionVin`. -/
def RawTransactionVin.type : GoType :=
  .struct "RawTransactionVin" [
    (⟨"txid", true⟩, .string),
    (⟨"vout", true⟩, .goInt),
    (⟨"scriptSig", true⟩, RawTransactionScriptSig.type),
    (⟨"txinwitness", true⟩, .slice .string),
    (⟨"sequence", true⟩, .goInt64),
    (⟨"coinbase", true⟩, .string)]

/-- The Go type `RawTransactionScriptPubKey`. -/
def RawTransactionScriptPubKey.type : GoType :=
  .struct "RawTransactionScriptPubKey" [
    (⟨"asm", false⟩, .string),
    (⟨"hex", false⟩, .string),
    (⟨"reqSigs", true⟩, .goInt),
    (⟨"type", false⟩, .string),
    (⟨"addresses", true⟩, .slice .string),
    (⟨"address", true⟩, .string)]

/-- The Go type `RawTransactionVout`. -/
def RawTransactionVout.type : GoType :=
  .struct "RawTransactionVout" [
    (⟨"value", false⟩, .float64),
    (⟨"n", false⟩, .goInt),
    (⟨"scriptPubKey", false⟩, RawTransactionScriptPubKey.type)]

/-- The Go type `GetRawTransactionResponse`. -/
def GetRawTransactionResponse.type : GoType :=
  .struct "GetRawTransactionResponse" [
    (⟨"hex", false⟩, .string),
    (⟨"txid", true⟩, .string),
    (⟨"hash", true⟩, .string),
    (⟨"size", true⟩, .goInt),
    (⟨"vsize", true⟩, .goInt),
    (⟨"weight", true⟩, .goInt),
    (⟨"version", true⟩, .goInt),
    (⟨"locktime", true⟩, .goInt64),
    (⟨"vin", true⟩, .slice RawTransactionVin.type),
    (⟨"vout", true⟩, .slice RawTransactionVout.type),
    (⟨"blockhash", true⟩, .string),
    (⟨"confirmations", true⟩, .goInt),
    (⟨"blocktime", true⟩, .goInt64),
    (⟨"time", true⟩, .goInt64)]

/-- The Go type `GetMempoolInfoResponse`. -/
def GetMempoolInfoResponse.type : GoType :=
  .struct "GetMempoolInfoResponse" [
    (⟨"loaded", false⟩, .bool),
    (⟨"size", false⟩, .goInt),
    (⟨"bytes", false⟩, .goInt64),
    (⟨"usage", false⟩, .goInt64),
    (⟨"maxmempool", false⟩, .goInt64),
    (⟨"mempoolminfee", false⟩, .float64),
    (⟨"minrelaytxfee", false⟩, .float64),
    (⟨"unbroadcastcount", false⟩, .goInt)]

/-- The Go type `CreateRawTransactionInput`. -/
def CreateRawTransactionInput.type : GoType :=
  .struct "CreateRawTransactionInput" [
    (⟨"txid", false⟩, .string),
    (⟨"vout", false⟩, .goInt),
    (⟨"sequence", true⟩, .goInt64)]

/-- The Go type `SignRawTransactionError`. -/
def SignRawTransactionError.type : GoType :=
  .struct "SignRawTransactionError" [
    (⟨"txid", false⟩, .string),
    (⟨"vout", false⟩, .goInt),
    (⟨"scriptSig", false⟩, .string),
    (⟨"sequence", false⟩, .goInt64),
    (⟨"error", false⟩, .string)]

/-- The Go type `SignRawTransactionResponse`. -/
def SignRawTransactionResponse.type : GoType :=
  .struct "SignRawTransactionResponse" [
    (⟨"hex", false⟩, .string),
    (⟨"complete", false⟩, .bool),
    (⟨"errors", true⟩, .slice SignRawTransactionError.type)]

/-- The Go type `CreateMultisigResponse`. -/
def CreateMultisigResponse.type : GoType :=
  .struct "CreateMultisigResponse" [
    (⟨"address", false⟩, .string),
    (⟨"redeemScript", false⟩, .string)]

/-- The Go type `AddMultisigAddressResponse`. -/
def AddMultisigAddressResponse.type : GoType :=
  .struct "AddMultisigAddressResponse" [
    (⟨"address", false⟩, .string),
    (⟨"redeemScript", false⟩, .string)]

/-- The Go type `GetRawMempoolEntry`. -/
def GetRawMempoolEntry.type : GoType :=
  .struct "GetRawMempoolEntry" [
    (⟨"vsize", false⟩, .goInt),
    (⟨"weight", false⟩, .goInt),
    (⟨"fee", false⟩, .float64),
    (⟨"modifiedfee", false⟩, .float64),
    (⟨"time", false⟩, .goInt64),
    (⟨"height", false⟩, .goInt),
    (⟨"descendantcount", false⟩, .goInt),
    (⟨"descendantsize", false⟩, .goInt),
    (⟨"descendantfees", false⟩, .float64),
    (⟨"ancestorcount", false⟩, .goInt),
    (⟨"ancestorsize", false⟩, .goInt),
    (⟨"ancestorfees", false⟩, .float64),
    (⟨"wtxid", false⟩, .string),
    (⟨"feerate", false⟩, .float64),
    (⟨"depends", false⟩, .slice .string),
    (⟨"spentby", false⟩, .slice .string),
    (⟨"bip125-replaceable", false⟩, .bool),
    (⟨"unbroadcast", false⟩, .bool)]

/-- The Go type `GenerateToAddressResponse`. -/
def GenerateToAddressResponse.type : GoType :=
  .named "GenerateToAddressResponse" (.slice .string)

/-- The Go type `GetBlockHashResponse`. -/
def GetBlockHashResponse.type : GoType :=
  .named "GetBlockHashResponse" (.string)

/-- The Go type `GetRawMempoolResponse`. -/
def GetRawMempoolResponse.type : GoType :=
  .named "GetRawMempoolResponse" (.slice .string)

/-- The Go type `GetRawMempoolVerboseResponse`. -/
def GetRawMempoolVerboseResponse.type : GoType :=
  .named "GetRawMempoolVerboseResponse" (.map GetRawMempoolEntry.type)

/-! ## Part II.d  `wallet.go`

Every typed operation has the same outline: it builds the list of positional parameters,
calls the dispatcher, and decodes the member `result` of the response into the Go type of
its result.  For each operation `X`, `X.params` is the first step and `Client.X` the whole
function.  The value returned is given as a Go value; an operation whose only result is an
error returns nil. -/

/-- `append(params, x)` on a slice of `interface{}`. -/
def goAppend (params : Option (List GoVal)) (x : GoVal) : Option (List GoVal) :=
  some (params.getD [] ++ [x])

/-- A slice of strings as a Go value; `none` is the nil slice. -/
def stringsValue (xs : Option (List String)) : GoVal :=
  match xs with
  | none => .nil
  | some l => .slice (l.map GoVal.str)

/-- A `map[string]interface{}` as a Go value; `none` is the nil map. -/
def mapValue (m : Option (List (String × GoVal))) : GoVal :=
  match m with
  | none => .nil
  | some kvs => .map kvs

/-- The length of a slice or map argument (`len`), zero for nil. -/
def goLen {α : Type} (xs : Option (List α)) : Nat :=
  (xs.getD []).length

/-- The parameters of `createwallet`. -/
def CreateWallet.params (walletName : String) (disablePrivateKeys blank : Bool)
    (passphrase : String) (avoidReuse : Bool) : Option (List GoVal) :=
  let params : Option (List GoVal) := some [.str walletName]
  -- Add optional parameters if they differ from defaults
  let params :=
    if disablePrivateKeys || blank || passphrase ≠ "" || avoidReuse then
      goAppend params (.bool disablePrivateKeys) else params
  let params :=
    if blank || passphrase ≠ "" || avoidReuse then goAppend params (.bool blank) else params
  let params :=
    if passphrase ≠ "" || avoidReuse then goAppend params (.str passphrase) else params
  let params := if avoidReuse then goAppend params (.bool avoidReuse) else params
  params

/-- `CreateWallet` calls the createwallet RPC method. -/
def Client.CreateWallet (c : Client) (walletName : String) (disablePrivateKeys blank : Bool)
    (passphrase : String) (avoidReuse : Bool) : Outcome GoVal :=
  let r := c.call "createwallet"
    (CreateWallet.params walletName disablePrivateKeys blank passphrase avoidReuse)
  { sent := r.sent
    result :=
      match r.result with
      | .panic msg => .panic msg
      | .error err => .error ("failed to call createwallet: " ++ err)
      | .ok resp =>
        match Unmarshal CreateWalletResponse.type CreateWalletResponse.type.zero resp.Result with
        | .error err => .error ("failed to unmarshal create wallet response: " ++ err)
        | .ok result => .ok result }

/-- `LoadWallet` calls the loadwallet RPC method. -/
def Client.LoadWallet (c : Client) (walletName : String) : Outcome GoVal :=
  let r := c.call "loadwallet" (some [.str walletName])
  { sent := r.sent
    result :=
      match r.result with
      | .panic msg => .panic msg
      | .error err => .error ("failed to call loadwallet: " ++ err)
      | .ok _ => .ok .nil }

/-- `ListWallets` calls the listwallets RPC method to get loaded wallets. -/
def Client.ListWallets (c : Client) : Outcome GoVal :=
  let r := c.call "listwallets" (some [])
  { sent := r.sent
    result :=
      match r.result with
      | .panic msg => .panic msg
      | .error err => .error ("failed to call listwallets: " ++ err)
      | .ok resp =>
        match Unmarshal (.slice .string) .nil resp.Result with
        | .error err => .error ("failed to unmarshal wallets list: " ++ err)
        | .ok wallets => .ok wallets }

/-- The parameters of `getnewaddress`. -/
def GetNewAddress.params (label addressType : String) : Option (List GoVal) :=
  let params : Option (List GoVal) := none
  -- Add label if provided
  let params := if label ≠ "" then goAppend params (.str label) else params
  -- Add address type if provided
  let params :=
    if addressType ≠ "" then
      -- If we have addressType but no label, we need to add empty label first
      if label = "" then some [.str "", .str addressType]
      else goAppend params (.str addressType)
    else params
  params

/-- `GetNewAddress` calls the getnewaddress RPC method with a specific wallet. -/
def Client.GetNewAddress (c : Client) (walletName label addressType : String) :
    Outcome GoVal :=
  let r := c.callWithWallet "getnewaddress" (GetNewAddress.params label addressType) walletName
  { sent := r.sent
    result :=
      match r.result with
      | .panic msg => .panic msg
      | .error err => .error ("failed to call getnewaddress: " ++ err)
      | .ok resp =>
        match Unmarshal .string GoType.string.zero resp.Result with
        | .error err => .error ("failed to unmarshal new address: " ++ err)
        | .ok address => .ok address }

/-- The parameters of `getbalance`. -/
def GetBalance.params (minconf : Option Int) (includeWatchonly : Option Bool) :
    Option (List GoVal) :=
  let params : Option (List GoVal) := none
  -- Add minconf if provided
  let params :=
    match minconf with
    | some m => goAppend (goAppend params (.str "*")) (.int m)
    | none => params
  -- Add include_watchonly if provided
  let params :=
    match includeWatchonly with
    | some w =>
      -- If we have includeWatchonly but no minconf, use default minconf of 0
      match minconf with
      | none => some [.str "*", .int 0, .bool w]
      | some _ => goAppend params (.bool w)
    | none => params
  params

/-- `GetBalance` calls the getbalance RPC method. -/
def Client.GetBalance (c : Client) (walletName : String) (minconf : Option Int)
    (includeWatchonly : Option Bool) : Outcome GoVal :=
  let r := c.callWithWallet "getbalance" (GetBalance.params minconf includeWatchonly) walletName
  { sent := r.sent
    result :=
      match r.result with
      | .panic msg => .panic msg
      | .error err => .error ("failed to call getbalance: " ++ err)
      | .ok resp =>
        match Unmarshal .float64 GoType.float64.zero resp.Result with
        | .error err => .error ("failed to unmarshal balance: " ++ err)
        | .ok balance => .ok balance }

/-- The parameters of `sendtoaddress`: address and amount are required. -/
def SendToAddress.params (address : String) (amount : Float64) (comment commentTo : String)
    (subtractFeeFromAmount replaceable : Bool) (confTarget : Int) (estimateMode : String) :
    Option (List GoVal) :=
  let params : Option (List GoVal) := some [.str address, .float amount]
  -- Add optional parameters if they are provided
  let params :=
    if comment ≠ "" || commentTo ≠ "" || subtractFeeFromAmount || replaceable
        || decide (confTarget > 0) || estimateMode ≠ "" then
      goAppend params (.str comment) else params
  let params :=
    if commentTo ≠ "" || subtractFeeFromAmount || replaceable || decide (confTarget > 0)
        || estimateMode ≠ "" then
      goAppend params (.str commentTo) else params
  let params :=
    if subtractFeeFromAmount || replaceable || decide (confTarget > 0) || estimateMode ≠ "" then
      goAppend params (.bool subtractFeeFromAmount) else params
  let params :=
    if replaceable || decide (confTarget > 0) || estimateMode ≠ "" then
      goAppend params (.bool replaceable) else params
  let params :=
    if decide (confTarget > 0) || estimateMode ≠ "" then goAppend params (.int confTarget)
    else params
  let params := if estimateMode ≠ "" then goAppend params (.str estimateMode) else params
  params

/-- `SendToAddress` calls the sendtoaddress RPC method. -/
def Client.SendToAddress (c : Client) (walletName address : String) (amount : Float64)
    (comment commentTo : String) (subtractFeeFromAmount replaceable : Bool) (confTarget : Int)
    (estimateMode : String) : Outcome GoVal :=
  let r := c.callWithWallet "sendtoaddress"
    (SendToAddress.params address amount comment commentTo subtractFeeFromAmount replaceable
      confTarget estimateMode) walletName
  { sent := r.sent
    result :=
      match r.result with
      | .panic msg => .panic msg
      | .error err => .error ("failed to call sendtoaddress: " ++ err)
      | .ok resp =>
        match Unmarshal .string GoType.string.zero resp.Result with
        | .error err => .error ("failed to unmarshal transaction ID: " ++ err)
        | .ok txid => .ok txid }

/-- The parameters of `listtransactions`. -/
def ListTransactions.params (label : String) (count skip : Int) (includeWatchonly : Bool) :
    Option (List GoVal) :=
  let params : Option (List GoVal) := none
  -- Add label (use "*" for all transactions if not specified)
  let label := if label = "" then "*" else label
  let params := goAppend params (.str label)
  -- Add count if specified or use default
  let count := if count = 0 then 10 else count
  let params := goAppend params (.int count)
  -- Add skip if specified
  let params := if skip > 0 then goAppend params (.int skip) else params
  -- Add includeWatchonly if needed
  let params :=
    if includeWatchonly then
      let params := if skip = 0 then goAppend params (.int 0) else params
      goAppend params (.bool includeWatchonly)
    else params
  params

/-- `ListTransactions` calls the listtransactions RPC method. -/
def Client.ListTransactions (c : Client) (walletName label : String) (count skip : Int)
    (includeWatchonly : Bool) : Outcome GoVal :=
  let r := c.callWithWallet "listtransactions"
    (ListTransactions.params label count skip includeWatchonly) walletName
  { sent := r.sent
    result :=
      match r.result with
      | .panic msg => .panic msg
      | .error err => .error ("failed to call listtransactions: " ++ err)
      | .ok resp =>
        match Unmarshal (.slice Transaction.type) .nil resp.Result with
        | .error err => .error ("failed to unmarshal transactions list: " ++ err)
        | .ok transactions => .ok transactions }

/-- `ValidateAddress` calls the validateaddress RPC method. -/
def Client.ValidateAddress (c : Client) (address : String) : Outcome GoVal :=
  let params : Option (List GoVal) := some [.str address]
  let r := c.call "validateaddress" params
  { sent := r.sent
    result :=
      match r.result with
      | .panic msg => .panic msg
      | .error err => .error ("failed to call validateaddress: " ++ err)
      | .ok resp =>
        match Unmarshal ValidateAddressResponse.type ValidateAddressResponse.type.zero
            resp.Result with
        | .error err => .error ("failed to unmarshal validate address response: " ++ err)
        | .ok result => .ok result }

/-- `SendToAddressSimple` calls the sendtoaddress RPC method with minimal parameters. -/
def Client.SendToAddressSimple (c : Client) (walletName address : String) (amount : Float64) :
    Outcome GoVal :=
  -- Use only required parameters for regtest
  let params : Option (List GoVal) := some [.str address, .float amount]
  let r := c.callWithWallet "sendtoaddress" params walletName
  { sent := r.sent
    result :=
      match r.result with
      | .panic msg => .panic msg
      | .error err => .error ("failed to call sendtoaddress: " ++ err)
      | .ok resp =>
        match Unmarshal .string GoType.string.zero resp.Result with
        | .error err => .error ("failed to unmarshal transaction ID: " ++ err)
        | .ok txid => .ok txid }

/-- The parameters of `listunspent`. -/
def ListUnspent.params (minconf maxconf : Int) (addresses : Option (List String))
    (includeUnsafe : Bool) (queryOptions : Option (List (String × GoVal))) :
    Option (List GoVal) :=
  let params : Option (List GoVal) := none
  -- Add minconf (default 1)
  let minconf := if minconf = 0 then 1 else minconf
  let params := goAppend params (.int minconf)
  -- Add maxconf (default 9999999)
  let maxconf := if maxconf = 0 then 9999999 else maxconf
  let params := goAppend params (.int maxconf)
  -- Add addresses filter if provided
  let params :=
    if goLen addresses > 0 then goAppend params (stringsValue addresses)
    else goAppend params (.slice [])
  -- Add includeUnsafe if specified
  let params := if includeUnsafe then goAppend params (.bool includeUnsafe) else params
  -- Add queryOptions if provided
  let params :=
    if goLen queryOptions > 0 then
      let params := if !includeUnsafe then goAppend params (.bool false) else params
      goAppend params (mapValue queryOptions)
    else params
  params

/-- `ListUnspent` calls the listunspent RPC method. -/
def Client.ListUnspent (c : Client) (walletName : String) (minconf maxconf : Int)
    (addresses : Option (List String)) (includeUnsafe : Bool)
    (queryOptions : Option (List (String × GoVal))) : Outcome GoVal :=
  let r := c.callWithWallet "listunspent"
    (ListUnspent.params minconf maxconf addresses includeUnsafe queryOptions) walletName
  { sent := r.sent
    result :=
      match r.result with
      | .panic msg => .panic msg
      | .error err => .error ("failed to call listunspent: " ++ err)
      | .ok resp =>
        match Unmarshal (.slice UTXO.type) .nil resp.Result with
        | .error err => .error ("failed to unmarshal UTXO list: " ++ err)
        | .ok utxos => .ok utxos }

/-- The parameters of `gettransaction`. -/
def GetTransaction.params (txid : String) (includeWatchonly verbose : Bool) :
    Option (List GoVal) :=
  let params : Option (List GoVal) := some [.str txid]
  -- Add includeWatchonly if specified
  let params := if includeWatchonly then goAppend params (.bool includeWatchonly) else params
  -- Add verbose if specified
  let params :=
    if verbose then
      let params := if !includeWatchonly then goAppend params (.bool false) else params
      goAppend params (.bool verbose)
    else params
  params

/-- `GetTransaction` calls the gettransaction RPC method. -/
def Client.GetTransaction (c : Client) (walletName txid : String)
    (includeWatchonly verbose : Bool) : Outcome GoVal :=
  let r := c.callWithWallet "gettransaction"
    (GetTransaction.params txid includeWatchonly verbose) walletName
  { sent := r.sent
    result :=
      match r.result with
      | .panic msg => .panic msg
      | .error err => .error ("failed to call gettransaction: " ++ err)
      | .ok resp =>
        match Unmarshal GetTransactionResponse.type GetTransactionResponse.type.zero
            resp.Result with
        | .error err => .error ("failed to unmarshal transaction: " ++ err)
        | .ok result => .ok result }

/-- The parameters of `estimatesmartfee`. -/
def EstimateSmartFee.params (confTarget : Int) (estimateMode : String) : Option (List GoVal) :=
  let params : Option (List GoVal) := some [.int confTarget]
  -- Add estimate mode if provided
  let params := if estimateMode ≠ "" then goAppend params (.str estimateMode) else params
  params

/-- `EstimateSmartFee` calls the estimatesmartfee RPC method. -/
def Client.EstimateSmartFee (c : Client) (confTarget : Int) (estimateMode : String) :
    Outcome GoVal :=
  -- Validate confTarget
  if confTarget < 1 ∨ confTarget > 1008 then
    { sent := []
      result := .error ("confirmation target must be between 1 and 1008, got: "
        ++ String.mk (formatInt confTarget)) }
  else
    let r := c.call "estimatesmartfee" (EstimateSmartFee.params confTarget estimateMode)
    { sent := r.sent
      result :=
        match r.result with
        | .panic msg => .panic msg
        | .error err => .error ("failed to call estimatesmartfee: " ++ err)
        | .ok resp =>
          match Unmarshal EstimateSmartFeeResponse.type EstimateSmartFeeResponse.type.zero
              resp.Result with
          | .error err => .error ("failed to unmarshal fee estimate: " ++ err)
          | .ok result => .ok result }

/-- `GetWalletInfo` calls the getwalletinfo RPC method. -/
def Client.GetWalletInfo (c : Client) (walletName : String) : Outcome GoVal :=
  let r := c.callWithWallet "getwalletinfo" (some []) walletName
  { sent := r.sent
    result :=
      match r.result with
      | .panic msg => .panic msg
      | .error err => .error ("failed to call getwalletinfo: " ++ err)
      | .ok resp =>
        match Unmarshal GetWalletInfoResponse.type GetWalletInfoResponse.type.zero
            resp.Result with
        | .error err => .error ("failed to unmarshal wallet info: " ++ err)
        | .ok result => .ok result }

/-- The name of the dynamic type of a value held by an `interface{}`, as a failed type
assertion prints it. -/
def dynamicType : GoVal → String
  | .nil => "nil"
  | .bool _ => "bool"
  | .int _ => "int"
  | .float _ => "float64"
  | .str _ => "string"
  | .raw _ => "json.RawMessage"
  | .slice _ => "[]interface \x7b\x7d"
  | .map _ => "map[string]interface \x7b\x7d"
  | .struct _ => "struct"

/-- The message of the panic of a failed type assertion `v.(want)`. -/
def conversionPanic (v : GoVal) (want : String) : String :=
  "interface conversion: interface \x7b\x7d is " ++ dynamicType v ++ ", not " ++ want

/-- The elements a `range` loop visits in a slice value; none for the nil slice. -/
def rangeOf : GoVal → List GoVal
  | .slice xs => xs
  | _ => []

/-- An `AddressInfo` value. -/
def AddressInfo.value (address : String) (amount : Float64) (label : String) : GoVal :=
  .struct [(⟨"address", false⟩, .str address), (⟨"amount", false⟩, .float amount),
    (⟨"label", true⟩, .str label)]

/-- The body of the inner loop of `ListAddressGroupings` for one raw entry: an entry with
fewer than two elements is skipped (`none`); otherwise the first element is asserted to be a
string, the second a `float64` and the third, when present and not nil, a string. -/
def ListAddressGroupings.addrInfo (rawAddr : List GoVal) : Result (Option GoVal) :=
  if rawAddr.length ≥ 2 then
    match rawAddr.getD 0 .nil with
    | .str address =>
      match rawAddr.getD 1 .nil with
      | .float amount =>
        -- Label is optional (third element)
        if rawAddr.length ≥ 3 then
          match rawAddr.getD 2 .nil with
          | .nil => .ok (some (AddressInfo.value address amount ""))
          | .str label => .ok (some (AddressInfo.value address amount label))
          | v => .panic (conversionPanic v "string")
        else .ok (some (AddressInfo.value address amount ""))
      | v => .panic (conversionPanic v "float64")
    | v => .panic (conversionPanic v "string")
  else .ok none

/-- The inner loop of `ListAddressGroupings`: the entries of one raw group, in order. -/
def ListAddressGroupings.group : List GoVal → Result (List GoVal)
  | [] => .ok []
  | rawAddr :: rest =>
    match ListAddressGroupings.addrInfo (rangeOf rawAddr) with
    | .panic msg => .panic msg
    | .error err => .error err
    | .ok info =>
      match ListAddressGroupings.group rest with
      | .panic msg => .panic msg
      | .error err => .error err
      | .ok infos =>
        match info with
        | some i => .ok (i :: infos)
        | none => .ok infos

/-- The outer loop of `ListAddressGroupings`: the groups that are not empty, in order. -/
def ListAddressGroupings.groupings : List GoVal → Result (List GoVal)
  | [] => .ok []
  | rawGroup :: rest =>
    match ListAddressGroupings.group (rangeOf rawGroup) with
    | .panic msg => .panic msg
    | .error err => .error err
    | .ok group =>
      match ListAddressGroupings.groupings rest with
      | .panic msg => .panic msg
      | .error err => .error err
      | .ok groups => if group.length > 0 then .ok (.slice group :: groups) else .ok groups

/-- `ListAddressGroupings` calls the listaddressgroupings RPC method. -/
def Client.ListAddressGroupings (c : Client) (walletName : String) : Outcome GoVal :=
  let r := c.callWithWallet "listaddressgroupings" (some []) walletName
  { sent := r.sent
    result :=
      match r.result with
      | .panic msg => .panic msg
      | .error err => .error ("failed to call listaddressgroupings: " ++ err)
      | .ok resp =>
        -- The response is a nested array structure: [[[address, amount, label], ...], ...]
        match Unmarshal (.slice (.slice (.slice .iface))) .nil resp.Result with
        | .error err => .error ("failed to unmarshal address groupings raw: " ++ err)
        | .ok rawResult =>
          -- Convert the raw result to our typed structure
          match ListAddressGroupings.groupings (rangeOf rawResult) with
          | .panic msg => .panic msg
          | .error err => .error err
          | .ok [] => .ok .nil
          | .ok groupings => .ok (.slice groupings) }

/-! ## Part II.e  `advanced.go` -/

/-- `CreateRawTransactionInput`: an input of a raw transaction. -/
structure CreateRawTransactionInput where
  TxID : String
  Vout : Int
  Sequence : Int
  deriving DecidableEq, Repr

/-- The Go value of a `CreateRawTransactionInput`, with the `json` tags of its fields. -/
def CreateRawTransactionInput.value (i : CreateRawTransactionInput) : GoVal :=
  .struct [(⟨"txid", false⟩, .str i.TxID), (⟨"vout", false⟩, .int i.Vout),
    (⟨"sequence", true⟩, .int i.Sequence)]

/-- A slice of inputs as a Go value; `none` is the nil slice. -/
def inputsValue (inputs : Option (List CreateRawTransactionInput)) : GoVal :=
  match inputs with
  | none => .nil
  | some l => .slice (l.map CreateRawTransactionInput.value)

/-- Whether a `float64` is greater than zero. -/
def Float64.isPositive (f : Float64) : Bool :=
  f.text == "+Inf" || (f.isFinite && f.text.data.head? != some '-' && !f.isZero)

/-- The parameters of `createrawtransaction`. -/
def CreateRawTransaction.params (inputs : Option (List CreateRawTransactionInput))
    (outputs : Option (List (String × GoVal))) (locktime : Int) (replaceable : Bool) :
    Option (List GoVal) :=
  let params : Option (List GoVal) := some [inputsValue inputs, mapValue outputs]
  let params := if locktime ≠ 0 then goAppend params (.int locktime) else params
  let params := if replaceable then goAppend params (.bool replaceable) else params
  params

/-- `CreateRawTransaction` creates a new raw transaction spending the given inputs and
creating new outputs. -/
def Client.CreateRawTransaction (c : Client) (inputs : Option (List CreateRawTransactionInput))
    (outputs : Option (List (String × GoVal))) (locktime : Int) (replaceable : Bool) :
    Outcome GoVal :=
  let r := c.call "createrawtransaction"
    (CreateRawTransaction.params inputs outputs locktime replaceable)
  { sent := r.sent
    result :=
      match r.result with
      | .panic msg => .panic msg
      | .error err => .error ("createrawtransaction RPC call failed: " ++ err)
      | .ok resp =>
        match resp.Error with
        | some e => .error ("createrawtransaction RPC error: " ++ e.Message)
        | none =>
          match Unmarshal .string GoType.string.zero resp.Result with
          | .error err => .error ("failed to unmarshal createrawtransaction result: " ++ err)
          | .ok result => .ok result }

/-- The parameters of `signrawtransactionwithwallet`. -/
def SignRawTransactionWithWallet.params (hexstring : String) (prevtxs : Option (List GoVal))
    (sighashtype : String) : Option (List GoVal) :=
  let params : Option (List GoVal) := some [.str hexstring]
  let params :=
    if goLen prevtxs > 0 then goAppend params (sliceValue prevtxs) else goAppend params .nil
  let params := if sighashtype ≠ "" then goAppend params (.str sighashtype) else params
  params

/-- `SignRawTransactionWithWallet` signs inputs for a raw transaction. -/
def Client.SignRawTransactionWithWallet (c : Client) (walletName hexstring : String)
    (prevtxs : Option (List GoVal)) (sighashtype : String) : Outcome GoVal :=
  let r := c.callWithWallet "signrawtransactionwithwallet"
    (SignRawTransactionWithWallet.params hexstring prevtxs sighashtype) walletName
  { sent := r.sent
    result :=
      match r.result with
      | .panic msg => .panic msg
      | .error err => .error ("signrawtransactionwithwallet RPC call failed: " ++ err)
      | .ok resp =>
        match resp.Error with
        | some e => .error ("signrawtransactionwithwallet RPC error: " ++ e.Message)
        | none =>
          match Unmarshal SignRawTransactionResponse.type SignRawTransactionResponse.type.zero
              resp.Result with
          | .error err =>
            .error ("failed to unmarshal signrawtransactionwithwallet result: " ++ err)
          | .ok result => .ok result }

/-- The parameters of `sendrawtransaction`. -/
def SendRawTransaction.params (hexstring : String) (maxfeerate : Float64) :
    Option (List GoVal) :=
  let params : Option (List GoVal) := some [.str hexstring]
  let params := if maxfeerate.isPositive then goAppend params (.float maxfeerate) else params
  params

/-- `SendRawTransaction` submits a raw transaction to the local node and the network. -/
def Client.SendRawTransaction (c : Client) (hexstring : String) (maxfeerate : Float64) :
    Outcome GoVal :=
  let r := c.call "sendrawtransaction" (SendRawTransaction.params hexstring maxfeerate)
  { sent := r.sent
    result :=
      match r.result with
      | .panic msg => .panic msg
      | .error err => .error ("sendrawtransaction RPC call failed: " ++ err)
      | .ok resp =>
        match resp.Error with
        | some e => .error ("sendrawtransaction RPC error: " ++ e.Message)
        | none =>
          match Unmarshal .string GoType.string.zero resp.Result with
          | .error err => .error ("failed to unmarshal sendrawtransaction result: " ++ err)
          | .ok result => .ok result }

/-- `DumpPrivKey` reveals the private key corresponding to an address. -/
def Client.DumpPrivKey (c : Client) (walletName address : String) : Outcome GoVal :=
  let params : Option (List GoVal) := some [.str address]
  let r := c.callWithWallet "dumpprivkey" params walletName
  { sent := r.sent
    result :=
      match r.result with
      | .panic msg => .panic msg
      | .error err => .error ("dumpprivkey RPC call failed: " ++ err)
      | .ok resp =>
        match resp.Error with
        | some e => .error ("dumpprivkey RPC error: " ++ e.Message)
        | none =>
          match Unmarshal .string GoType.string.zero resp.Result with
          | .error err => .error ("failed to unmarshal dumpprivkey result: " ++ err)
          | .ok result => .ok result }

/-- The parameters of `importprivkey`. -/
def ImportPrivKey.params (privkey label : String) (rescan : Bool) : Option (List GoVal) :=
  let params : Option (List GoVal) := some [.str privkey]
  let params := if label ≠ "" then goAppend params (.str label) else goAppend params (.str "")
  let params := goAppend params (.bool rescan)
  params

/-- `ImportPrivKey` adds a private key (as returned by dumpprivkey) to the wallet. -/
def Client.ImportPrivKey (c : Client) (walletName privkey label : String) (rescan : Bool) :
    Outcome GoVal :=
  let r := c.callWithWallet "importprivkey" (ImportPrivKey.params privkey label rescan) walletName
  { sent := r.sent
    result :=
      match r.result with
      | .panic msg => .panic msg
      | .error err => .error ("importprivkey RPC call failed: " ++ err)
      | .ok resp =>
        match resp.Error with
        | some e => .error ("importprivkey RPC error: " ++ e.Message)
        | none => .ok .nil }

/-- The parameters of `createmultisig`. -/
def CreateMultisig.params (nrequired : Int) (keys : Option (List String)) (addressType : String) :
    Option (List GoVal) :=
  let params : Option (List GoVal) := some [.int nrequired, stringsValue keys]
  let params := if addressType ≠ "" then goAppend params (.str addressType) else params
  params

/-- `CreateMultisig` creates a multi-signature address with n signatures of m keys
required. -/
def Client.CreateMultisig (c : Client) (nrequired : Int) (keys : Option (List String))
    (addressType : String) : Outcome GoVal :=
  let r := c.call "createmultisig" (CreateMultisig.params nrequired keys addressType)
  { sent := r.sent
    result :=
      match r.result with
      | .panic msg => .panic msg
      | .error err => .error ("createmultisig RPC call failed: " ++ err)
      | .ok resp =>
        match resp.Error with
        | some e => .error ("createmultisig RPC error: " ++ e.Message)
        | none =>
          match Unmarshal CreateMultisigResponse.type CreateMultisigResponse.type.zero
              resp.Result with
          | .error err => .error ("failed to unmarshal createmultisig result: " ++ err)
          | .ok result => .ok result }

/-- The parameters of `addmultisigaddress`. -/
def AddMultisigAddress.params (nrequired : Int) (keys : Option (List String))
    (label addressType : String) : Option (List GoVal) :=
  let params : Option (List GoVal) := some [.int nrequired, stringsValue keys]
  let params := if label ≠ "" then goAppend params (.str label) else goAppend params (.str "")
  let params := if addressType ≠ "" then goAppend params (.str addressType) else params
  params

/-- `AddMultisigAddress` adds a multisignature address to the wallet. -/
def Client.AddMultisigAddress (c : Client) (walletName : String) (nrequired : Int)
    (keys : Option (List String)) (label addressType : String) : Outcome GoVal :=
  let r := c.callWithWallet "addmultisigaddress"
    (AddMultisigAddress.params nrequired keys label addressType) walletName
  { sent := r.sent
    result :=
      match r.result with
      | .panic msg => .panic msg
      | .error err => .error ("addmultisigaddress RPC call failed: " ++ err)
      | .ok resp =>
        match resp.Error with
        | some e => .error ("addmultisigaddress RPC error: " ++ e.Message)
        | none =>
          match Unmarshal AddMultisigAddressResponse.type AddMultisigAddressResponse.type.zero
              resp.Result with
          | .error err => .error ("failed to unmarshal addmultisigaddress result: " ++ err)
          | .ok result => .ok result }

/-- A value held by an `interface{}` result, with the name of its dynamic type. -/
structure Boxed where
  dynType : String
  value : GoVal

/-- The parameters of `getrawmempool`. -/
def GetRawMempool.params (verbose mempoolSequence : Bool) : Option (List GoVal) :=
  let params : Option (List GoVal) := some [.bool verbose]
  let params := if mempoolSequence then goAppend params (.bool mempoolSequence) else params
  params

/-- `GetRawMempool` returns all transaction ids in the memory pool. -/
def Client.GetRawMempool (c : Client) (verbose mempoolSequence : Bool) : Outcome Boxed :=
  let r := c.call "getrawmempool" (GetRawMempool.params verbose mempoolSequence)
  { sent := r.sent
    result :=
      match r.result with
      | .panic msg => .panic msg
      | .error err => .error ("getrawmempool RPC call failed: " ++ err)
      | .ok resp =>
        match resp.Error with
        | some e => .error ("getrawmempool RPC error: " ++ e.Message)
        | none =>
          if verbose then
            match Unmarshal GetRawMempoolVerboseResponse.type .nil resp.Result with
            | .error err => .error ("failed to unmarshal verbose getrawmempool result: " ++ err)
            | .ok result => .ok ⟨"GetRawMempoolVerboseResponse", result⟩
          else
            match Unmarshal GetRawMempoolResponse.type .nil resp.Result with
            | .error err => .error ("failed to unmarshal getrawmempool result: " ++ err)
            | .ok result => .ok ⟨"GetRawMempoolResponse", result⟩ }

/-- `GetRawMempoolSimple` returns all transaction ids in the memory pool as a slice of
strings. -/
def Client.GetRawMempoolSimple (c : Client) : Outcome GoVal :=
  let r := c.GetRawMempool false false
  { sent := r.sent
    result :=
      match r.result with
      | .panic msg => .panic msg
      | .error err => .error err
      | .ok result =>
        if result.dynType = "GetRawMempoolResponse" then .ok result.value
        else .error "unexpected response type from getrawmempool" }

/-- `GetRawMempoolVerbose` returns detailed information about all transactions in the
memory pool. -/
def Client.GetRawMempoolVerbose (c : Client) : Outcome GoVal :=
  let r := c.GetRawMempool true false
  { sent := r.sent
    result :=
      match r.result with
      | .panic msg => .panic msg
      | .error err => .error err
      | .ok result =>
        if result.dynType = "GetRawMempoolVerboseResponse" then .ok result.value
        else .error "unexpected response type from verbose getrawmempool" }

/-! ## Part II.f  `blockchain.go` -/

/-- `GetBlockchainInfo` calls the getblockchaininfo RPC method. -/
def Client.GetBlockchainInfo (c : Client) : Outcome GoVal :=
  let r := c.call "getblockchaininfo" (some [])
  { sent := r.sent
    result :=
      match r.result with
      | .panic msg => .panic msg
      | .error err => .error ("failed to call getblockchaininfo: " ++ err)
      | .ok resp =>
        match Unmarshal BlockchainInfo.type BlockchainInfo.type.zero resp.Result with
        | .error err => .error ("failed to unmarshal blockchain info: " ++ err)
        | .ok info => .ok info }

/-- `GetNetworkInfo` calls the getnetworkinfo RPC method. -/
def Client.GetNetworkInfo (c : Client) : Outcome GoVal :=
  let r := c.call "getnetworkinfo" (some [])
  { sent := r.sent
    result :=
      match r.result with
      | .panic msg => .panic msg
      | .error err => .error ("failed to call getnetworkinfo: " ++ err)
      | .ok resp =>
        match Unmarshal NetworkInfo.type NetworkInfo.type.zero resp.Result with
        | .error err => .error ("failed to unmarshal network info: " ++ err)
        | .ok info => .ok info }

/-- The parameters of `generatetoaddress`. -/
def GenerateToAddress.params (nblocks : Int) (address : String) (maxtries : Option Int) :
    Option (List GoVal) :=
  let params : Option (List GoVal) := some [.int nblocks, .str address]
  -- Add maxtries if provided
  let params :=
    match maxtries with
    | some m => goAppend params (.int m)
    | none => params
  params

/-- `GenerateToAddress` calls the generatetoaddress RPC method. -/
def Client.GenerateToAddress (c : Client) (nblocks : Int) (address : String)
    (maxtries : Option Int) : Outcome GoVal :=
  let r := c.call "generatetoaddress" (GenerateToAddress.params nblocks address maxtries)
  { sent := r.sent
    result :=
      match r.result with
      | .panic msg => .panic msg
      | .error err => .error ("failed to call generatetoaddress: " ++ err)
      | .ok resp =>
        match Unmarshal GenerateToAddressResponse.type .nil resp.Result with
        | .error err => .error ("failed to unmarshal generate to address response: " ++ err)
        | .ok blockHashes => .ok blockHashes }

/-- The parameters of `getblock`. -/
def GetBlock.params (blockhash : String) (verbosity : Int) : Option (List GoVal) :=
  let params : Option (List GoVal) := some [.str blockhash]
  -- Add verbosity if specified (default is 1)
  let params := if verbosity ≠ 1 then goAppend params (.int verbosity) else params
  params

/-- `GetBlock` calls the getblock RPC method. -/
def Client.GetBlock (c : Client) (blockhash : String) (verbosity : Int) : Outcome GoVal :=
  let r := c.call "getblock" (GetBlock.params blockhash verbosity)
  { sent := r.sent
    result :=
      match r.result with
      | .panic msg => .panic msg
      | .error err => .error ("failed to call getblock: " ++ err)
      | .ok resp =>
        -- For verbosity 0, return raw hex (not implemented in this struct)
        if verbosity = 0 then
          .error "verbosity 0 (raw hex) not supported, use verbosity 1 or 2"
        else
          match Unmarshal GetBlockResponse.type GetBlockResponse.type.zero resp.Result with
          | .error err => .error ("failed to unmarshal block info: " ++ err)
          | .ok block => .ok block }

/-- `GetBlockHash` calls the getblockhash RPC method. -/
def Client.GetBlockHash (c : Client) (height : Int) : Outcome GoVal :=
  let params : Option (List GoVal) := some [.int height]
  let r := c.call "getblockhash" params
  { sent := r.sent
    result :=
      match r.result with
      | .panic msg => .panic msg
      | .error err => .error ("failed to call getblockhash: " ++ err)
      | .ok resp =>
        match Unmarshal GetBlockHashResponse.type GetBlockHashResponse.type.zero resp.Result with
        | .error err => .error ("failed to unmarshal block hash: " ++ err)
        | .ok blockHash => .ok blockHash }

/-- A struct value with the field `name` set to `x`. -/
def GoVal.setField (v : GoVal) (name : String) (x : GoVal) : GoVal :=
  match v with
  | .struct fields => .struct (fields.map (fun f => if f.1.name = name then (f.1, x) else f))
  | other => other

/-- The parameters of `getrawtransaction`. -/
def GetRawTransaction.params (txid : String) (verbose : Bool) (blockhash : Option String) :
    Option (List GoVal) :=
  let params : Option (List GoVal) := some [.str txid, .bool verbose]
  -- Add blockhash if provided
  let params :=
    match blockhash with
    | some h => goAppend params (.str h)
    | none => params
  params

/-- `GetRawTransaction` calls the getrawtransaction RPC method. -/
def Client.GetRawTransaction (c : Client) (txid : String) (verbose : Bool)
    (blockhash : Option String) : Outcome GoVal :=
  let r := c.call "getrawtransaction" (GetRawTransaction.params txid verbose blockhash)
  { sent := r.sent
    result :=
      match r.result with
      | .panic msg => .panic msg
      | .error err => .error ("failed to call getrawtransaction: " ++ err)
      | .ok resp =>
        -- For non-verbose mode, return hex string in Hex field
        if !verbose then
          match Unmarshal .string GoType.string.zero resp.Result with
          | .error err => .error ("failed to unmarshal raw transaction hex: " ++ err)
          | .ok hexString => .ok (GetRawTransactionResponse.type.zero.setField "hex" hexString)
        else
          -- For verbose mode, parse the full JSON object
          match Unmarshal GetRawTransactionResponse.type GetRawTransactionResponse.type.zero
              resp.Result with
          | .error err => .error ("failed to unmarshal raw transaction: " ++ err)
          | .ok tx => .ok tx }

/-- `GetMempoolInfo` calls the getmempoolinfo RPC method. -/
def Client.GetMempoolInfo (c : Client) : Outcome GoVal :=
  let r := c.call "getmempoolinfo" (some [])
  { sent := r.sent
    result :=
      match r.result with
      | .panic msg => .panic msg
      | .error err => .error ("failed to call getmempoolinfo: " ++ err)
      | .ok resp =>
        match Unmarshal GetMempoolInfoResponse.type GetMempoolInfoResponse.type.zero
            resp.Result with
        | .error err => .error ("failed to unmarshal mempool info: " ++ err)
        | .ok info => .ok info }

/-! ## Part II.g  The typed operations as one family

`Call` lists the exported operations of the package with their arguments, so that a
statement can range over all of them. -/

/-- A call of a typed operation of the client: the operation and its arguments. -/
inductive Call where
  | CreateWallet (walletName : String) (disablePrivateKeys blank : Bool) (passphrase : String)
      (avoidReuse : Bool)
  | LoadWallet (walletName : String)
  | ListWallets
  | GetNewAddress (walletName label addressType : String)
  | GetBalance (walletName : String) (minconf : Option Int) (includeWatchonly : Option Bool)
  | SendToAddress (walletName address : String) (amount : Float64) (comment commentTo : String)
      (subtractFeeFromAmount replaceable : Bool) (confTarget : Int) (estimateMode : String)
  | ListTransactions (walletName label : String) (count skip : Int) (includeWatchonly : Bool)
  | ValidateAddress (address : String)
  | SendToAddressSimple (walletName address : String) (amount : Float64)
  | ListUnspent (walletName : String) (minconf maxconf : Int) (addresses : Option (List String))
      (includeUnsafe : Bool) (queryOptions : Option (List (String × GoVal)))
  | GetTransaction (walletName txid : String) (includeWatchonly verbose : Bool)
  | EstimateSmartFee (confTarget : Int) (estimateMode : String)
  | GetWalletInfo (walletName : String)
  | ListAddressGroupings (walletName : String)
  | CreateRawTransaction (inputs : Option (List CreateRawTransactionInput)) (outputs : Option
      (List (String × GoVal))) (locktime : Int) (replaceable : Bool)
  | SignRawTransactionWithWallet (walletName hexstring : String) (prevtxs : Option (List GoVal))
      (sighashtype : String)
  | SendRawTransaction (hexstring : String) (maxfeerate : Float64)
  | DumpPrivKey (walletName address : String)
  | ImportPrivKey (walletName privkey label : String) (rescan : Bool)
  | CreateMultisig (nrequired : Int) (keys : Option (List String)) (addressType : String)
  | AddMultisigAddress (walletName : String) (nrequired : Int) (keys : Option (List String))
      (label addressType : String)
  | GetRawMempool (verbose mempoolSequence : Bool)
  | GetRawMempoolSimple
  | GetRawMempoolVerbose
  | GetBlockchainInfo
  | GetNetworkInfo
  | GenerateToAddress (nblocks : Int) (address : String) (maxtries : Option Int)
  | GetBlock (blockhash : String) (verbosity : Int)
  | GetBlockHash (height : Int)
  | GetRawTransaction (txid : String) (verbose : Bool) (blockhash : Option String)
  | GetMempoolInfo

/-- The call carried out against the client `c`. -/
def Call.run (c : Client) : Call → Outcome GoVal
  | .CreateWallet walletName disablePrivateKeys blank passphrase avoidReuse => c.CreateWallet
      walletName disablePrivateKeys blank passphrase avoidReuse
  | .LoadWallet walletName => c.LoadWallet walletName
  | .ListWallets => c.ListWallets
  | .GetNewAddress walletName label addressType => c.GetNewAddress walletName label addressType
  | .GetBalance walletName minconf includeWatchonly => c.GetBalance walletName minconf
      includeWatchonly
  | .SendToAddress walletName address amount comment commentTo subtractFeeFromAmount replaceable
      confTarget estimateMode => c.SendToAddress walletName address amount comment commentTo
      subtractFeeFromAmount replaceable confTarget estimateMode
  | .ListTransactions walletName label count skip includeWatchonly => c.ListTransactions
      walletName label count skip includeWatchonly
  | .ValidateAddress address => c.ValidateAddress address
  | .SendToAddressSimple walletName address amount => c.SendToAddressSimple walletName address
      amount
  | .ListUnspent walletName minconf maxconf addresses includeUnsafe queryOptions => c.ListUnspent
      walletName minconf maxconf addresses includeUnsafe queryOptions
  | .GetTransaction walletName txid includeWatchonly verbose => c.GetTransaction walletName txid
      includeWatchonly verbose
  | .EstimateSmartFee confTarget estimateMode => c.EstimateSmartFee confTarget estimateMode
  | .GetWalletInfo walletName => c.GetWalletInfo walletName
  | .ListAddressGroupings walletName => c.ListAddressGroupings walletName
  | .CreateRawTransaction inputs outputs locktime replaceable => c.CreateRawTransaction inputs
      outputs locktime replaceable
  | .SignRawTransactionWithWallet walletName hexstring prevtxs sighashtype =>
      c.SignRawTransactionWithWallet walletName hexstring prevtxs sighashtype
  | .SendRawTransaction hexstring maxfeerate => c.SendRawTransaction hexstring maxfeerate
  | .DumpPrivKey walletName address => c.DumpPrivKey walletName address
  | .ImportPrivKey walletName privkey label rescan => c.ImportPrivKey walletName privkey label
      rescan
  | .CreateMultisig nrequired keys addressType => c.CreateMultisig nrequired keys addressType
  | .AddMultisigAddress walletName nrequired keys label addressType => c.AddMultisigAddress
      walletName nrequired keys label addressType
  | .GetRawMempool verbose mempoolSequence =>
    let r := c.GetRawMempool verbose mempoolSequence
    { sent := r.sent
      result :=
        match r.result with
        | .ok result => .ok result.value
        | .error err => .error err
        | .panic msg => .panic msg }
  | .GetRawMempoolSimple => c.GetRawMempoolSimple
  | .GetRawMempoolVerbose => c.GetRawMempoolVerbose
  | .GetBlockchainInfo => c.GetBlockchainInfo
  | .GetNetworkInfo => c.GetNetworkInfo
  | .GenerateToAddress nblocks address maxtries => c.GenerateToAddress nblocks address maxtries
  | .GetBlock blockhash verbosity => c.GetBlock blockhash verbosity
  | .GetBlockHash height => c.GetBlockHash height
  | .GetRawTransaction txid verbose blockhash => c.GetRawTransaction txid verbose blockhash
  | .GetMempoolInfo => c.GetMempoolInfo

/-- The name of the RPC method that the operation passes to the dispatcher. -/
def Call.method : Call → String
  | .CreateWallet _ _ _ _ _ => "createwallet"
  | .LoadWallet _ => "loadwallet"
  | .ListWallets => "listwallets"
  | .GetNewAddress _ _ _ => "getnewaddress"
  | .GetBalance _ _ _ => "getbalance"
  | .SendToAddress _ _ _ _ _ _ _ _ _ => "sendtoaddress"
  | .ListTransactions _ _ _ _ _ => "listtransactions"
  | .ValidateAddress _ => "validateaddress"
  | .SendToAddressSimple _ _ _ => "sendtoaddress"
  | .ListUnspent _ _ _ _ _ _ => "listunspent"
  | .GetTransaction _ _ _ _ => "gettransaction"
  | .EstimateSmartFee _ _ => "estimatesmartfee"
  | .GetWalletInfo _ => "getwalletinfo"
  | .ListAddressGroupings _ => "listaddressgroupings"
  | .CreateRawTransaction _ _ _ _ => "createrawtransaction"
  | .SignRawTransactionWithWallet _ _ _ _ => "signrawtransactionwithwallet"
  | .SendRawTransaction _ _ => "sendrawtransaction"
  | .DumpPrivKey _ _ => "dumpprivkey"
  | .ImportPrivKey _ _ _ _ => "importprivkey"
  | .CreateMultisig _ _ _ => "createmultisig"
  | .AddMultisigAddress _ _ _ _ _ => "addmultisigaddress"
  | .GetRawMempool _ _ => "getrawmempool"
  | .GetRawMempoolSimple => "getrawmempool"
  | .GetRawMempoolVerbose => "getrawmempool"
  | .GetBlockchainInfo => "getblockchaininfo"
  | .GetNetworkInfo => "getnetworkinfo"
  | .GenerateToAddress _ _ _ => "generatetoaddress"
  | .GetBlock _ _ => "getblock"
  | .GetBlockHash _ => "getblockhash"
  | .GetRawTransaction _ _ _ => "getrawtransaction"
  | .GetMempoolInfo => "getmempoolinfo"

/-- The list of parameters that the operation passes to the dispatcher. -/
def Call.params : Call → Option (List GoVal)
  | .CreateWallet walletName disablePrivateKeys blank passphrase avoidReuse =>
      CreateWallet.params walletName disablePrivateKeys blank passphrase avoidReuse
  | .LoadWallet walletName => some [.str walletName]
  | .ListWallets => some []
  | .GetNewAddress _ label addressType => GetNewAddress.params label addressType
  | .GetBalance _ minconf includeWatchonly => GetBalance.params minconf includeWatchonly
  | .SendToAddress _ address amount comment commentTo subtractFeeFromAmount replaceable
      confTarget estimateMode => SendToAddress.params address amount comment commentTo
      subtractFeeFromAmount replaceable confTarget estimateMode
  | .ListTransactions _ label count skip includeWatchonly => ListTransactions.params label count
      skip includeWatchonly
  | .ValidateAddress address => some [.str address]
  | .SendToAddressSimple _ address amount => some [.str address, .float amount]
  | .ListUnspent _ minconf maxconf addresses includeUnsafe queryOptions => ListUnspent.params
      minconf maxconf addresses includeUnsafe queryOptions
  | .GetTransaction _ txid includeWatchonly verbose => GetTransaction.params txid
      includeWatchonly verbose
  | .EstimateSmartFee confTarget estimateMode => EstimateSmartFee.params confTarget estimateMode
  | .GetWalletInfo _ => some []
  | .ListAddressGroupings _ => some []
  | .CreateRawTransaction inputs outputs locktime replaceable => CreateRawTransaction.params
      inputs outputs locktime replaceable
  | .SignRawTransactionWithWallet _ hexstring prevtxs sighashtype =>
      SignRawTransactionWithWallet.params hexstring prevtxs sighashtype
  | .SendRawTransaction hexstring maxfeerate => SendRawTransaction.params hexstring maxfeerate
  | .DumpPrivKey _ address => some [.str address]
  | .ImportPrivKey _ privkey label rescan => ImportPrivKey.params privkey label rescan
  | .CreateMultisig nrequired keys addressType => CreateMultisig.params nrequired keys addressType
  | .AddMultisigAddress _ nrequired keys label addressType => AddMultisigAddress.params nrequired
      keys label addressType
  | .GetRawMempool verbose mempoolSequence => GetRawMempool.params verbose mempoolSequence
  | .GetRawMempoolSimple => GetRawMempool.params false false
  | .GetRawMempoolVerbose => GetRawMempool.params true false
  | .GetBlockchainInfo => some []
  | .GetNetworkInfo => some []
  | .GenerateToAddress nblocks address maxtries => GenerateToAddress.params nblocks address
      maxtries
  | .GetBlock blockhash verbosity => GetBlock.params blockhash verbosity
  | .GetBlockHash height => some [.int height]
  | .GetRawTransaction txid verbose blockhash => GetRawTransaction.params txid verbose blockhash
  | .GetMempoolInfo => some []

/-- The wallet name that the operation passes to the dispatcher; empty for `call`. -/
def Call.walletName : Call → String
  | .CreateWallet _ _ _ _ _ => ""
  | .LoadWallet _ => ""
  | .ListWallets => ""
  | .GetNewAddress walletName _ _ => walletName
  | .GetBalance walletName _ _ => walletName
  | .SendToAddress walletName _ _ _ _ _ _ _ _ => walletName
  | .ListTransactions walletName _ _ _ _ => walletName
  | .ValidateAddress _ => ""
  | .SendToAddressSimple walletName _ _ => walletName
  | .ListUnspent walletName _ _ _ _ _ => walletName
  | .GetTransaction walletName _ _ _ => walletName
  | .EstimateSmartFee _ _ => ""
  | .GetWalletInfo walletName => walletName
  | .ListAddressGroupings walletName => walletName
  | .CreateRawTransaction _ _ _ _ => ""
  | .SignRawTransactionWithWallet walletName _ _ _ => walletName
  | .SendRawTransaction _ _ => ""
  | .DumpPrivKey walletName _ => walletName
  | .ImportPrivKey walletName _ _ _ => walletName
  | .CreateMultisig _ _ _ => ""
  | .AddMultisigAddress walletName _ _ _ _ => walletName
  | .GetRawMempool _ _ => ""
  | .GetRawMempoolSimple => ""
  | .GetRawMempoolVerbose => ""
  | .GetBlockchainInfo => ""
  | .GetNetworkInfo => ""
  | .GenerateToAddress _ _ _ => ""
  | .GetBlock _ _ => ""
  | .GetBlockHash _ => ""
  | .GetRawTransaction _ _ _ => ""
  | .GetMempoolInfo => ""

/-- Whether the operation reaches its call of the dispatcher: every operation does, except
`EstimateSmartFee` with a confirmation target that its validation rejects. -/
def Call.dispatches : Call → Bool
  | .EstimateSmartFee confTarget _ => decide (1 ≤ confTarget) && decide (confTarget ≤ 1008)
  | _ => true

/-- Whether the operation is one of `advanced.go`. -/
def Call.inAdvanced : Call → Bool
  | .CreateRawTransaction _ _ _ _ | .SignRawTransactionWithWallet _ _ _ _ | .SendRawTransaction _
    _ | .DumpPrivKey _ _ | .ImportPrivKey _ _ _ _ | .CreateMultisig _ _ _ | .AddMultisigAddress _
    _ _ _ _ | .GetRawMempool _ _ | .GetRawMempoolSimple | .GetRawMempoolVerbose => true
  | _ => false

/-! ## Part II.h  Stub nodes

A stub node answers every request in the same way.  The scenarios of the specification
are stated against such stubs. -/

/-- The `net/http` behaviour against a stub node that accepts every URL and answers every
request with the given status line, status code and body. -/
def stubNode (status : String) (code : Int) (body : String) : HTTPClient :=
  { NewRequest := fun _ => none
    Do := fun _ => .ok { Status := status, StatusCode := code, Body := .ok body.data } }

/-- A client of a stub node at a fixed base URL with fixed credentials. -/
def stubClient (status : String) (code : Int) (body : String) : Client :=
  NewClient "http://127.0.0.1:8332" "rpcuser" "rpcpass" (stubNode status code body)


/-! ## Part II.i  The shortest-prefix rule of the specification

The specification describes the parameter list of an operation with trailing optional
arguments as a prefix of the full positional list.  The two definitions below follow its
words, to be compared with the lists the operations build. -/

/-- The 1-based position of the last flag that is set, 0 when none is. -/
def lastSet : List Bool → Nat
  | [] => 0
  | b :: rest => if lastSet rest > 0 then lastSet rest + 1 else if b then 1 else 0

/-- The shortest prefix of the full positional list `full` that holds its `required` first
arguments and every optional argument whose flag says it is not at its default. -/
def shortestPrefix (full : List GoVal) (required : Nat) (flags : List Bool) : List GoVal :=
  full.take (required + lastSet flags)

/-! ## Part II.j  The address groupings of the specification

The specification describes the result of `ListAddressGroupings` entry by entry.  The two
definitions below follow its words, to be compared with what the loops of the operation
build. -/

/-- The address information the specification reads from one entry of the payload: the
address, the amount and the label are the elements 0, 1 and 2, the label is empty when the
third element is absent or null, and an entry of any other form gives nothing. -/
def entryInfo : List GoVal → Option GoVal
  | [.str address, .float amount] => some (AddressInfo.value address amount "")
  | [.str address, .float amount, .nil] => some (AddressInfo.value address amount "")
  | [.str address, .float amount, .str label] => some (AddressInfo.value address amount label)
  | _ => none

/-- The groups the specification expects for a payload: the entries of each group in the
order of the payload, and the groups left without entries omitted. -/
def expectedGroupings (payload : List (List (List GoVal))) : List (List GoVal) :=
  (payload.map (fun group => group.filterMap entryInfo)).filter (fun group => !group.isEmpty)


/-! ## Part II.k  The request envelope of the specification, decoded

The package only writes requests: the repository has no decoder of the request envelope.
The specification gives its contract: `decode` fails if the bytes are not a well-formed
envelope, that is on malformed JSON or on a missing required field, and the envelope is
`{method: string, params: ordered sequence of untyped values, id: integer,
protocol-version: string}`.  The definitions below follow these words.  An untyped value is
a JSON value; a text is well formed by the grammar of JSON alone, whatever its size and
however deep its values are nested. -/

/-- Modelled from the spec: an untyped value of the envelope, a JSON value.  A number is
given by its literal, an object by its members in the order of the text. -/
inductive JSONValue where
  | null
  | bool (b : Bool)
  | number (literal : List Char)
  | str (s : String)
  | array (elems : List JSONValue)
  | object (members : List (String × JSONValue))

/-- Modelled from the spec: the value of a token that is not an array or an object: `null`,
`true`, `false`, a string literal or a number literal. -/
def scalarOf (raw : List Char) : Option JSONValue :=
  match raw with
  | 'n' :: _ => some .null
  | 't' :: _ => some (.bool true)
  | 'f' :: _ => some (.bool false)
  | '"' :: _ => (unquote raw).map JSONValue.str
  | _ => some (.number raw)

/-- Modelled from the spec: the elements of an array after the first character of its
first element, each read by `pv`, up to the closing bracket, and the text after it.
`fuel` bounds the number of elements. -/
def parseElems (pv : List Char → Option (JSONValue × List Char)) :
    Nat → List Char → Option (List JSONValue × List Char)
  | 0, _ => none
  | fuel + 1, text =>
    match pv text with
    | none => none
    | some (v, rest) =>
      match skipSpace rest with
      | ',' :: rest1 => (parseElems pv fuel rest1).map (fun r => (v :: r.1, r.2))
      | ']' :: rest1 => some ([v], rest1)
      | _ => none

/-- Modelled from the spec: the members of an object, each a string literal, a colon and a
value read by `pv`, up to the closing brace, and the text after it.  `fuel` bounds the
number of members. -/
def parseMembers (pv : List Char → Option (JSONValue × List Char)) :
    Nat → List Char → Option (List (String × JSONValue) × List Char)
  | 0, _ => none
  | fuel + 1, text =>
    match skipSpace text with
    | '"' :: t =>
      match scanValue ('"' :: t) with
      | none => none
      | some (k, rest) =>
        match unquote k, skipSpace rest with
        | some key, ':' :: rest1 =>
          match pv rest1 with
          | none => none
          | some (v, rest2) =>
            match skipSpace rest2 with
            | ',' :: rest3 =>
              (parseMembers pv fuel rest3).map (fun r => ((key, v) :: r.1, r.2))
            | '}' :: rest3 => some ([(key, v)], rest3)
            | _ => none
        | _, _ => none
    | _ => none

/-- Modelled from the spec: the JSON value that a text starts with, after white space, and
the text after it.  A scalar is one token of the JSON grammar; an array and an object are
read element by element and member by member.  `fuel` bounds the nesting, and the length
of the text is always enough. -/
def parseValue : Nat → List Char → Option (JSONValue × List Char)
  | 0, _ => none
  | fuel + 1, text =>
    match skipSpace text with
    | [] => none
    | '[' :: rest =>
      match skipSpace rest with
      | ']' :: rest1 => some (.array [], rest1)
      | _ => (parseElems (parseValue fuel) rest.length rest).map (fun r => (.array r.1, r.2))
    | '{' :: rest =>
      match skipSpace rest with
      | '}' :: rest1 => some (.object [], rest1)
      | _ =>
        (parseMembers (parseValue fuel) rest.length rest).map (fun r => (.object r.1, r.2))
    | c :: cs =>
      match scanValue (c :: cs) with
      | none => none
      | some (raw, rest) => (scalarOf raw).map (fun v => (v, rest))

/-- Modelled from the spec: the JSON value a well-formed text holds: one value with only
white space around it.  A malformed text holds none. -/
def parseJSON (text : List Char) : Option JSONValue :=
  match parseValue (text.length + 1) text with
  | some (v, rest) => if (skipSpace rest).isEmpty then some v else none
  | none => none

/-- Modelled from the spec: the integer a number literal denotes, if it is written as an
integer: an optional minus sign and decimal digits. -/
def integerOf (literal : List Char) : Option Int :=
  let (negative, ds) :=
    match literal with
    | '-' :: r => (true, r)
    | r => (false, r)
  if ds.isEmpty || !ds.all isDigit then none
  else if negative then some (-(digitsValue 0 ds : Int)) else some (digitsValue 0 ds : Int)

/-- Modelled from the spec: the request envelope, `{method: string, params: ordered
sequence of untyped values, id: integer, protocol-version: string}`. -/
structure RequestEnvelope where
  method : String
  params : List JSONValue
  id : Int
  jsonrpc : String

/-- Modelled from the spec: `decode` of the request envelope, which the repository does
not have (only the encoding side is in `client.go`).  It fails when the bytes are not
well-formed JSON, and when the value is not an object with the required members: a string
`method`, an array `params`, an integer `id` and a string `jsonrpc`. -/
def decodeRequest (body : List Char) : Except String RequestEnvelope :=
  match parseJSON body with
  | none => .error "malformed JSON"
  | some (.object members) =>
    match members.lookup "method" with
    | some (.str method) =>
      match members.lookup "params" with
      | some (.array params) =>
        match (members.lookup "id").bind (fun v =>
          match v with
          | .number literal => integerOf literal
          | _ => none) with
        | some id =>
          match members.lookup "jsonrpc" with
          | some (.str jsonrpc) => .ok ⟨method, params, id, jsonrpc⟩
          | _ => .error "missing required field: jsonrpc"
        | none => .error "missing required field: id"
      | _ => .error "missing required field: params"
    | _ => .error "missing required field: method"
  | some _ => .error "not an envelope"

/-- The entry `e` put in its place, by key, in a list of members in key order. -/
def insertMember (e : String × JSONValue) :
    List (String × JSONValue) → List (String × JSONValue)
  | [] => [e]
  | e1 :: rest =>
    if stringLess e1.1.data e.1.data then e1 :: insertMember e rest else e :: e1 :: rest

/-- The members of an object in the order of their names. -/
def sortMembers : List (String × JSONValue) → List (String × JSONValue)
  | [] => []
  | e :: rest => insertMember e (sortMembers rest)

mutual
/-- The JSON value that a Go value is when `json.Marshal` writes it: nil is `null`, an
integer and a `float64` are numbers, written with the literal of the encoder, a slice is
an array, a map is an object with its members in the order of the keys, a struct is an
object with its fields in their order, the fields left out by `omitempty` dropped. -/
def GoVal.json : GoVal → JSONValue
  | .nil => .null
  | .bool b => .bool b
  | .int i => .number (formatInt i)
  | .float f => .number f.text.data
  | .str s => .str s
  | .raw bytes => (parseJSON bytes).getD .null
  | .slice xs => .array (GoVal.jsonList xs)
  | .map kvs => .object (sortMembers (GoVal.jsonEntries kvs))
  | .struct fields => .object (GoVal.jsonFields fields)
/-- The JSON values of the elements of a slice. -/
def GoVal.jsonList : List GoVal → List JSONValue
  | [] => []
  | x :: rest => x.json :: GoVal.jsonList rest
/-- The keys of a map with the JSON values of their values. -/
def GoVal.jsonEntries : List (String × GoVal) → List (String × JSONValue)
  | [] => []
  | (k, x) :: rest => (k, x.json) :: GoVal.jsonEntries rest
/-- The member names of a struct with the JSON values of their values. -/
def GoVal.jsonFields : List (FieldTag × GoVal) → List (String × JSONValue)
  | [] => []
  | (tag, x) :: rest =>
    if tag.omitempty && isEmptyValue x then GoVal.jsonFields rest
    else (tag.name, x.json) :: GoVal.jsonFields rest
end

mutual
/-- Whether a Go value of a parameter list is a JSON value: every `float64` in it is finite
(`json.Marshal` has no text for the others), and it holds no `json.RawMessage`, which is
bytes already encoded and not a value; the operations of the package put none in a
parameter list. -/
def GoVal.isJSONValue : GoVal → Bool
  | .float f => f.isFinite
  | .raw _ => false
  | .slice xs => GoVal.areJSONValues xs
  | .map kvs => GoVal.entriesAreJSONValues kvs
  | .struct fields => GoVal.fieldsAreJSONValues fields
  | _ => true
/-- Whether every value of a list is a JSON value. -/
def GoVal.areJSONValues : List GoVal → Bool
  | [] => true
  | x :: rest => x.isJSONValue && GoVal.areJSONValues rest
/-- Whether every value of a list of entries is a JSON value. -/
def GoVal.entriesAreJSONValues : List (String × GoVal) → Bool
  | [] => true
  | (_, x) :: rest => x.isJSONValue && GoVal.entriesAreJSONValues rest
/-- Whether every field of a struct is a JSON value. -/
def GoVal.fieldsAreJSONValues : List (FieldTag × GoVal) → Bool
  | [] => true
  | (_, x) :: rest => x.isJSONValue && GoVal.fieldsAreJSONValues rest
end

/-- The text `t` reads as the JSON value `j`: it starts with a character of a value, and
wherever it stands before the end of a text, a comma, a closing bracket or a closing brace,
`parseValue` reads `j` and stops right after `t`, with any fuel from the length of `t`. -/
def ReadsAs (t : List Char) (j : JSONValue) : Prop :=
  (∃ c cs, t = c :: cs ∧ isSpace c = false ∧ c ≠ ']' ∧ c ≠ '}') ∧
  ∀ (fuel : Nat) (rest : List Char), t.length ≤ fuel →
    (∀ c ∈ rest.head?, c = ',' ∨ c = '}' ∨ c = ']') →
    parseValue fuel (t ++ rest) = some (j, rest)

/-! ## Part III  Properties

### III.a  The dispatcher -/

/-- A call that hands a request to the transport has built it from its arguments: the
request body is the encoded envelope, the URL is accepted by `http.NewRequest`, and the
request is the only one sent. -/
theorem callWithWallet_sent_cases (c : Client) (method : String) (params : Option (List GoVal))
    (walletName : String) :
    (c.callWithWallet method params walletName).sent = [] ∨
    ∃ body, marshalValue (RPCRequest.value ⟨method, params, 1, "1.0"⟩) = .ok body ∧
      c.client.NewRequest
        (if walletName ≠ "" then c.url ++ "/wallet/" ++ walletName else c.url) = none ∧
      (c.callWithWallet method params walletName).sent =
        [{ Method := "POST"
           URL := if walletName ≠ "" then c.url ++ "/wallet/" ++ walletName else c.url
           Body := body
           Header := [("Content-Type", "application/json")]
           BasicAuth := some (c.username, c.password) }] := by
  unfold Client.callWithWallet
  dsimp only
  split
  · left; rfl
  · rename_i body hm
    split
    · left; rfl
    · rename_i hu
      right
      exact ⟨body, hm, hu, rfl⟩

/-- A call whose request is built sends exactly that request. -/
theorem callWithWallet_sent_of_built (c : Client) (method : String)
    (params : Option (List GoVal)) (walletName : String) (body : List Char)
    (hm : marshalValue (RPCRequest.value ⟨method, params, 1, "1.0"⟩) = .ok body)
    (hu : c.client.NewRequest
      (if walletName ≠ "" then c.url ++ "/wallet/" ++ walletName else c.url) = none) :
    (c.callWithWallet method params walletName).sent =
      [{ Method := "POST"
         URL := if walletName ≠ "" then c.url ++ "/wallet/" ++ walletName else c.url
         Body := body
         Header := [("Content-Type", "application/json")]
         BasicAuth := some (c.username, c.password) }] := by
  unfold Client.callWithWallet
  dsimp only
  rw [hm]
  dsimp only
  rw [hu]

/-- The result of a call that sent the request `req` is determined by what the transport
answers to `req`. -/
theorem callWithWallet_of_sent (c : Client) (method : String) (params : Option (List GoVal))
    (walletName : String) (req : Request)
    (hsent : (c.callWithWallet method params walletName).sent = [req]) :
    (c.callWithWallet method params walletName).result =
      match c.client.Do req with
      | .error err => .error ("failed to perform HTTP request: " ++ err)
      | .ok resp =>
        match resp.Body with
        | .error err => .error ("failed to read response body: " ++ err)
        | .ok body =>
          if resp.StatusCode ≠ 200 then
            .error ("HTTP error: " ++ resp.Status ++ ", body: " ++ String.mk body)
          else
            match Unmarshal RPCResponse.type RPCResponse.type.zero body with
            | .error err => .error ("failed to unmarshal response: " ++ err)
            | .ok v =>
              match (RPCResponse.ofValue v).Error with
              | some e =>
                .error ("RPC error " ++ String.mk (formatInt e.Code) ++ ": " ++ e.Message)
              | none => .ok (RPCResponse.ofValue v) := by
  revert hsent
  unfold Client.callWithWallet
  dsimp only
  split
  · intro h; simp at h
  · split
    · intro h; simp at h
    · intro h
      have hreq := (List.cons.inj h).1
      subst hreq
      rfl

/-- C1. For every base URL and wallet name, every request `callWithWallet` sends goes to the
base URL itself when the wallet name is empty and to the plain concatenation
`base ++ "/wallet/" ++ name` otherwise, a request is sent there whenever the envelope
encodes and `http.NewRequest` accepts that URL, and `call` is `callWithWallet` with the
empty wallet name. -/
theorem callWithWallet_endpoint (c : Client) (method : String) (params : Option (List GoVal))
    (walletName : String) :
    (walletName = "" →
      (∀ req ∈ (c.callWithWallet method params walletName).sent, req.URL = c.url) ∧
      ((∃ body, marshalValue (RPCRequest.value ⟨method, params, 1, "1.0"⟩) = .ok body) →
        c.client.NewRequest c.url = none →
        (c.callWithWallet method params walletName).sent.map Request.URL = [c.url])) ∧
    (walletName ≠ "" →
      (∀ req ∈ (c.callWithWallet method params walletName).sent,
        req.URL = c.url ++ "/wallet/" ++ walletName) ∧
      ((∃ body, marshalValue (RPCRequest.value ⟨method, params, 1, "1.0"⟩) = .ok body) →
        c.client.NewRequest (c.url ++ "/wallet/" ++ walletName) = none →
        (c.callWithWallet method params walletName).sent.map Request.URL
          = [c.url ++ "/wallet/" ++ walletName])) ∧
    c.call method params = c.callWithWallet method params "" := by
  refine ⟨fun hw => ⟨?_, ?_⟩, fun hw => ⟨?_, ?_⟩, rfl⟩
  · intro req hreq
    rcases callWithWallet_sent_cases c method params walletName with h | ⟨body, _, _, h⟩
    · rw [h] at hreq; simp at hreq
    · rw [h] at hreq
      simp only [List.mem_singleton] at hreq
      rw [hreq]; simp [hw]
  · rintro ⟨body, hm⟩ hu
    have hu' : c.client.NewRequest
        (if walletName ≠ "" then c.url ++ "/wallet/" ++ walletName else c.url) = none := by
      simpa [hw] using hu
    rw [callWithWallet_sent_of_built c method params walletName body hm hu']
    simp [hw]
  · intro req hreq
    rcases callWithWallet_sent_cases c method params walletName with h | ⟨body, _, _, h⟩
    · rw [h] at hreq; simp at hreq
    · rw [h] at hreq
      simp only [List.mem_singleton] at hreq
      rw [hreq]; simp [hw]
  · rintro ⟨body, hm⟩ hu
    have hu' : c.client.NewRequest
        (if walletName ≠ "" then c.url ++ "/wallet/" ++ walletName else c.url) = none := by
      simpa [hw] using hu
    rw [callWithWallet_sent_of_built c method params walletName body hm hu']
    simp [hw]

/-- C2. For every response whose status code is outside 200-299 the call returns no
response and no RPC or decode failure: when the body was read, the failure is exactly
`HTTP error: <status>, body: <body>`, whatever the body is; otherwise it is the failure to
read the body. -/
theorem callWithWallet_http_status (c : Client) (method : String)
    (params : Option (List GoVal)) (walletName : String) (req : Request) (resp : Response)
    (hsent : (c.callWithWallet method params walletName).sent = [req])
    (hdo : c.client.Do req = .ok resp)
    (hstatus : resp.StatusCode < 200 ∨ 299 < resp.StatusCode) :
    (∀ body, resp.Body = .ok body →
      (c.callWithWallet method params walletName).result =
        .error ("HTTP error: " ++ resp.Status ++ ", body: " ++ String.mk body)) ∧
    (∀ err, (c.callWithWallet method params walletName).result = .error err →
      ¬ "RPC error".data <+: err.data ∧ ¬ "failed to unmarshal response".data <+: err.data) ∧
    (∀ v, (c.callWithWallet method params walletName).result ≠ .ok v) ∧
    (∀ msg, (c.callWithWallet method params walletName).result ≠ .panic msg) := by
  have hne : resp.StatusCode ≠ 200 := by omega
  rw [callWithWallet_of_sent c method params walletName req hsent, hdo]
  dsimp only
  cases hb : resp.Body with
  | error e =>
    dsimp only
    refine ⟨fun body h => by simp at h, fun err h => ?_, fun v h => by simp at h,
      fun msg h => by simp at h⟩
    have : err = "failed to read response body: " ++ e := by
      injection h with h; exact h.symm
    subst this
    constructor <;> simp [String.data_append, List.cons_prefix_cons]
  | ok body =>
    dsimp only
    rw [if_pos hne]
    refine ⟨fun body' h => ?_, fun err h => ?_, fun v h => by simp at h,
      fun msg h => by simp at h⟩
    · injection h with h; subst h; rfl
    · have : err = "HTTP error: " ++ resp.Status ++ ", body: " ++ String.mk body := by
        injection h with h; exact h.symm
      subst this
      constructor <;> simp [String.data_append, List.cons_prefix_cons]

/-- C2, at a stub answering 401 with an error envelope as body: the failure is the HTTP
error, with the status line and the body. -/
theorem callWithWallet_http_status_witness :
    ((stubClient "401 Unauthorized" 401
        "\x7b\"result\":null,\"error\":\x7b\"code\":-5,\"message\":\"Invalid address\"\x7d,\"id\":1\x7d").callWithWallet
      "getblockcount" (some []) "").result =
      .error ("HTTP error: 401 Unauthorized, body: "
        ++ "\x7b\"result\":null,\"error\":\x7b\"code\":-5,\"message\":\"Invalid address\"\x7d,\"id\":1\x7d") :=
  (callWithWallet_http_status
    (stubClient "401 Unauthorized" 401
      "\x7b\"result\":null,\"error\":\x7b\"code\":-5,\"message\":\"Invalid address\"\x7d,\"id\":1\x7d")
    "getblockcount" (some []) ""
    { Method := "POST", URL := "http://127.0.0.1:8332"
      Body := "\x7b\"method\":\"getblockcount\",\"params\":[],\"id\":1,\"jsonrpc\":\"1.0\"\x7d".data
      Header := [("Content-Type", "application/json")]
      BasicAuth := some ("rpcuser", "rpcpass") }
    { Status := "401 Unauthorized", StatusCode := 401
      Body := .ok "\x7b\"result\":null,\"error\":\x7b\"code\":-5,\"message\":\"Invalid address\"\x7d,\"id\":1\x7d".data }
    (by decide!) rfl (by decide)).1 _ rfl

/-- C3. For every status-200 response whose body decodes as an envelope with a non-null
error of code `code` and message `message`, the call returns no response, whatever the
member `result` holds, and the failure `RPC error <code>: <message>`. -/
theorem callWithWallet_rpc_error (c : Client) (method : String)
    (params : Option (List GoVal)) (walletName : String) (req : Request) (resp : Response)
    (body : List Char) (v : GoVal) (code : Int) (message : String)
    (hsent : (c.callWithWallet method params walletName).sent = [req])
    (hdo : c.client.Do req = .ok resp)
    (hstatus : resp.StatusCode = 200)
    (hbody : resp.Body = .ok body)
    (hdecode : Unmarshal RPCResponse.type RPCResponse.type.zero body = .ok v)
    (herror : (RPCResponse.ofValue v).Error = some ⟨code, message⟩) :
    (c.callWithWallet method params walletName).result =
      .error ("RPC error " ++ String.mk (formatInt code) ++ ": " ++ message) := by
  rw [callWithWallet_of_sent c method params walletName req hsent, hdo]
  dsimp only
  rw [hbody]
  dsimp only
  rw [if_neg (by simp [hstatus]), hdecode]
  dsimp only
  rw [herror]

/-- C3, at a stub answering the error envelope of the specification: the failure carries
the code -5 and the message `Invalid address`. -/
theorem callWithWallet_rpc_error_witness :
    ((stubClient "200 OK" 200
        "\x7b\"result\":null,\"error\":\x7b\"code\":-5,\"message\":\"Invalid address\"\x7d,\"id\":1\x7d").callWithWallet
      "getblockcount" (some []) "").result = .error "RPC error -5: Invalid address" :=
  callWithWallet_rpc_error
    (stubClient "200 OK" 200
      "\x7b\"result\":null,\"error\":\x7b\"code\":-5,\"message\":\"Invalid address\"\x7d,\"id\":1\x7d")
    "getblockcount" (some []) ""
    { Method := "POST", URL := "http://127.0.0.1:8332"
      Body := "\x7b\"method\":\"getblockcount\",\"params\":[],\"id\":1,\"jsonrpc\":\"1.0\"\x7d".data
      Header := [("Content-Type", "application/json")]
      BasicAuth := some ("rpcuser", "rpcpass") }
    { Status := "200 OK", StatusCode := 200
      Body := .ok "\x7b\"result\":null,\"error\":\x7b\"code\":-5,\"message\":\"Invalid address\"\x7d,\"id\":1\x7d".data }
    "\x7b\"result\":null,\"error\":\x7b\"code\":-5,\"message\":\"Invalid address\"\x7d,\"id\":1\x7d".data
    (.struct [(⟨"result", false⟩, .raw "null".data),
      (⟨"error", false⟩, .struct [(⟨"code", false⟩, .int (-5)),
        (⟨"message", false⟩, .str "Invalid address")]),
      (⟨"id", false⟩, .int 1)])
    (-5) "Invalid address" (by decide!) rfl rfl rfl rfl rfl
/-! ### III.b  The decoder's walk over a value -/

/-- A value that ends its text ends at the same place when more text follows, provided
the next character cannot continue a number. -/
theorem scanValueFrom_append (rest : List Char)
    (hrest : ∀ c ∈ rest.head?, ∀ st : Step, st.numberMayEnd = true → continuesNumber st c = false) :
    ∀ (r : List Char) (s : Scanner) (raw : List Char),
      scanValueFrom s r = some (raw, []) → scanValueFrom s (r ++ rest) = some (raw, rest) := by
  intro r
  induction r with
  | nil =>
    intro s raw h
    simp only [scanValueFrom] at h
    split at h
    · rename_i hs
      cases h
      cases rest with
      | nil => simp [scanValueFrom, hs]
      | cons c cs =>
        have hc := hrest c (by simp)
        simp only [Bool.and_eq_true] at hs
        simp [scanValueFrom, hs.1, hs.2, hc s.step hs.2]
    · cases h
  | cons c cs ih =>
    intro s raw h
    simp only [scanValueFrom] at h
    simp only [List.cons_append, scanValueFrom]
    split at h
    · cases h
    · rename_i hnum
      rw [if_neg hnum]
      cases hstep : scanStep s c with
      | error e => rw [hstep] at h; cases h
      | ok s1 =>
        rw [hstep] at h
        dsimp only at h ⊢
        split at h
        · rename_i hdone
          rw [if_pos hdone]
          cases h
          simp
        · rename_i hdone
          rw [if_neg hdone]
          cases hrec : scanValueFrom s1 cs with
          | none => rw [hrec] at h; cases h
          | some p =>
            obtain ⟨raw1, rest1⟩ := p
            rw [hrec] at h
            dsimp only at h
            cases h
            have := ih s1 raw1 hrec
            simp only [List.append_eq] at this ⊢
            rw [this]

/-- The bytes of a complete value are found again when more text follows it, provided the
next character cannot continue a number. -/
theorem scanValue_append (r rest : List Char)
    (hrest : ∀ c ∈ rest.head?, ∀ st : Step, st.numberMayEnd = true → continuesNumber st c = false)
    (h : scanValue r = some (r, [])) : scanValue (r ++ rest) = some (r, rest) := by
  cases r with
  | nil => simp [scanValue] at h
  | cons c cs =>
    simp only [scanValue, List.cons_append] at h ⊢
    split at h
    · cases h
    · rename_i hc
      rw [if_neg hc]
      exact scanValueFrom_append rest hrest (c :: cs) Scanner.reset (c :: cs) h

/-- A complete value starts with a character that is not white space. -/
theorem skipSpace_of_scanValue (r rest raw rest1 : List Char) (h : scanValue r = some (raw, rest1)) :
    skipSpace (r ++ rest) = r ++ rest := by
  cases r with
  | nil => simp [scanValue] at h
  | cons c cs =>
    simp only [scanValue] at h
    split at h
    · cases h
    · rename_i hc
      simp [skipSpace, hc]
/-- One member of an object followed by a comma: the walk over the members records it and
goes on after the comma. -/
theorem splitMembers_step (fuel : Nat) (data kraw rest rest1 v rest2 rest3 : List Char)
    (key : String)
    (hk : scanValue data = some (kraw, rest)) (hq : unquote kraw = some key)
    (hcolon : skipSpace rest = ':' :: rest1)
    (hv : scanValue (skipSpace rest1) = some (v, rest2))
    (hcomma : skipSpace rest2 = ',' :: rest3) :
    splitMembers (fuel + 1) data =
      (splitMembers fuel (skipSpace rest3)).map (fun ms => (key, v) :: ms) := by
  simp only [splitMembers, hk, hq, hcolon, hv, hcomma]

/-- The last member of an object, followed by the closing brace. -/
theorem splitMembers_last (fuel : Nat) (data kraw rest rest1 v rest2 rest3 : List Char)
    (key : String)
    (hk : scanValue data = some (kraw, rest)) (hq : unquote kraw = some key)
    (hcolon : skipSpace rest = ':' :: rest1)
    (hv : scanValue (skipSpace rest1) = some (v, rest2))
    (hclose : skipSpace rest2 = '}' :: rest3) :
    splitMembers (fuel + 1) data = some [(key, v)] := by
  simp only [splitMembers, hk, hq, hcolon, hv, hclose]

/-- No character among `,`, `}` and `]` continues a number. -/
theorem continuesNumber_delimiter (c : Char) (hc : c = ',' ∨ c = '}' ∨ c = ']') (st : Step)
    (hst : st.numberMayEnd = true) : continuesNumber st c = false := by
  rcases hc with h | h | h <;> subst h <;> cases st <;> first | rfl | cases hst

/-- The bytes of a complete value are found again when a comma, a closing brace or a
closing bracket follows it. -/
theorem scanValue_append_delimiter (r : List Char) (d : Char) (rest : List Char)
    (hd : d = ',' ∨ d = '}' ∨ d = ']') (h : scanValue r = some (r, [])) :
    scanValue (skipSpace (r ++ d :: rest)) = some (r, d :: rest) := by
  rw [skipSpace_of_scanValue r _ r [] h]
  refine scanValue_append r _ (fun c hc st hst => ?_) h
  have : c = d := by simpa using hc.symm
  exact continuesNumber_delimiter c (this ▸ hd) st hst

/-- The members of the envelope `{"result":r,"error":null,"id":n}`. -/
theorem splitObject_envelope (r n : List Char)
    (hr : scanValue r = some (r, [])) (hn : scanValue n = some (n, [])) :
    splitObject ("\x7b\"result\":".data ++ (r ++ (",\"error\":null,\"id\":".data ++ (n ++ "\x7d".data))))
      = some [("result", r), ("error", "null".data), ("id", n)] := by
  have h3 : ∀ k, splitMembers (k + 1) ("\"id\":".data ++ (n ++ "\x7d".data)) = some [("id", n)] :=
    fun k => splitMembers_last k ("\"id\":".data ++ (n ++ "\x7d".data)) "\"id\"".data
      (':' :: (n ++ "\x7d".data)) (n ++ "\x7d".data) n "\x7d".data [] "id" rfl rfl rfl
      (scanValue_append_delimiter n '}' [] (by simp) hn) rfl
  have h2 : ∀ k, splitMembers (k + 2) ("\"error\":null,\"id\":".data ++ (n ++ "\x7d".data))
      = some [("error", "null".data), ("id", n)] := by
    intro k
    rw [splitMembers_step (k + 1) ("\"error\":null,\"id\":".data ++ (n ++ "\x7d".data))
      "\"error\"".data
      (':' :: ("null,\"id\":".data ++ (n ++ "\x7d".data))) ("null,\"id\":".data ++ (n ++ "\x7d".data))
      "null".data (',' :: ("\"id\":".data ++ (n ++ "\x7d".data))) ("\"id\":".data ++ (n ++ "\x7d".data))
      "error" rfl rfl rfl rfl rfl]
    have : skipSpace ("\"id\":".data ++ (n ++ "\x7d".data)) = "\"id\":".data ++ (n ++ "\x7d".data) := rfl
    rw [this, h3 k]
    rfl
  have h1 : ∀ k, splitMembers (k + 3)
      ("\"result\":".data ++ (r ++ (",\"error\":null,\"id\":".data ++ (n ++ "\x7d".data))))
      = some [("result", r), ("error", "null".data), ("id", n)] := by
    intro k
    rw [splitMembers_step (k + 2)
      ("\"result\":".data ++ (r ++ (",\"error\":null,\"id\":".data ++ (n ++ "\x7d".data))))
      "\"result\"".data
      (':' :: (r ++ (",\"error\":null,\"id\":".data ++ (n ++ "\x7d".data))))
      (r ++ (",\"error\":null,\"id\":".data ++ (n ++ "\x7d".data))) r
      (",\"error\":null,\"id\":".data ++ (n ++ "\x7d".data))
      ("\"error\":null,\"id\":".data ++ (n ++ "\x7d".data)) "result" rfl rfl rfl
      (scanValue_append_delimiter r ',' _ (by simp) hr) rfl]
    have : skipSpace ("\"error\":null,\"id\":".data ++ (n ++ "\x7d".data))
        = "\"error\":null,\"id\":".data ++ (n ++ "\x7d".data) := rfl
    rw [this, h2 k]
    rfl
  have hlen : 3 ≤ ("\"result\":".data ++ (r ++ (",\"error\":null,\"id\":".data
      ++ (n ++ "\x7d".data)))).length := by
    simp only [List.length_append, List.length_cons, List.length_nil]
    omega
  obtain ⟨k, hk⟩ := Nat.exists_eq_add_of_le' hlen
  have hsplit : splitObject ("\x7b\"result\":".data ++ (r ++ (",\"error\":null,\"id\":".data
        ++ (n ++ "\x7d".data))))
      = splitMembers ("\"result\":".data ++ (r ++ (",\"error\":null,\"id\":".data
        ++ (n ++ "\x7d".data)))).length ("\"result\":".data ++ (r ++ (",\"error\":null,\"id\":".data
        ++ (n ++ "\x7d".data)))) := rfl
  rw [hsplit, hk, h1 k]
/-- A text that `strconv.ParseInt` accepts starts with a sign or a digit. -/
theorem parseInt_head (bits : Nat) (n : List Char) (i : Int) (h : parseInt bits n = some i) :
    ∃ c cs, n = c :: cs ∧ (c = '-' ∨ c = '+' ∨ isDigit c = true) := by
  cases n with
  | nil => simp [parseInt] at h
  | cons c cs =>
    refine ⟨c, cs, rfl, ?_⟩
    by_cases h1 : c = '-'
    · exact Or.inl h1
    by_cases h2 : c = '+'
    · exact Or.inr (Or.inl h2)
    refine Or.inr (Or.inr ?_)
    unfold parseInt at h
    split at h
    rename_i negative ds heq
    split at heq
    · rename_i r hr; cases hr; exact absurd rfl h1
    · rename_i r hr; cases hr; exact absurd rfl h2
    · cases heq
      split at h
      · cases h
      · rename_i hds
        simp only [List.isEmpty_cons, Bool.false_or, Bool.not_eq_true', Bool.not_eq_false,
          List.all_cons, Bool.and_eq_true] at hds
        simp at hds
        exact hds.1

/-- A text that starts with a sign or a digit is a number to the decoder. -/
theorem jsonKind_number (c : Char) (cs : List Char) (h : c = '-' ∨ c = '+' ∨ isDigit c = true) :
    jsonKind (c :: cs) = "number" ∧ isNull (c :: cs) = false := by
  have hne : c ≠ '{' ∧ c ≠ '[' ∧ c ≠ '"' ∧ c ≠ 't' ∧ c ≠ 'f' ∧ c ≠ 'n' := by
    rcases h with h | h | h
    · subst h; decide
    · subst h; decide
    · refine ⟨?_, ?_, ?_, ?_, ?_, ?_⟩ <;> (intro hc; subst hc; revert h; decide)
  obtain ⟨h1, h2, h3, h4, h5, h6⟩ := hne
  constructor
  · unfold jsonKind
    split <;> first | rfl | (rename_i heq; cases heq; contradiction)
  · simp [isNull, h6]

/-- The decoding of an integer literal into a Go integer of `bits` bits. -/
theorem decode_int (f : Nat) (name : String) (bits : Nat) (ctx : ErrorContext) (cur : GoVal)
    (n : List Char) (i : Int) (h : parseInt bits n = some i) :
    decode (f + 1) (.int name bits) ctx cur n = .ok (.int i) := by
  obtain ⟨c, cs, rfl, hc⟩ := parseInt_head bits n i h
  obtain ⟨hk, hnull⟩ := jsonKind_number c cs hc
  show (if isNull (c :: cs) then Except.ok cur
    else if jsonKind (c :: cs) = "number" then
      match parseInt bits (c :: cs) with
      | some i => Except.ok (GoVal.int i)
      | none => Except.error (typeError ("number " ++ String.mk (c :: cs)) (.int name bits) ctx)
    else Except.error (typeError (jsonKind (c :: cs)) (.int name bits) ctx)) = _
  rw [hnull, hk, h]
  rfl
/-- A text that starts and ends with characters that are not white space has no white
space around it. -/
theorem trimSpace_of_ends (c d : Char) (mid : List Char) (hc : isSpace c = false)
    (hd : isSpace d = false) : trimSpace (c :: (mid ++ [d])) = c :: (mid ++ [d]) := by
  unfold trimSpace
  have h1 : skipSpace (c :: (mid ++ [d])) = c :: (mid ++ [d]) := by simp [skipSpace, hc]
  rw [h1]
  have h2 : (c :: (mid ++ [d])).reverse = d :: (c :: mid).reverse := by simp
  rw [h2]
  have h3 : skipSpace (d :: (c :: mid).reverse) = d :: (c :: mid).reverse := by
    simp [skipSpace, hd]
  rw [h3]
  simp

/-- The envelope `{"result":r,"error":null,"id":n}` decodes into a response whose result
holds the bytes `r`, whose error is nil and whose id is the integer `n` denotes. -/
theorem decode_envelope (f : Nat) (r n : List Char) (i : Int)
    (hr : scanValue r = some (r, [])) (hn : scanValue n = some (n, []))
    (hi : parseInt 64 n = some i) :
    decode (f + 2) RPCResponse.type ⟨"", []⟩ RPCResponse.type.zero
      ("\x7b\"result\":".data ++ (r ++ (",\"error\":null,\"id\":".data ++ (n ++ "\x7d".data))))
      = .ok (.struct [(⟨"result", false⟩, .raw r), (⟨"error", false⟩, .nil),
          (⟨"id", false⟩, .int i)]) := by
  have hstep : decode (f + 2) RPCResponse.type ⟨"", []⟩ RPCResponse.type.zero
      ("\x7b\"result\":".data ++ (r ++ (",\"error\":null,\"id\":".data ++ (n ++ "\x7d".data))))
      = match splitObject
          ("\x7b\"result\":".data ++ (r ++ (",\"error\":null,\"id\":".data ++ (n ++ "\x7d".data)))) with
        | none => .error phaseError
        | some ms =>
          (decodeMembers (decode (f + 1)) "RPCResponse" ⟨"", []⟩
            [(⟨"result", false⟩, .rawMessage), (⟨"error", false⟩, .ptr RPCError.type),
              (⟨"id", false⟩, .goInt)]
            [(⟨"result", false⟩, .nil), (⟨"error", false⟩, .nil), (⟨"id", false⟩, .int 0)]
            ms).map GoVal.struct := rfl
  rw [hstep, splitObject_envelope r n hr hn]
  have hmem : decodeMembers (decode (f + 1)) "RPCResponse" ⟨"", []⟩
      [(⟨"result", false⟩, .rawMessage), (⟨"error", false⟩, .ptr RPCError.type),
        (⟨"id", false⟩, .goInt)]
      [(⟨"result", false⟩, .nil), (⟨"error", false⟩, .nil), (⟨"id", false⟩, .int 0)]
      [("result", r), ("error", "null".data), ("id", n)]
      = match decode (f + 1) GoType.goInt ⟨"RPCResponse", ["id"]⟩ (.int 0) n with
        | .error e => .error e
        | .ok v => .ok [(⟨"result", false⟩, .raw r), (⟨"error", false⟩, .nil),
            (⟨"id", false⟩, v)] := rfl
  dsimp only
  rw [hmem, show GoType.goInt = GoType.int "int" 64 from rfl, decode_int f "int" 64 _ _ n i hi]
  rfl

/-- C5, refuted as stated: a status-200 body that is a JSON object with members missing is
not rejected.  The body `{}` yields a response with no result bytes, a nil error and id 0,
and the body `{"result":800000,"error":null}`, which has no id, yields the payload. -/
theorem callWithWallet_missing_members_accepted :
    ((stubClient "200 OK" 200 "\x7b\x7d").callWithWallet "getblockcount" (some []) "").result
      = .ok { Result := [], Error := none, ID := 0 } ∧
    ((stubClient "200 OK" 200 "\x7b\"result\":800000,\"error\":null\x7d").callWithWallet
      "getblockcount" (some []) "").result
      = .ok { Result := "800000".data, Error := none, ID := 0 } := by
  constructor <;> decide!

/-- C5, amended. For every status-200 response whose body is not a valid JSON text, the
call fails with the decode failure, `failed to unmarshal response: ` followed by the text
of the scanner's error, and returns no response; the same holds for a valid text whose
value is an array, a string, a number or a boolean instead of an object. -/
theorem callWithWallet_malformed_body (c : Client) (method : String)
    (params : Option (List GoVal)) (walletName : String) (req : Request) (resp : Response)
    (body : List Char)
    (hsent : (c.callWithWallet method params walletName).sent = [req])
    (hdo : c.client.Do req = .ok resp)
    (hstatus : resp.StatusCode = 200)
    (hbody : resp.Body = .ok body) :
    (∀ e, checkValid body = .error e →
      (c.callWithWallet method params walletName).result
        = .error ("failed to unmarshal response: " ++ e)) ∧
    (checkValid body = .ok () →
      ∀ ch rest, trimSpace body = ch :: rest → ch ≠ '{' → ch ≠ 'n' →
      (c.callWithWallet method params walletName).result
        = .error ("failed to unmarshal response: " ++ ("json: cannot unmarshal "
            ++ jsonKind (ch :: rest) ++ " into Go value of type " ++ "btcrpc.RPCResponse"))) := by
  rw [callWithWallet_of_sent c method params walletName req hsent, hdo]
  dsimp only
  rw [hbody]
  dsimp only
  rw [if_neg (by simp [hstatus])]
  constructor
  · intro e he
    simp only [Unmarshal, he]
  · intro hv ch rest htrim h1 h2
    have hdec : Unmarshal RPCResponse.type RPCResponse.type.zero body
        = .error (typeError (jsonKind (ch :: rest)) RPCResponse.type ⟨"", []⟩) := by
      simp only [Unmarshal, hv, htrim]
      show (match ch :: rest with
        | '{' :: _ =>
          match splitObject (ch :: rest) with
          | none => Except.error phaseError
          | some ms =>
            (decodeMembers (decode ((ch :: rest).length + RPCResponse.type.size)) "RPCResponse"
              ⟨"", []⟩ _ _ ms).map GoVal.struct
        | 'n' :: _ => Except.ok RPCResponse.type.zero
        | _ => Except.error (typeError (jsonKind (ch :: rest)) RPCResponse.type ⟨"", []⟩)) = _
      split
      · rename_i heq; cases heq; exact absurd rfl h1
      · rename_i heq; cases heq; exact absurd rfl h2
      · rfl
    rw [hdec]
    rfl

/-- C5 amended, at a stub answering a truncated text: the decode failure, and no
response. -/
theorem callWithWallet_malformed_body_witness :
    ((stubClient "200 OK" 200 "\x7b\"result\":800000,").callWithWallet
      "getblockcount" (some []) "").result
      = .error "failed to unmarshal response: unexpected end of JSON input" :=
  (callWithWallet_malformed_body
    (stubClient "200 OK" 200 "\x7b\"result\":800000,") "getblockcount" (some []) ""
    { Method := "POST", URL := "http://127.0.0.1:8332"
      Body := "\x7b\"method\":\"getblockcount\",\"params\":[],\"id\":1,\"jsonrpc\":\"1.0\"\x7d".data
      Header := [("Content-Type", "application/json")]
      BasicAuth := some ("rpcuser", "rpcpass") }
    { Status := "200 OK", StatusCode := 200, Body := .ok "\x7b\"result\":800000,".data }
    "\x7b\"result\":800000,".data (by decide!) rfl rfl rfl).1 _ (by decide!)
/-! ### III.c  The request envelope -/

/-- The encodings of the elements of a slice, one by one. -/
theorem marshalElems_of_forall₂ (p : List GoVal) (texts : List (List Char))
    (hp : List.Forall₂ (fun v t => marshalValue v = .ok t) p texts) :
    marshalElems p = .ok texts := by
  induction hp with
  | nil => rfl
  | cons h _ ih => simp only [marshalElems, h, ih]

/-- The encoding of the request envelope with a non-nil parameter list. -/
theorem marshal_request (method : String) (p : List GoVal) (texts : List (List Char))
    (hp : List.Forall₂ (fun v t => marshalValue v = .ok t) p texts) :
    marshalValue (RPCRequest.value ⟨method, some p, 1, "1.0"⟩) =
      .ok ("\x7b\"method\":".data ++ (quoteString method ++ (",\"params\":[".data ++
        (joinComma texts ++ "],\"id\":1,\"jsonrpc\":\"1.0\"\x7d".data)))) := by
  have h := marshalElems_of_forall₂ p texts hp
  simp only [RPCRequest.value, sliceValue, marshalValue, marshalFields, h, Bool.false_and,
    Bool.false_eq_true, if_false, List.map, joinComma, memberText]
  have h1 : quoteString "method" = "\"method\"".data := by decide
  have h2 : quoteString "params" = "\"params\"".data := by decide
  have h3 : quoteString "id" = "\"id\"".data := by decide
  have h4 : quoteString "jsonrpc" = "\"jsonrpc\"".data := by decide
  have h5 : quoteString "1.0" = "\"1.0\"".data := by decide
  have h6 : formatInt 1 = "1".data := by decide
  rw [h1, h2, h3, h4, h5, h6]
  simp only [List.append_assoc, List.cons_append, List.nil_append]

/-- C6. For every method name and every non-nil parameter list whose elements encode, the
body of the request that `callWithWallet` builds is the JSON object with the members
`method`, `params`, `id` and `jsonrpc` in this order: the method name as a JSON string, the
array of the encodings of the parameters in their order, the constant 1, and `"1.0"`. -/
theorem callWithWallet_request_body (c : Client) (method : String) (p : List GoVal)
    (walletName : String) (texts : List (List Char))
    (hp : List.Forall₂ (fun v t => marshalValue v = .ok t) p texts) :
    (∀ req ∈ (c.callWithWallet method (some p) walletName).sent,
      req.Body = "\x7b\"method\":".data ++ (quoteString method ++ (",\"params\":[".data ++
        (joinComma texts ++ "],\"id\":1,\"jsonrpc\":\"1.0\"\x7d".data)))) ∧
    (c.client.NewRequest
        (if walletName ≠ "" then c.url ++ "/wallet/" ++ walletName else c.url) = none →
      (c.callWithWallet method (some p) walletName).sent.map Request.Body =
        ["\x7b\"method\":".data ++ (quoteString method ++ (",\"params\":[".data ++
          (joinComma texts ++ "],\"id\":1,\"jsonrpc\":\"1.0\"\x7d".data)))]) := by
  have hm := marshal_request method p texts hp
  constructor
  · intro req hreq
    rcases callWithWallet_sent_cases c method (some p) walletName with h | ⟨body, hb, _, h⟩
    · rw [h] at hreq; simp at hreq
    · rw [h] at hreq
      simp only [List.mem_singleton] at hreq
      rw [hm] at hb
      injection hb with hb
      rw [hreq, ← hb]
  · intro hu
    rw [callWithWallet_sent_of_built c method (some p) walletName _ hm hu]
    rfl

/-- C6, for `getblockcount` with an empty parameter list: the body is exactly the request
of the specification. -/
theorem callWithWallet_request_body_witness :
    ((stubClient "200 OK" 200 "\x7b\"result\":800000,\"error\":null,\"id\":1\x7d").callWithWallet
      "getblockcount" (some []) "").sent.map Request.Body =
      ["\x7b\"method\":\"getblockcount\",\"params\":[],\"id\":1,\"jsonrpc\":\"1.0\"\x7d".data] :=
  (callWithWallet_request_body
    (stubClient "200 OK" 200 "\x7b\"result\":800000,\"error\":null,\"id\":1\x7d")
    "getblockcount" [] "" [] List.Forall₂.nil).2 rfl
/-! ### III.d  Decimal texts -/

/-- The digit character of a number below ten is a decimal digit with that value. -/
theorem digitChar_spec (k : Nat) (h : k < 10) :
    isDigit (digitChar k) = true ∧ (digitChar k).toNat - '0'.toNat = k ∧ digitChar k ≠ ':' := by
  interval_cases k <;> decide

/-- Every character of a decimal text is a decimal digit. -/
theorem decimalDigits_isDigit (fuel n : Nat) : ∀ c ∈ decimalDigits fuel n, isDigit c = true := by
  induction fuel generalizing n with
  | zero => intro c hc; simp [decimalDigits] at hc
  | succ fuel ih =>
    intro c hc
    unfold decimalDigits at hc
    split at hc
    · rename_i hn
      simp only [List.mem_singleton] at hc
      rw [hc]; exact (digitChar_spec n hn).1
    · simp only [List.mem_append, List.mem_singleton] at hc
      rcases hc with hc | hc
      · exact ih _ c hc
      · rw [hc]; exact (digitChar_spec (n % 10) (Nat.mod_lt _ (by decide))).1

/-- The value of a digit string that ends with the digit `d`. -/
theorem digitsValue_append (acc : Nat) (a : List Char) (d : Char) :
    digitsValue acc (a ++ [d]) = digitsValue acc a * 10 + (d.toNat - '0'.toNat) := by
  induction a generalizing acc with
  | nil => rfl
  | cons c cs ih => exact ih _

/-- The value of a one-digit string. -/
theorem digitsValue_singleton (acc : Nat) (d : Char) :
    digitsValue acc [d] = acc * 10 + (d.toNat - '0'.toNat) := rfl

/-- The decimal text of a number denotes that number. -/
theorem digitsValue_decimalDigits (fuel n : Nat) (h : n < fuel) :
    digitsValue 0 (decimalDigits fuel n) = n := by
  induction fuel generalizing n with
  | zero => omega
  | succ fuel ih =>
    unfold decimalDigits
    split
    · rename_i hn
      rw [digitsValue_singleton, (digitChar_spec n hn).2.1]
      omega
    · rename_i hn
      rw [digitsValue_append, ih (n / 10) (by omega),
        (digitChar_spec (n % 10) (Nat.mod_lt _ (by decide))).2.1]
      omega

/-- The decimal text of a natural number is not empty. -/
theorem formatNat_ne_nil (n : Nat) : formatNat n ≠ [] := by
  unfold formatNat decimalDigits
  split <;> simp

/-- Two natural numbers with the same decimal text are equal. -/
theorem formatNat_injective (a b : Nat) (h : formatNat a = formatNat b) : a = b := by
  have ha := digitsValue_decimalDigits (a + 1) a (by omega)
  have hb := digitsValue_decimalDigits (b + 1) b (by omega)
  unfold formatNat at h
  rw [h] at ha
  omega

/-- Two integers with the same decimal text are equal. -/
theorem formatInt_injective (a b : Int) (h : formatInt a = formatInt b) : a = b := by
  have hdigit : ∀ n : Nat, ∀ c ∈ formatNat n, c ≠ '-' := by
    intro n c hc hcm
    have := decimalDigits_isDigit (n + 1) n c hc
    rw [hcm] at this
    exact absurd this (by decide)
  cases a with
  | ofNat m =>
    cases b with
    | ofNat k => simp only [formatInt] at h; rw [formatNat_injective m k h]
    | negSucc k =>
      simp only [formatInt] at h
      cases hm : formatNat m with
      | nil => exact absurd hm (formatNat_ne_nil m)
      | cons c cs =>
        rw [hm] at h
        have hc : c = '-' := (List.cons.inj h).1
        exact absurd hc (hdigit m c (by rw [hm]; simp))
  | negSucc m =>
    cases b with
    | ofNat k =>
      simp only [formatInt] at h
      cases hk : formatNat k with
      | nil => exact absurd hk (formatNat_ne_nil k)
      | cons c cs =>
        rw [hk] at h
        have hc : '-' = c := (List.cons.inj h).1
        exact absurd hc.symm (hdigit k c (by rw [hk]; simp))
    | negSucc k =>
      simp only [formatInt] at h
      have := formatNat_injective (m + 1) (k + 1) (List.cons.inj h).2
      have : m = k := by omega
      rw [this]

/-- No character of the decimal text of an integer is a colon. -/
theorem formatInt_no_colon (i : Int) : ∀ c ∈ formatInt i, c ≠ ':' := by
  have hnat : ∀ n : Nat, ∀ c ∈ formatNat n, c ≠ ':' := by
    intro n c hc hcm
    have := decimalDigits_isDigit (n + 1) n c hc
    rw [hcm] at this
    exact absurd this (by decide)
  intro c hc
  cases i with
  | ofNat n => exact hnat n c hc
  | negSucc n =>
    simp only [formatInt, List.mem_cons] at hc
    rcases hc with hc | hc
    · rw [hc]; decide
    · exact hnat _ c hc

/-- Two texts cut at the first occurrence of a separator agree part by part. -/
theorem append_sep_inj (x : Char) (a b r r' : List Char) (ha : ∀ c ∈ a, c ≠ x)
    (hb : ∀ c ∈ b, c ≠ x) (h : a ++ x :: r = b ++ x :: r') : a = b ∧ r = r' := by
  induction a generalizing b with
  | nil =>
    cases b with
    | nil => simpa using h
    | cons c cs =>
      simp only [List.nil_append, List.cons_append] at h
      exact absurd (List.cons.inj h).1.symm (hb c (by simp))
  | cons c cs ih =>
    cases b with
    | nil =>
      simp only [List.nil_append, List.cons_append] at h
      exact absurd (List.cons.inj h).1 (ha c (by simp))
    | cons d ds =>
      simp only [List.cons_append] at h
      obtain ⟨h1, h2⟩ := List.cons.inj h
      obtain ⟨h3, h4⟩ := ih ds (fun c hc => ha c (by simp [hc])) (fun c hc => hb c (by simp [hc])) h2
      exact ⟨by rw [h1, h3], h4⟩
/-! ### III.e  The kinds of failure -/

/-- C8. When the answer of the transport leads to a failure of one of the three kinds, the
call returns an error whose text alone tells the kind: a caller that looks at the
beginning of the text recovers exactly the kind that occurred, so failures of different
kinds never have the same error value.  The text of an RPC failure determines the code and
the message of the error. -/
theorem callWithWallet_failure_kind (c : Client) (method : String)
    (params : Option (List GoVal)) (walletName : String) (req : Request) (k : FailureKind)
    (hsent : (c.callWithWallet method params walletName).sent = [req])
    (hk : failureKindOf (c.client.Do req) = some k) :
    (∃ e, (c.callWithWallet method params walletName).result = .error e
      ∧ classifyError e = some k) ∧
    (∀ a b : RPCError,
      "RPC error " ++ String.mk (formatInt a.Code) ++ ": " ++ a.Message
        = "RPC error " ++ String.mk (formatInt b.Code) ++ ": " ++ b.Message → a = b) := by
  constructor
  · rw [callWithWallet_of_sent c method params walletName req hsent]
    unfold failureKindOf at hk
    cases hdo : c.client.Do req with
    | error e =>
      rw [hdo] at hk
      cases hk
      exact ⟨_, rfl, by simp [classifyError, String.data_append, List.isPrefixOf]⟩
    | ok resp =>
      rw [hdo] at hk
      dsimp only at hk ⊢
      cases hb : resp.Body with
      | error e =>
        rw [hb] at hk
        cases hk
        exact ⟨_, rfl, by simp [classifyError, String.data_append, List.isPrefixOf]⟩
      | ok body =>
        rw [hb] at hk
        dsimp only at hk ⊢
        by_cases hs : resp.StatusCode ≠ 200
        · rw [if_pos hs] at hk ⊢
          cases hk
          exact ⟨_, rfl, by simp [classifyError, String.data_append, List.isPrefixOf]⟩
        · rw [if_neg hs] at hk ⊢
          cases hu : Unmarshal RPCResponse.type RPCResponse.type.zero body with
          | error e =>
            rw [hu] at hk
            cases hk
            exact ⟨_, rfl, by simp [classifyError, String.data_append, List.isPrefixOf]⟩
          | ok v =>
            rw [hu] at hk
            dsimp only at hk ⊢
            cases he : (RPCResponse.ofValue v).Error with
            | none => rw [he] at hk; cases hk
            | some err =>
              rw [he] at hk
              cases hk
              exact ⟨_, rfl, by simp [classifyError, String.data_append, List.isPrefixOf]⟩
  · intro a b h
    have hd := congrArg String.data h
    simp only [String.data_append] at hd
    have hd' : formatInt a.Code ++ ':' :: (' ' :: a.Message.data)
        = formatInt b.Code ++ ':' :: (' ' :: b.Message.data) := by
      simpa using hd
    obtain ⟨h1, h2⟩ := append_sep_inj ':' _ _ _ _ (formatInt_no_colon a.Code)
      (formatInt_no_colon b.Code) hd'
    have hcode := formatInt_injective _ _ h1
    have hmsg : a.Message = b.Message := String.ext (List.cons.inj h2).2
    cases a; cases b
    simp only at hcode hmsg
    rw [hcode, hmsg]

/-- C8, at a stub answering 401: the failure is of the transport kind, and its text says
so. -/
theorem callWithWallet_failure_kind_witness :
    ∃ e, ((stubClient "401 Unauthorized" 401 "").callWithWallet "getblockcount" (some [])
        "").result = .error e ∧ classifyError e = some .transport :=
  (callWithWallet_failure_kind (stubClient "401 Unauthorized" 401 "") "getblockcount"
    (some []) ""
    { Method := "POST", URL := "http://127.0.0.1:8332"
      Body := "\x7b\"method\":\"getblockcount\",\"params\":[],\"id\":1,\"jsonrpc\":\"1.0\"\x7d".data
      Header := [("Content-Type", "application/json")]
      BasicAuth := some ("rpcuser", "rpcpass") }
    .transport (by decide!) (by decide!)).1
/-! ### III.f  The typed operations -/

/-- A text that contains a block still contains it when more text follows. -/
theorem containsSub_append (a b sub : List Char) (h : containsSub a sub = true) :
    containsSub (a ++ b) sub = true := by
  induction a with
  | nil =>
    cases sub with
    | nil => cases b <;> simp [containsSub]
    | cons c cs => simp [containsSub] at h
  | cons x xs ih =>
    simp only [containsSub, List.cons_append, Bool.or_eq_true] at h ⊢
    rcases h with h | h
    · left
      rw [List.isPrefixOf_iff_prefix] at h ⊢
      exact h.trans (List.prefix_append (x :: xs) b)
    · right; exact ih h

/-- An error text that starts with a text containing a block contains the block. -/
theorem containsSub_wrap (pre err sub : String)
    (h : containsSub pre.data sub.data = true) :
    containsSub (pre ++ err).data sub.data = true := by
  rw [String.data_append]
  exact containsSub_append _ _ _ h

/-- A failure of the dispatcher is returned by every typed operation with the name of the
RPC method in its text. -/
theorem run_dispatch_failure (c : Client) (call : Call) (err : String)
    (hd : call.dispatches = true)
    (h : (c.callWithWallet call.method call.params call.walletName).result = .error err) :
    ∃ e, (call.run c).result = .error e ∧ containsSub e.data call.method.data = true := by
  cases call <;>
    simp only [Call.method, Call.params, Call.walletName] at h <;>
    simp only [Call.run, Call.method, Client.CreateWallet, Client.LoadWallet, Client.ListWallets,
      Client.GetNewAddress, Client.GetBalance, Client.SendToAddress, Client.ListTransactions,
      Client.ValidateAddress, Client.SendToAddressSimple, Client.ListUnspent,
      Client.GetTransaction, Client.EstimateSmartFee, Client.GetWalletInfo,
      Client.ListAddressGroupings, Client.CreateRawTransaction,
      Client.SignRawTransactionWithWallet, Client.SendRawTransaction, Client.DumpPrivKey,
      Client.ImportPrivKey, Client.CreateMultisig, Client.AddMultisigAddress,
      Client.GetRawMempool, Client.GetRawMempoolSimple, Client.GetRawMempoolVerbose,
      Client.GetBlockchainInfo, Client.GetNetworkInfo, Client.GenerateToAddress, Client.GetBlock,
      Client.GetBlockHash, Client.GetRawTransaction, Client.GetMempoolInfo, Client.call]
  all_goals first
    | (rw [h]; exact ⟨_, rfl, containsSub_wrap _ _ _ (by decide)⟩)
    | skip
  rename_i confTarget estimateMode
  simp only [Call.dispatches, Bool.and_eq_true, decide_eq_true_eq] at hd
  rw [if_neg (by omega)]
  dsimp only
  rw [h]
  exact ⟨_, rfl, containsSub_wrap _ _ _ (by decide)⟩

/-- Every failure of `GetRawMempool` has the name of the RPC method in its text. -/
theorem GetRawMempool_failure (c : Client) (verbose mempoolSequence : Bool) (e : String)
    (h : (c.GetRawMempool verbose mempoolSequence).result = .error e) :
    containsSub e.data "getrawmempool".data = true := by
  simp only [Client.GetRawMempool, Client.call] at h
  repeat' split at h
  all_goals (cases h <;> exact containsSub_wrap _ _ _ (by decide))

/-- Every failure that an operation of `advanced.go` returns has the name of the RPC method
in its text. -/
theorem run_advanced_failure (c : Client) (call : Call) (e : String)
    (ha : call.inAdvanced = true) (h : (call.run c).result = .error e) :
    containsSub e.data call.method.data = true := by
  cases call <;> simp only [Call.inAdvanced] at ha <;> try (exact absurd ha (by decide))
  case GetRawMempool verbose mempoolSequence =>
    simp only [Call.run] at h
    split at h
    · cases h
    · rename_i err herr
      injection h with h
      subst h
      exact GetRawMempool_failure c verbose mempoolSequence _ herr
    · cases h
  case GetRawMempoolSimple =>
    simp only [Call.run, Client.GetRawMempoolSimple] at h
    split at h
    · cases h
    · rename_i err herr
      injection h with h
      subst h
      exact GetRawMempool_failure c false false _ herr
    · split at h
      · cases h
      · injection h with h; subst h; decide
  case GetRawMempoolVerbose =>
    simp only [Call.run, Client.GetRawMempoolVerbose] at h
    split at h
    · cases h
    · rename_i err herr
      injection h with h
      subst h
      exact GetRawMempool_failure c true false _ herr
    · split at h
      · cases h
      · injection h with h; subst h; decide
  all_goals
    simp only [Call.run, Call.method, Client.CreateRawTransaction,
      Client.SignRawTransactionWithWallet, Client.SendRawTransaction, Client.DumpPrivKey,
      Client.ImportPrivKey, Client.CreateMultisig, Client.AddMultisigAddress,
      Client.call] at h ⊢
    repeat' split at h
  all_goals (cases h <;> exact containsSub_wrap _ _ _ (by decide))

/-- C9, refuted as stated: a failure to decode the payload in `wallet.go` or `blockchain.go`
does not name the RPC method.  `GetBalance` on a string payload fails with a text that does
not contain `getbalance`, and `GetBlock` with verbosity 0 fails, after a successful call,
with a text that does not contain `getblock`. -/
theorem GetBalance_decode_failure_unnamed :
    ((stubClient "200 OK" 200 "\x7b\"result\":\"abc\",\"error\":null,\"id\":1\x7d").GetBalance
        "w" none none).result
      = .error ("failed to unmarshal balance: "
          ++ "json: cannot unmarshal string into Go value of type float64") ∧
    containsSub ("failed to unmarshal balance: "
          ++ "json: cannot unmarshal string into Go value of type float64").data
        "getbalance".data = false ∧
    ((stubClient "200 OK" 200 "\x7b\"result\":\"00\",\"error\":null,\"id\":1\x7d").GetBlock
        "00" 0).result
      = .error "verbosity 0 (raw hex) not supported, use verbosity 1 or 2" ∧
    containsSub "verbosity 0 (raw hex) not supported, use verbosity 1 or 2".data
        "getblock".data = false := by
  refine ⟨rfl, by decide!, rfl, by decide!⟩

/-- C9, amended. For every typed operation of the client, a failure of the dispatcher is
returned with the name of the RPC method in the text of the error; and every failure that
an operation of `advanced.go` returns, a failure to decode the payload included, has the
name of the RPC method in its text. -/
theorem run_failure_names_method (c : Client) (call : Call) :
    (call.dispatches = true → ∀ err,
      (c.callWithWallet call.method call.params call.walletName).result = .error err →
      ∃ e, (call.run c).result = .error e ∧ containsSub e.data call.method.data = true) ∧
    (call.inAdvanced = true → ∀ e, (call.run c).result = .error e →
      containsSub e.data call.method.data = true) :=
  ⟨fun hd err h => run_dispatch_failure c call err hd h,
   fun ha e h => run_advanced_failure c call e ha h⟩

/-- C10, refuted as stated: with every optional argument at its default, seven operations
send more than the required parameters.  The bodies of the requests show the lists. -/
theorem defaults_are_sent :
    ((stubClient "200 OK" 200 "").ListTransactions "w" "" 0 0 false).sent.map Request.Body
      = ["\x7b\"method\":\"listtransactions\",\"params\":[\"*\",10],\"id\":1,\"jsonrpc\":\"1.0\"\x7d".data] ∧
    ((stubClient "200 OK" 200 "").ListUnspent "w" 0 0 none false none).sent.map Request.Body
      = ["\x7b\"method\":\"listunspent\",\"params\":[1,9999999,[]],\"id\":1,\"jsonrpc\":\"1.0\"\x7d".data] ∧
    ((stubClient "200 OK" 200 "").GetRawMempool false false).sent.map Request.Body
      = ["\x7b\"method\":\"getrawmempool\",\"params\":[false],\"id\":1,\"jsonrpc\":\"1.0\"\x7d".data] ∧
    ((stubClient "200 OK" 200 "").GetRawTransaction "ab" false none).sent.map Request.Body
      = ["\x7b\"method\":\"getrawtransaction\",\"params\":[\"ab\",false],\"id\":1,\"jsonrpc\":\"1.0\"\x7d".data] ∧
    ((stubClient "200 OK" 200 "").SignRawTransactionWithWallet "w" "00" none "").sent.map
        Request.Body
      = ["\x7b\"method\":\"signrawtransactionwithwallet\",\"params\":[\"00\",null],\"id\":1,\"jsonrpc\":\"1.0\"\x7d".data] ∧
    ((stubClient "200 OK" 200 "").ImportPrivKey "w" "key" "" false).sent.map Request.Body
      = ["\x7b\"method\":\"importprivkey\",\"params\":[\"key\",\"\",false],\"id\":1,\"jsonrpc\":\"1.0\"\x7d".data] ∧
    ((stubClient "200 OK" 200 "").AddMultisigAddress "w" 2 (some ["k1", "k2"]) "" "").sent.map
        Request.Body
      = ["\x7b\"method\":\"addmultisigaddress\",\"params\":[2,[\"k1\",\"k2\"],\"\"],\"id\":1,\"jsonrpc\":\"1.0\"\x7d".data] := by
  refine ⟨by decide!, by decide!, by decide!, by decide!, by decide!, by decide!, by decide!⟩
/-- Every typed operation hands its method name, its parameter list and its wallet name
to the dispatcher, once, and sends nothing else; `EstimateSmartFee` with a rejected target
sends nothing. -/
theorem run_sent (c : Client) (call : Call) :
    (call.run c).sent =
      if call.dispatches then
        (c.callWithWallet call.method call.params call.walletName).sent
      else [] := by
  cases call
  case EstimateSmartFee confTarget estimateMode =>
    simp only [Call.run, Client.EstimateSmartFee, Call.dispatches, Call.method, Call.params,
      Call.walletName, Client.call]
    by_cases h : confTarget < 1 ∨ confTarget > 1008
    · rw [if_pos h, if_neg (by simp; omega)]
    · rw [if_neg h, if_pos (by simp; omega)]
  all_goals rfl

/-- C10, amended. Every typed operation sends the parameter list `Call.params` gives for
it.  With every optional argument at its default (false, 0, the empty string, nil), that
list is the list of its required arguments,
followed in seven operations by explicit defaults.  It is exactly the required arguments
for `CreateWallet`, `SendToAddress`, `GetTransaction`, `EstimateSmartFee`,
`CreateRawTransaction`, `SendRawTransaction`, `CreateMultisig`, `GenerateToAddress` and
`GetBlock` with verbosity 1, and the nil list for `GetNewAddress` and `GetBalance`;
`ListTransactions` sends `["*", 10]`, `ListUnspent` `[1, 9999999, []]`, `GetRawMempool`
`[false]`, `GetRawTransaction` `[txid, false]`, `SignRawTransactionWithWallet`
`[hexstring, null]`, `ImportPrivKey` `[privkey, "", false]`, `AddMultisigAddress`
`[nrequired, keys, ""]` and `GetBlock` with verbosity 0 `[blockhash, 0]`. -/
theorem params_at_defaults (walletName address txid hexstring privkey blockhash : String)
    (amount : Float64) (confTarget nrequired nblocks : Int)
    (inputs : Option (List CreateRawTransactionInput)) (outputs : Option (List (String × GoVal)))
    (keys : Option (List String)) (c : Client) (call : Call) :
    (call.run c).sent = (if call.dispatches then
      (c.callWithWallet call.method call.params call.walletName).sent else []) ∧
    (Call.CreateWallet walletName false false "" false).params = some [.str walletName] ∧
    (Call.GetNewAddress walletName "" "").params = none ∧
    (Call.GetBalance walletName none none).params = none ∧
    (Call.SendToAddress walletName address amount "" "" false false 0 "").params
      = some [.str address, .float amount] ∧
    (Call.GetTransaction walletName txid false false).params = some [.str txid] ∧
    (Call.EstimateSmartFee confTarget "").params = some [.int confTarget] ∧
    (Call.CreateRawTransaction inputs outputs 0 false).params
      = some [inputsValue inputs, mapValue outputs] ∧
    (Call.SendRawTransaction hexstring ⟨"0"⟩).params = some [.str hexstring] ∧
    (Call.CreateMultisig nrequired keys "").params = some [.int nrequired, stringsValue keys] ∧
    (Call.GenerateToAddress nblocks address none).params = some [.int nblocks, .str address] ∧
    (Call.GetBlock blockhash 1).params = some [.str blockhash] ∧
    (Call.ListTransactions walletName "" 0 0 false).params = some [.str "*", .int 10] ∧
    (Call.ListUnspent walletName 0 0 none false none).params
      = some [.int 1, .int 9999999, .slice []] ∧
    (Call.GetRawMempool false false).params = some [.bool false] ∧
    (Call.GetRawTransaction txid false none).params = some [.str txid, .bool false] ∧
    (Call.SignRawTransactionWithWallet walletName hexstring none "").params
      = some [.str hexstring, .nil] ∧
    (Call.ImportPrivKey walletName privkey "" false).params
      = some [.str privkey, .str "", .bool false] ∧
    (Call.AddMultisigAddress walletName nrequired keys "" "").params
      = some [.int nrequired, stringsValue keys, .str ""] ∧
    (Call.GetBlock blockhash 0).params = some [.str blockhash, .int 0] := by
  refine ⟨run_sent c call, rfl, rfl, rfl, rfl, rfl, rfl, rfl, rfl, rfl, rfl, rfl, rfl, rfl, rfl, rfl, rfl, rfl,
    rfl, rfl⟩

/-! ### III.g  Requests through `json.Unmarshal`

The encoder writes a JSON value as a text that the scanner accepts and that the decoder's
walk takes apart into the same pieces; decoding the pieces gives the value back.  The one
bound is the nesting depth of the scanner. -/
theorem isHex_hexDigit (k : Nat) (h : k < 16) : isHex (hexDigit k) = true := by
  interval_cases k <;> rfl

theorem hexVal_hexDigit (k : Nat) (h : k < 16) : hexVal (hexDigit k) = k := by
  interval_cases k <;> rfl

/-- One step of the decoder's walk that neither ends a number early nor completes the
value. -/
theorem scanValueFrom_cons (s s1 : Scanner) (c : Char) (cs : List Char)
    (hearly : (s.parseState.isEmpty && s.step.numberMayEnd && !continuesNumber s.step c) = false)
    (hstep : scanStep s c = .ok s1)
    (hopen : (s1.parseState.isEmpty &&
      (decide (s1.step = .endValue) || decide (s1.step = .endTop))) = false) :
    scanValueFrom s (c :: cs) = (scanValueFrom s1 cs).map (fun p => (c :: p.1, p.2)) := by
  rw [scanValueFrom]
  simp only [hearly, hstep, hopen]
  cases scanValueFrom s1 cs <;> rfl

/-- Inside a string literal the walk takes any character the scanner accepts, as long as
the scanner stays inside the literal. -/
theorem scanValueFrom_inString (st st1 : Step) (σ : List ParseState) (c : Char) (cs : List Char)
    (hst : st.inStringLiteral = true) (hst1 : st1.inStringLiteral = true)
    (hstep : scanStep ⟨st, σ⟩ c = .ok ⟨st1, σ⟩) :
    scanValueFrom ⟨st, σ⟩ (c :: cs) = (scanValueFrom ⟨st1, σ⟩ cs).map (fun p => (c :: p.1, p.2)) := by
  refine scanValueFrom_cons _ _ _ _ ?_ hstep ?_
  · cases st <;> simp_all [Step.inStringLiteral, Step.numberMayEnd]
  · cases st1 <;> simp_all [Step.inStringLiteral]

theorem char_eq_of_toNat (c : Char) (n : Nat) (h : c.toNat = n) : c = Char.ofNat n := by
  rw [← h, Char.ofNat_toNat]

/-- The three shapes of the encoding of a character: itself, a two-character escape, or a
`\u` escape with four hexadecimal digits. -/
theorem escapeChar_cases (c : Char) :
    (escapeChar c = [c] ∧ c ≠ '"' ∧ c ≠ '\\' ∧ ¬ c.toNat < 0x20)
    ∨ (∃ b, escapeChar c = ['\\', b] ∧ (b, c) ∈ [('"', '"'), ('\\', '\\'),
        ('b', Char.ofNat 8), ('f', Char.ofNat 12), ('n', '\n'), ('r', '\r'), ('t', '\t')])
    ∨ (∃ h1 h2 h3 h4, escapeChar c = ['\\', 'u', h1, h2, h3, h4]
        ∧ isHex h1 = true ∧ isHex h2 = true ∧ isHex h3 = true ∧ isHex h4 = true
        ∧ getu4 h1 h2 h3 h4 = c.toNat ∧ c.toNat < 0xd800) := by
  by_cases h1 : c = '"'
  · subst h1; right; left; exact ⟨'"', rfl, by decide⟩
  by_cases h2 : c = '\\'
  · subst h2; right; left; exact ⟨'\\', rfl, by decide⟩
  by_cases h3 : c.toNat = 8
  · have := char_eq_of_toNat c 8 h3; subst this; right; left; exact ⟨'b', rfl, by decide⟩
  by_cases h4 : c.toNat = 12
  · have := char_eq_of_toNat c 12 h4; subst this; right; left; exact ⟨'f', rfl, by decide⟩
  by_cases h5 : c = '\n'
  · subst h5; right; left; exact ⟨'n', rfl, by decide⟩
  by_cases h6 : c = '\r'
  · subst h6; right; left; exact ⟨'r', rfl, by decide⟩
  by_cases h7 : c = '\t'
  · subst h7; right; left; exact ⟨'t', rfl, by decide⟩
  by_cases h8 : c.toNat < 0x20 ∨ c = '<' ∨ c = '>' ∨ c = '&'
  · have hlt : c.toNat < 64 := by
      rcases h8 with h | h | h | h
      · omega
      all_goals (subst h; decide)
    right; right
    refine ⟨'0', '0', hexDigit (c.toNat / 16), hexDigit (c.toNat % 16), ?_, rfl, rfl,
      isHex_hexDigit _ (by omega), isHex_hexDigit _ (by omega), ?_, by omega⟩
    · simp [escapeChar, h1, h2, h3, h4, h5, h6, h7, h8]
    · have e1 : hexVal '0' = 0 := rfl
      rw [getu4, hexVal_hexDigit _ (by omega), hexVal_hexDigit _ (by omega), e1]
      omega
  by_cases h9 : c.toNat = 0x2028 ∨ c.toNat = 0x2029
  · right; right
    rcases h9 with h | h
    · have := char_eq_of_toNat c _ h; subst this
      exact ⟨'2', '0', '2', '8', rfl, rfl, rfl, rfl, rfl, rfl, by decide⟩
    · have := char_eq_of_toNat c _ h; subst this
      exact ⟨'2', '0', '2', '9', rfl, rfl, rfl, rfl, rfl, rfl, by decide⟩
  · left
    refine ⟨?_, h1, h2, fun h => h8 (Or.inl h)⟩
    simp [escapeChar, h1, h2, h3, h4, h5, h6, h7, h8, h9]

/-- The walk over the encoding of one character of a string. -/
theorem scanValueFrom_escapeChar (σ : List ParseState) (c : Char) (rest : List Char) :
    scanValueFrom ⟨.inString, σ⟩ (escapeChar c ++ rest)
      = (scanValueFrom ⟨.inString, σ⟩ rest).map (fun p => (escapeChar c ++ p.1, p.2)) := by
  have two : ∀ b : Char, scanStep ⟨.inStringEsc, σ⟩ b = .ok ⟨.inString, σ⟩ →
      scanValueFrom ⟨.inString, σ⟩ ('\\' :: b :: rest)
        = (scanValueFrom ⟨.inString, σ⟩ rest).map (fun p => ('\\' :: b :: p.1, p.2)) := by
    intro b h2
    rw [scanValueFrom_inString .inString .inStringEsc σ '\\' _ rfl rfl rfl,
      scanValueFrom_inString .inStringEsc .inString σ b _ rfl rfl h2]
    cases scanValueFrom ⟨.inString, σ⟩ rest <;> rfl
  rcases escapeChar_cases c with ⟨e, h1, h2, h3⟩ | ⟨b, e, hb⟩ |
    ⟨a, b, c1, d, e, ha, hb, hc, hd, -, -⟩
  · rw [e, List.singleton_append,
      scanValueFrom_inString .inString .inString σ c _ rfl rfl (by simp [scanStep, h1, h2, h3])]
    rfl
  · rw [e]
    simp only [List.mem_cons, Prod.mk.injEq, List.mem_singleton, List.not_mem_nil,
      or_false] at hb
    rcases hb with ⟨h, -⟩ | ⟨h, -⟩ | ⟨h, -⟩ | ⟨h, -⟩ | ⟨h, -⟩ | ⟨h, -⟩ | ⟨h, -⟩ <;> subst h <;>
      exact two _ rfl
  · rw [e]
    show scanValueFrom ⟨.inString, σ⟩ ('\\' :: 'u' :: a :: b :: c1 :: d :: rest) = _
    rw [scanValueFrom_inString .inString .inStringEsc σ '\\' _ rfl rfl rfl,
      scanValueFrom_inString .inStringEsc .inStringEscU σ 'u' _ rfl rfl rfl,
      scanValueFrom_inString .inStringEscU .inStringEscU1 σ a _ rfl rfl
        (by simp [scanStep, hexStep, ha]),
      scanValueFrom_inString .inStringEscU1 .inStringEscU12 σ b _ rfl rfl
        (by simp [scanStep, hexStep, hb]),
      scanValueFrom_inString .inStringEscU12 .inStringEscU123 σ c1 _ rfl rfl
        (by simp [scanStep, hexStep, hc]),
      scanValueFrom_inString .inStringEscU123 .inString σ d _ rfl rfl
        (by simp [scanStep, hexStep, hd])]
    cases scanValueFrom ⟨.inString, σ⟩ rest <;> rfl

/-- The walk over the encoding of the characters of a string. -/
theorem scanValueFrom_escapeString (σ : List ParseState) (s rest : List Char) :
    scanValueFrom ⟨.inString, σ⟩ (escapeString s ++ rest)
      = (scanValueFrom ⟨.inString, σ⟩ rest).map (fun p => (escapeString s ++ p.1, p.2)) := by
  induction s with
  | nil => simp [escapeString]
  | cons c cs ih =>
    rw [escapeString, List.append_assoc, scanValueFrom_escapeChar, ih]
    cases scanValueFrom ⟨.inString, σ⟩ rest <;> simp

/-- Unquoting undoes the encoding of one character. -/
theorem unquoteBody_escapeChar (c : Char) (rest : List Char) :
    unquoteBody none (escapeChar c ++ rest) = (unquoteBody none rest).map (fun r => c :: r) := by
  rcases escapeChar_cases c with ⟨e, h1, h2, h3⟩ | ⟨b, e, hb⟩ |
    ⟨a, b, c1, d, e, ha, hb, hc, hd, hv, hlt⟩
  · rw [e, List.singleton_append]
    have hne : ¬ (c == '"') = true := by simpa using h1
    rw [unquoteBody.eq_def]
    split
    · simp_all
    · simp_all
    · simp_all
    · simp_all
    · rename_i heq
      cases heq
      simp only [hne, h3, if_false]
      cases unquoteBody none rest <;> rfl
  · rw [e]
    simp only [List.mem_cons, Prod.mk.injEq, List.mem_singleton, List.not_mem_nil,
      or_false] at hb
    rcases hb with ⟨h, h'⟩ | ⟨h, h'⟩ | ⟨h, h'⟩ | ⟨h, h'⟩ | ⟨h, h'⟩ | ⟨h, h'⟩ | ⟨h, h'⟩ <;>
      subst h <;> subst h' <;>
      (cases h : unquoteBody none rest <;> simp [unquoteBody, plainEscape, flushSurrogate, h])
  · rw [e]
    show unquoteBody none ('\\' :: 'u' :: a :: b :: c1 :: d :: rest) = _
    rw [unquoteBody]
    simp only [ha, hb, hc, hd, hv, Bool.and_self, if_true]
    have : escapeRune none c.toNat = ([c], none) := by
      have h1 : isSurrogate c.toNat = false := by simp [isSurrogate]; omega
      simp [escapeRune, h1, runeOf, hlt]
    rw [this]
    rfl

/-- Unquoting undoes the encoding of the characters of a string. -/
theorem unquoteBody_escapeString (s : List Char) :
    unquoteBody none (escapeString s ++ ['"']) = some s := by
  induction s with
  | nil => rfl
  | cons c cs ih => rw [escapeString, List.append_assoc, unquoteBody_escapeChar, ih]; rfl

/-- Unquoting a quoted string gives the string back. -/
theorem unquote_quoteString (s : String) : unquote (quoteString s) = some s := by
  show (unquoteBody none (escapeString s.data ++ ['"'])).map String.mk = some s
  rw [unquoteBody_escapeString]
  rfl

theorem map_walk_nil (x : Option (List Char × List Char)) :
    x.map (fun p => (([] : List Char) ++ p.1, p.2)) = x := by
  cases x <;> rfl

theorem map_walk_append (xs ys : List Char) (x : Option (List Char × List Char)) :
    (x.map (fun p => (ys ++ p.1, p.2))).map (fun p => (xs ++ p.1, p.2))
      = x.map (fun p => ((xs ++ ys) ++ p.1, p.2)) := by
  cases x <;> simp

theorem map_walk_cons (c : Char) (ys : List Char) (x : Option (List Char × List Char)) :
    (x.map (fun p => (ys ++ p.1, p.2))).map (fun p => (c :: p.1, p.2))
      = x.map (fun p => ((c :: ys) ++ p.1, p.2)) := by
  cases x <;> simp

/-- The walk over a quoted string inside a composite value, from any state that takes the
opening quote. -/
theorem scanValueFrom_quoteString (st : Step) (p : ParseState) (σ : List ParseState) (s : String)
    (rest : List Char)
    (hst : st = .beginValue ∨ st = .beginValueOrEmpty ∨ st = .beginString
      ∨ st = .beginStringOrEmpty) :
    scanValueFrom ⟨st, p :: σ⟩ (quoteString s ++ rest)
      = (scanValueFrom ⟨.endValue, p :: σ⟩ rest).map (fun q => (quoteString s ++ q.1, q.2)) := by
  have h1 : scanValueFrom ⟨st, p :: σ⟩ ('"' :: (escapeString s.data ++ '"' :: rest))
      = (scanValueFrom ⟨.inString, p :: σ⟩ (escapeString s.data ++ '"' :: rest)).map
          (fun q => ('"' :: q.1, q.2)) := by
    apply scanValueFrom_cons
    · rcases hst with h | h | h | h <;> subst h <;> rfl
    · rcases hst with h | h | h | h <;> subst h <;> rfl
    · rfl
  have h2 : scanValueFrom ⟨.inString, p :: σ⟩ ('"' :: rest)
      = (scanValueFrom ⟨.endValue, p :: σ⟩ rest).map (fun q => ('"' :: q.1, q.2)) :=
    scanValueFrom_cons _ _ _ _ rfl rfl rfl
  have e : quoteString s ++ rest = '"' :: (escapeString s.data ++ '"' :: rest) := by
    simp [quoteString]
  rw [e, h1, scanValueFrom_escapeString, h2]
  cases scanValueFrom ⟨.endValue, p :: σ⟩ rest <;> simp [quoteString]

/-- A quoted string on its own is one complete value. -/
theorem scanValue_quoteString (s : String) :
    scanValue (quoteString s) = some (quoteString s, []) := by
  have h1 : scanValueFrom Scanner.reset ('"' :: (escapeString s.data ++ ['"']))
      = (scanValueFrom ⟨.inString, []⟩ (escapeString s.data ++ ['"'])).map
          (fun q => ('"' :: q.1, q.2)) :=
    scanValueFrom_cons _ _ _ _ rfl rfl rfl
  show scanValueFrom Scanner.reset ('"' :: (escapeString s.data ++ ['"'])) = _
  rw [h1, scanValueFrom_escapeString]
  simp [quoteString, scanValueFrom, scanStep, Step.numberMayEnd]

/-- Inside a composite value the walk passes over a quoted string. -/
theorem walksOver_quoteString (p : ParseState) (σ : List ParseState) (s : String) :
    WalksOver (p :: σ) (quoteString s) := by
  refine ⟨.endValue, Or.inl rfl, fun st rest hst => ?_⟩
  exact scanValueFrom_quoteString st p σ s rest (by tauto)

/-- Inside a composite value the walk passes over a literal. -/
theorem walksOver_literal (p : ParseState) (σ : List ParseState) (lit : List Char)
    (h : lit = "null".data ∨ lit = "true".data ∨ lit = "false".data) :
    WalksOver (p :: σ) lit := by
  refine ⟨.endValue, Or.inl rfl, fun st rest hst => ?_⟩
  rcases h with h | h | h <;> subst h <;> rcases hst with h | h <;> subst h <;>
    (simp [scanValueFrom, scanStep, stateBeginValue, literalStep, isSpace, isDigit19,
      Step.numberMayEnd]
     cases scanValueFrom ⟨.endValue, p :: σ⟩ rest <;> rfl)

/-- A step inside a number: the scanner goes to another state of the number and leaves the
stack alone, whatever the stack is. -/
theorem scanStep_number (st : Step) (c : Char) (s1 : Scanner)
    (hst : st ∈ [Step.neg, .s1, .s0, .dot, .dot0, .e, .eSign, .e0])
    (hc : st.numberMayEnd = true → continuesNumber st c = true)
    (hstep : scanStep ⟨st, []⟩ c = .ok s1) :
    ∃ st1, st1 ∈ [Step.neg, .s1, .s0, .dot, .dot0, .e, .eSign, .e0] ∧ s1 = ⟨st1, []⟩
      ∧ ∀ σ, scanStep ⟨st, σ⟩ c = .ok ⟨st1, σ⟩ := by
  simp only [List.mem_cons, List.mem_singleton, List.not_mem_nil, or_false] at hst
  rcases hst with h | h | h | h | h | h | h | h <;> subst h
  · -- neg
    simp only [scanStep] at hstep ⊢
    split_ifs at hstep with h1 h2 <;> cases hstep
    · exact ⟨.s0, by simp, rfl, fun σ => by simp [h1]⟩
    · exact ⟨.s1, by simp, rfl, fun σ => by simp [h1, h2]⟩
  · -- s1
    have hc := hc rfl
    simp only [continuesNumber, Bool.or_eq_true, beq_iff_eq] at hc
    simp only [scanStep, state0] at hstep ⊢
    by_cases hd : isDigit c = true
    · simp only [hd, if_true, Except.ok.injEq] at hstep
      exact ⟨.s1, by simp, hstep.symm, fun σ => by simp [hd]⟩
    · by_cases hp : c = '.'
      · subst hp; cases hstep
        exact ⟨.dot, by simp, rfl, fun σ => rfl⟩
      · have he : c = 'e' ∨ c = 'E' := by tauto
        rcases he with h | h <;> subst h <;> cases hstep <;>
          exact ⟨.e, by simp, rfl, fun σ => rfl⟩
  · -- s0
    have hc := hc rfl
    simp only [continuesNumber, Bool.or_eq_true, beq_iff_eq] at hc
    rcases hc with (h | h) | h <;> subst h <;> cases hstep
    · exact ⟨.dot, by simp, rfl, fun σ => rfl⟩
    · exact ⟨.e, by simp, rfl, fun σ => rfl⟩
    · exact ⟨.e, by simp, rfl, fun σ => rfl⟩
  · -- dot
    simp only [scanStep] at hstep ⊢
    split_ifs at hstep with h1 <;> cases hstep
    exact ⟨.dot0, by simp, rfl, fun σ => by simp [h1]⟩
  · -- dot0
    have hc := hc rfl
    simp only [continuesNumber, Bool.or_eq_true, beq_iff_eq] at hc
    simp only [scanStep] at hstep ⊢
    by_cases hd : isDigit c = true
    · simp only [hd, if_true, Except.ok.injEq] at hstep
      exact ⟨.dot0, by simp, hstep.symm, fun σ => by simp [hd]⟩
    · have he : c = 'e' ∨ c = 'E' := by tauto
      rcases he with h | h <;> subst h <;> cases hstep <;>
        exact ⟨.e, by simp, rfl, fun σ => rfl⟩
  · -- e
    simp only [scanStep, stateESign] at hstep ⊢
    split_ifs at hstep with h1 h2 <;> cases hstep
    · exact ⟨.eSign, by simp, rfl, fun σ => by simp [h1]⟩
    · exact ⟨.e0, by simp, rfl, fun σ => by simp [h1, h2]⟩
  · -- eSign
    simp only [scanStep, stateESign] at hstep ⊢
    split_ifs at hstep with h1 <;> cases hstep
    exact ⟨.e0, by simp, rfl, fun σ => by simp [h1]⟩
  · -- e0
    have hc := hc rfl
    simp only [continuesNumber] at hc
    simp only [scanStep, hc, if_true, Except.ok.injEq] at hstep ⊢
    exact ⟨.e0, by simp, hstep.symm, fun σ => rfl⟩

/-- A text that is a complete number on its own is passed over inside a composite value,
from any state of the number. -/
theorem scanValueFrom_number (xs : List Char) :
    ∀ st : Step, st ∈ [Step.neg, .s1, .s0, .dot, .dot0, .e, .eSign, .e0] →
      scanValueFrom ⟨st, []⟩ xs = some (xs, []) →
      ∃ fin : Step, fin.numberMayEnd = true ∧ ∀ (p : ParseState) (σ : List ParseState)
        (rest : List Char), scanValueFrom ⟨st, p :: σ⟩ (xs ++ rest)
          = (scanValueFrom ⟨fin, p :: σ⟩ rest).map (fun q => (xs ++ q.1, q.2)) := by
  induction xs with
  | nil =>
    intro st _ h
    refine ⟨st, ?_, fun p σ rest => (map_walk_nil _).symm⟩
    simp only [scanValueFrom, List.isEmpty_nil, Bool.true_and] at h
    by_contra hn
    simp [hn] at h
  | cons c cs ih =>
    intro st hst h
    rw [scanValueFrom] at h
    have hearly : (st.numberMayEnd && !continuesNumber st c) = false := by
      by_contra hn
      simp only [Bool.not_eq_false] at hn
      simp [hn] at h
    simp only [List.isEmpty_nil, Bool.true_and, hearly] at h
    have hc : st.numberMayEnd = true → continuesNumber st c = true := by
      intro hm
      simpa [hm] using hearly
    cases hstep : scanStep ⟨st, []⟩ c with
    | error e => simp [hstep] at h
    | ok s1 =>
      obtain ⟨st1, hst1, hs1, hall⟩ := scanStep_number st c s1 hst hc hstep
      subst hs1
      have hopen : (decide (st1 = Step.endValue) || decide (st1 = Step.endTop)) = false := by
        simp only [List.mem_cons, List.mem_singleton, List.not_mem_nil, or_false] at hst1
        rcases hst1 with h | h | h | h | h | h | h | h <;> subst h <;> rfl
      simp only [hstep, hopen] at h
      have hcs : scanValueFrom ⟨st1, []⟩ cs = some (cs, []) := by
        cases hr : scanValueFrom ⟨st1, []⟩ cs with
        | none => simp [hr] at h
        | some q =>
          obtain ⟨raw, r⟩ := q
          simp [hr] at h
          rw [h.1, h.2]
      obtain ⟨fin, hfin, hwalk⟩ := ih st1 hst1 hcs
      refine ⟨fin, hfin, fun p σ rest => ?_⟩
      rw [List.cons_append, scanValueFrom_cons ⟨st, p :: σ⟩ ⟨st1, p :: σ⟩ c _ rfl (hall _) rfl,
        hwalk, map_walk_cons]

/-- A minus sign or a digit starts a number, whatever the stack is. -/
theorem scanStep_number_start (c : Char) (hc : (c == '-' || isDigit c) = true) :
    ∃ st1, st1 ∈ [Step.neg, .s1, .s0, .dot, .dot0, .e, .eSign, .e0] ∧
      ∀ (st : Step) (σ : List ParseState), st = .beginValue ∨ st = .beginValueOrEmpty →
        scanStep ⟨st, σ⟩ c = .ok ⟨st1, σ⟩ := by
  have hcases : c = '-' ∨ (48 ≤ c.toNat ∧ c.toNat ≤ 57) := by
    simp only [Bool.or_eq_true, beq_iff_eq, isDigit, Bool.and_eq_true, decide_eq_true_eq] at hc
    rcases hc with h | h
    · exact Or.inl h
    · exact Or.inr h
  rcases hcases with h | ⟨h1, h2⟩
  · subst h
    exact ⟨.neg, by simp, fun st σ hst => by rcases hst with h | h <;> subst h <;> rfl⟩
  · have hc : c = Char.ofNat c.toNat := (Char.ofNat_toNat c).symm
    generalize c.toNat = n at hc h1 h2
    subst hc
    interval_cases n
    · exact ⟨.s0, by simp, fun st σ hst => by rcases hst with h | h <;> subst h <;> rfl⟩
    all_goals
      exact ⟨.s1, by simp, fun st σ hst => by rcases hst with h | h <;> subst h <;> rfl⟩

/-- Inside a composite value the walk passes over the text of a finite `float64`. -/
theorem walksOver_float (p : ParseState) (σ : List ParseState) (f : Float64)
    (hf : f.isFinite = true) : WalksOver (p :: σ) f.text.data := by
  unfold Float64.isFinite at hf
  cases hd : f.text.data with
  | nil => simp [hd] at hf
  | cons c cs =>
    simp only [hd, Bool.and_eq_true, beq_iff_eq] at hf
    obtain ⟨hc, hv⟩ := hf
    obtain ⟨st1, hst1, hstart⟩ := scanStep_number_start c hc
    have hns : isSpace c = false := by
      by_contra hn
      simp [scanValue, hn] at hv
    have hopen : (decide (st1 = Step.endValue) || decide (st1 = Step.endTop)) = false := by
      simp only [List.mem_cons, List.mem_singleton, List.not_mem_nil, or_false] at hst1
      rcases hst1 with h | h | h | h | h | h | h | h <;> subst h <;> rfl
    have hcs : scanValueFrom ⟨st1, []⟩ cs = some (cs, []) := by
      simp only [scanValue, hns] at hv
      rw [Scanner.reset, scanValueFrom_cons ⟨.beginValue, []⟩ ⟨st1, []⟩ c cs rfl
        (hstart _ _ (Or.inl rfl)) (by simpa using hopen)] at hv
      cases hr : scanValueFrom ⟨st1, []⟩ cs with
      | none => simp [hr] at hv
      | some q =>
        obtain ⟨raw, r⟩ := q
        simp [hr] at hv
        rw [hv.1, hv.2]
    obtain ⟨fin, hfin, hwalk⟩ := scanValueFrom_number cs st1 hst1 hcs
    refine ⟨fin, Or.inr hfin, fun st rest hst => ?_⟩
    have hearly : ((p :: σ).isEmpty && st.numberMayEnd && !continuesNumber st c) = false := rfl
    rw [List.cons_append, scanValueFrom_cons ⟨st, p :: σ⟩ ⟨st1, p :: σ⟩ c _ hearly
      (hstart _ _ hst) rfl, hwalk, map_walk_cons]

/-- After a value inside an array a comma starts the next element. -/
theorem scanStep_array_comma (fin : Step) (σ : List ParseState)
    (hfin : fin = .endValue ∨ fin.numberMayEnd = true) :
    scanStep ⟨fin, .parseArrayValue :: σ⟩ ',' = .ok ⟨.beginValue, .parseArrayValue :: σ⟩ := by
  rcases hfin with h | h
  · subst h; rfl
  · cases fin <;> first | rfl | cases h

/-- After a value inside an array a closing bracket ends the array. -/
theorem scanStep_array_close (fin : Step) (σ : List ParseState)
    (hfin : fin = .endValue ∨ fin.numberMayEnd = true) :
    scanStep ⟨fin, .parseArrayValue :: σ⟩ ']'
      = .ok (popParseState ⟨.endValue, .parseArrayValue :: σ⟩) := by
  rcases hfin with h | h
  · subst h; rfl
  · cases fin <;> first | rfl | cases h

/-- After a value inside an object a comma starts the next key. -/
theorem scanStep_object_comma (fin : Step) (σ : List ParseState)
    (hfin : fin = .endValue ∨ fin.numberMayEnd = true) :
    scanStep ⟨fin, .parseObjectValue :: σ⟩ ',' = .ok ⟨.beginString, .parseObjectKey :: σ⟩ := by
  rcases hfin with h | h
  · subst h; rfl
  · cases fin <;> first | rfl | cases h

/-- After a value inside an object a closing brace ends the object. -/
theorem scanStep_object_close (fin : Step) (σ : List ParseState)
    (hfin : fin = .endValue ∨ fin.numberMayEnd = true) :
    scanStep ⟨fin, .parseObjectValue :: σ⟩ '}'
      = .ok (popParseState ⟨.endValue, .parseObjectValue :: σ⟩) := by
  rcases hfin with h | h
  · subst h; rfl
  · cases fin <;> first | rfl | cases h

theorem scanStep_open_array (st : Step) (σ : List ParseState)
    (hst : st = .beginValue ∨ st = .beginValueOrEmpty)
    (h : σ.length + 1 ≤ maxNestingDepth) :
    scanStep ⟨st, σ⟩ '[' = .ok ⟨.beginValueOrEmpty, .parseArrayValue :: σ⟩ := by
  rcases hst with e | e <;> subst e <;>
    simp [scanStep, stateBeginValue, pushParseState, isSpace, h]

theorem scanStep_open_object (st : Step) (σ : List ParseState)
    (hst : st = .beginValue ∨ st = .beginValueOrEmpty)
    (h : σ.length + 1 ≤ maxNestingDepth) :
    scanStep ⟨st, σ⟩ '{' = .ok ⟨.beginStringOrEmpty, .parseObjectKey :: σ⟩ := by
  rcases hst with e | e <;> subst e <;>
    simp [scanStep, stateBeginValue, pushParseState, isSpace, h]

/-- Inside an array the walk passes over elements joined by commas. -/
theorem walksOver_joinComma (σ : List ParseState) (texts : List (List Char))
    (h : ∀ t ∈ texts, WalksOver (.parseArrayValue :: σ) t) (hne : texts ≠ []) :
    WalksOver (.parseArrayValue :: σ) (joinComma texts) := by
  induction texts with
  | nil => exact absurd rfl hne
  | cons x rest ih =>
    cases rest with
    | nil => exact h x (by simp)
    | cons y rest =>
      obtain ⟨finx, hfinx, hx⟩ := h x (by simp)
      obtain ⟨fin, hfin, hrest⟩ := ih (fun t ht => h t (List.mem_cons_of_mem _ ht)) (by simp)
      refine ⟨fin, hfin, fun st tail hst => ?_⟩
      rw [joinComma, List.append_assoc, hx st _ hst, List.cons_append,
        scanValueFrom_cons ⟨finx, .parseArrayValue :: σ⟩ ⟨.beginValue, .parseArrayValue :: σ⟩
          ',' _ rfl (scanStep_array_comma finx σ hfinx) rfl,
        hrest .beginValue tail (Or.inl rfl), map_walk_cons, map_walk_append]
      try simp

/-- The walk over an array from its opening bracket to the state after its closing
bracket. -/
theorem scanValueFrom_array (st : Step) (σ : List ParseState) (texts : List (List Char))
    (rest : List Char) (hst : st = .beginValue ∨ st = .beginValueOrEmpty)
    (hdepth : σ.length + 1 ≤ maxNestingDepth)
    (h : ∀ t ∈ texts, WalksOver (.parseArrayValue :: σ) t)
    (next : Scanner) (hnext : next = popParseState ⟨.endValue, .parseArrayValue :: σ⟩)
    (hearly : (σ.isEmpty && st.numberMayEnd && !continuesNumber st '[') = false) :
    scanValueFrom ⟨st, σ⟩ ('[' :: joinComma texts ++ ']' :: rest)
      = (scanValueFrom ⟨.beginValueOrEmpty, .parseArrayValue :: σ⟩
          (joinComma texts ++ ']' :: rest)).map (fun q => ('[' :: q.1, q.2))
      ∧ ∃ fin, (fin = .endValue ∨ fin.numberMayEnd = true ∨ fin = .beginValueOrEmpty) ∧
        scanStep ⟨fin, .parseArrayValue :: σ⟩ ']' = .ok next ∧
        scanValueFrom ⟨.beginValueOrEmpty, .parseArrayValue :: σ⟩
            (joinComma texts ++ ']' :: rest)
          = (scanValueFrom ⟨fin, .parseArrayValue :: σ⟩ (']' :: rest)).map
              (fun q => (joinComma texts ++ q.1, q.2)) := by
  refine ⟨scanValueFrom_cons _ _ _ _ hearly (scanStep_open_array st σ hst hdepth) rfl, ?_⟩
  by_cases hne : texts = []
  · subst hne
    exact ⟨.beginValueOrEmpty, by simp, by subst hnext; rfl, (map_walk_nil _).symm⟩
  · obtain ⟨fin, hfin, hw⟩ := walksOver_joinComma σ texts h hne
    refine ⟨fin, by tauto, ?_, hw _ _ (Or.inr rfl)⟩
    subst hnext
    exact scanStep_array_close fin σ hfin

/-- The last step of the walk over a composite value that is itself inside a composite
value: the closing character brings the scanner to the end of a value. -/
theorem scanValueFrom_close_inner (fin : Step) (top p : ParseState) (σ : List ParseState)
    (c : Char) (rest : List Char)
    (hstep : scanStep ⟨fin, top :: p :: σ⟩ c = .ok (popParseState ⟨.endValue, top :: p :: σ⟩)) :
    scanValueFrom ⟨fin, top :: p :: σ⟩ (c :: rest)
      = (scanValueFrom ⟨.endValue, p :: σ⟩ rest).map (fun q => (c :: q.1, q.2)) :=
  scanValueFrom_cons _ _ _ _ rfl hstep rfl

/-- The last step of the walk over a composite value at the top: the closing character
completes the value. -/
theorem scanValueFrom_close_top (fin : Step) (top : ParseState) (c : Char) (rest : List Char)
    (hstep : scanStep ⟨fin, [top]⟩ c = .ok (popParseState ⟨.endValue, [top]⟩)) :
    scanValueFrom ⟨fin, [top]⟩ (c :: rest) = some ([c], rest) := by
  rw [scanValueFrom]
  simp [hstep, popParseState]

/-- Inside a composite value the walk passes over an array whose elements it passes
over. -/
theorem walksOver_array (p : ParseState) (σ : List ParseState) (texts : List (List Char))
    (hdepth : (p :: σ).length + 1 ≤ maxNestingDepth)
    (h : ∀ t ∈ texts, WalksOver (.parseArrayValue :: p :: σ) t) :
    WalksOver (p :: σ) ('[' :: joinComma texts ++ [']']) := by
  refine ⟨.endValue, Or.inl rfl, fun st rest hst => ?_⟩
  obtain ⟨h1, fin, -, hclose, h2⟩ :=
    scanValueFrom_array st (p :: σ) texts rest hst hdepth h _ rfl rfl
  have e : ('[' :: joinComma texts ++ [']']) ++ rest = '[' :: joinComma texts ++ ']' :: rest := by
    simp
  rw [e, h1, h2, scanValueFrom_close_inner fin _ p σ ']' rest hclose]
  cases scanValueFrom ⟨.endValue, p :: σ⟩ rest <;> simp

/-- An array on its own is one complete value when the walk passes over its elements. -/
theorem scanValue_array (texts : List (List Char))
    (h : ∀ t ∈ texts, WalksOver [.parseArrayValue] t) :
    scanValue ('[' :: joinComma texts ++ [']']) = some ('[' :: joinComma texts ++ [']'], []) := by
  obtain ⟨h1, fin, -, hclose, h2⟩ :=
    scanValueFrom_array .beginValue [] texts [] (Or.inl rfl) (by decide) h _ rfl rfl
  show scanValueFrom ⟨.beginValue, []⟩ ('[' :: joinComma texts ++ [']']) = _
  rw [h1, h2, scanValueFrom_close_top fin _ ']' [] hclose]
  rfl

/-- Inside an object the walk passes over one member, from the key to the end of the
value. -/
theorem scanValueFrom_member (st : Step) (σ : List ParseState) (e : String × List Char)
    (fin : Step) (rest : List Char) (hst : st = .beginString ∨ st = .beginStringOrEmpty)
    (hw : ∀ (st : Step) (rest : List Char), st = .beginValue ∨ st = .beginValueOrEmpty →
      scanValueFrom ⟨st, .parseObjectValue :: σ⟩ (e.2 ++ rest)
        = (scanValueFrom ⟨fin, .parseObjectValue :: σ⟩ rest).map (fun p => (e.2 ++ p.1, p.2))) :
    scanValueFrom ⟨st, .parseObjectKey :: σ⟩ (memberText e ++ rest)
      = (scanValueFrom ⟨fin, .parseObjectValue :: σ⟩ rest).map
          (fun q => (memberText e ++ q.1, q.2)) := by
  have e1 : memberText e ++ rest = quoteString e.1 ++ (':' :: (e.2 ++ rest)) := by
    simp [memberText]
  rw [e1, scanValueFrom_quoteString st .parseObjectKey σ e.1 _ (by tauto),
    scanValueFrom_cons ⟨.endValue, .parseObjectKey :: σ⟩ ⟨.beginValue, .parseObjectValue :: σ⟩
      ':' _ rfl rfl rfl,
    hw .beginValue rest (Or.inl rfl)]
  cases scanValueFrom ⟨fin, .parseObjectValue :: σ⟩ rest <;> simp [memberText]

/-- Inside an object the walk passes over members joined by commas. -/
theorem scanValueFrom_members (σ : List ParseState) (es : List (String × List Char))
    (h : ∀ e ∈ es, WalksOver (.parseObjectValue :: σ) e.2) (hne : es ≠ []) :
    ∃ fin : Step, (fin = .endValue ∨ fin.numberMayEnd = true) ∧
      ∀ (st : Step) (rest : List Char), st = .beginString ∨ st = .beginStringOrEmpty →
        scanValueFrom ⟨st, .parseObjectKey :: σ⟩ (joinComma (es.map memberText) ++ rest)
          = (scanValueFrom ⟨fin, .parseObjectValue :: σ⟩ rest).map
              (fun q => (joinComma (es.map memberText) ++ q.1, q.2)) := by
  induction es with
  | nil => exact absurd rfl hne
  | cons x rest ih =>
    obtain ⟨finx, hfinx, hx⟩ := h x (by simp)
    cases rest with
    | nil =>
      exact ⟨finx, hfinx, fun st tail hst => scanValueFrom_member st σ x finx tail hst hx⟩
    | cons y rest =>
      obtain ⟨fin, hfin, hrest⟩ := ih (fun t ht => h t (List.mem_cons_of_mem _ ht)) (by simp)
      refine ⟨fin, hfin, fun st tail hst => ?_⟩
      have e1 : joinComma ((x :: y :: rest).map memberText) ++ tail
          = memberText x ++ (',' :: (joinComma ((y :: rest).map memberText) ++ tail)) := by
        simp [joinComma]
      rw [e1, scanValueFrom_member st σ x finx _ hst hx,
        scanValueFrom_cons ⟨finx, .parseObjectValue :: σ⟩ ⟨.beginString, .parseObjectKey :: σ⟩
          ',' _ rfl (scanStep_object_comma finx σ hfinx) rfl,
        hrest .beginString tail (Or.inl rfl), map_walk_cons, map_walk_append]
      simp [joinComma]

/-- The walk over an object from its opening brace to the state before its closing
brace. -/
theorem scanValueFrom_object (st : Step) (σ : List ParseState) (es : List (String × List Char))
    (rest : List Char) (hst : st = .beginValue ∨ st = .beginValueOrEmpty)
    (hdepth : σ.length + 1 ≤ maxNestingDepth)
    (h : ∀ e ∈ es, WalksOver (.parseObjectValue :: σ) e.2)
    (hearly : (σ.isEmpty && st.numberMayEnd && !continuesNumber st '{') = false) :
    ∃ (fin : Step) (top : ParseState),
      scanStep ⟨fin, top :: σ⟩ '}' = .ok (popParseState ⟨.endValue, top :: σ⟩) ∧
      scanValueFrom ⟨st, σ⟩ ('{' :: joinComma (es.map memberText) ++ '}' :: rest)
        = (scanValueFrom ⟨fin, top :: σ⟩ ('}' :: rest)).map
            (fun q => ('{' :: joinComma (es.map memberText) ++ q.1, q.2)) := by
  have h1 := scanValueFrom_cons ⟨st, σ⟩ _ '{'
    (joinComma (es.map memberText) ++ '}' :: rest) hearly
    (scanStep_open_object st σ hst hdepth) rfl
  by_cases hne : es = []
  · subst hne
    refine ⟨.beginStringOrEmpty, .parseObjectKey, rfl, ?_⟩
    exact h1
  · obtain ⟨fin, hfin, hw⟩ := scanValueFrom_members σ es h hne
    refine ⟨fin, .parseObjectValue, scanStep_object_close fin σ hfin, ?_⟩
    rw [List.cons_append, h1, hw _ _ (Or.inr rfl), map_walk_cons]
    try rfl

/-- Inside a composite value the walk passes over an object whose member values it passes
over. -/
theorem walksOver_object (p : ParseState) (σ : List ParseState)
    (es : List (String × List Char)) (hdepth : (p :: σ).length + 1 ≤ maxNestingDepth)
    (h : ∀ e ∈ es, WalksOver (.parseObjectValue :: p :: σ) e.2) :
    WalksOver (p :: σ) ('{' :: joinComma (es.map memberText) ++ ['}']) := by
  refine ⟨.endValue, Or.inl rfl, fun st rest hst => ?_⟩
  obtain ⟨fin, top, hclose, h1⟩ := scanValueFrom_object st (p :: σ) es rest hst hdepth h rfl
  have e : ('{' :: joinComma (es.map memberText) ++ ['}']) ++ rest
      = '{' :: joinComma (es.map memberText) ++ '}' :: rest := by simp
  rw [e, h1, scanValueFrom_close_inner fin top p σ '}' rest hclose]
  cases scanValueFrom ⟨.endValue, p :: σ⟩ rest <;> simp

/-- An object on its own is one complete value when the walk passes over its member
values. -/
theorem scanValue_object (es : List (String × List Char))
    (h : ∀ e ∈ es, WalksOver [.parseObjectValue] e.2) :
    scanValue ('{' :: joinComma (es.map memberText) ++ ['}'])
      = some ('{' :: joinComma (es.map memberText) ++ ['}'], []) := by
  obtain ⟨fin, top, hclose, h1⟩ :=
    scanValueFrom_object .beginValue [] es [] (Or.inl rfl) (by decide) h rfl
  show scanValueFrom ⟨.beginValue, []⟩ ('{' :: joinComma (es.map memberText) ++ ['}']) = _
  rw [h1, scanValueFrom_close_top fin top '}' [] hclose]
  rfl

/-- Putting an entry in front of entries with greater keys leaves it in front. -/
theorem insertEntry_of_less (e : String × List Char) (es : List (String × List Char))
    (h : ∀ e1 ∈ es, stringLess e1.1.data e.1.data = false) : insertEntry e es = e :: es := by
  cases es with
  | nil => rfl
  | cons e1 rest => simp [insertEntry, h e1 (by simp)]

theorem stringLess_asymm (a b : List Char) (h : stringLess a b = true) :
    stringLess b a = false := by
  induction a generalizing b with
  | nil => cases b <;> simp_all [stringLess]
  | cons x xs ih =>
    cases b with
    | nil => simp [stringLess] at h
    | cons y ys =>
      simp only [stringLess, Bool.or_eq_true, decide_eq_true_eq, Bool.and_eq_true,
        beq_iff_eq] at h
      simp only [stringLess, Bool.or_eq_false_iff, decide_eq_false_iff_not, not_lt,
        Bool.and_eq_false_imp, beq_iff_eq]
      rcases h with h | ⟨h1, h2⟩
      · refine ⟨by omega, fun e => ?_⟩
        subst e; omega
      · subst h1
        exact ⟨le_refl _, fun _ => ih ys h2⟩

theorem stringLess_irrefl (a : List Char) : stringLess a a = false := by
  induction a with
  | nil => rfl
  | cons x xs ih => simp [stringLess, ih]

/-- Entries whose keys are increasing are in the order the encoder writes them. -/
theorem sortEntries_of_increasing (es : List (String × List Char))
    (h : keysIncreasing (es.map (fun e => e.1)) = true) : sortEntries es = es := by
  induction es with
  | nil => rfl
  | cons e rest ih =>
    simp only [List.map_cons, keysIncreasing, Bool.and_eq_true, List.all_eq_true,
      List.mem_map, forall_exists_index, and_imp, forall_apply_eq_imp_iff₂] at h
    rw [sortEntries, ih h.2]
    exact insertEntry_of_less e rest (fun e1 he1 => stringLess_asymm _ _ (h.1 e1 he1))

/-- The encoder keeps the keys of a map. -/
theorem marshalEntries_keys (kvs : List (String × GoVal)) :
    ∀ es, marshalEntries kvs = .ok es → es.map (fun e => e.1) = kvs.map (fun e => e.1) := by
  induction kvs with
  | nil => intro es h; simp [marshalEntries] at h; subst h; rfl
  | cons kv rest ih =>
    intro es h
    obtain ⟨k, x⟩ := kv
    rw [marshalEntries] at h
    cases hx : marshalValue x with
    | error e => simp [hx] at h
    | ok t =>
      cases hr : marshalEntries rest with
      | error e => simp [hx, hr] at h
      | ok ts =>
        simp [hx, hr] at h
        subst h
        simp [ih ts hr]

mutual
/-- Inside a composite value the walk passes over the encoding of a JSON value that is not
nested too deep. -/
theorem walksOver_marshalValue : ∀ (v : GoVal) (t : List Char), v.isJSON = true →
    marshalValue v = .ok t → ∀ (p : ParseState) (σ : List ParseState),
    (p :: σ).length + v.depth ≤ maxNestingDepth → WalksOver (p :: σ) t
  | .nil, t, _, hm, p, σ, _ => by
    simp only [marshalValue, Except.ok.injEq] at hm
    subst hm
    exact walksOver_literal p σ _ (Or.inl rfl)
  | .bool b, t, _, hm, p, σ, _ => by
    simp only [marshalValue, Except.ok.injEq] at hm
    subst hm
    cases b
    · exact walksOver_literal p σ _ (Or.inr (Or.inr rfl))
    · exact walksOver_literal p σ _ (Or.inr (Or.inl rfl))
  | .str s, t, _, hm, p, σ, _ => by
    simp only [marshalValue, Except.ok.injEq] at hm
    subst hm
    exact walksOver_quoteString p σ s
  | .float f, t, hj, hm, p, σ, _ => by
    simp only [GoVal.isJSON, Bool.and_eq_true] at hj
    simp only [marshalValue, hj.1, if_true, Except.ok.injEq] at hm
    subst hm
    exact walksOver_float p σ f hj.1
  | .slice xs, t, hj, hm, p, σ, hd => by
    rw [marshalValue] at hm
    cases hx : marshalElems xs with
    | error e => simp [hx] at hm
    | ok texts =>
      simp only [hx, Except.ok.injEq] at hm
      subst hm
      rw [GoVal.isJSON] at hj
      rw [GoVal.depth] at hd
      refine walksOver_array p σ texts ?_ ?_
      · simp only [List.length_cons] at hd ⊢; omega
      · exact walksOver_marshalElems xs texts hj hx .parseArrayValue (p :: σ)
          (by simp only [List.length_cons] at hd ⊢; omega)
  | .map kvs, t, hj, hm, p, σ, hd => by
    rw [marshalValue] at hm
    cases hx : marshalEntries kvs with
    | error e => simp [hx] at hm
    | ok es =>
      simp only [hx, Except.ok.injEq] at hm
      subst hm
      simp only [GoVal.isJSON, Bool.and_eq_true] at hj
      rw [GoVal.depth] at hd
      rw [sortEntries_of_increasing es (by rw [marshalEntries_keys kvs es hx]; exact hj.2)]
      refine walksOver_object p σ es ?_ ?_
      · simp only [List.length_cons] at hd ⊢; omega
      · exact walksOver_marshalEntries kvs es hj.1 hx .parseObjectValue (p :: σ)
          (by simp only [List.length_cons] at hd ⊢; omega)
  | .int _, _, hj, _, _, _, _ => by simp [GoVal.isJSON] at hj
  | .raw _, _, hj, _, _, _, _ => by simp [GoVal.isJSON] at hj
  | .struct _, _, hj, _, _, _, _ => by simp [GoVal.isJSON] at hj
/-- Inside a composite value the walk passes over the encoding of each JSON value of a
list. -/
theorem walksOver_marshalElems : ∀ (xs : List GoVal) (ts : List (List Char)),
    GoVal.allJSON xs = true → marshalElems xs = .ok ts →
    ∀ (p : ParseState) (σ : List ParseState),
    (p :: σ).length + GoVal.depthList xs ≤ maxNestingDepth → ∀ t ∈ ts, WalksOver (p :: σ) t
  | [], ts, _, hm, _, _, _ => by
    simp only [marshalElems, Except.ok.injEq] at hm
    subst hm
    simp
  | x :: rest, ts, hj, hm, p, σ, hd => by
    rw [marshalElems] at hm
    simp only [GoVal.allJSON, Bool.and_eq_true] at hj
    rw [GoVal.depthList] at hd
    cases hx : marshalValue x with
    | error e => simp [hx] at hm
    | ok t =>
      cases hr : marshalElems rest with
      | error e => simp [hx, hr] at hm
      | ok ts1 =>
        simp only [hx, hr, Except.ok.injEq] at hm
        subst hm
        intro t1 ht1
        rcases List.mem_cons.mp ht1 with e | hmem
        · subst e
          exact walksOver_marshalValue x t1 hj.1 hx p σ (by omega)
        · exact walksOver_marshalElems rest ts1 hj.2 hr p σ (by omega) t1 hmem
/-- Inside a composite value the walk passes over the encoding of each JSON value of a list
of entries. -/
theorem walksOver_marshalEntries : ∀ (kvs : List (String × GoVal))
    (es : List (String × List Char)),
    GoVal.entriesJSON kvs = true → marshalEntries kvs = .ok es →
    ∀ (p : ParseState) (σ : List ParseState),
    (p :: σ).length + GoVal.depthEntries kvs ≤ maxNestingDepth →
    ∀ e ∈ es, WalksOver (p :: σ) e.2
  | [], es, _, hm, _, _, _ => by
    simp only [marshalEntries, Except.ok.injEq] at hm
    subst hm
    simp
  | (k, x) :: rest, es, hj, hm, p, σ, hd => by
    rw [marshalEntries] at hm
    simp only [GoVal.entriesJSON, Bool.and_eq_true] at hj
    rw [GoVal.depthEntries] at hd
    cases hx : marshalValue x with
    | error e => simp [hx] at hm
    | ok t =>
      cases hr : marshalEntries rest with
      | error e => simp [hx, hr] at hm
      | ok es1 =>
        simp only [hx, hr, Except.ok.injEq] at hm
        subst hm
        intro e1 he1
        rcases List.mem_cons.mp he1 with e | hmem
        · subst e
          exact walksOver_marshalValue x t hj.1 hx p σ (by omega)
        · exact walksOver_marshalEntries rest es1 hj.2 hr p σ (by omega) e1 hmem
end

/-- The encoding of a JSON value that is not nested too deep is one complete value for the
decoder's walk. -/
theorem scanValue_marshalValue (v : GoVal) (t : List Char) (hj : v.isJSON = true)
    (hm : marshalValue v = .ok t) (hd : v.depth ≤ maxNestingDepth) :
    scanValue t = some (t, []) := by
  cases v with
  | nil => simp only [marshalValue, Except.ok.injEq] at hm; subst hm; rfl
  | bool b =>
    simp only [marshalValue, Except.ok.injEq] at hm; subst hm
    cases b <;> rfl
  | str s => simp only [marshalValue, Except.ok.injEq] at hm; subst hm; exact scanValue_quoteString s
  | float f =>
    simp only [GoVal.isJSON, Bool.and_eq_true] at hj
    simp only [marshalValue, hj.1, if_true, Except.ok.injEq] at hm
    subst hm
    have hf := hj.1
    unfold Float64.isFinite at hf
    cases hdata : f.text.data with
    | nil => simp [hdata] at hf
    | cons c cs =>
      simp only [hdata, Bool.and_eq_true, beq_iff_eq] at hf
      exact hf.2
  | slice xs =>
    rw [marshalValue] at hm
    cases hx : marshalElems xs with
    | error e => simp [hx] at hm
    | ok texts =>
      simp only [hx, Except.ok.injEq] at hm
      subst hm
      rw [GoVal.isJSON] at hj
      rw [GoVal.depth] at hd
      exact scanValue_array texts
        (walksOver_marshalElems xs texts hj hx .parseArrayValue [] (by
          simp only [List.length_cons, List.length_nil]; omega))
  | map kvs =>
    rw [marshalValue] at hm
    cases hx : marshalEntries kvs with
    | error e => simp [hx] at hm
    | ok es =>
      simp only [hx, Except.ok.injEq] at hm
      subst hm
      simp only [GoVal.isJSON, Bool.and_eq_true] at hj
      rw [GoVal.depth] at hd
      rw [sortEntries_of_increasing es (by rw [marshalEntries_keys kvs es hx]; exact hj.2)]
      exact scanValue_object es
        (walksOver_marshalEntries kvs es hj.1 hx .parseObjectValue [] (by
          simp only [List.length_cons, List.length_nil]; omega))
  | int _ => simp [GoVal.isJSON] at hj
  | raw _ => simp [GoVal.isJSON] at hj
  | struct _ => simp [GoVal.isJSON] at hj

/-- What the decoder's walk takes as one complete value, the scanner accepts, and ends
with an empty stack at the end of a value or in a number that may end. -/
theorem scanRun_of_scanValueFrom (xs : List Char) :
    ∀ s : Scanner, scanValueFrom s xs = some (xs, []) →
      ∃ s1, scanRun s xs = .ok s1 ∧ s1.parseState = [] ∧
        (s1.step = .endValue ∨ s1.step = .endTop ∨ s1.step.numberMayEnd = true) := by
  induction xs with
  | nil =>
    intro s h
    refine ⟨s, rfl, ?_⟩
    simp only [scanValueFrom] at h
    split at h
    · rename_i hs
      simp only [Bool.and_eq_true, List.isEmpty_iff] at hs
      exact ⟨hs.1, Or.inr (Or.inr hs.2)⟩
    · cases h
  | cons c cs ih =>
    intro s h
    rw [scanValueFrom] at h
    split at h
    · simp at h
    · cases hstep : scanStep s c with
      | error e => simp [hstep] at h
      | ok s1 =>
        simp only [hstep] at h
        split at h
        · rename_i hs
          simp only [Option.some.injEq, Prod.mk.injEq, List.cons.injEq, true_and] at h
          have hcs : cs = [] := h.2
          subst hcs
          simp only [Bool.and_eq_true, List.isEmpty_iff, Bool.or_eq_true,
            decide_eq_true_eq] at hs
          refine ⟨s1, by simp [scanRun, hstep], hs.1, ?_⟩
          rcases hs.2 with h1 | h1
          · exact Or.inl h1
          · exact Or.inr (Or.inl h1)
        · cases hr : scanValueFrom s1 cs with
          | none => simp [hr] at h
          | some q =>
            obtain ⟨raw, r⟩ := q
            simp only [hr, Option.some.injEq, Prod.mk.injEq, List.cons.injEq, true_and] at h
            obtain ⟨s2, h2, h3⟩ := ih s1 (by rw [hr, h.1, h.2])
            exact ⟨s2, by simp [scanRun, hstep, h2], h3⟩

/-- A text that is one complete value for the decoder's walk is a valid JSON text. -/
theorem checkValid_of_scanValue (xs : List Char) (h : scanValue xs = some (xs, [])) :
    checkValid xs = .ok () := by
  cases xs with
  | nil => simp [scanValue] at h
  | cons c cs =>
    simp only [scanValue] at h
    split at h
    · cases h
    · obtain ⟨s1, hrun, hstack, hstep⟩ := scanRun_of_scanValueFrom _ _ h
      obtain ⟨st, σ⟩ := s1
      simp only at hstack hstep
      subst hstack
      unfold checkValid
      rw [hrun]
      rcases hstep with h1 | h1 | h1
      · subst h1; rfl
      · subst h1; rfl
      · cases st <;> first | rfl | cases h1

/-- A complete value is not empty and starts with neither white space nor a closing
bracket or brace. -/
theorem head_of_scanValue (t : List Char) (h : scanValue t = some (t, [])) :
    ∃ c cs, t = c :: cs ∧ isSpace c = false ∧ c ≠ ']' ∧ c ≠ '}' := by
  cases t with
  | nil => simp [scanValue] at h
  | cons c cs =>
    refine ⟨c, cs, rfl, ?_, ?_, ?_⟩
    · by_contra hn
      simp [scanValue, hn] at h
    · intro hc
      subst hc
      simp [scanValue, isSpace, scanValueFrom, Scanner.reset, scanStep, stateBeginValue,
        Step.numberMayEnd, isDigit19] at h
    · intro hc
      subst hc
      simp [scanValue, isSpace, scanValueFrom, Scanner.reset, scanStep, stateBeginValue,
        Step.numberMayEnd, isDigit19] at h

/-- A complete value is found again when a delimiter follows it. -/
theorem scanValue_delimiter (r : List Char) (d : Char) (rest : List Char)
    (hd : d = ',' ∨ d = '}' ∨ d = ']') (h : scanValue r = some (r, [])) :
    scanValue (r ++ d :: rest) = some (r, d :: rest) := by
  have := scanValue_append_delimiter r d rest hd h
  rwa [skipSpace_of_scanValue r _ r [] h] at this

/-- Texts joined by commas start with the first text. -/
theorem joinComma_cons (x : List Char) (rest : List (List Char)) (tail : List Char) :
    ∃ tail1, joinComma (x :: rest) ++ tail = x ++ tail1 := by
  cases rest with
  | nil => exact ⟨tail, rfl⟩
  | cons y rest => exact ⟨',' :: (joinComma (y :: rest) ++ tail), by simp [joinComma]⟩

/-- The elements of an array are found again in the texts joined by commas. -/
theorem splitElems_joinComma (texts : List (List Char)) :
    texts ≠ [] → (∀ t ∈ texts, scanValue t = some (t, [])) →
    ∀ (fuel : Nat) (rest : List Char), texts.length ≤ fuel →
      splitElems fuel (joinComma texts ++ ']' :: rest) = some texts := by
  induction texts with
  | nil => intro hne; exact absurd rfl hne
  | cons x more ih =>
    intro _ h fuel rest hfuel
    obtain ⟨f, rfl⟩ : ∃ f, fuel = f + 1 := ⟨fuel - 1, by simp at hfuel; omega⟩
    cases more with
    | nil =>
      simp only [joinComma, splitElems,
        scanValue_delimiter x ']' rest (by simp) (h x (by simp)), skipSpace]
      rfl
    | cons y more =>
      have e1 : joinComma (x :: y :: more) ++ ']' :: rest
          = x ++ ',' :: (joinComma (y :: more) ++ ']' :: rest) := by simp [joinComma]
      obtain ⟨tail1, e2⟩ := joinComma_cons y more (']' :: rest)
      have hskip : skipSpace (joinComma (y :: more) ++ ']' :: rest)
          = joinComma (y :: more) ++ ']' :: rest := by
        rw [e2]
        exact skipSpace_of_scanValue y tail1 y [] (h y (by simp))
      have hrec := ih (by simp) (fun t ht => h t (List.mem_cons_of_mem _ ht)) f rest
        (by simp at hfuel ⊢; omega)
      have hs : skipSpace (',' :: (joinComma (y :: more) ++ ']' :: rest))
          = ',' :: (joinComma (y :: more) ++ ']' :: rest) := rfl
      rw [e1, splitElems, scanValue_delimiter x ',' _ (by simp) (h x (by simp))]
      simp only [hs, hskip, hrec]
      rfl

/-- Joined texts are at least as long as their number, when none is empty. -/
theorem length_joinComma (texts : List (List Char)) (h : ∀ t ∈ texts, t ≠ []) :
    texts.length ≤ (joinComma texts).length + 1 := by
  induction texts with
  | nil => simp
  | cons x more ih =>
    cases more with
    | nil => simp [joinComma]
    | cons y more =>
      have := ih (fun t ht => h t (List.mem_cons_of_mem _ ht))
      simp only [joinComma, List.length_cons, List.length_append] at this ⊢
      omega

/-- The elements of an encoded array are the encodings of its elements. -/
theorem splitArray_joinComma (texts : List (List Char))
    (h : ∀ t ∈ texts, scanValue t = some (t, [])) :
    splitArray ('[' :: joinComma texts ++ [']']) = some texts := by
  cases texts with
  | nil => rfl
  | cons x more =>
    obtain ⟨tail1, e2⟩ := joinComma_cons x more [']']
    obtain ⟨c, cs, hx, hsp, hne, -⟩ := head_of_scanValue x (h x (by simp))
    have hskip : skipSpace (joinComma (x :: more) ++ [']']) = joinComma (x :: more) ++ [']'] := by
      rw [e2]
      exact skipSpace_of_scanValue x tail1 x [] (h x (by simp))
    have hlen := length_joinComma (x :: more) (fun t ht => by
      obtain ⟨c, cs, e, -⟩ := head_of_scanValue t (h t ht)
      rw [e]; simp)
    have hsplit := splitElems_joinComma (x :: more) (by simp) h
      (joinComma (x :: more) ++ [']']).length [] (by
        simp only [List.length_append, List.length_singleton]; exact hlen)
    show (match skipSpace (joinComma (x :: more) ++ [']']) with
      | ']' :: _ => some []
      | data => splitElems data.length data) = _
    rw [hskip]
    have e3 : joinComma (x :: more) ++ [']'] = c :: (cs ++ tail1) := by rw [e2, hx]; rfl
    rw [e3] at hsplit ⊢
    split
    · rename_i heq
      cases heq
      exact absurd rfl hne
    · exact hsplit

/-- A quoted key is found again when a colon follows it. -/
theorem scanValue_key (k : String) (rest : List Char) :
    scanValue (quoteString k ++ ':' :: rest) = some (quoteString k, ':' :: rest) := by
  refine scanValue_append (quoteString k) _ (fun c hc st hst => ?_) (scanValue_quoteString k)
  have : c = ':' := by simpa using hc.symm
  subst this
  cases st <;> first | rfl | cases hst

/-- The members of an object are found again in the member texts joined by commas. -/
theorem splitMembers_joinComma (es : List (String × List Char)) :
    es ≠ [] → (∀ e ∈ es, scanValue e.2 = some (e.2, [])) →
    ∀ (fuel : Nat) (rest : List Char), es.length ≤ fuel →
      splitMembers fuel (joinComma (es.map memberText) ++ '}' :: rest) = some es := by
  induction es with
  | nil => intro hne; exact absurd rfl hne
  | cons x more ih =>
    intro _ h fuel rest hfuel
    obtain ⟨f, rfl⟩ : ∃ f, fuel = f + 1 := ⟨fuel - 1, by simp at hfuel; omega⟩
    obtain ⟨k, t⟩ := x
    have ht := h (k, t) (by simp)
    cases more with
    | nil =>
      have e1 : joinComma ([(k, t)].map memberText) ++ '}' :: rest
          = quoteString k ++ ':' :: (t ++ '}' :: rest) := by simp [joinComma, memberText]
      rw [e1]
      exact splitMembers_last f _ (quoteString k) (':' :: (t ++ '}' :: rest)) (t ++ '}' :: rest)
        t ('}' :: rest) rest k (scanValue_key k _) (unquote_quoteString k) rfl
        (scanValue_append_delimiter t '}' rest (by simp) ht) rfl
    | cons y more =>
      have e1 : joinComma (((k, t) :: y :: more).map memberText) ++ '}' :: rest
          = quoteString k ++ ':' :: (t ++ ',' ::
              (joinComma ((y :: more).map memberText) ++ '}' :: rest)) := by
        simp [joinComma, memberText]
      have hskip : skipSpace (joinComma ((y :: more).map memberText) ++ '}' :: rest)
          = joinComma ((y :: more).map memberText) ++ '}' :: rest := by
        obtain ⟨tail1, e2⟩ := joinComma_cons (memberText y) (more.map memberText) ('}' :: rest)
        rw [List.map_cons, e2]
        rfl
      have hrec := ih (by simp) (fun e he => h e (List.mem_cons_of_mem _ he)) f rest
        (by simp at hfuel ⊢; omega)
      rw [e1, splitMembers_step f _ (quoteString k) (':' :: (t ++ ',' ::
          (joinComma ((y :: more).map memberText) ++ '}' :: rest)))
        (t ++ ',' :: (joinComma ((y :: more).map memberText) ++ '}' :: rest)) t
        (',' :: (joinComma ((y :: more).map memberText) ++ '}' :: rest))
        (joinComma ((y :: more).map memberText) ++ '}' :: rest) k
        (scanValue_key k _) (unquote_quoteString k) rfl
        (scanValue_append_delimiter t ',' _ (by simp) ht) rfl,
        hskip, hrec]
      rfl

/-- Joined member texts are at least as long as their number. -/
theorem length_joinComma_members (es : List (String × List Char)) :
    es.length ≤ (joinComma (es.map memberText)).length + 1 :=
  (List.length_map es memberText) ▸ length_joinComma (es.map memberText) (fun t ht => by
    obtain ⟨e, -, rfl⟩ := List.mem_map.mp ht
    simp [memberText, quoteString])

/-- The members of an encoded object are its keys with the encodings of their values. -/
theorem splitObject_joinComma (es : List (String × List Char))
    (h : ∀ e ∈ es, scanValue e.2 = some (e.2, [])) :
    splitObject ('{' :: joinComma (es.map memberText) ++ ['}']) = some es := by
  cases es with
  | nil => rfl
  | cons x more =>
    obtain ⟨tail1, e2⟩ := joinComma_cons (memberText x) (more.map memberText) ['}']
    have hsplit := splitMembers_joinComma (x :: more) (by simp) h
      (joinComma ((x :: more).map memberText) ++ ['}']).length [] (by
        simp only [List.length_append, List.length_singleton]
        exact length_joinComma_members (x :: more))
    have e3 : joinComma ((x :: more).map memberText) ++ ['}']
        = '"' :: (escapeString x.1.data ++ ['"'] ++ ':' :: x.2 ++ tail1) := by
      rw [List.map_cons, e2]
      simp [memberText, quoteString]
    show (match skipSpace (joinComma ((x :: more).map memberText) ++ ['}']) with
      | '}' :: _ => some []
      | data => splitMembers data.length data) = _
    rw [e3] at hsplit ⊢
    exact hsplit

/-- An entry whose key is greater than every key of a map is put at its end. -/
theorem mapInsert_last (k : String) (v : GoVal) (acc : List (String × GoVal))
    (h : ∀ a ∈ acc, stringLess a.1.data k.data = true) :
    mapInsert k v acc = acc ++ [(k, v)] := by
  induction acc with
  | nil => rfl
  | cons a rest ih =>
    obtain ⟨k1, v1⟩ := a
    have h1 := h (k1, v1) (by simp)
    have hne : k ≠ k1 := by
      intro e
      subst e
      rw [stringLess_irrefl] at h1
      cases h1
    have h2 : stringLess k.data k1.data = false := stringLess_asymm _ _ h1
    simp only [mapInsert, hne, if_false, h2, Bool.false_eq_true, List.cons_append,
      ih (fun a ha => h a (List.mem_cons_of_mem _ ha))]

/-- The encodings of the JSON values of a list are complete values. -/
theorem scanValue_marshalElems (xs : List GoVal) :
    ∀ texts, GoVal.allJSON xs = true → marshalElems xs = .ok texts →
      GoVal.depthList xs ≤ maxNestingDepth → ∀ t ∈ texts, scanValue t = some (t, []) := by
  induction xs with
  | nil =>
    intro texts _ hm _
    simp only [marshalElems, Except.ok.injEq] at hm
    subst hm
    simp
  | cons x rest ih =>
    intro texts hj hm hd
    rw [marshalElems] at hm
    simp only [GoVal.allJSON, Bool.and_eq_true] at hj
    rw [GoVal.depthList] at hd
    cases hx : marshalValue x with
    | error e => simp [hx] at hm
    | ok t =>
      cases hr : marshalElems rest with
      | error e => simp [hx, hr] at hm
      | ok ts1 =>
        simp only [hx, hr, Except.ok.injEq] at hm
        subst hm
        intro t1 ht1
        rcases List.mem_cons.mp ht1 with e | hmem
        · subst e
          exact scanValue_marshalValue x t1 hj.1 hx (by omega)
        · exact ih ts1 hj.2 hr (by omega) t1 hmem

/-- The encodings of the JSON values of a list of entries are complete values. -/
theorem scanValue_marshalEntries (kvs : List (String × GoVal)) :
    ∀ es, GoVal.entriesJSON kvs = true → marshalEntries kvs = .ok es →
      GoVal.depthEntries kvs ≤ maxNestingDepth → ∀ e ∈ es, scanValue e.2 = some (e.2, []) := by
  induction kvs with
  | nil =>
    intro es _ hm _
    simp only [marshalEntries, Except.ok.injEq] at hm
    subst hm
    simp
  | cons kv rest ih =>
    intro es hj hm hd
    obtain ⟨k, x⟩ := kv
    rw [marshalEntries] at hm
    simp only [GoVal.entriesJSON, Bool.and_eq_true] at hj
    rw [GoVal.depthEntries] at hd
    cases hx : marshalValue x with
    | error e => simp [hx] at hm
    | ok t =>
      cases hr : marshalEntries rest with
      | error e => simp [hx, hr] at hm
      | ok es1 =>
        simp only [hx, hr, Except.ok.injEq] at hm
        subst hm
        intro e1 he1
        rcases List.mem_cons.mp he1 with e | hmem
        · subst e
          exact scanValue_marshalValue x t hj.1 hx (by omega)
        · exact ih es1 hj.2 hr (by omega) e1 hmem

/-- The decoding of a number into an empty interface. -/
theorem decodeInterface_number (fuel : Nat) (ctx : ErrorContext) (c : Char) (cs : List Char)
    (hc : (c == '-' || isDigit c) = true) (ho : parseFloatOverflows (c :: cs) = false) :
    decodeInterface (fuel + 1) ctx (c :: cs) = .ok (.float ⟨String.mk (c :: cs)⟩) := by
  have hne : c ≠ '{' ∧ c ≠ '[' ∧ c ≠ '"' ∧ c ≠ 't' ∧ c ≠ 'f' ∧ c ≠ 'n' := by
    refine ⟨?_, ?_, ?_, ?_, ?_, ?_⟩ <;> (intro h; subst h; revert hc; decide)
  obtain ⟨h1, h2, h3, h4, h5, h6⟩ := hne
  unfold decodeInterface
  split
  · rename_i heq; cases heq; contradiction
  · rename_i heq; cases heq; contradiction
  · rename_i heq; cases heq; contradiction
  · rename_i heq; cases heq; contradiction
  · rename_i heq; cases heq; contradiction
  · rename_i heq; cases heq; contradiction
  · simp [ho]

mutual
/-- Decoding the encoding of a JSON value into an empty interface gives the value back. -/
theorem decodeInterface_marshalValue : ∀ (v : GoVal) (t : List Char), v.isJSON = true →
    marshalValue v = .ok t → v.depth ≤ maxNestingDepth →
    ∀ (fuel : Nat) (ctx : ErrorContext), v.depth < fuel → decodeInterface fuel ctx t = .ok v
  | .nil, t, _, hm, _, fuel, ctx, hf => by
    simp only [marshalValue, Except.ok.injEq] at hm
    subst hm
    obtain ⟨f, rfl⟩ : ∃ f, fuel = f + 1 := ⟨fuel - 1, by omega⟩
    rfl
  | .bool b, t, _, hm, _, fuel, ctx, hf => by
    simp only [marshalValue, Except.ok.injEq] at hm
    subst hm
    obtain ⟨f, rfl⟩ : ∃ f, fuel = f + 1 := ⟨fuel - 1, by omega⟩
    cases b <;> rfl
  | .str s, t, _, hm, _, fuel, ctx, hf => by
    simp only [marshalValue, Except.ok.injEq] at hm
    subst hm
    obtain ⟨f, rfl⟩ : ∃ f, fuel = f + 1 := ⟨fuel - 1, by omega⟩
    show (match unquote (quoteString s) with
      | none => Except.error phaseError
      | some str => Except.ok (GoVal.str str)) = _
    rw [unquote_quoteString]
  | .float x, t, hj, hm, _, fuel, ctx, hf => by
    simp only [GoVal.isJSON, Bool.and_eq_true, Bool.not_eq_true'] at hj
    simp only [marshalValue, hj.1, if_true, Except.ok.injEq] at hm
    subst hm
    obtain ⟨f, rfl⟩ : ∃ f, fuel = f + 1 := ⟨fuel - 1, by omega⟩
    have hfin := hj.1
    unfold Float64.isFinite at hfin
    cases hdata : x.text.data with
    | nil => simp [hdata] at hfin
    | cons c cs =>
      simp only [hdata, Bool.and_eq_true] at hfin
      rw [decodeInterface_number f ctx c cs hfin.1 (hdata ▸ hj.2), ← hdata]
  | .slice xs, t, hj, hm, hd, fuel, ctx, hf => by
    rw [marshalValue] at hm
    cases hx : marshalElems xs with
    | error e => simp [hx] at hm
    | ok texts =>
      simp only [hx, Except.ok.injEq] at hm
      subst hm
      rw [GoVal.isJSON] at hj
      rw [GoVal.depth] at hd hf
      obtain ⟨f, rfl⟩ : ∃ f, fuel = f + 1 := ⟨fuel - 1, by omega⟩
      show (match splitArray ('[' :: joinComma texts ++ [']']) with
        | none => Except.error phaseError
        | some es => (es.mapM (decodeInterface f ctx)).map GoVal.slice) = _
      rw [splitArray_joinComma texts (scanValue_marshalElems xs texts hj hx (by omega))]
      show Except.map GoVal.slice (texts.mapM (decodeInterface f ctx)) = _
      rw [decodeInterface_marshalElems xs texts hj hx (by omega) f ctx (by omega)]
      rfl
  | .map kvs, t, hj, hm, hd, fuel, ctx, hf => by
    rw [marshalValue] at hm
    cases hx : marshalEntries kvs with
    | error e => simp [hx] at hm
    | ok es =>
      simp only [hx, Except.ok.injEq] at hm
      subst hm
      simp only [GoVal.isJSON, Bool.and_eq_true] at hj
      rw [GoVal.depth] at hd hf
      obtain ⟨f, rfl⟩ : ∃ f, fuel = f + 1 := ⟨fuel - 1, by omega⟩
      rw [sortEntries_of_increasing es (by rw [marshalEntries_keys kvs es hx]; exact hj.2)]
      show (match splitObject ('{' :: joinComma (es.map memberText) ++ ['}']) with
        | none => Except.error phaseError
        | some ms =>
          (ms.foldlM (fun (acc : List (String × GoVal)) (m : String × List Char) =>
            (decodeInterface f ctx m.2).map (fun v => mapInsert m.1 v acc)) []).map
              GoVal.map) = _
      rw [splitObject_joinComma es (scanValue_marshalEntries kvs es hj.1 hx (by omega))]
      show Except.map GoVal.map (es.foldlM
        (fun (acc : List (String × GoVal)) (m : String × List Char) =>
          (decodeInterface f ctx m.2).map (fun v => mapInsert m.1 v acc)) []) = _
      rw [decodeInterface_marshalEntries kvs es hj.1 hx (by omega) hj.2 f ctx [] (by omega)
          (by simp)]
      rfl
  | .int _, _, hj, _, _, _, _, _ => by simp [GoVal.isJSON] at hj
  | .raw _, _, hj, _, _, _, _, _ => by simp [GoVal.isJSON] at hj
  | .struct _, _, hj, _, _, _, _, _ => by simp [GoVal.isJSON] at hj
/-- Decoding the encodings of the JSON values of a list gives the list back. -/
theorem decodeInterface_marshalElems : ∀ (xs : List GoVal) (texts : List (List Char)),
    GoVal.allJSON xs = true → marshalElems xs = .ok texts →
    GoVal.depthList xs ≤ maxNestingDepth →
    ∀ (fuel : Nat) (ctx : ErrorContext), GoVal.depthList xs < fuel →
      texts.mapM (decodeInterface fuel ctx) = .ok xs
  | [], texts, _, hm, _, _, _, _ => by
    simp only [marshalElems, Except.ok.injEq] at hm
    subst hm
    rfl
  | x :: rest, texts, hj, hm, hd, fuel, ctx, hf => by
    rw [marshalElems] at hm
    simp only [GoVal.allJSON, Bool.and_eq_true] at hj
    rw [GoVal.depthList] at hd hf
    cases hx : marshalValue x with
    | error e => simp [hx] at hm
    | ok t =>
      cases hr : marshalElems rest with
      | error e => simp [hx, hr] at hm
      | ok ts1 =>
        simp only [hx, hr, Except.ok.injEq] at hm
        subst hm
        rw [List.mapM_cons,
          decodeInterface_marshalValue x t hj.1 hx (by omega) fuel ctx (by omega),
          decodeInterface_marshalElems rest ts1 hj.2 hr (by omega) fuel ctx (by omega)]
        rfl
/-- Decoding the encodings of the JSON values of a list of entries with increasing keys
puts the entries at the end of the map, in their order. -/
theorem decodeInterface_marshalEntries : ∀ (kvs : List (String × GoVal))
    (es : List (String × List Char)),
    GoVal.entriesJSON kvs = true → marshalEntries kvs = .ok es →
    GoVal.depthEntries kvs ≤ maxNestingDepth →
    keysIncreasing (kvs.map (fun e => e.1)) = true →
    ∀ (fuel : Nat) (ctx : ErrorContext) (acc : List (String × GoVal)),
    GoVal.depthEntries kvs < fuel →
    (∀ a ∈ acc, ∀ e ∈ kvs, stringLess a.1.data e.1.data = true) →
      es.foldlM (fun (acc : List (String × GoVal)) (m : String × List Char) =>
        (decodeInterface fuel ctx m.2).map (fun v => mapInsert m.1 v acc)) acc
        = .ok (acc ++ kvs)
  | [], es, _, hm, _, _, _, _, acc, _, _ => by
    simp only [marshalEntries, Except.ok.injEq] at hm
    subst hm
    simp [pure, Except.pure]
  | (k, x) :: rest, es, hj, hm, hd, hk, fuel, ctx, acc, hf, hacc => by
    rw [marshalEntries] at hm
    simp only [GoVal.entriesJSON, Bool.and_eq_true] at hj
    rw [GoVal.depthEntries] at hd hf
    simp only [List.map_cons, keysIncreasing, Bool.and_eq_true, List.all_eq_true,
      List.mem_map, forall_exists_index, and_imp, forall_apply_eq_imp_iff₂] at hk
    cases hx : marshalValue x with
    | error e => simp [hx] at hm
    | ok t =>
      cases hr : marshalEntries rest with
      | error e => simp [hx, hr] at hm
      | ok es1 =>
        simp only [hx, hr, Except.ok.injEq] at hm
        subst hm
        rw [List.foldlM_cons,
          decodeInterface_marshalValue x t hj.1 hx (by omega) fuel ctx (by omega)]
        show List.foldlM _ (mapInsert k x acc) es1 = _
        rw [mapInsert_last k x acc (fun a ha => hacc a ha (k, x) (by simp)),
          decodeInterface_marshalEntries rest es1 hj.2 hr (by omega) hk.2 fuel ctx
            (acc ++ [(k, x)]) (by omega) (fun a ha e he => by
              rcases List.mem_append.mp ha with h1 | h1
              · exact hacc a h1 e (List.mem_cons_of_mem _ he)
              · simp only [List.mem_singleton] at h1
                subst h1
                exact hk.1 e he)]
        simp
end

theorem length_joinComma_cons (t : List Char) (ts : List (List Char)) :
    t.length ≤ (joinComma (t :: ts)).length ∧
      (joinComma ts).length ≤ (joinComma (t :: ts)).length := by
  cases ts with
  | nil => simp [joinComma]
  | cons y rest =>
    simp only [joinComma, List.length_append, List.length_cons]
    omega

mutual
/-- A JSON value has an encoding, longer than the value is deep. -/
theorem marshalValue_of_isJSON : ∀ (v : GoVal), v.isJSON = true →
    ∃ t, marshalValue v = .ok t ∧ v.depth < t.length
  | .nil, _ => ⟨_, rfl, by decide⟩
  | .bool b, _ => ⟨_, rfl, by cases b <;> decide⟩
  | .str s, _ => ⟨_, rfl, by simp [quoteString, GoVal.depth]⟩
  | .float f, hj => by
    simp only [GoVal.isJSON, Bool.and_eq_true] at hj
    refine ⟨f.text.data, by simp [marshalValue, hj.1], ?_⟩
    have hfin := hj.1
    unfold Float64.isFinite at hfin
    cases hdata : f.text.data with
    | nil => simp [hdata] at hfin
    | cons c cs => simp [GoVal.depth]
  | .slice xs, hj => by
    rw [GoVal.isJSON] at hj
    obtain ⟨texts, h1, h2⟩ := marshalElems_of_allJSON xs hj
    refine ⟨'[' :: joinComma texts ++ [']'], by simp [marshalValue, h1], ?_⟩
    simp only [GoVal.depth, List.length_cons, List.length_append, List.length_nil]
    omega
  | .map kvs, hj => by
    simp only [GoVal.isJSON, Bool.and_eq_true] at hj
    obtain ⟨es, h1, h2⟩ := marshalEntries_of_entriesJSON kvs hj.1
    refine ⟨'{' :: joinComma ((sortEntries es).map memberText) ++ ['}'],
      by simp [marshalValue, h1], ?_⟩
    rw [sortEntries_of_increasing es (by rw [marshalEntries_keys kvs es h1]; exact hj.2)]
    simp only [GoVal.depth, List.length_cons, List.length_append, List.length_nil]
    omega
  | .int _, hj => by simp [GoVal.isJSON] at hj
  | .raw _, hj => by simp [GoVal.isJSON] at hj
  | .struct _, hj => by simp [GoVal.isJSON] at hj
/-- The JSON values of a list have encodings, together longer than the values are deep. -/
theorem marshalElems_of_allJSON : ∀ (xs : List GoVal), GoVal.allJSON xs = true →
    ∃ texts, marshalElems xs = .ok texts ∧ GoVal.depthList xs ≤ (joinComma texts).length
  | [], _ => ⟨[], rfl, by simp [GoVal.depthList]⟩
  | x :: rest, hj => by
    simp only [GoVal.allJSON, Bool.and_eq_true] at hj
    obtain ⟨t, h1, h2⟩ := marshalValue_of_isJSON x hj.1
    obtain ⟨ts, h3, h4⟩ := marshalElems_of_allJSON rest hj.2
    refine ⟨t :: ts, by simp [marshalElems, h1, h3], ?_⟩
    have := length_joinComma_cons t ts
    rw [GoVal.depthList]
    omega
/-- The JSON values of a list of entries have encodings, together longer than the values
are deep. -/
theorem marshalEntries_of_entriesJSON : ∀ (kvs : List (String × GoVal)),
    GoVal.entriesJSON kvs = true →
    ∃ es, marshalEntries kvs = .ok es ∧
      GoVal.depthEntries kvs ≤ (joinComma (es.map memberText)).length
  | [], _ => ⟨[], rfl, by simp [GoVal.depthEntries]⟩
  | (k, x) :: rest, hj => by
    simp only [GoVal.entriesJSON, Bool.and_eq_true] at hj
    obtain ⟨t, h1, h2⟩ := marshalValue_of_isJSON x hj.1
    obtain ⟨es, h3, h4⟩ := marshalEntries_of_entriesJSON rest hj.2
    refine ⟨(k, t) :: es, by simp [marshalEntries, h1, h3], ?_⟩
    have := length_joinComma_cons (memberText (k, t)) (es.map memberText)
    have hlen : t.length ≤ (memberText (k, t)).length := by
      simp only [memberText, List.length_append, List.length_cons]; omega
    rw [GoVal.depthEntries, List.map_cons]
    omega
end

theorem allJSON_of_forall (p : List GoVal) (h : ∀ v ∈ p, v.isJSON = true) :
    GoVal.allJSON p = true := by
  induction p with
  | nil => rfl
  | cons x rest ih =>
    simp only [GoVal.allJSON, Bool.and_eq_true]
    exact ⟨h x (by simp), ih (fun v hv => h v (List.mem_cons_of_mem _ hv))⟩

theorem depthList_le_of_forall (p : List GoVal) (n : Nat) (h : ∀ v ∈ p, v.depth ≤ n) :
    GoVal.depthList p ≤ n := by
  induction p with
  | nil => simp [GoVal.depthList]
  | cons x rest ih =>
    rw [GoVal.depthList]
    exact max_le (h x (by simp)) (ih (fun v hv => h v (List.mem_cons_of_mem _ hv)))

/-- Decoding the encodings of the JSON values of a list into a slice of empty interfaces
gives the list back. -/
theorem decodeElems_iface (xs : List GoVal) :
    ∀ (texts : List (List Char)), GoVal.allJSON xs = true → marshalElems xs = .ok texts →
    GoVal.depthList xs ≤ maxNestingDepth →
    ∀ (f : Nat) (ctx : ErrorContext) (cur : List GoVal), GoVal.depthList xs < f + 1 →
      decodeElems (decode (f + 1) .iface ctx) GoType.iface.zero cur texts = .ok xs := by
  induction xs with
  | nil =>
    intro texts _ hm _ f ctx cur _
    simp only [marshalElems, Except.ok.injEq] at hm
    subst hm
    rfl
  | cons x rest ih =>
    intro texts hj hm hd f ctx cur hf
    rw [marshalElems] at hm
    simp only [GoVal.allJSON, Bool.and_eq_true] at hj
    rw [GoVal.depthList] at hd hf
    cases hx : marshalValue x with
    | error e => simp [hx] at hm
    | ok t =>
      cases hr : marshalElems rest with
      | error e => simp [hx, hr] at hm
      | ok ts1 =>
        simp only [hx, hr, Except.ok.injEq] at hm
        subst hm
        have h1 : decode (f + 1) .iface ctx (cur.headD GoType.iface.zero) t = .ok x :=
          decodeInterface_marshalValue x t hj.1 hx (by omega) (f + 1) ctx (by omega)
        simp only [decodeElems, h1, ih ts1 hj.2 hr (by omega) f ctx cur.tail (by omega)]

/-- The members of the request envelope, as member names with the encodings of their
values. -/
theorem marshal_request_members (method : String) (p : List GoVal) (texts : List (List Char))
    (h : marshalElems p = .ok texts) :
    marshalValue (RPCRequest.value ⟨method, some p, 1, "1.0"⟩) =
      .ok ('{' :: joinComma ([("method", quoteString method),
        ("params", '[' :: joinComma texts ++ [']']), ("id", "1".data),
        ("jsonrpc", quoteString "1.0")].map memberText) ++ ['}']) := by
  simp only [RPCRequest.value, sliceValue, marshalValue, marshalFields, h, Bool.false_and,
    Bool.false_eq_true, if_false]
  rfl

/-- The request envelope decodes into a request with the same method, parameters and
id. -/
theorem decode_request (f : Nat) (method : String) (p : List GoVal) (texts : List (List Char))
    (hj : GoVal.allJSON p = true) (hm : marshalElems p = .ok texts)
    (hd : GoVal.depthList p + 1 ≤ maxNestingDepth) (hf : GoVal.depthList p < f + 1) :
    decode (f + 3) RPCRequest.type ⟨"", []⟩ RPCRequest.type.zero
      ('{' :: joinComma ([("method", quoteString method),
        ("params", '[' :: joinComma texts ++ [']']), ("id", "1".data),
        ("jsonrpc", quoteString "1.0")].map memberText) ++ ['}'])
      = .ok (RPCRequest.value ⟨method, some p, 1, "1.0"⟩) := by
  have helems := scanValue_marshalElems p texts hj hm (by omega)
  have harr : scanValue ('[' :: joinComma texts ++ [']'])
      = some ('[' :: joinComma texts ++ [']'], []) :=
    scanValue_marshalValue (.slice p) _ (by rw [GoVal.isJSON]; exact hj)
      (by simp [marshalValue, hm]) (by rw [GoVal.depth]; exact hd)
  have hsplit := splitObject_joinComma [("method", quoteString method),
    ("params", '[' :: joinComma texts ++ [']']), ("id", "1".data),
    ("jsonrpc", quoteString "1.0")] (by
      intro e he
      simp only [List.mem_cons, List.mem_singleton, List.not_mem_nil, or_false] at he
      rcases he with h | h | h | h <;> subst h
      · exact scanValue_quoteString method
      · exact harr
      · rfl
      · exact scanValue_quoteString "1.0")
  have hstep : decode (f + 3) RPCRequest.type ⟨"", []⟩ RPCRequest.type.zero
      ('{' :: joinComma ([("method", quoteString method),
        ("params", '[' :: joinComma texts ++ [']']), ("id", "1".data),
        ("jsonrpc", quoteString "1.0")].map memberText) ++ ['}'])
      = match splitObject ('{' :: joinComma ([("method", quoteString method),
          ("params", '[' :: joinComma texts ++ [']']), ("id", "1".data),
          ("jsonrpc", quoteString "1.0")].map memberText) ++ ['}']) with
        | none => .error phaseError
        | some ms =>
          (decodeMembers (decode (f + 2)) "RPCRequest" ⟨"", []⟩
            [(⟨"method", false⟩, .string), (⟨"params", false⟩, .slice .iface),
              (⟨"id", false⟩, .goInt), (⟨"jsonrpc", false⟩, .string)]
            [(⟨"method", false⟩, .str ""), (⟨"params", false⟩, .nil),
              (⟨"id", false⟩, .int 0), (⟨"jsonrpc", false⟩, .str "")]
            ms).map GoVal.struct := rfl
  have hmethod : decode (f + 2) .string ⟨"RPCRequest", ["method"]⟩ (.str "")
      (quoteString method) = .ok (.str method) := by
    show (match unquote (quoteString method) with
      | none => Except.error phaseError
      | some str => Except.ok (GoVal.str str)) = _
    rw [unquote_quoteString]
  have hparams : decode (f + 2) (.slice .iface) ⟨"RPCRequest", ["params"]⟩ .nil
      ('[' :: joinComma texts ++ [']']) = .ok (.slice p) := by
    show (match splitArray ('[' :: joinComma texts ++ [']']) with
      | none => Except.error phaseError
      | some es => (decodeElems (decode (f + 1) .iface ⟨"RPCRequest", ["params"]⟩)
          GoType.iface.zero [] es).map GoVal.slice) = _
    rw [splitArray_joinComma texts helems]
    show Except.map GoVal.slice (decodeElems (decode (f + 1) .iface ⟨"RPCRequest", ["params"]⟩)
          GoType.iface.zero [] texts) = _
    rw [decodeElems_iface p texts hj hm (by omega) f _ [] hf]
    rfl
  have hid : decode (f + 2) .goInt ⟨"RPCRequest", ["id"]⟩ (.int 0) "1".data = .ok (.int 1) :=
    decode_int (f + 1) "int" 64 _ _ "1".data 1 (by decide)
  have hrpc : decode (f + 2) .string ⟨"RPCRequest", ["jsonrpc"]⟩ (.str "")
      (quoteString "1.0") = .ok (.str "1.0") := by
    show (match unquote (quoteString "1.0") with
      | none => Except.error phaseError
      | some str => Except.ok (GoVal.str str)) = _
    rw [unquote_quoteString]
  have hl0 : lookupField [((⟨"method", false⟩ : FieldTag), GoType.string),
      (⟨"params", false⟩, .slice .iface), (⟨"id", false⟩, .goInt),
      (⟨"jsonrpc", false⟩, .string)] "method" = some 0 := rfl
  have hl1 : lookupField [((⟨"method", false⟩ : FieldTag), GoType.string),
      (⟨"params", false⟩, .slice .iface), (⟨"id", false⟩, .goInt),
      (⟨"jsonrpc", false⟩, .string)] "params" = some 1 := rfl
  have hl2 : lookupField [((⟨"method", false⟩ : FieldTag), GoType.string),
      (⟨"params", false⟩, .slice .iface), (⟨"id", false⟩, .goInt),
      (⟨"jsonrpc", false⟩, .string)] "id" = some 2 := rfl
  have hl3 : lookupField [((⟨"method", false⟩ : FieldTag), GoType.string),
      (⟨"params", false⟩, .slice .iface), (⟨"id", false⟩, .goInt),
      (⟨"jsonrpc", false⟩, .string)] "jsonrpc" = some 3 := rfl
  rw [hstep, hsplit]
  simp only [decodeMembers, hl0, hl1, hl2, hl3, List.get?, List.set, List.nil_append, hmethod,
    hparams, hid, hrpc]
  rfl

/-- The scanner run over a text in two parts. -/
theorem scanRun_append (xs ys : List Char) :
    ∀ s s1 : Scanner, scanRun s xs = .ok s1 → scanRun s (xs ++ ys) = scanRun s1 ys := by
  induction xs with
  | nil =>
    intro s s1 h
    simp only [scanRun, Except.ok.injEq] at h
    subst h
    rfl
  | cons c cs ih =>
    intro s s1 h
    rw [scanRun] at h
    rw [List.cons_append, scanRun]
    cases hstep : scanStep s c with
    | error e => simp [hstep] at h
    | ok s2 =>
      simp only [hstep] at h ⊢
      exact ih s2 s1 h

/-- Opening brackets beyond the greatest nesting depth are refused. -/
theorem scanRun_too_deep (n : Nat) (rest : List Char) :
    ∀ σ : List ParseState, σ.length ≤ maxNestingDepth → maxNestingDepth < σ.length + n →
      scanRun ⟨.beginValueOrEmpty, σ⟩ (List.replicate n '[' ++ rest)
        = .error (scanError '[' "exceeded max depth") := by
  induction n with
  | zero => intro σ h1 h2; omega
  | succ n ih =>
    intro σ h1 h2
    rw [List.replicate_succ, List.cons_append, scanRun]
    by_cases hd : σ.length + 1 ≤ maxNestingDepth
    · have hstep : scanStep ⟨.beginValueOrEmpty, σ⟩ '['
          = .ok ⟨.beginValueOrEmpty, .parseArrayValue :: σ⟩ :=
        scanStep_open_array _ σ (Or.inr rfl) hd
      simp only [hstep]
      exact ih (.parseArrayValue :: σ) (by simpa using hd) (by simp only [List.length_cons]; omega)
    · have hstep : scanStep ⟨.beginValueOrEmpty, σ⟩ '['
          = .error (scanError '[' "exceeded max depth") := by
        simp [scanStep, stateBeginValue, pushParseState, isSpace, hd]
      simp only [hstep]

/-- The encoding of nested slices: the opening brackets, then the closing brackets. -/
theorem marshalValue_nestedSlice (k : Nat) :
    marshalValue (nestedSlice k)
      = .ok (List.replicate (k + 1) '[' ++ List.replicate (k + 1) ']') := by
  induction k with
  | zero => rfl
  | succ k ih =>
    have h1 : List.replicate (k + 1 + 1) '[' = '[' :: List.replicate (k + 1) '[' := rfl
    have h2 : List.replicate (k + 1 + 1) ']' = List.replicate (k + 1) ']' ++ [']'] :=
      List.replicate_succ' (k + 1) ']'
    simp only [nestedSlice, marshalValue, marshalElems, ih, joinComma]
    rw [h1, h2]
    simp

/-- Nested slices are a JSON value. -/
theorem isJSON_nestedSlice (k : Nat) : (nestedSlice k).isJSON = true := by
  induction k with
  | zero => rfl
  | succ k ih => simp [nestedSlice, GoVal.isJSON, GoVal.allJSON, ih]

/-! ### III.h  Parameter lists with optional arguments -/

/-- C11, at the failing input: `CreateRawTransaction` with `locktime` 0 and `replaceable`
true sends three parameters, the flag at index 2, where the node reads the locktime.  For
all arguments the list is `[inputs, outputs]`, then the locktime when it is not 0, then
`true` when `replaceable` is set. -/
theorem CreateRawTransaction_replaceable_without_locktime :
    (∀ inputs outputs, CreateRawTransaction.params inputs outputs 0 true
      = some [inputsValue inputs, mapValue outputs, .bool true]) ∧
    (∀ inputs outputs locktime replaceable,
      CreateRawTransaction.params inputs outputs locktime replaceable
        = some ([inputsValue inputs, mapValue outputs]
            ++ (if locktime ≠ 0 then [.int locktime] else [])
            ++ (if replaceable then [.bool true] else []))) ∧
    ((stubClient "200 OK" 200 "").CreateRawTransaction (some [⟨"ab", 1, 0⟩])
        (some [("bc1q", .float ⟨"0.5"⟩)]) 0 true).sent.map Request.Body
      = ["\x7b\"method\":\"createrawtransaction\",\"params\":[[\x7b\"txid\":\"ab\",\"vout\":1\x7d],\x7b\"bc1q\":0.5\x7d,true],\"id\":1,\"jsonrpc\":\"1.0\"\x7d".data] := by
  refine ⟨fun _ _ => rfl, ?_, by decide!⟩
  intro inputs outputs locktime replaceable
  by_cases h : locktime = 0 <;> cases replaceable <;>
    simp [CreateRawTransaction.params, goAppend, h]

/-- C12, at the failing input: `ListTransactions` with a negative `skip` and
`includeWatchonly` true sends three parameters, the flag at index 2, where the node reads
the skip.  For all arguments the list is the label, the count, then the skip when it is
positive or 0 when it is 0 and the flag is set, then `true` when the flag is set. -/
theorem ListTransactions_negative_skip :
    ListTransactions.params "" 0 (-1) true = some [.str "*", .int 10, .bool true] ∧
    (∀ label count skip includeWatchonly,
      ListTransactions.params label count skip includeWatchonly
        = some ([.str (if label = "" then "*" else label), .int (if count = 0 then 10 else count)]
            ++ (if skip > 0 then [.int skip]
                else if skip = 0 ∧ includeWatchonly = true then [.int 0] else [])
            ++ (if includeWatchonly then [.bool true] else []))) ∧
    ((stubClient "200 OK" 200 "").ListTransactions "w" "" 0 (-1) true).sent.map Request.Body
      = ["\x7b\"method\":\"listtransactions\",\"params\":[\"*\",10,true],\"id\":1,\"jsonrpc\":\"1.0\"\x7d".data] := by
  refine ⟨rfl, ?_, by decide!⟩
  intro label count skip includeWatchonly
  by_cases h1 : skip > 0
  · have h2 : skip ≠ 0 := by omega
    cases includeWatchonly <;> simp [ListTransactions.params, goAppend, h1, h2]
  · by_cases h2 : skip = 0
    · cases includeWatchonly <;> simp [ListTransactions.params, goAppend, h2]
    · cases includeWatchonly <;> simp [ListTransactions.params, goAppend, h1, h2]

/-- C13. `SendToAddress` and `CreateWallet` send the shortest prefix of their full
positional argument list that holds every optional argument not at its default: the
prefix has `2 + k` (`1 + k` for `CreateWallet`) elements, `k` the position of the last
optional argument that is a non-empty string, `true` or a positive `confTarget`, and its
elements are the arguments as passed. -/
theorem shortest_prefix_sent (c : Client) (walletName address : String) (amount : Float64)
    (comment commentTo : String) (subtractFeeFromAmount replaceable : Bool) (confTarget : Int)
    (estimateMode : String) (disablePrivateKeys blank : Bool) (passphrase : String)
    (avoidReuse : Bool) :
    SendToAddress.params address amount comment commentTo subtractFeeFromAmount replaceable
        confTarget estimateMode
      = some (shortestPrefix [.str address, .float amount, .str comment, .str commentTo,
          .bool subtractFeeFromAmount, .bool replaceable, .int confTarget, .str estimateMode] 2
          [decide (comment ≠ ""), decide (commentTo ≠ ""), subtractFeeFromAmount, replaceable,
            decide (confTarget > 0), decide (estimateMode ≠ "")]) ∧
    (shortestPrefix [.str address, .float amount, .str comment, .str commentTo,
          .bool subtractFeeFromAmount, .bool replaceable, .int confTarget, .str estimateMode] 2
          [decide (comment ≠ ""), decide (commentTo ≠ ""), subtractFeeFromAmount, replaceable,
            decide (confTarget > 0), decide (estimateMode ≠ "")]).length
      = 2 + lastSet [decide (comment ≠ ""), decide (commentTo ≠ ""), subtractFeeFromAmount,
          replaceable, decide (confTarget > 0), decide (estimateMode ≠ "")] ∧
    CreateWallet.params walletName disablePrivateKeys blank passphrase avoidReuse
      = some (shortestPrefix [.str walletName, .bool disablePrivateKeys, .bool blank,
          .str passphrase, .bool avoidReuse] 1
          [disablePrivateKeys, blank, decide (passphrase ≠ ""), avoidReuse]) ∧
    (shortestPrefix [.str walletName, .bool disablePrivateKeys, .bool blank,
          .str passphrase, .bool avoidReuse] 1
          [disablePrivateKeys, blank, decide (passphrase ≠ ""), avoidReuse]).length
      = 1 + lastSet [disablePrivateKeys, blank, decide (passphrase ≠ ""), avoidReuse] ∧
    (c.SendToAddress walletName address amount comment commentTo subtractFeeFromAmount
        replaceable confTarget estimateMode).sent
      = (c.callWithWallet "sendtoaddress" (SendToAddress.params address amount comment
          commentTo subtractFeeFromAmount replaceable confTarget estimateMode) walletName).sent ∧
    (c.CreateWallet walletName disablePrivateKeys blank passphrase avoidReuse).sent
      = (c.callWithWallet "createwallet" (CreateWallet.params walletName disablePrivateKeys
          blank passphrase avoidReuse) "").sent := by
  refine ⟨?_, ?_, ?_, ?_, rfl, rfl⟩
  · by_cases h1 : comment = "" <;> by_cases h2 : commentTo = "" <;>
      by_cases h5 : confTarget > 0 <;> by_cases h6 : estimateMode = "" <;>
      cases subtractFeeFromAmount <;> cases replaceable <;>
      simp [SendToAddress.params, goAppend, shortestPrefix, lastSet, h1, h2, h5, h6]
  · by_cases h1 : comment = "" <;> by_cases h2 : commentTo = "" <;>
      by_cases h5 : confTarget > 0 <;> by_cases h6 : estimateMode = "" <;>
      cases subtractFeeFromAmount <;> cases replaceable <;>
      simp [shortestPrefix, lastSet, h1, h2, h5, h6]
  · by_cases h3 : passphrase = "" <;> cases disablePrivateKeys <;> cases blank <;>
      cases avoidReuse <;> simp [CreateWallet.params, goAppend, shortestPrefix, lastSet, h3]
  · by_cases h3 : passphrase = "" <;> cases disablePrivateKeys <;> cases blank <;>
      cases avoidReuse <;> simp [shortestPrefix, lastSet, h3]

/-- C14. In `GetNewAddress`, `GetBalance`, `GetTransaction` and `ListUnspent` an optional
argument that is skipped while a later one is given is sent as its default, so that every
argument sent sits at its positional index: the lists are all the lists below. -/
theorem interior_defaults_filled (c : Client) (walletName label addressType txid : String)
    (minconf : Option Int) (watchonly : Option Bool) (includeWatchonly verbose : Bool)
    (minconfU maxconfU : Int) (addresses : Option (List String)) (includeUnsafe : Bool)
    (queryOptions : Option (List (String × GoVal))) :
    GetNewAddress.params label addressType
      = (if addressType ≠ "" then some [.str label, .str addressType]
         else if label ≠ "" then some [.str label] else none) ∧
    GetNewAddress.params "" addressType
      = (if addressType ≠ "" then some [.str "", .str addressType] else none) ∧
    GetBalance.params minconf watchonly
      = (match minconf, watchonly with
         | none, none => none
         | some m, none => some [.str "*", .int m]
         | none, some w => some [.str "*", .int 0, .bool w]
         | some m, some w => some [.str "*", .int m, .bool w]) ∧
    GetTransaction.params txid includeWatchonly verbose
      = (if verbose then some [.str txid, .bool includeWatchonly, .bool true]
         else if includeWatchonly then some [.str txid, .bool true] else some [.str txid]) ∧
    ListUnspent.params minconfU maxconfU addresses includeUnsafe queryOptions
      = some ([.int (if minconfU = 0 then 1 else minconfU),
            .int (if maxconfU = 0 then 9999999 else maxconfU),
            if goLen addresses > 0 then stringsValue addresses else .slice []]
          ++ (if goLen queryOptions > 0 then [.bool includeUnsafe, mapValue queryOptions]
              else if includeUnsafe then [.bool true] else [])) ∧
    (c.GetNewAddress walletName label addressType).sent
      = (c.callWithWallet "getnewaddress" (GetNewAddress.params label addressType)
          walletName).sent ∧
    (c.GetBalance walletName minconf watchonly).sent
      = (c.callWithWallet "getbalance" (GetBalance.params minconf watchonly) walletName).sent ∧
    (c.GetTransaction walletName txid includeWatchonly verbose).sent
      = (c.callWithWallet "gettransaction" (GetTransaction.params txid includeWatchonly verbose)
          walletName).sent ∧
    (c.ListUnspent walletName minconfU maxconfU addresses includeUnsafe queryOptions).sent
      = (c.callWithWallet "listunspent" (ListUnspent.params minconfU maxconfU addresses
          includeUnsafe queryOptions) walletName).sent := by
  refine ⟨?_, ?_, ?_, ?_, ?_, rfl, rfl, rfl, rfl⟩
  · by_cases h1 : label = "" <;> by_cases h2 : addressType = "" <;>
      simp [GetNewAddress.params, goAppend, h1, h2]
  · by_cases h2 : addressType = "" <;> simp [GetNewAddress.params, goAppend, h2]
  · cases minconf <;> cases watchonly <;> rfl
  · cases includeWatchonly <;> cases verbose <;> rfl
  · by_cases h1 : goLen addresses > 0 <;> by_cases h2 : goLen queryOptions > 0 <;>
      cases includeUnsafe <;> simp [ListUnspent.params, goAppend, h1, h2]

/-! ### III.i  Results whose shape depends on a flag -/

/-- A text that starts with a given character is different from any text that starts
with another one. -/
theorem ne_of_head_ne (a b : Char) (as bs : List Char) (s t u : String)
    (hs : s.data = a :: as) (ht : t.data = b :: bs) (h : a ≠ b) : s ≠ t ++ u := by
  intro e
  have hd := congrArg String.data e
  rw [String.data_append, hs, ht] at hd
  exact h (List.cons.inj hd).1

/-- C16. A result of `GetRawMempool` has the type the flag `verbose` selects, so the type
assertions of `GetRawMempoolSimple` and `GetRawMempoolVerbose` always hold: either wrapper
returns the value or the failure of `GetRawMempool`, and never the failure
`unexpected response type`. -/
theorem GetRawMempool_result_type (c : Client) (verbose mempoolSequence : Bool) :
    (∀ b, (c.GetRawMempool verbose mempoolSequence).result = .ok b →
      b.dynType = if verbose then "GetRawMempoolVerboseResponse" else "GetRawMempoolResponse") ∧
    c.GetRawMempoolSimple.result
      = (match (c.GetRawMempool false false).result with
         | .ok b => .ok b.value
         | .error err => .error err
         | .panic msg => .panic msg) ∧
    c.GetRawMempoolVerbose.result
      = (match (c.GetRawMempool true false).result with
         | .ok b => .ok b.value
         | .error err => .error err
         | .panic msg => .panic msg) ∧
    c.GetRawMempoolSimple.result ≠ .error "unexpected response type from getrawmempool" ∧
    c.GetRawMempoolVerbose.result
      ≠ .error "unexpected response type from verbose getrawmempool" := by
  have htype : ∀ (v m : Bool) (b : Boxed), (c.GetRawMempool v m).result = .ok b →
      b.dynType = if v then "GetRawMempoolVerboseResponse" else "GetRawMempoolResponse" := by
    intro v m b h
    unfold Client.GetRawMempool at h
    dsimp only at h
    split at h
    · cases h
    · cases h
    · split at h
      · cases h
      · cases v
        · simp only [Bool.false_eq_true, if_false] at h ⊢
          split at h
          · cases h
          · cases h; rfl
        · simp only [if_true] at h ⊢
          split at h
          · cases h
          · cases h; rfl
  have hfalse : ∀ b, (c.GetRawMempool false false).result = .ok b →
      b.dynType = "GetRawMempoolResponse" := fun b h => htype false false b h
  have htrue : ∀ b, (c.GetRawMempool true false).result = .ok b →
      b.dynType = "GetRawMempoolVerboseResponse" := fun b h => htype true false b h
  have hs : c.GetRawMempoolSimple.result
      = (match (c.GetRawMempool false false).result with
         | .ok b => .ok b.value
         | .error err => .error err
         | .panic msg => .panic msg) := by
    unfold Client.GetRawMempoolSimple
    dsimp only
    cases hr : (c.GetRawMempool false false).result with
    | ok b => simp [hfalse b hr]
    | error e => rfl
    | panic m => rfl
  have hv : c.GetRawMempoolVerbose.result
      = (match (c.GetRawMempool true false).result with
         | .ok b => .ok b.value
         | .error err => .error err
         | .panic msg => .panic msg) := by
    unfold Client.GetRawMempoolVerbose
    dsimp only
    cases hr : (c.GetRawMempool true false).result with
    | ok b => simp [htrue b hr]
    | error e => rfl
    | panic m => rfl
  have herr : ∀ (v : Bool) (e : String) (u : String), u.data.head? = some 'u' →
      (c.GetRawMempool v false).result = .error e → e ≠ u := by
    intro v e u hu h
    obtain ⟨us, hus⟩ : ∃ us, u.data = 'u' :: us := by
      cases hd : u.data with
      | nil => simp [hd] at hu
      | cons x xs => simp [hd] at hu; exact ⟨xs, by rw [hu]⟩
    unfold Client.GetRawMempool at h
    dsimp only at h
    intro e1
    subst e1
    split at h
    · cases h
    · injection h with h
      exact ne_of_head_ne 'u' 'g' us _ e _ _ hus rfl (by decide) h.symm
    · split at h
      · injection h with h
        exact ne_of_head_ne 'u' 'g' us _ e _ _ hus rfl (by decide) h.symm
      · split at h
        · split at h
          · injection h with h
            exact ne_of_head_ne 'u' 'f' us _ e _ _ hus rfl (by decide) h.symm
          · cases h
        · split at h
          · injection h with h
            exact ne_of_head_ne 'u' 'f' us _ e _ _ hus rfl (by decide) h.symm
          · cases h
  refine ⟨htype verbose mempoolSequence, hs, hv, ?_, ?_⟩
  · rw [hs]
    cases hr : (c.GetRawMempool false false).result with
    | ok b => simp
    | error e =>
      intro h
      injection h with h
      exact herr false e "unexpected response type from getrawmempool" rfl hr h
    | panic m => simp
  · rw [hv]
    cases hr : (c.GetRawMempool true false).result with
    | ok b => simp
    | error e =>
      intro h
      injection h with h
      exact herr true e "unexpected response type from verbose getrawmempool" rfl hr h
    | panic m => simp

/-- C17, at the failing input: on the payload `[[[1,2]]]`, an address entry whose first
element is a number, `ListAddressGroupings` does not return an error; the unchecked type
assertion `rawAddr[0].(string)` aborts the call.  So do an entry whose second element is not
a number and one whose third element is neither null nor a string. -/
theorem ListAddressGroupings_panics :
    ((stubClient "200 OK" 200 "\x7b\"result\":[[[1,2]]],\"error\":null,\"id\":1\x7d").ListAddressGroupings
      "w").result = .panic "interface conversion: interface \x7b\x7d is float64, not string" ∧
    ((stubClient "200 OK" 200
      "\x7b\"result\":[[[\"bc1q\",\"0.5\"]]],\"error\":null,\"id\":1\x7d").ListAddressGroupings
      "w").result = .panic "interface conversion: interface \x7b\x7d is string, not float64" ∧
    ((stubClient "200 OK" 200
      "\x7b\"result\":[[[\"bc1q\",0.5,7]]],\"error\":null,\"id\":1\x7d").ListAddressGroupings
      "w").result = .panic "interface conversion: interface \x7b\x7d is float64, not string" := by
  refine ⟨by rfl, by rfl, by rfl⟩

/-- C19, at the failing inputs: `GetBalance` with nil `minconf` and nil `includeWatchonly`
and `GetNewAddress` with empty label and empty address type pass the nil slice to the
dispatcher, and the request on the wire has `"params":null`.  These are the only calls of
typed operations whose parameter list is nil. -/
theorem nil_params_sent_as_null :
    ((stubClient "200 OK" 200 "").GetBalance "w" none none).sent.map Request.Body
      = ["\x7b\"method\":\"getbalance\",\"params\":null,\"id\":1,\"jsonrpc\":\"1.0\"\x7d".data] ∧
    ((stubClient "200 OK" 200 "").GetNewAddress "w" "" "").sent.map Request.Body
      = ["\x7b\"method\":\"getnewaddress\",\"params\":null,\"id\":1,\"jsonrpc\":\"1.0\"\x7d".data] ∧
    (∀ call : Call, call.params = none ↔
      (∃ w, call = .GetBalance w none none) ∨ (∃ w, call = .GetNewAddress w "" "")) := by
  refine ⟨by decide!, by decide!, ?_⟩
  intro call
  cases call
  case GetBalance w minconf watchonly =>
    cases minconf <;> cases watchonly <;>
      simp [Call.params, GetBalance.params, goAppend]
  case GetNewAddress w label addressType =>
    by_cases h1 : label = "" <;> by_cases h2 : addressType = "" <;>
      simp [Call.params, GetNewAddress.params, goAppend, h1, h2]
  all_goals
    simp only [Call.params, CreateWallet.params, SendToAddress.params, ListTransactions.params,
      ListUnspent.params, GetTransaction.params, EstimateSmartFee.params,
      CreateRawTransaction.params, SignRawTransactionWithWallet.params,
      SendRawTransaction.params, ImportPrivKey.params, CreateMultisig.params,
      AddMultisigAddress.params, GetRawMempool.params, GenerateToAddress.params,
      GetBlock.params, GetRawTransaction.params, goAppend]
    constructor
    · intro h
      exfalso
      revert h
      repeat' split
      all_goals simp
    · rintro (⟨w, h⟩ | ⟨w, h⟩) <;> cases h

/-! ### III.j  The HTTP request -/

/-- C20. Every request that `callWithWallet` issues for a client made by `NewClient` is a
POST to the resolved endpoint, with the header `Content-Type: application/json`, with the
user name and the password given to `NewClient` as basic-authentication credentials, and
with the encoded request envelope as its body.  At most one request is issued, and exactly
one when the envelope is encoded and the URL is accepted. -/
theorem callWithWallet_http_request (url username password : String) (client : HTTPClient)
    (method : String) (params : Option (List GoVal)) (walletName : String) :
    (∀ req ∈ ((NewClient url username password client).callWithWallet method params
        walletName).sent,
      req.Method = "POST" ∧
      req.URL = (if walletName ≠ "" then url ++ "/wallet/" ++ walletName else url) ∧
      req.Header = [("Content-Type", "application/json")] ∧
      req.BasicAuth = some (username, password) ∧
      marshalValue (RPCRequest.value ⟨method, params, 1, "1.0"⟩) = .ok req.Body) ∧
    ((NewClient url username password client).callWithWallet method params
        walletName).sent.length ≤ 1 ∧
    (∀ body, marshalValue (RPCRequest.value ⟨method, params, 1, "1.0"⟩) = .ok body →
      client.NewRequest (if walletName ≠ "" then url ++ "/wallet/" ++ walletName else url)
        = none →
      ((NewClient url username password client).callWithWallet method params walletName).sent
        = [{ Method := "POST"
             URL := if walletName ≠ "" then url ++ "/wallet/" ++ walletName else url
             Body := body
             Header := [("Content-Type", "application/json")]
             BasicAuth := some (username, password) }]) := by
  refine ⟨?_, ?_, ?_⟩
  · intro req hreq
    rcases callWithWallet_sent_cases (NewClient url username password client) method params
      walletName with h | ⟨body, hb, _, h⟩
    · rw [h] at hreq; simp at hreq
    · rw [h] at hreq
      simp only [List.mem_singleton] at hreq
      subst hreq
      exact ⟨rfl, rfl, rfl, rfl, hb⟩
  · rcases callWithWallet_sent_cases (NewClient url username password client) method params
      walletName with h | ⟨body, hb, _, h⟩
    · rw [h]; simp
    · rw [h]; simp
  · intro body hm hu
    exact callWithWallet_sent_of_built (NewClient url username password client) method params
      walletName body hm hu

/-! ### III.k  Payloads of the wrong kind -/

theorem skipSpace_append_single (xs : List Char) (c : Char) (hc : isSpace c = false) :
    ∃ ys, skipSpace (xs ++ [c]) = ys ++ [c] := by
  induction xs with
  | nil => exact ⟨[], by simp [skipSpace, hc]⟩
  | cons x rest ih =>
    by_cases hx : isSpace x = true
    · obtain ⟨ys, h⟩ := ih
      exact ⟨ys, by simp [skipSpace, hx, h]⟩
    · exact ⟨x :: rest, by simp [skipSpace, hx]⟩

/-- Trimming keeps the first character of a text that does not start with white space. -/
theorem trimSpace_head (c : Char) (cs : List Char) (hc : isSpace c = false) :
    ∃ cs1, trimSpace (c :: cs) = c :: cs1 := by
  unfold trimSpace
  have h1 : skipSpace (c :: cs) = c :: cs := by simp [skipSpace, hc]
  rw [h1]
  obtain ⟨ys, h2⟩ := skipSpace_append_single cs.reverse c hc
  have h3 : (c :: cs).reverse = cs.reverse ++ [c] := by simp
  rw [h3, h2]
  exact ⟨ys.reverse, by simp⟩

/-- The empty text is not a JSON text. -/
theorem Unmarshal_empty (t : GoType) (cur : GoVal) :
    Unmarshal t cur [] = .error "unexpected end of JSON input" := rfl

/-- A text that starts as a string, an object, an array or a boolean does not decode into
a `float64`. -/
theorem Unmarshal_float64_not_number (cur : GoVal) (ch : Char) (rest : List Char)
    (hch : ch ∈ ['"', '{', '[', 't', 'f']) :
    ∃ err, Unmarshal .float64 cur (ch :: rest) = .error err := by
  unfold Unmarshal
  cases hv : checkValid (ch :: rest) with
  | error e => exact ⟨e, rfl⟩
  | ok u =>
    dsimp only
    have hsp : isSpace ch = false := by
      simp only [List.mem_cons, List.mem_singleton, List.not_mem_nil, or_false] at hch
      rcases hch with h | h | h | h | h <;> subst h <;> rfl
    obtain ⟨cs1, h1⟩ := trimSpace_head ch rest hsp
    rw [h1]
    simp only [List.mem_cons, List.mem_singleton, List.not_mem_nil, or_false] at hch
    rcases hch with h | h | h | h | h <;> subst h <;> exact ⟨_, rfl⟩

/-- C18, refuted as stated: for a successful envelope whose result is `null`, `GetBalance`
returns no error and the balance 0. -/
theorem GetBalance_null_is_zero :
    ((stubClient "200 OK" 200 "\x7b\"result\":null,\"error\":null,\"id\":1\x7d").GetBalance "w"
      none none).result = .ok (.float ⟨"0"⟩) := by
  rfl

/-- C18, amended: when the dispatcher returns a response whose payload is a JSON string,
object, array or boolean, or is missing, `GetBalance` returns a decode error and no
balance.  A payload `null` is accepted: `json.Unmarshal` leaves the balance at 0. -/
theorem GetBalance_payload_not_number (c : Client) (walletName : String) (minconf : Option Int)
    (watchonly : Option Bool) (resp : RPCResponse)
    (hcall : (c.callWithWallet "getbalance" (GetBalance.params minconf watchonly)
      walletName).result = .ok resp) :
    (resp.Result = [] → (c.GetBalance walletName minconf watchonly).result
      = .error "failed to unmarshal balance: unexpected end of JSON input") ∧
    (∀ ch rest, resp.Result = ch :: rest → ch ∈ ['"', '{', '[', 't', 'f'] →
      ∃ err, (c.GetBalance walletName minconf watchonly).result
        = .error ("failed to unmarshal balance: " ++ err)) ∧
    (resp.Result = "null".data →
      (c.GetBalance walletName minconf watchonly).result = .ok (.float ⟨"0"⟩)) := by
  have hres : (c.GetBalance walletName minconf watchonly).result
      = match Unmarshal .float64 GoType.float64.zero resp.Result with
        | .error err => .error ("failed to unmarshal balance: " ++ err)
        | .ok balance => .ok balance := by
    simp only [Client.GetBalance, hcall]
    all_goals rfl
  refine ⟨?_, ?_, ?_⟩
  · intro h
    rw [hres, h]
    rfl
  · intro ch rest h hch
    obtain ⟨err, he⟩ := Unmarshal_float64_not_number GoType.float64.zero ch rest hch
    rw [hres, h, he]
    exact ⟨err, rfl⟩
  · intro h
    rw [hres, h]
    rfl

/-- C18, for a stub node whose result is the string `"12.5"`: a decode error. -/
theorem GetBalance_payload_not_number_witness :
    ∃ err, ((stubClient "200 OK" 200
      "\x7b\"result\":\"12.5\",\"error\":null,\"id\":1\x7d").GetBalance "w" none none).result
        = .error ("failed to unmarshal balance: " ++ err) :=
  (GetBalance_payload_not_number
    (stubClient "200 OK" 200 "\x7b\"result\":\"12.5\",\"error\":null,\"id\":1\x7d") "w" none none
    { Result := "\"12.5\"".data, Error := none, ID := 1 } rfl).2.1 '"' "12.5\"".data rfl
    (by simp)

/-- A valid JSON string literal decodes into a Go string as the string it denotes. -/
theorem Unmarshal_string_literal (cur : GoVal) (mid : List Char) (s : String)
    (hv : checkValid ('"' :: (mid ++ ['"'])) = .ok ())
    (hq : unquote ('"' :: (mid ++ ['"'])) = some s) :
    Unmarshal .string cur ('"' :: (mid ++ ['"'])) = .ok (.str s) := by
  unfold Unmarshal
  rw [hv]
  dsimp only
  rw [trimSpace_of_ends '"' '"' mid rfl rfl]
  show (match unquote ('"' :: (mid ++ ['"'])) with
    | none => Except.error phaseError
    | some str => Except.ok (GoVal.str str)) = _
  rw [hq]

/-- A valid JSON object does not decode into a Go string. -/
theorem Unmarshal_string_object (cur : GoVal) (mid : List Char)
    (hv : checkValid ('{' :: (mid ++ ['}'])) = .ok ()) :
    Unmarshal .string cur ('{' :: (mid ++ ['}']))
      = .error "json: cannot unmarshal object into Go value of type string" := by
  unfold Unmarshal
  rw [hv]
  dsimp only
  rw [trimSpace_of_ends '{' '}' mid rfl rfl]
  rfl

/-- A valid JSON string literal does not decode into a `GetRawTransactionResponse`. -/
theorem Unmarshal_response_string (cur : GoVal) (mid : List Char)
    (hv : checkValid ('"' :: (mid ++ ['"'])) = .ok ()) :
    Unmarshal GetRawTransactionResponse.type cur ('"' :: (mid ++ ['"']))
      = .error ("json: cannot unmarshal string into Go value of type "
          ++ "btcrpc.GetRawTransactionResponse") := by
  unfold Unmarshal
  rw [hv]
  dsimp only
  rw [trimSpace_of_ends '"' '"' mid rfl rfl]
  rfl

/-- C15. The decoder of `GetRawTransaction` is chosen by the flag `verbose` that the caller
passed, which is also the flag sent at index 1 of the parameters, and not by the payload.
Without `verbose` a payload that is the JSON string `s` gives a response with `Hex = s`
and every other field zero, and a payload that is a JSON object gives a decode error; with
`verbose` a payload that is a JSON string gives a decode error. -/
theorem GetRawTransaction_decoder_by_flag (c : Client) (txid : String) (verbose : Bool)
    (blockhash : Option String) (resp : RPCResponse)
    (hcall : (c.call "getrawtransaction"
      (GetRawTransaction.params txid verbose blockhash)).result = .ok resp) :
    (∃ rest, GetRawTransaction.params txid verbose blockhash
      = some (.str txid :: .bool verbose :: rest)) ∧
    (c.GetRawTransaction txid verbose blockhash).sent
      = (c.call "getrawtransaction" (GetRawTransaction.params txid verbose blockhash)).sent ∧
    (c.GetRawTransaction txid verbose blockhash).result
      = (if verbose then
          match Unmarshal GetRawTransactionResponse.type GetRawTransactionResponse.type.zero
              resp.Result with
          | .error err => .error ("failed to unmarshal raw transaction: " ++ err)
          | .ok tx => .ok tx
        else
          match Unmarshal .string GoType.string.zero resp.Result with
          | .error err => .error ("failed to unmarshal raw transaction hex: " ++ err)
          | .ok hexString =>
            .ok (GetRawTransactionResponse.type.zero.setField "hex" hexString)) ∧
    (∀ (mid : List Char) (s : String), resp.Result = '"' :: (mid ++ ['"']) →
      checkValid resp.Result = .ok () → unquote resp.Result = some s →
      (verbose = false → (c.GetRawTransaction txid verbose blockhash).result
        = .ok (.struct [(⟨"hex", false⟩, .str s), (⟨"txid", true⟩, .str ""),
            (⟨"hash", true⟩, .str ""), (⟨"size", true⟩, .int 0), (⟨"vsize", true⟩, .int 0),
            (⟨"weight", true⟩, .int 0), (⟨"version", true⟩, .int 0),
            (⟨"locktime", true⟩, .int 0), (⟨"vin", true⟩, .nil), (⟨"vout", true⟩, .nil),
            (⟨"blockhash", true⟩, .str ""), (⟨"confirmations", true⟩, .int 0),
            (⟨"blocktime", true⟩, .int 0), (⟨"time", true⟩, .int 0)])) ∧
      (verbose = true → (c.GetRawTransaction txid verbose blockhash).result
        = .error ("failed to unmarshal raw transaction: json: cannot unmarshal string into "
            ++ "Go value of type btcrpc.GetRawTransactionResponse"))) ∧
    (∀ mid : List Char, resp.Result = '{' :: (mid ++ ['}']) →
      checkValid resp.Result = .ok () → verbose = false →
      (c.GetRawTransaction txid verbose blockhash).result
        = .error ("failed to unmarshal raw transaction hex: json: cannot unmarshal object "
            ++ "into Go value of type string")) := by
  have hres : (c.GetRawTransaction txid verbose blockhash).result
      = (if verbose then
          match Unmarshal GetRawTransactionResponse.type GetRawTransactionResponse.type.zero
              resp.Result with
          | .error err => .error ("failed to unmarshal raw transaction: " ++ err)
          | .ok tx => .ok tx
        else
          match Unmarshal .string GoType.string.zero resp.Result with
          | .error err => .error ("failed to unmarshal raw transaction hex: " ++ err)
          | .ok hexString =>
            .ok (GetRawTransactionResponse.type.zero.setField "hex" hexString)) := by
    simp only [Client.GetRawTransaction, hcall]
    cases verbose <;> rfl
  refine ⟨?_, rfl, hres, ?_, ?_⟩
  · cases blockhash
    · exact ⟨[], rfl⟩
    · exact ⟨_, rfl⟩
  · intro mid s hr hv hq
    rw [hr] at hv hq
    constructor
    · intro hverb
      subst hverb
      rw [hres, hr, if_neg (by simp), Unmarshal_string_literal _ mid s hv hq]
      rfl
    · intro hverb
      subst hverb
      rw [hres, hr, if_pos rfl, Unmarshal_response_string _ mid hv]
      rfl
  · intro mid hr hv hverb
    rw [hr] at hv
    subst hverb
    rw [hres, hr, if_neg (by simp), Unmarshal_string_object _ mid hv]
    rfl

/-- C15, for a stub node whose result is the hex string `"0200"`, without `verbose`: the
response has `Hex = "0200"`. -/
theorem GetRawTransaction_decoder_by_flag_witness :
    ((stubClient "200 OK" 200
      "\x7b\"result\":\"0200\",\"error\":null,\"id\":1\x7d").GetRawTransaction "ab" false
        none).result
      = .ok (.struct [(⟨"hex", false⟩, .str "0200"), (⟨"txid", true⟩, .str ""),
          (⟨"hash", true⟩, .str ""), (⟨"size", true⟩, .int 0), (⟨"vsize", true⟩, .int 0),
          (⟨"weight", true⟩, .int 0), (⟨"version", true⟩, .int 0),
          (⟨"locktime", true⟩, .int 0), (⟨"vin", true⟩, .nil), (⟨"vout", true⟩, .nil),
          (⟨"blockhash", true⟩, .str ""), (⟨"confirmations", true⟩, .int 0),
          (⟨"blocktime", true⟩, .int 0), (⟨"time", true⟩, .int 0)]) :=
  ((GetRawTransaction_decoder_by_flag
    (stubClient "200 OK" 200 "\x7b\"result\":\"0200\",\"error\":null,\"id\":1\x7d") "ab" false
    none { Result := "\"0200\"".data, Error := none, ID := 1 } rfl).2.2.2.1 "0200".data "0200"
    rfl (by decide) rfl).1 rfl

/-! ### III.l  One round trip for every call -/

/-- C21. A call of `callWithWallet` whose request is built, that is whose envelope is
encoded and whose URL `http.NewRequest` accepts, hands exactly one request to the
transport, whatever the transport answers.  When the transport fails, the call ends with
that failure and the one request is all that was sent.  A second identical call, whatever
the transport answers then, sends the same request once more: two calls make two sends. -/
theorem callWithWallet_one_send (c : Client) (method : String) (params : Option (List GoVal))
    (walletName : String) (body : List Char)
    (hm : marshalValue (RPCRequest.value ⟨method, params, 1, "1.0"⟩) = .ok body)
    (hu : c.client.NewRequest
      (if walletName ≠ "" then c.url ++ "/wallet/" ++ walletName else c.url) = none) :
    (c.callWithWallet method params walletName).sent.length = 1 ∧
    (∀ req err, (c.callWithWallet method params walletName).sent = [req] →
      c.client.Do req = .error err →
      (c.callWithWallet method params walletName).result
        = .error ("failed to perform HTTP request: " ++ err)) ∧
    (∀ later : Request → Except String Response,
      ((⟨c.url, c.username, c.password, ⟨c.client.NewRequest, later⟩⟩ : Client).callWithWallet
          method params walletName).sent
        = (c.callWithWallet method params walletName).sent ∧
      ((c.callWithWallet method params walletName).sent ++
        ((⟨c.url, c.username, c.password, ⟨c.client.NewRequest, later⟩⟩ : Client).callWithWallet
          method params walletName).sent).length = 2) := by
  have h1 := callWithWallet_sent_of_built c method params walletName body hm hu
  have h2 : ∀ later : Request → Except String Response,
      ((⟨c.url, c.username, c.password, ⟨c.client.NewRequest, later⟩⟩ : Client).callWithWallet
          method params walletName).sent
        = (c.callWithWallet method params walletName).sent := by
    intro later
    rw [h1]
    exact callWithWallet_sent_of_built ⟨c.url, c.username, c.password, ⟨c.client.NewRequest, later⟩⟩
      method params walletName body hm hu
  refine ⟨by rw [h1]; rfl, ?_, fun later => ⟨h2 later, ?_⟩⟩
  · intro req err hsent hdo
    rw [callWithWallet_of_sent c method params walletName req hsent, hdo]
  · rw [h2 later, h1]
    rfl

/-- C21, at a node that refuses the connection: one request is sent and the call fails with
the failure of the transport. -/
theorem callWithWallet_one_send_witness :
    ((NewClient "http://127.0.0.1:8332" "rpcuser" "rpcpass"
        ⟨fun _ => none, fun _ => .error "dial tcp 127.0.0.1:8332: connect: connection refused"⟩).callWithWallet
      "getblockcount" (some []) "").sent.length = 1 ∧
    ((NewClient "http://127.0.0.1:8332" "rpcuser" "rpcpass"
        ⟨fun _ => none, fun _ => .error "dial tcp 127.0.0.1:8332: connect: connection refused"⟩).callWithWallet
      "getblockcount" (some []) "").result
      = .error ("failed to perform HTTP request: "
          ++ "dial tcp 127.0.0.1:8332: connect: connection refused") :=
  ⟨(callWithWallet_one_send
      (NewClient "http://127.0.0.1:8332" "rpcuser" "rpcpass"
        ⟨fun _ => none, fun _ => .error "dial tcp 127.0.0.1:8332: connect: connection refused"⟩)
      "getblockcount" (some []) ""
      "\x7b\"method\":\"getblockcount\",\"params\":[],\"id\":1,\"jsonrpc\":\"1.0\"\x7d".data
      (by decide!) rfl).1,
    (callWithWallet_one_send
      (NewClient "http://127.0.0.1:8332" "rpcuser" "rpcpass"
        ⟨fun _ => none, fun _ => .error "dial tcp 127.0.0.1:8332: connect: connection refused"⟩)
      "getblockcount" (some []) ""
      "\x7b\"method\":\"getblockcount\",\"params\":[],\"id\":1,\"jsonrpc\":\"1.0\"\x7d".data
      (by decide!) rfl).2.1
      { Method := "POST", URL := "http://127.0.0.1:8332"
        Body := "\x7b\"method\":\"getblockcount\",\"params\":[],\"id\":1,\"jsonrpc\":\"1.0\"\x7d".data
        Header := [("Content-Type", "application/json")]
        BasicAuth := some ("rpcuser", "rpcpass") }
      "dial tcp 127.0.0.1:8332: connect: connection refused" (by decide!) rfl⟩

/-- Two texts that agree up to a place where their characters differ stay different
whatever is appended to them. -/
theorem append_ne_append_of_prefix (p : List Char) (a b : Char) (as bs : List Char)
    (t1 t2 u1 u2 : String) (h1 : t1.data = p ++ a :: as) (h2 : t2.data = p ++ b :: bs)
    (h : a ≠ b) : t1 ++ u1 ≠ t2 ++ u2 := by
  intro e
  have hd := congrArg String.data e
  rw [String.data_append, String.data_append, h1, h2, List.append_assoc, List.append_assoc] at hd
  have := List.append_cancel_left hd
  exact h (List.cons.inj this).1

/-! ### III.m  Arguments checked before the call -/

/-- C22. `EstimateSmartFee` fails with the failure that names the confirmation target, and
sends nothing, exactly when the target is below 1 or above 1008.  For every target from 1
to 1008 it calls the dispatcher for `estimatesmartfee` on the default endpoint, with the
target alone when the estimate mode is empty and with the target and the mode otherwise,
and the request goes out whenever it is built. -/
theorem EstimateSmartFee_validates_target (c : Client) (confTarget : Int)
    (estimateMode : String) :
    (confTarget < 1 ∨ confTarget > 1008 →
      (c.EstimateSmartFee confTarget estimateMode).sent = [] ∧
      (c.EstimateSmartFee confTarget estimateMode).result
        = .error ("confirmation target must be between 1 and 1008, got: "
            ++ String.mk (formatInt confTarget))) ∧
    (1 ≤ confTarget ∧ confTarget ≤ 1008 →
      EstimateSmartFee.params confTarget estimateMode
        = some (if estimateMode = "" then [.int confTarget]
            else [.int confTarget, .str estimateMode]) ∧
      (c.EstimateSmartFee confTarget estimateMode).sent
        = (c.callWithWallet "estimatesmartfee"
            (EstimateSmartFee.params confTarget estimateMode) "").sent ∧
      (∀ req ∈ (c.EstimateSmartFee confTarget estimateMode).sent, req.URL = c.url) ∧
      (∀ body, marshalValue (RPCRequest.value
          ⟨"estimatesmartfee", EstimateSmartFee.params confTarget estimateMode, 1, "1.0"⟩)
            = .ok body →
        c.client.NewRequest c.url = none →
        (c.EstimateSmartFee confTarget estimateMode).sent
          = [{ Method := "POST", URL := c.url, Body := body
               Header := [("Content-Type", "application/json")]
               BasicAuth := some (c.username, c.password) }])) ∧
    ((∃ got, (c.EstimateSmartFee confTarget estimateMode).result
        = .error ("confirmation target must be between 1 and 1008, got: " ++ got))
      ↔ (confTarget < 1 ∨ confTarget > 1008)) ∧
    ((stubClient "200 OK" 200 "").EstimateSmartFee 6 "").sent.map Request.Body
      = ["\x7b\"method\":\"estimatesmartfee\",\"params\":[6],\"id\":1,\"jsonrpc\":\"1.0\"\x7d".data] ∧
    ((stubClient "200 OK" 200 "").EstimateSmartFee 6 "ECONOMICAL").sent.map Request.Body
      = ["\x7b\"method\":\"estimatesmartfee\",\"params\":[6,\"ECONOMICAL\"],\"id\":1,\"jsonrpc\":\"1.0\"\x7d".data] ∧
    ((stubClient "200 OK" 200 "").EstimateSmartFee 1009 "").result
      = .error "confirmation target must be between 1 and 1008, got: 1009" := by
  have hout : confTarget < 1 ∨ confTarget > 1008 →
      (c.EstimateSmartFee confTarget estimateMode).sent = [] ∧
      (c.EstimateSmartFee confTarget estimateMode).result
        = .error ("confirmation target must be between 1 and 1008, got: "
            ++ String.mk (formatInt confTarget)) := by
    intro h
    unfold Client.EstimateSmartFee
    rw [if_pos h]
    exact ⟨rfl, rfl⟩
  have hsent : 1 ≤ confTarget ∧ confTarget ≤ 1008 →
      (c.EstimateSmartFee confTarget estimateMode).sent
        = (c.callWithWallet "estimatesmartfee"
            (EstimateSmartFee.params confTarget estimateMode) "").sent := by
    intro h
    unfold Client.EstimateSmartFee
    rw [if_neg (by omega)]
    rfl
  refine ⟨hout, fun hin => ⟨?_, hsent hin, ?_, ?_⟩, ⟨?_, ?_⟩, by decide!, by decide!, by rfl⟩
  · by_cases hmode : estimateMode = "" <;> simp [EstimateSmartFee.params, goAppend, hmode]
  · intro req hreq
    rw [hsent hin] at hreq
    rcases callWithWallet_sent_cases c "estimatesmartfee"
      (EstimateSmartFee.params confTarget estimateMode) "" with h | ⟨body, _, _, h⟩
    · rw [h] at hreq; simp at hreq
    · rw [h] at hreq
      simp only [List.mem_singleton] at hreq
      subst hreq
      rfl
  · intro body hm hu
    rw [hsent hin]
    exact callWithWallet_sent_of_built c "estimatesmartfee"
      (EstimateSmartFee.params confTarget estimateMode) "" body hm hu
  · rintro ⟨got, hgot⟩
    by_contra hin
    unfold Client.EstimateSmartFee at hgot
    rw [if_neg hin] at hgot
    dsimp only at hgot
    split at hgot
    · cases hgot
    · injection hgot with hgot
      exact append_ne_append_of_prefix [] 'f' 'c' _ _ _ _ _ _ rfl rfl (by decide) hgot
    · split at hgot
      · injection hgot with hgot
        exact append_ne_append_of_prefix [] 'f' 'c' _ _ _ _ _ _ rfl rfl (by decide) hgot
      · cases hgot
  · intro h
    exact ⟨_, (hout h).2⟩

/-! ### III.n  Blocks -/

set_option maxRecDepth 100000 in
/-- C23, at the failing input: `GetBlock` with verbosity 2 asks the node for the block with
its transactions as objects, and on the payload the node then sends, whose member `tx` is
an array of transaction objects, it returns no block but a decode failure: the field `Tx`
of `GetBlockResponse` is a slice of strings.  The same block with transaction ids in `tx`,
the payload of verbosity 1, is decoded. -/
theorem GetBlock_verbosity_two_not_decoded :
    ((stubClient "200 OK" 200
      "\x7b\"result\":\x7b\"hash\":\"00ab\",\"confirmations\":1,\"height\":5,\"version\":1,\"time\":1231469665,\"nTx\":1,\"size\":215,\"tx\":[\x7b\"txid\":\"0e3e\",\"version\":1,\"locktime\":0,\"vin\":[\x7b\"coinbase\":\"04ff\",\"sequence\":4294967295\x7d],\"vout\":[\x7b\"value\":50.0,\"n\":0\x7d]\x7d]\x7d,\"error\":null,\"id\":1\x7d").GetBlock
      "00ab" 2).result
      = .error ("failed to unmarshal block info: "
          ++ "json: cannot unmarshal object into Go struct field GetBlockResponse.tx of type string") ∧
    ((stubClient "200 OK" 200 "").GetBlock "00ab" 2).sent.map Request.Body
      = ["\x7b\"method\":\"getblock\",\"params\":[\"00ab\",2],\"id\":1,\"jsonrpc\":\"1.0\"\x7d".data] ∧
    (∃ block, ((stubClient "200 OK" 200
      "\x7b\"result\":\x7b\"hash\":\"00ab\",\"confirmations\":1,\"height\":5,\"version\":1,\"time\":1231469665,\"nTx\":1,\"size\":215,\"tx\":[\"0e3e\"]\x7d,\"error\":null,\"id\":1\x7d").GetBlock
      "00ab" 1).result = .ok block ∧ block.field "tx" = some (.slice [.str "0e3e"])) := by
  refine ⟨by rfl, by decide!, ⟨_, by rfl, by rfl⟩⟩

/-- The result of `callWithWallet` is a response whose error is nil, or a failure: the
function does not abort, and it returns no response that carries an error. -/
theorem callWithWallet_result_cases (c : Client) (method : String)
    (params : Option (List GoVal)) (walletName : String) :
    (∃ resp, (c.callWithWallet method params walletName).result = .ok resp ∧ resp.Error = none) ∨
    (∃ err, (c.callWithWallet method params walletName).result = .error err) := by
  unfold Client.callWithWallet
  dsimp only
  split
  · exact Or.inr ⟨_, rfl⟩
  · split
    · exact Or.inr ⟨_, rfl⟩
    · dsimp only
      split
      · exact Or.inr ⟨_, rfl⟩
      · split
        · exact Or.inr ⟨_, rfl⟩
        · split
          · exact Or.inr ⟨_, rfl⟩
          · split
            · exact Or.inr ⟨_, rfl⟩
            · split
              · exact Or.inr ⟨_, rfl⟩
              · rename_i h
                exact Or.inl ⟨_, rfl, h⟩

/-- C24. `GetBlock` with verbosity 0 sends `[blockhash, 0]` through the dispatcher and
returns no block, whatever the node answers: when the call fails it returns that failure,
as `failed to call getblock: ...`, and when the call succeeds it returns the failure
`verbosity 0 (raw hex) not supported, use verbosity 1 or 2`.  With verbosity 1 the list sent
is `[blockhash]` and with any other verbosity `v` it is `[blockhash, v]`. -/
theorem GetBlock_verbosity_zero (c : Client) (blockhash : String) :
    GetBlock.params blockhash 0 = some [.str blockhash, .int 0] ∧
    (c.GetBlock blockhash 0).sent
      = (c.callWithWallet "getblock" (some [.str blockhash, .int 0]) "").sent ∧
    (∀ err, (c.callWithWallet "getblock" (some [.str blockhash, .int 0]) "").result = .error err →
      (c.GetBlock blockhash 0).result = .error ("failed to call getblock: " ++ err)) ∧
    (∀ resp, (c.callWithWallet "getblock" (some [.str blockhash, .int 0]) "").result = .ok resp →
      (c.GetBlock blockhash 0).result
        = .error "verbosity 0 (raw hex) not supported, use verbosity 1 or 2") ∧
    (∀ block, (c.GetBlock blockhash 0).result ≠ .ok block) ∧
    (∀ msg, (c.GetBlock blockhash 0).result ≠ .panic msg) ∧
    GetBlock.params blockhash 1 = some [.str blockhash] ∧
    (∀ v : Int, v ≠ 1 → GetBlock.params blockhash v = some [.str blockhash, .int v]) ∧
    (∀ v : Int, (c.GetBlock blockhash v).sent
      = (c.callWithWallet "getblock" (GetBlock.params blockhash v) "").sent) ∧
    ((stubClient "200 OK" 200 "").GetBlock "00ab" 0).sent.map Request.Body
      = ["\x7b\"method\":\"getblock\",\"params\":[\"00ab\",0],\"id\":1,\"jsonrpc\":\"1.0\"\x7d".data] := by
  have hres : (c.GetBlock blockhash 0).result
      = match (c.callWithWallet "getblock" (some [.str blockhash, .int 0]) "").result with
        | .panic msg => .panic msg
        | .error err => .error ("failed to call getblock: " ++ err)
        | .ok _ => .error "verbosity 0 (raw hex) not supported, use verbosity 1 or 2" := by
    unfold Client.GetBlock Client.call
    dsimp only
    rw [show GetBlock.params blockhash 0 = some [.str blockhash, .int 0] from rfl]
    generalize (c.callWithWallet "getblock" (some [.str blockhash, .int 0]) "").result = r
    cases r <;> rfl
  refine ⟨rfl, rfl, ?_, ?_, ?_, ?_, rfl, ?_, fun v => rfl, by decide!⟩
  · intro err h
    rw [hres, h]
  · intro resp h
    rw [hres, h]
  · intro block
    rw [hres]
    rcases callWithWallet_result_cases c "getblock" (some [.str blockhash, .int 0]) ""
      with ⟨resp, h, _⟩ | ⟨err, h⟩ <;> rw [h] <;> simp
  · intro msg
    rw [hres]
    rcases callWithWallet_result_cases c "getblock" (some [.str blockhash, .int 0]) ""
      with ⟨resp, h, _⟩ | ⟨err, h⟩ <;> rw [h] <;> simp
  · intro v hv
    simp [GetBlock.params, goAppend, hv]

/-! ### III.o  Defaults for leading arguments -/

/-- C25. `ListTransactions` sends `*` for an empty label and 10 for a count of 0, and any
other label and count as they are; `ListUnspent` sends 1 for a `minconf` of 0, 9999999 for
a `maxconf` of 0, any other value as it is, and for the addresses the strings given, or
the empty array, which is encoded as `[]`, when the list is nil or empty.  So the list of
`ListUnspent` has at least three elements, and for
`ListUnspent(w, 1, 9999999, nil, false, nil)` it is `[1, 9999999, []]`. -/
theorem leading_defaults_replaced (c : Client) (walletName label : String) (count skip : Int)
    (includeWatchonly : Bool) (minconf maxconf : Int) (addresses : Option (List String))
    (includeUnsafe : Bool) (queryOptions : Option (List (String × GoVal))) :
    (∃ rest, ListTransactions.params label count skip includeWatchonly
      = some (.str (if label = "" then "*" else label)
          :: .int (if count = 0 then 10 else count) :: rest)) ∧
    (∃ rest, ListUnspent.params minconf maxconf addresses includeUnsafe queryOptions
      = some (.int (if minconf = 0 then 1 else minconf)
          :: .int (if maxconf = 0 then 9999999 else maxconf)
          :: (if goLen addresses > 0 then .slice ((addresses.getD []).map GoVal.str)
              else .slice []) :: rest)) ∧
    (∀ l, ListUnspent.params minconf maxconf addresses includeUnsafe queryOptions = some l →
      3 ≤ l.length) ∧
    ListUnspent.params minconf maxconf addresses includeUnsafe queryOptions ≠ none ∧
    marshalValue (.slice []) = .ok "[]".data ∧
    ListUnspent.params 1 9999999 none false none = some [.int 1, .int 9999999, .slice []] ∧
    ListUnspent.params 0 0 (some []) false none = some [.int 1, .int 9999999, .slice []] ∧
    (c.ListTransactions walletName label count skip includeWatchonly).sent
      = (c.callWithWallet "listtransactions"
          (ListTransactions.params label count skip includeWatchonly) walletName).sent ∧
    (c.ListUnspent walletName minconf maxconf addresses includeUnsafe queryOptions).sent
      = (c.callWithWallet "listunspent"
          (ListUnspent.params minconf maxconf addresses includeUnsafe queryOptions)
          walletName).sent ∧
    ((stubClient "200 OK" 200 "").ListUnspent "w" 1 9999999 none false none).sent.map
        Request.Body
      = ["\x7b\"method\":\"listunspent\",\"params\":[1,9999999,[]],\"id\":1,\"jsonrpc\":\"1.0\"\x7d".data] ∧
    ((stubClient "200 OK" 200 "").ListTransactions "w" "" 0 0 false).sent.map Request.Body
      = ["\x7b\"method\":\"listtransactions\",\"params\":[\"*\",10],\"id\":1,\"jsonrpc\":\"1.0\"\x7d".data] := by
  have hu : ∃ rest, ListUnspent.params minconf maxconf addresses includeUnsafe queryOptions
      = some (.int (if minconf = 0 then 1 else minconf)
          :: .int (if maxconf = 0 then 9999999 else maxconf)
          :: (if goLen addresses > 0 then .slice ((addresses.getD []).map GoVal.str)
              else .slice []) :: rest) := by
    have hs : goLen addresses > 0 →
        stringsValue addresses = .slice ((addresses.getD []).map GoVal.str) := by
      intro h
      cases addresses with
      | none => simp [goLen] at h
      | some l => rfl
    by_cases h1 : goLen addresses > 0 <;> by_cases h2 : goLen queryOptions > 0 <;>
      cases includeUnsafe <;>
      simp [ListUnspent.params, goAppend, h1, h2, hs]
  refine ⟨?_, hu, ?_, ?_, rfl, rfl, rfl, rfl, rfl, by decide!, by decide!⟩
  · by_cases h1 : skip > 0
    · have h2 : skip ≠ 0 := by omega
      cases includeWatchonly <;> simp [ListTransactions.params, goAppend, h1, h2]
    · by_cases h2 : skip = 0
      · cases includeWatchonly <;> simp [ListTransactions.params, goAppend, h2]
      · cases includeWatchonly <;> simp [ListTransactions.params, goAppend, h1, h2]
  · intro l hl
    obtain ⟨rest, hrest⟩ := hu
    rw [hrest] at hl
    injection hl with hl
    subst hl
    simp
  · obtain ⟨rest, hrest⟩ := hu
    rw [hrest]
    simp

/-! ### III.p  The status of the response -/

/-- C28. For every response whose status code is not exactly 200, a code from 201 to 299
included, and whose body is read, the call returns no response but the failure
`HTTP error: <status>, body: <body>`, whatever the body holds. -/
theorem callWithWallet_status_not_200 (c : Client) (method : String)
    (params : Option (List GoVal)) (walletName : String) (req : Request) (resp : Response)
    (body : List Char)
    (hsent : (c.callWithWallet method params walletName).sent = [req])
    (hdo : c.client.Do req = .ok resp)
    (hbody : resp.Body = .ok body)
    (hstatus : resp.StatusCode ≠ 200) :
    (c.callWithWallet method params walletName).result
      = .error ("HTTP error: " ++ resp.Status ++ ", body: " ++ String.mk body) ∧
    (∀ v, (c.callWithWallet method params walletName).result ≠ .ok v) := by
  rw [callWithWallet_of_sent c method params walletName req hsent, hdo]
  dsimp only
  rw [hbody]
  dsimp only
  rw [if_pos hstatus]
  exact ⟨rfl, fun v h => by cases h⟩

/-- C28, at a stub answering 201 with a well-formed success envelope: the failure is the
HTTP error and the payload `800000` is not returned. -/
theorem callWithWallet_status_not_200_witness :
    ((stubClient "201 Created" 201
        "\x7b\"result\":800000,\"error\":null,\"id\":1\x7d").callWithWallet
      "getblockcount" (some []) "").result
      = .error ("HTTP error: 201 Created, body: "
          ++ "\x7b\"result\":800000,\"error\":null,\"id\":1\x7d") :=
  (callWithWallet_status_not_200
    (stubClient "201 Created" 201 "\x7b\"result\":800000,\"error\":null,\"id\":1\x7d")
    "getblockcount" (some []) ""
    { Method := "POST", URL := "http://127.0.0.1:8332"
      Body := "\x7b\"method\":\"getblockcount\",\"params\":[],\"id\":1,\"jsonrpc\":\"1.0\"\x7d".data
      Header := [("Content-Type", "application/json")]
      BasicAuth := some ("rpcuser", "rpcpass") }
    { Status := "201 Created", StatusCode := 201
      Body := .ok "\x7b\"result\":800000,\"error\":null,\"id\":1\x7d".data }
    "\x7b\"result\":800000,\"error\":null,\"id\":1\x7d".data
    (by decide!) rfl rfl (by decide)).1

/-! ### III.q  Operations that are special cases of others -/

/-- C30. `SendToAddressSimple` does what `SendToAddress` does when every optional argument
is at its default: the two send the same requests and end in the same way, whatever the
node answers.  Both pass `[address, amount]` for `sendtoaddress` to the dispatcher with the
wallet name, so the request goes to the endpoint of the wallet, and both decode the payload
as a string. -/
theorem SendToAddressSimple_eq_SendToAddress (c : Client) (walletName address : String)
    (amount : Float64) :
    (c.SendToAddressSimple walletName address amount).sent
      = (c.SendToAddress walletName address amount "" "" false false 0 "").sent ∧
    (c.SendToAddressSimple walletName address amount).result
      = (c.SendToAddress walletName address amount "" "" false false 0 "").result ∧
    SendToAddress.params address amount "" "" false false 0 ""
      = some [.str address, .float amount] ∧
    (c.SendToAddressSimple walletName address amount).sent
      = (c.callWithWallet "sendtoaddress" (some [.str address, .float amount]) walletName).sent ∧
    (walletName ≠ "" → ∀ req ∈ (c.SendToAddressSimple walletName address amount).sent,
      req.URL = c.url ++ "/wallet/" ++ walletName) ∧
    (c.SendToAddressSimple walletName address amount).result
      = (match (c.callWithWallet "sendtoaddress" (some [.str address, .float amount])
            walletName).result with
         | .panic msg => .panic msg
         | .error err => .error ("failed to call sendtoaddress: " ++ err)
         | .ok resp =>
           match Unmarshal .string (.str "") resp.Result with
           | .error err => .error ("failed to unmarshal transaction ID: " ++ err)
           | .ok txid => .ok txid) ∧
    ((stubClient "200 OK" 200 "").SendToAddressSimple "w" "bc1q" ⟨"0.5"⟩).sent
      = [{ Method := "POST", URL := "http://127.0.0.1:8332/wallet/w"
           Body := "\x7b\"method\":\"sendtoaddress\",\"params\":[\"bc1q\",0.5],\"id\":1,\"jsonrpc\":\"1.0\"\x7d".data
           Header := [("Content-Type", "application/json")]
           BasicAuth := some ("rpcuser", "rpcpass") }] := by
  have hp : SendToAddress.params address amount "" "" false false 0 ""
      = some [.str address, .float amount] := rfl
  refine ⟨?_, ?_, hp, rfl, ?_, ?_, by decide!⟩
  · unfold Client.SendToAddressSimple Client.SendToAddress
    dsimp only
    rw [hp]
  · unfold Client.SendToAddressSimple Client.SendToAddress
    dsimp only
    rw [hp]
  · intro hw req hreq
    have hs : (c.SendToAddressSimple walletName address amount).sent
        = (c.callWithWallet "sendtoaddress" (some [.str address, .float amount])
            walletName).sent := rfl
    rw [hs] at hreq
    rcases callWithWallet_sent_cases c "sendtoaddress" (some [.str address, .float amount])
      walletName with h | ⟨body, _, _, h⟩
    · rw [h] at hreq; simp at hreq
    · rw [h] at hreq
      simp only [List.mem_singleton] at hreq
      rw [hreq]; simp [hw]
  · unfold Client.SendToAddressSimple
    dsimp only
    generalize (c.callWithWallet "sendtoaddress" (some [.str address, .float amount])
      walletName).result = r
    cases r <;> rfl

/-- A response that `callWithWallet` returns carries no error. -/
theorem callWithWallet_error_nil (c : Client) (method : String) (params : Option (List GoVal))
    (walletName : String) (resp : RPCResponse)
    (h : (c.callWithWallet method params walletName).result = .ok resp) : resp.Error = none := by
  rcases callWithWallet_result_cases c method params walletName with ⟨r, h1, h2⟩ | ⟨err, h1⟩
  · rw [h1] at h
    injection h with h
    subst h
    exact h2
  · rw [h1] at h
    cases h

/-- C27. `callWithWallet` ends with a response or with a failure, never with both and never
by aborting, and a response it returns carries no error.  So no operation of `advanced.go`
ever returns the failure of its branch `resp.Error != nil`, the text `<method> RPC error: `
followed by a message. -/
theorem callWithWallet_response_or_failure (c : Client) (method : String)
    (params : Option (List GoVal)) (walletName : String)
    (inputs : Option (List CreateRawTransactionInput)) (outputs : Option (List (String × GoVal)))
    (locktime : Int) (replaceable : Bool) (hexstring : String) (prevtxs : Option (List GoVal))
    (sighashtype : String) (maxfeerate : Float64) (address privkey label : String)
    (rescan : Bool) (nrequired : Int) (keys : Option (List String)) (addressType : String)
    (verbose mempoolSequence : Bool) :
    (∀ resp, (c.callWithWallet method params walletName).result = .ok resp →
      resp.Error = none) ∧
    (∀ msg, (c.callWithWallet method params walletName).result ≠ .panic msg) ∧
    ((∃ resp, (c.callWithWallet method params walletName).result = .ok resp) ∨
      (∃ err, (c.callWithWallet method params walletName).result = .error err)) ∧
    (∀ msg, (c.CreateRawTransaction inputs outputs locktime replaceable).result
      ≠ .error ("createrawtransaction RPC error: " ++ msg)) ∧
    (∀ msg, (c.SignRawTransactionWithWallet walletName hexstring prevtxs sighashtype).result
      ≠ .error ("signrawtransactionwithwallet RPC error: " ++ msg)) ∧
    (∀ msg, (c.SendRawTransaction hexstring maxfeerate).result
      ≠ .error ("sendrawtransaction RPC error: " ++ msg)) ∧
    (∀ msg, (c.DumpPrivKey walletName address).result
      ≠ .error ("dumpprivkey RPC error: " ++ msg)) ∧
    (∀ msg, (c.ImportPrivKey walletName privkey label rescan).result
      ≠ .error ("importprivkey RPC error: " ++ msg)) ∧
    (∀ msg, (c.CreateMultisig nrequired keys addressType).result
      ≠ .error ("createmultisig RPC error: " ++ msg)) ∧
    (∀ msg, (c.AddMultisigAddress walletName nrequired keys label addressType).result
      ≠ .error ("addmultisigaddress RPC error: " ++ msg)) ∧
    (∀ msg, (c.GetRawMempool verbose mempoolSequence).result
      ≠ .error ("getrawmempool RPC error: " ++ msg)) := by
  refine ⟨fun resp h => callWithWallet_error_nil c method params walletName resp h, ?_, ?_,
    ?_, ?_, ?_, ?_, ?_, ?_, ?_, ?_⟩
  · intro msg h
    rcases callWithWallet_result_cases c method params walletName with ⟨r, h1, _⟩ | ⟨err, h1⟩ <;>
      rw [h1] at h <;> cases h
  · rcases callWithWallet_result_cases c method params walletName with ⟨r, h1, _⟩ | ⟨err, h1⟩
    · exact Or.inl ⟨r, h1⟩
    · exact Or.inr ⟨err, h1⟩
  · intro msg h
    unfold Client.CreateRawTransaction Client.call at h
    dsimp only at h
    split at h
    · cases h
    · injection h with h
      exact append_ne_append_of_prefix "createrawtransaction RPC ".data 'c' 'e' _ _
        "createrawtransaction RPC call failed: " "createrawtransaction RPC error: " _ msg rfl rfl (by decide) h
    · rename_i resp hres
      have he := callWithWallet_error_nil c _ _ _ resp hres
      split at h
      · rename_i e hsome
        rw [he] at hsome
        cases hsome
      · split at h
        · injection h with h
          exact append_ne_append_of_prefix [] 'f' 'c' _ _
            "failed to unmarshal createrawtransaction result: " "createrawtransaction RPC error: " _ msg rfl rfl (by decide) h
        · cases h
  · intro msg h
    unfold Client.SignRawTransactionWithWallet at h
    dsimp only at h
    split at h
    · cases h
    · injection h with h
      exact append_ne_append_of_prefix "signrawtransactionwithwallet RPC ".data 'c' 'e' _ _
        "signrawtransactionwithwallet RPC call failed: " "signrawtransactionwithwallet RPC error: " _ msg rfl rfl (by decide) h
    · rename_i resp hres
      have he := callWithWallet_error_nil c _ _ _ resp hres
      split at h
      · rename_i e hsome
        rw [he] at hsome
        cases hsome
      · split at h
        · injection h with h
          exact append_ne_append_of_prefix [] 'f' 's' _ _
            "failed to unmarshal signrawtransactionwithwallet result: " "signrawtransactionwithwallet RPC error: " _ msg rfl rfl (by decide) h
        · cases h
  · intro msg h
    unfold Client.SendRawTransaction Client.call at h
    dsimp only at h
    split at h
    · cases h
    · injection h with h
      exact append_ne_append_of_prefix "sendrawtransaction RPC ".data 'c' 'e' _ _
        "sendrawtransaction RPC call failed: " "sendrawtransaction RPC error: " _ msg rfl rfl (by decide) h
    · rename_i resp hres
      have he := callWithWallet_error_nil c _ _ _ resp hres
      split at h
      · rename_i e hsome
        rw [he] at hsome
        cases hsome
      · split at h
        · injection h with h
          exact append_ne_append_of_prefix [] 'f' 's' _ _
            "failed to unmarshal sendrawtransaction result: " "sendrawtransaction RPC error: " _ msg rfl rfl (by decide) h
        · cases h
  · intro msg h
    unfold Client.DumpPrivKey at h
    dsimp only at h
    split at h
    · cases h
    · injection h with h
      exact append_ne_append_of_prefix "dumpprivkey RPC ".data 'c' 'e' _ _
        "dumpprivkey RPC call failed: " "dumpprivkey RPC error: " _ msg rfl rfl (by decide) h
    · rename_i resp hres
      have he := callWithWallet_error_nil c _ _ _ resp hres
      split at h
      · rename_i e hsome
        rw [he] at hsome
        cases hsome
      · split at h
        · injection h with h
          exact append_ne_append_of_prefix [] 'f' 'd' _ _
            "failed to unmarshal dumpprivkey result: " "dumpprivkey RPC error: " _ msg rfl rfl (by decide) h
        · cases h
  · intro msg h
    unfold Client.ImportPrivKey at h
    dsimp only at h
    split at h
    · cases h
    · injection h with h
      exact append_ne_append_of_prefix "importprivkey RPC ".data 'c' 'e' _ _
        "importprivkey RPC call failed: " "importprivkey RPC error: " _ msg rfl rfl (by decide) h
    · rename_i resp hres
      have he := callWithWallet_error_nil c _ _ _ resp hres
      split at h
      · rename_i e hsome
        rw [he] at hsome
        cases hsome
      · cases h
  · intro msg h
    unfold Client.CreateMultisig Client.call at h
    dsimp only at h
    split at h
    · cases h
    · injection h with h
      exact append_ne_append_of_prefix "createmultisig RPC ".data 'c' 'e' _ _
        "createmultisig RPC call failed: " "createmultisig RPC error: " _ msg rfl rfl (by decide) h
    · rename_i resp hres
      have he := callWithWallet_error_nil c _ _ _ resp hres
      split at h
      · rename_i e hsome
        rw [he] at hsome
        cases hsome
      · split at h
        · injection h with h
          exact append_ne_append_of_prefix [] 'f' 'c' _ _
            "failed to unmarshal createmultisig result: " "createmultisig RPC error: " _ msg rfl rfl (by decide) h
        · cases h
  · intro msg h
    unfold Client.AddMultisigAddress at h
    dsimp only at h
    split at h
    · cases h
    · injection h with h
      exact append_ne_append_of_prefix "addmultisigaddress RPC ".data 'c' 'e' _ _
        "addmultisigaddress RPC call failed: " "addmultisigaddress RPC error: " _ msg rfl rfl (by decide) h
    · rename_i resp hres
      have he := callWithWallet_error_nil c _ _ _ resp hres
      split at h
      · rename_i e hsome
        rw [he] at hsome
        cases hsome
      · split at h
        · injection h with h
          exact append_ne_append_of_prefix [] 'f' 'a' _ _
            "failed to unmarshal addmultisigaddress result: " "addmultisigaddress RPC error: " _ msg rfl rfl (by decide) h
        · cases h
  · intro msg h
    unfold Client.GetRawMempool Client.call at h
    dsimp only at h
    split at h
    · cases h
    · injection h with h
      exact append_ne_append_of_prefix "getrawmempool RPC ".data 'c' 'e' _ _
        "getrawmempool RPC call failed: " "getrawmempool RPC error: " _ msg rfl rfl (by decide) h
    · rename_i resp hres
      have he := callWithWallet_error_nil c _ _ _ resp hres
      split at h
      · rename_i e hsome
        rw [he] at hsome
        cases hsome
      · split at h
        · split at h
          · injection h with h
            exact append_ne_append_of_prefix [] 'f' 'g' _ _
              "failed to unmarshal verbose getrawmempool result: " "getrawmempool RPC error: "
              _ msg rfl rfl (by decide) h
          · cases h
        · split at h
          · injection h with h
            exact append_ne_append_of_prefix [] 'f' 'g' _ _
              "failed to unmarshal getrawmempool result: " "getrawmempool RPC error: "
              _ msg rfl rfl (by decide) h
          · cases h

/-! ### III.s  The id of the response -/

/-- Decoders that agree on the types of the fields of a struct decode the members of an
object into the same field values. -/
theorem decodeMembers_congr
    (dec1 dec2 : GoType → ErrorContext → GoVal → List Char → Except String GoVal)
    (name : String) (ctx : ErrorContext) (fields : List (FieldTag × GoType))
    (h : ∀ f ∈ fields, ∀ ctx1 cur raw, dec1 f.2 ctx1 cur raw = dec2 f.2 ctx1 cur raw) :
    ∀ (ms : List (String × List Char)) (vals : List (FieldTag × GoVal)),
      decodeMembers dec1 name ctx fields vals ms = decodeMembers dec2 name ctx fields vals ms := by
  intro ms
  induction ms with
  | nil => intro vals; rfl
  | cons m ms ih =>
    intro vals
    obtain ⟨key, raw⟩ := m
    rw [decodeMembers, decodeMembers]
    cases hl : lookupField fields key with
    | none => exact ih vals
    | some i =>
      dsimp only
      cases hf : fields.get? i with
      | none => exact ih vals
      | some ft =>
        obtain ⟨tag, t⟩ := ft
        cases hv : vals.get? i with
        | none => exact ih vals
        | some cv =>
          obtain ⟨tag1, v⟩ := cv
          dsimp only
          have hmem : (tag, t) ∈ fields := List.get?_mem hf
          rw [h (tag, t) hmem]
          cases dec2 t { Struct := name, FieldStack := ctx.FieldStack ++ [tag.name] } v raw with
          | error e => rfl
          | ok x => exact ih _

/-- Decoding into the field `error` of a response does not depend on the bound of the
decoder. -/
theorem decode_error_field (f g : Nat) (ctx : ErrorContext) (cur : GoVal) (raw : List Char) :
    decode (f + 3) (.ptr RPCError.type) ctx cur raw
      = decode (g + 3) (.ptr RPCError.type) ctx cur raw := by
  have key : ∀ (ms : List (String × List Char)) (vals : List (FieldTag × GoVal)),
      decodeMembers (decode (f + 1)) "RPCError" ctx
          [(⟨"code", false⟩, .goInt), (⟨"message", false⟩, .string)] vals ms
        = decodeMembers (decode (g + 1)) "RPCError" ctx
          [(⟨"code", false⟩, .goInt), (⟨"message", false⟩, .string)] vals ms :=
    decodeMembers_congr _ _ _ _ _ (by
      intro ft hft ctx1 cur1 raw1
      simp only [List.mem_cons, List.mem_singleton, List.not_mem_nil, or_false] at hft
      rcases hft with h | h <;> subst h <;> rfl)
  show (if isNull raw then Except.ok GoVal.nil
    else decode (f + 2) RPCError.type ctx (match cur with
      | .nil => RPCError.type.zero
      | v => v) raw)
    = (if isNull raw then Except.ok GoVal.nil
    else decode (g + 2) RPCError.type ctx (match cur with
      | .nil => RPCError.type.zero
      | v => v) raw)
  by_cases hn : isNull raw = true
  · rw [if_pos hn, if_pos hn]
  · rw [if_neg hn, if_neg hn]
    generalize (match cur with
      | .nil => RPCError.type.zero
      | v => v) = cur1
    clear hn
    show (match raw with
      | '{' :: _ =>
        match splitObject raw with
        | none => Except.error phaseError
        | some ms =>
          (decodeMembers (decode (f + 1)) "RPCError" ctx
            [(⟨"code", false⟩, .goInt), (⟨"message", false⟩, .string)] (match cur1 with
              | .struct vals => vals
              | _ => GoType.zeroFields
                  [(⟨"code", false⟩, .goInt), (⟨"message", false⟩, .string)]) ms).map GoVal.struct
      | 'n' :: _ => Except.ok cur1
      | _ => Except.error (typeError (jsonKind raw) RPCError.type ctx))
      = (match raw with
      | '{' :: _ =>
        match splitObject raw with
        | none => Except.error phaseError
        | some ms =>
          (decodeMembers (decode (g + 1)) "RPCError" ctx
            [(⟨"code", false⟩, .goInt), (⟨"message", false⟩, .string)] (match cur1 with
              | .struct vals => vals
              | _ => GoType.zeroFields
                  [(⟨"code", false⟩, .goInt), (⟨"message", false⟩, .string)]) ms).map GoVal.struct
      | 'n' :: _ => Except.ok cur1
      | _ => Except.error (typeError (jsonKind raw) RPCError.type ctx))
    simp only [key]

/-- Decoding one text into two integer variables, with any bounds of the decoder: both
fail with the same error or both succeed. -/
theorem decode_int_same (f g : Nat) (name : String) (bits : Nat) (ctx : ErrorContext)
    (cur1 cur2 : GoVal) (raw : List Char) :
    (∃ e, decode (f + 1) (.int name bits) ctx cur1 raw = .error e ∧
      decode (g + 1) (.int name bits) ctx cur2 raw = .error e) ∨
    (∃ v1 v2, decode (f + 1) (.int name bits) ctx cur1 raw = .ok v1 ∧
      decode (g + 1) (.int name bits) ctx cur2 raw = .ok v2) := by
  have h1 : ∀ (k : Nat) (cur : GoVal), decode (k + 1) (.int name bits) ctx cur raw
      = (if isNull raw then Except.ok cur
        else if jsonKind raw = "number" then
          match parseInt bits raw with
          | some i => Except.ok (GoVal.int i)
          | none => Except.error (typeError ("number " ++ String.mk raw) (.int name bits) ctx)
        else Except.error (typeError (jsonKind raw) (.int name bits) ctx)) := fun _ _ => rfl
  rw [h1 f cur1, h1 g cur2]
  by_cases hn : isNull raw = true
  · rw [if_pos hn, if_pos hn]
    exact Or.inr ⟨_, _, rfl, rfl⟩
  · rw [if_neg hn, if_neg hn]
    by_cases hk : jsonKind raw = "number"
    · rw [if_pos hk]
      cases parseInt bits raw with
      | none => exact Or.inl ⟨_, rfl, rfl⟩
      | some i => exact Or.inr ⟨_, _, rfl, rfl⟩
    · rw [if_neg hk]
      exact Or.inl ⟨_, rfl, rfl⟩

/-- The members of two objects that differ only in the integers given for `id`, decoded
into two responses that differ at most in their id: both decodings fail with the same
error, or both succeed and the responses still differ at most in their id. -/
theorem decodeMembers_id (f g : Nat) (ms1 ms2 : List (String × List Char))
    (h : List.Forall₂ (fun (m1 m2 : String × List Char) => m1.1 = m2.1 ∧
      (m1.2 = m2.2 ∨ (m1.1 = "id" ∧ (∃ i, parseInt 64 m1.2 = some i) ∧
        (∃ j, parseInt 64 m2.2 = some j)))) ms1 ms2) :
    ∀ a b c1 c2 : GoVal,
    (∃ e, decodeMembers (decode (f + 3)) "RPCResponse" ⟨"", []⟩
        [(⟨"result", false⟩, .rawMessage), (⟨"error", false⟩, .ptr RPCError.type),
          (⟨"id", false⟩, .goInt)]
        [(⟨"result", false⟩, a), (⟨"error", false⟩, b), (⟨"id", false⟩, c1)] ms1 = .error e ∧
      decodeMembers (decode (g + 3)) "RPCResponse" ⟨"", []⟩
        [(⟨"result", false⟩, .rawMessage), (⟨"error", false⟩, .ptr RPCError.type),
          (⟨"id", false⟩, .goInt)]
        [(⟨"result", false⟩, a), (⟨"error", false⟩, b), (⟨"id", false⟩, c2)] ms2 = .error e) ∨
    (∃ a1 b1 d1 d2, decodeMembers (decode (f + 3)) "RPCResponse" ⟨"", []⟩
        [(⟨"result", false⟩, .rawMessage), (⟨"error", false⟩, .ptr RPCError.type),
          (⟨"id", false⟩, .goInt)]
        [(⟨"result", false⟩, a), (⟨"error", false⟩, b), (⟨"id", false⟩, c1)] ms1
          = .ok [(⟨"result", false⟩, a1), (⟨"error", false⟩, b1), (⟨"id", false⟩, d1)] ∧
      decodeMembers (decode (g + 3)) "RPCResponse" ⟨"", []⟩
        [(⟨"result", false⟩, .rawMessage), (⟨"error", false⟩, .ptr RPCError.type),
          (⟨"id", false⟩, .goInt)]
        [(⟨"result", false⟩, a), (⟨"error", false⟩, b), (⟨"id", false⟩, c2)] ms2
          = .ok [(⟨"result", false⟩, a1), (⟨"error", false⟩, b1), (⟨"id", false⟩, d2)]) := by
  induction h with
  | nil =>
    intro a b c1 c2
    exact Or.inr ⟨a, b, c1, c2, rfl, rfl⟩
  | @cons m1 m2 ms1 ms2 hm _ ih =>
    intro a b c1 c2
    obtain ⟨key, raw1⟩ := m1
    obtain ⟨key2, raw2⟩ := m2
    obtain ⟨hkey, hraw⟩ := hm
    dsimp only at hkey hraw
    subst hkey
    have hid : lookupField [((⟨"result", false⟩ : FieldTag), GoType.rawMessage),
        (⟨"error", false⟩, .ptr RPCError.type), (⟨"id", false⟩, .goInt)] "id" = some 2 := rfl
    rw [decodeMembers, decodeMembers]
    cases hl : lookupField [((⟨"result", false⟩ : FieldTag), GoType.rawMessage),
        (⟨"error", false⟩, .ptr RPCError.type), (⟨"id", false⟩, .goInt)] key with
    | none => exact ih a b c1 c2
    | some i =>
      rcases i with _ | _ | _ | n
      · have hr : raw1 = raw2 := by
          rcases hraw with h | ⟨h, _⟩
          · exact h
          · rw [h, hid] at hl; cases hl
        subst hr
        exact ih (.raw raw1) b c1 c2
      · have hr : raw1 = raw2 := by
          rcases hraw with h | ⟨h, _⟩
          · exact h
          · rw [h, hid] at hl; cases hl
        subst hr
        dsimp only [List.get?]
        rw [decode_error_field f g]
        cases decode (g + 3) (.ptr RPCError.type) ⟨"RPCResponse", [] ++ ["error"]⟩ b raw1 with
        | error e => exact Or.inl ⟨e, rfl, rfl⟩
        | ok v => exact ih a v c1 c2
      · dsimp only [List.get?]
        rcases hraw with h | ⟨_, ⟨i, hi⟩, ⟨j, hj⟩⟩
        · subst h
          rcases decode_int_same (f + 2) (g + 2) "int" 64 ⟨"RPCResponse", [] ++ ["id"]⟩ c1 c2 raw1
            with ⟨e, h1, h2⟩ | ⟨v1, v2, h1, h2⟩
          · rw [show GoType.goInt = GoType.int "int" 64 from rfl, h1, h2]
            exact Or.inl ⟨e, rfl, rfl⟩
          · rw [show GoType.goInt = GoType.int "int" 64 from rfl, h1, h2]
            exact ih a b v1 v2
        · rw [show GoType.goInt = GoType.int "int" 64 from rfl,
            decode_int (f + 2) "int" 64 _ c1 raw1 i hi, decode_int (g + 2) "int" 64 _ c2 raw2 j hj]
          exact ih a b (.int i) (.int j)
      · exact ih a b c1 c2

/-- A text whose members the decoder can list starts with an opening brace. -/
theorem splitObject_head (raw : List Char) (ms : List (String × List Char))
    (h : splitObject raw = some ms) : ∃ rest, raw = '{' :: rest := by
  unfold splitObject at h
  split at h
  · exact ⟨_, rfl⟩
  · cases h

/-- Two valid texts that hold objects differing only in the integers given for `id` are
both refused with the same error, or both decoded into responses that differ at most in
their id. -/
theorem Unmarshal_response_id (body1 body2 : List Char) (ms1 ms2 : List (String × List Char))
    (hv1 : checkValid body1 = .ok ()) (hv2 : checkValid body2 = .ok ())
    (hms1 : splitObject (trimSpace body1) = some ms1)
    (hms2 : splitObject (trimSpace body2) = some ms2)
    (hdiff : List.Forall₂ (fun (m1 m2 : String × List Char) => m1.1 = m2.1 ∧
      (m1.2 = m2.2 ∨ (m1.1 = "id" ∧ (∃ i, parseInt 64 m1.2 = some i) ∧
        (∃ j, parseInt 64 m2.2 = some j)))) ms1 ms2) :
    (∃ e, Unmarshal RPCResponse.type RPCResponse.type.zero body1 = .error e ∧
      Unmarshal RPCResponse.type RPCResponse.type.zero body2 = .error e) ∨
    (∃ a b d1 d2, Unmarshal RPCResponse.type RPCResponse.type.zero body1
        = .ok (.struct [(⟨"result", false⟩, a), (⟨"error", false⟩, b), (⟨"id", false⟩, d1)]) ∧
      Unmarshal RPCResponse.type RPCResponse.type.zero body2
        = .ok (.struct [(⟨"result", false⟩, a), (⟨"error", false⟩, b), (⟨"id", false⟩, d2)])) := by
  have hstep : ∀ (k : Nat) (rest : List Char),
      decode (k + 1) RPCResponse.type ⟨"", []⟩ RPCResponse.type.zero ('{' :: rest)
        = match splitObject ('{' :: rest) with
          | none => .error phaseError
          | some ms =>
            (decodeMembers (decode k) "RPCResponse" ⟨"", []⟩
              [(⟨"result", false⟩, .rawMessage), (⟨"error", false⟩, .ptr RPCError.type),
                (⟨"id", false⟩, .goInt)]
              [(⟨"result", false⟩, .nil), (⟨"error", false⟩, .nil), (⟨"id", false⟩, .int 0)]
              ms).map GoVal.struct := fun _ _ => rfl
  have hsize : RPCResponse.type.size = 7 := by decide
  obtain ⟨rest1, hr1⟩ := splitObject_head _ _ hms1
  obtain ⟨rest2, hr2⟩ := splitObject_head _ _ hms2
  have hu : ∀ (body rest : List Char) (ms : List (String × List Char)),
      checkValid body = .ok () → trimSpace body = '{' :: rest →
      splitObject (trimSpace body) = some ms →
      Unmarshal RPCResponse.type RPCResponse.type.zero body
        = (decodeMembers (decode (rest.length + 5 + 3)) "RPCResponse" ⟨"", []⟩
            [(⟨"result", false⟩, .rawMessage), (⟨"error", false⟩, .ptr RPCError.type),
              (⟨"id", false⟩, .goInt)]
            [(⟨"result", false⟩, .nil), (⟨"error", false⟩, .nil), (⟨"id", false⟩, .int 0)]
            ms).map GoVal.struct := by
    intro body rest ms hv hr hms
    unfold Unmarshal
    rw [hv]
    dsimp only
    rw [hr] at hms ⊢
    have hlen : ('{' :: rest).length + 7 + 1 = (rest.length + 5 + 3) + 1 := by
      rw [List.length_cons]
    rw [hsize, hlen, hstep, hms]
  rw [hu body1 rest1 ms1 hv1 hr1 hms1, hu body2 rest2 ms2 hv2 hr2 hms2]
  rcases decodeMembers_id (rest1.length + 5) (rest2.length + 5) ms1 ms2 hdiff .nil .nil
    (.int 0) (.int 0) with ⟨e, h1, h2⟩ | ⟨a, b, d1, d2, h1, h2⟩
  · rw [h1, h2]
    exact Or.inl ⟨e, rfl, rfl⟩
  · rw [h1, h2]
    exact Or.inr ⟨a, b, d1, d2, rfl, rfl⟩

/-- C29, refuted as stated: an id that does not fit the type `int` of the field `ID` makes
the call fail.  The body with id 1 yields the payload; the same body with the id
9223372036854775808 yields a decode failure. -/
theorem callWithWallet_id_out_of_range :
    ((stubClient "200 OK" 200 "\x7b\"result\":800000,\"error\":null,\"id\":1\x7d").callWithWallet
      "getblockcount" (some []) "").result
      = .ok { Result := "800000".data, Error := none, ID := 1 } ∧
    ((stubClient "200 OK" 200
        "\x7b\"result\":800000,\"error\":null,\"id\":9223372036854775808\x7d").callWithWallet
      "getblockcount" (some []) "").result
      = .error ("failed to unmarshal response: json: cannot unmarshal number "
          ++ "9223372036854775808 into Go struct field RPCResponse.id of type int") := by
  constructor <;> decide!

/-- C29, amended. For any two status-200 responses whose bodies are valid JSON objects with
the same members in the same order, equal in everything but the values of the members `id`,
which are integer literals within the range of `int` in both, `callWithWallet` returns the
same failure for both, or for both a response with the same payload and no error. -/
theorem callWithWallet_id_independent (c1 c2 : Client) (method : String)
    (params : Option (List GoVal)) (walletName : String) (req1 req2 : Request)
    (resp1 resp2 : Response) (body1 body2 : List Char) (ms1 ms2 : List (String × List Char))
    (hsent1 : (c1.callWithWallet method params walletName).sent = [req1])
    (hsent2 : (c2.callWithWallet method params walletName).sent = [req2])
    (hdo1 : c1.client.Do req1 = .ok resp1) (hdo2 : c2.client.Do req2 = .ok resp2)
    (hstatus1 : resp1.StatusCode = 200) (hstatus2 : resp2.StatusCode = 200)
    (hbody1 : resp1.Body = .ok body1) (hbody2 : resp2.Body = .ok body2)
    (hv1 : checkValid body1 = .ok ()) (hv2 : checkValid body2 = .ok ())
    (hms1 : splitObject (trimSpace body1) = some ms1)
    (hms2 : splitObject (trimSpace body2) = some ms2)
    (hdiff : List.Forall₂ (fun (m1 m2 : String × List Char) => m1.1 = m2.1 ∧
      (m1.2 = m2.2 ∨ (m1.1 = "id" ∧ (∃ i, parseInt 64 m1.2 = some i) ∧
        (∃ j, parseInt 64 m2.2 = some j)))) ms1 ms2) :
    (∃ err, (c1.callWithWallet method params walletName).result = .error err ∧
      (c2.callWithWallet method params walletName).result = .error err) ∨
    (∃ p1 p2, (c1.callWithWallet method params walletName).result = .ok p1 ∧
      (c2.callWithWallet method params walletName).result = .ok p2 ∧
      p1.Result = p2.Result ∧ p1.Error = none ∧ p2.Error = none) := by
  rw [callWithWallet_of_sent c1 method params walletName req1 hsent1, hdo1,
    callWithWallet_of_sent c2 method params walletName req2 hsent2, hdo2]
  dsimp only
  rw [hbody1, hbody2]
  dsimp only
  rw [if_neg (by simp [hstatus1]), if_neg (by simp [hstatus2])]
  rcases Unmarshal_response_id body1 body2 ms1 ms2 hv1 hv2 hms1 hms2 hdiff
    with ⟨e, h1, h2⟩ | ⟨a, b, d1, d2, h1, h2⟩
  · rw [h1, h2]
    exact Or.inl ⟨_, rfl, rfl⟩
  · rw [h1, h2]
    dsimp only
    have he : (RPCResponse.ofValue (.struct [(⟨"result", false⟩, a), (⟨"error", false⟩, b),
          (⟨"id", false⟩, d1)])).Error
        = (RPCResponse.ofValue (.struct [(⟨"result", false⟩, a), (⟨"error", false⟩, b),
          (⟨"id", false⟩, d2)])).Error := rfl
    have hres : (RPCResponse.ofValue (.struct [(⟨"result", false⟩, a), (⟨"error", false⟩, b),
          (⟨"id", false⟩, d1)])).Result
        = (RPCResponse.ofValue (.struct [(⟨"result", false⟩, a), (⟨"error", false⟩, b),
          (⟨"id", false⟩, d2)])).Result := rfl
    rw [he]
    cases hE : (RPCResponse.ofValue (.struct [(⟨"result", false⟩, a), (⟨"error", false⟩, b),
          (⟨"id", false⟩, d2)])).Error with
    | some e => exact Or.inl ⟨_, rfl, rfl⟩
    | none => exact Or.inr ⟨_, _, rfl, rfl, hres, by rw [he]; exact hE, hE⟩

/-- C29 amended, at two stubs answering the success envelope with id 1 and with id 7: the
call returns the same failure for both, or the same payload for both. -/
theorem callWithWallet_id_independent_witness :
    (∃ err, ((stubClient "200 OK" 200
          "\x7b\"result\":800000,\"error\":null,\"id\":1\x7d").callWithWallet
        "getblockcount" (some []) "").result = .error err ∧
      ((stubClient "200 OK" 200
          "\x7b\"result\":800000,\"error\":null,\"id\":7\x7d").callWithWallet
        "getblockcount" (some []) "").result = .error err) ∨
    (∃ p1 p2, ((stubClient "200 OK" 200
          "\x7b\"result\":800000,\"error\":null,\"id\":1\x7d").callWithWallet
        "getblockcount" (some []) "").result = .ok p1 ∧
      ((stubClient "200 OK" 200
          "\x7b\"result\":800000,\"error\":null,\"id\":7\x7d").callWithWallet
        "getblockcount" (some []) "").result = .ok p2 ∧
      p1.Result = p2.Result ∧ p1.Error = none ∧ p2.Error = none) :=
  callWithWallet_id_independent
    (stubClient "200 OK" 200 "\x7b\"result\":800000,\"error\":null,\"id\":1\x7d")
    (stubClient "200 OK" 200 "\x7b\"result\":800000,\"error\":null,\"id\":7\x7d")
    "getblockcount" (some []) ""
    { Method := "POST", URL := "http://127.0.0.1:8332"
      Body := "\x7b\"method\":\"getblockcount\",\"params\":[],\"id\":1,\"jsonrpc\":\"1.0\"\x7d".data
      Header := [("Content-Type", "application/json")]
      BasicAuth := some ("rpcuser", "rpcpass") }
    { Method := "POST", URL := "http://127.0.0.1:8332"
      Body := "\x7b\"method\":\"getblockcount\",\"params\":[],\"id\":1,\"jsonrpc\":\"1.0\"\x7d".data
      Header := [("Content-Type", "application/json")]
      BasicAuth := some ("rpcuser", "rpcpass") }
    { Status := "200 OK", StatusCode := 200
      Body := .ok "\x7b\"result\":800000,\"error\":null,\"id\":1\x7d".data }
    { Status := "200 OK", StatusCode := 200
      Body := .ok "\x7b\"result\":800000,\"error\":null,\"id\":7\x7d".data }
    "\x7b\"result\":800000,\"error\":null,\"id\":1\x7d".data
    "\x7b\"result\":800000,\"error\":null,\"id\":7\x7d".data
    [("result", "800000".data), ("error", "null".data), ("id", "1".data)]
    [("result", "800000".data), ("error", "null".data), ("id", "7".data)]
    (by decide!) (by decide!) rfl rfl rfl rfl rfl rfl (by decide!) (by decide!)
    (by decide!) (by decide!)
    (.cons ⟨rfl, .inl rfl⟩ (.cons ⟨rfl, .inl rfl⟩
      (.cons ⟨rfl, .inr ⟨rfl, ⟨1, by decide!⟩, ⟨7, by decide!⟩⟩⟩ .nil)))

/-! ### III.t  Address groupings -/

/-- On an entry of one of the expected forms the loop body of `ListAddressGroupings`
builds what the specification reads from the entry. -/
theorem addrInfo_of_shape (e : List GoVal)
    (h : e.length < 2 ∨ (∃ a x, e = [.str a, .float x]) ∨
      (∃ a x, e = [.str a, .float x, .nil]) ∨ (∃ a x l, e = [.str a, .float x, .str l])) :
    ListAddressGroupings.addrInfo e = .ok (entryInfo e) := by
  rcases h with h | ⟨a, x, rfl⟩ | ⟨a, x, rfl⟩ | ⟨a, x, l, rfl⟩
  · cases e with
    | nil => rfl
    | cons v rest =>
      cases rest with
      | nil => cases v <;> rfl
      | cons w rest1 =>
        simp only [List.length_cons] at h
        omega
  · rfl
  · rfl
  · rfl

/-- The inner loop on a group of entries of the expected forms. -/
theorem group_of_shape (g : List (List GoVal))
    (h : ∀ e ∈ g, e.length < 2 ∨ (∃ a x, e = [.str a, .float x]) ∨
      (∃ a x, e = [.str a, .float x, .nil]) ∨ (∃ a x l, e = [.str a, .float x, .str l])) :
    ListAddressGroupings.group (g.map GoVal.slice) = .ok (g.filterMap entryInfo) := by
  induction g with
  | nil => rfl
  | cons e rest ih =>
    have he := addrInfo_of_shape e (h e (List.mem_cons_self _ _))
    have hr := ih (fun e1 h1 => h e1 (List.mem_cons_of_mem _ h1))
    rw [List.map_cons, ListAddressGroupings.group]
    simp only [rangeOf, he, hr, List.filterMap_cons]
    cases entryInfo e <;> rfl

/-- The outer loop on a payload of groups of entries of the expected forms. -/
theorem groupings_of_shape (payload : List (List (List GoVal)))
    (h : ∀ g ∈ payload, ∀ e ∈ g, e.length < 2 ∨ (∃ a x, e = [.str a, .float x]) ∨
      (∃ a x, e = [.str a, .float x, .nil]) ∨ (∃ a x l, e = [.str a, .float x, .str l])) :
    ListAddressGroupings.groupings (payload.map (fun g => GoVal.slice (g.map GoVal.slice)))
      = .ok ((expectedGroupings payload).map GoVal.slice) := by
  induction payload with
  | nil => rfl
  | cons g rest ih =>
    have hg := group_of_shape g (h g (List.mem_cons_self _ _))
    have hr := ih (fun g1 h1 => h g1 (List.mem_cons_of_mem _ h1))
    rw [List.map_cons, ListAddressGroupings.groupings]
    simp only [rangeOf, hg, hr]
    cases hf : g.filterMap entryInfo with
    | nil => simp [expectedGroupings, hf]
    | cons i is => simp [expectedGroupings, hf]

set_option exponentiation.threshold 512 in
set_option maxRecDepth 100000 in
/-- C26, refuted as stated: an amount that is a JSON number but exceeds the range of
`float64` makes the call fail.  On the payload `[[["bc1q",1e400]]]`, a group with one entry
of a string address and a numeric amount, `ListAddressGroupings` returns no groups but a
decode failure. -/
theorem ListAddressGroupings_amount_out_of_range :
    ((stubClient "200 OK" 200
      "\x7b\"result\":[[[\"bc1q\",1e400]]],\"error\":null,\"id\":1\x7d").ListAddressGroupings
      "w").result
      = .error ("failed to unmarshal address groupings raw: "
          ++ "json: cannot unmarshal number 1e400 into Go value of type float64") := by
  rfl

/-- C26, amended. For every payload that decodes into groups of entries, each entry with
fewer than two elements or of the form `[address, amount]` or `[address, amount, label]`
with a string address, an amount within the range of `float64` and a string or null label,
`ListAddressGroupings` returns the groups in the order of the payload, each with its
entries in that order, the address, the amount and the label taken from the elements 0, 1
and 2 and the label empty when the third element is absent or null; entries with fewer
than two elements are skipped and groups left empty are omitted, so every group returned
has an entry and there are at most as many groups as in the payload. -/
theorem ListAddressGroupings_groups (c : Client) (walletName : String) (resp : RPCResponse)
    (payload : List (List (List GoVal)))
    (hcall : (c.callWithWallet "listaddressgroupings" (some []) walletName).result = .ok resp)
    (hdecode : Unmarshal (.slice (.slice (.slice .iface))) .nil resp.Result
      = .ok (.slice (payload.map (fun g => GoVal.slice (g.map GoVal.slice)))))
    (hshape : ∀ g ∈ payload, ∀ e ∈ g, e.length < 2 ∨ (∃ a x, e = [.str a, .float x]) ∨
      (∃ a x, e = [.str a, .float x, .nil]) ∨ (∃ a x l, e = [.str a, .float x, .str l])) :
    (c.ListAddressGroupings walletName).result
      = .ok (if (expectedGroupings payload).isEmpty then .nil
          else .slice ((expectedGroupings payload).map GoVal.slice)) ∧
    (∀ g ∈ expectedGroupings payload, g ≠ []) ∧
    (expectedGroupings payload).length ≤ payload.length := by
  refine ⟨?_, ?_, ?_⟩
  · unfold Client.ListAddressGroupings
    dsimp only
    rw [hcall]
    dsimp only
    rw [hdecode]
    dsimp only [rangeOf]
    rw [groupings_of_shape payload hshape]
    cases expectedGroupings payload with
    | nil => rfl
    | cons g gs => rfl
  · intro g hg
    unfold expectedGroupings at hg
    rw [List.mem_filter] at hg
    intro h
    rw [h] at hg
    simp at hg
  · unfold expectedGroupings
    exact (List.length_filter_le _ _).trans (by rw [List.length_map])

set_option maxRecDepth 100000 in
/-- C26 amended, at a stub answering three groups: two entries with and without a label,
an entry with a null label beside an entry that is too short, and a group whose only entry
is empty.  Two groups are returned, the third is omitted. -/
theorem ListAddressGroupings_groups_witness :
    ((stubClient "200 OK" 200
      "\x7b\"result\":[[[\"bc1qa\",0.5,\"savings\"],[\"bc1qb\",1.25]],[[\"bc1qc\",0,null],[\"x\"]],[[]]],\"error\":null,\"id\":1\x7d").ListAddressGroupings
      "w").result
      = .ok (.slice [
          .slice [AddressInfo.value "bc1qa" ⟨"0.5"⟩ "savings", AddressInfo.value "bc1qb" ⟨"1.25"⟩ ""],
          .slice [AddressInfo.value "bc1qc" ⟨"0"⟩ ""]]) :=
  (ListAddressGroupings_groups
    (stubClient "200 OK" 200
      "\x7b\"result\":[[[\"bc1qa\",0.5,\"savings\"],[\"bc1qb\",1.25]],[[\"bc1qc\",0,null],[\"x\"]],[[]]],\"error\":null,\"id\":1\x7d")
    "w"
    { Result := "[[[\"bc1qa\",0.5,\"savings\"],[\"bc1qb\",1.25]],[[\"bc1qc\",0,null],[\"x\"]],[[]]]".data
      Error := none, ID := 1 }
    [[[.str "bc1qa", .float ⟨"0.5"⟩, .str "savings"], [.str "bc1qb", .float ⟨"1.25"⟩]],
      [[.str "bc1qc", .float ⟨"0"⟩, .nil], [.str "x"]], [[]]]
    (by decide!) (by rfl)
    (by
      intro g hg e he
      simp only [List.mem_cons, List.mem_singleton, List.not_mem_nil, or_false] at hg
      rcases hg with h | h | h <;> subst h <;>
        simp only [List.mem_cons, List.mem_singleton, List.not_mem_nil, or_false] at he
      · rcases he with h | h <;> subst h
        · exact Or.inr (Or.inr (Or.inr ⟨_, _, _, rfl⟩))
        · exact Or.inr (Or.inl ⟨_, _, rfl⟩)
      · rcases he with h | h <;> subst h
        · exact Or.inr (Or.inr (Or.inl ⟨_, _, rfl⟩))
        · exact Or.inl (by decide)
      · subst he
        exact Or.inl (by decide))).1

/-! ### III.u  The payload of a successful envelope -/

/-- The decoding of a valid text that holds an object into a response: its members are
decoded one by one into the zero response. -/
theorem Unmarshal_response_members (body : List Char) (ms : List (String × List Char))
    (hv : checkValid body = .ok ()) (hms : splitObject (trimSpace body) = some ms) :
    ∃ f, Unmarshal RPCResponse.type RPCResponse.type.zero body
      = (decodeMembers (decode (f + 3)) "RPCResponse" ⟨"", []⟩
          [(⟨"result", false⟩, .rawMessage), (⟨"error", false⟩, .ptr RPCError.type),
            (⟨"id", false⟩, .goInt)]
          [(⟨"result", false⟩, .nil), (⟨"error", false⟩, .nil), (⟨"id", false⟩, .int 0)]
          ms).map GoVal.struct := by
  have hstep : ∀ (k : Nat) (rest : List Char),
      decode (k + 1) RPCResponse.type ⟨"", []⟩ RPCResponse.type.zero ('{' :: rest)
        = match splitObject ('{' :: rest) with
          | none => .error phaseError
          | some ms =>
            (decodeMembers (decode k) "RPCResponse" ⟨"", []⟩
              [(⟨"result", false⟩, .rawMessage), (⟨"error", false⟩, .ptr RPCError.type),
                (⟨"id", false⟩, .goInt)]
              [(⟨"result", false⟩, .nil), (⟨"error", false⟩, .nil), (⟨"id", false⟩, .int 0)]
              ms).map GoVal.struct := fun _ _ => rfl
  have hsize : RPCResponse.type.size = 7 := by decide
  obtain ⟨rest, hr⟩ := splitObject_head _ _ hms
  refine ⟨rest.length + 5, ?_⟩
  unfold Unmarshal
  rw [hv]
  dsimp only
  rw [hr] at hms ⊢
  have hlen : ('{' :: rest).length + 7 + 1 = (rest.length + 5 + 3) + 1 := by
    rw [List.length_cons]
  rw [hsize, hlen, hstep, hms]

/-- The members of an envelope with a null error, decoded into a response: the result
takes the bytes of the member `result`, the error stays nil. -/
theorem decodeMembers_null_error (f : Nat) (r : List Char) (ms : List (String × List Char))
    (hmembers : ∀ m ∈ ms, m = ("result", r) ∨ m = ("error", "null".data) ∨
      (m.1 = "id" ∧ ∃ i, parseInt 64 m.2 = some i)) :
    ∀ a c : GoVal, ∃ c1, decodeMembers (decode (f + 3)) "RPCResponse" ⟨"", []⟩
        [(⟨"result", false⟩, .rawMessage), (⟨"error", false⟩, .ptr RPCError.type),
          (⟨"id", false⟩, .goInt)]
        [(⟨"result", false⟩, a), (⟨"error", false⟩, .nil), (⟨"id", false⟩, c)] ms
      = .ok [(⟨"result", false⟩, if ms.any (fun m => m.1 == "result") then .raw r else a),
          (⟨"error", false⟩, .nil), (⟨"id", false⟩, c1)] := by
  induction ms with
  | nil =>
    intro a c
    exact ⟨c, rfl⟩
  | cons m rest ih =>
    intro a c
    have hrest := ih (fun m1 h1 => hmembers m1 (List.mem_cons_of_mem _ h1))
    rcases hmembers m (List.mem_cons_self _ _) with h | h | ⟨h, i, hi⟩
    · subst h
      obtain ⟨c1, hc1⟩ := hrest (.raw r) c
      refine ⟨c1, ?_⟩
      rw [decodeMembers]
      show decodeMembers (decode (f + 3)) "RPCResponse" ⟨"", []⟩ _
        [(⟨"result", false⟩, .raw r), (⟨"error", false⟩, .nil), (⟨"id", false⟩, c)] rest = _
      rw [hc1]
      simp
    · subst h
      obtain ⟨c1, hc1⟩ := hrest a c
      refine ⟨c1, ?_⟩
      rw [decodeMembers]
      show decodeMembers (decode (f + 3)) "RPCResponse" ⟨"", []⟩ _
        [(⟨"result", false⟩, a), (⟨"error", false⟩, .nil), (⟨"id", false⟩, c)] rest = _
      rw [hc1]
      have : (("error" : String) == "result") = false := by decide
      simp only [List.any_cons, this, Bool.false_or]
    · obtain ⟨key, raw⟩ := m
      dsimp only at h hi
      subst h
      obtain ⟨c1, hc1⟩ := hrest a (.int i)
      refine ⟨c1, ?_⟩
      rw [decodeMembers]
      have hl : lookupField [((⟨"result", false⟩ : FieldTag), GoType.rawMessage),
          (⟨"error", false⟩, .ptr RPCError.type), (⟨"id", false⟩, .goInt)] "id" = some 2 := rfl
      rw [hl]
      dsimp only [List.get?]
      rw [show GoType.goInt = GoType.int "int" 64 from rfl,
        decode_int (f + 2) "int" 64 _ c raw i hi]
      show decodeMembers (decode (f + 3)) "RPCResponse" ⟨"", []⟩ _
        [(⟨"result", false⟩, a), (⟨"error", false⟩, .nil), (⟨"id", false⟩, .int i)] rest = _
      rw [show GoType.int "int" 64 = GoType.goInt from rfl, hc1]
      have : (("id" : String) == "result") = false := by decide
      simp only [List.any_cons, this, Bool.false_or]

/-- C4, refuted as stated: a well-formed envelope with a null error and a result member
whose id does not fit the type `int` of the field `ID` yields no payload.  On the body
`{"result":800000,"error":null,"id":18446744073709551616}` the call returns a decode
failure. -/
theorem callWithWallet_result_withheld :
    ((stubClient "200 OK" 200
        "\x7b\"result\":800000,\"error\":null,\"id\":18446744073709551616\x7d").callWithWallet
      "getblockcount" (some []) "").result
      = .error ("failed to unmarshal response: json: cannot unmarshal number "
          ++ "18446744073709551616 into Go struct field RPCResponse.id of type int") := by
  decide!

/-- C4, amended. For every status-200 response whose body is a valid JSON object with a
member `result` of bytes `r`, a null error and an id that is an integer literal within the
range of `int`, the members in any order and with any white space around them, the call
returns no error and a response whose `Result` is exactly the bytes `r` of the body. -/
theorem callWithWallet_result_bytes (c : Client) (method : String)
    (params : Option (List GoVal)) (walletName : String) (req : Request) (resp : Response)
    (body r : List Char) (ms : List (String × List Char))
    (hsent : (c.callWithWallet method params walletName).sent = [req])
    (hdo : c.client.Do req = .ok resp)
    (hstatus : resp.StatusCode = 200)
    (hbody : resp.Body = .ok body)
    (hvalid : checkValid body = .ok ())
    (hms : splitObject (trimSpace body) = some ms)
    (hmembers : ∀ m ∈ ms, m = ("result", r) ∨ m = ("error", "null".data) ∨
      (m.1 = "id" ∧ ∃ i, parseInt 64 m.2 = some i))
    (hresult : ("result", r) ∈ ms) :
    ∃ id, (c.callWithWallet method params walletName).result
      = .ok { Result := r, Error := none, ID := id } := by
  rw [callWithWallet_of_sent c method params walletName req hsent, hdo]
  dsimp only
  rw [hbody]
  dsimp only
  rw [if_neg (by simp [hstatus])]
  obtain ⟨f, hf⟩ := Unmarshal_response_members body ms hvalid hms
  obtain ⟨c1, hc1⟩ := decodeMembers_null_error f r ms hmembers .nil (.int 0)
  have hany : ms.any (fun m => m.1 == "result") = true := by
    rw [List.any_eq_true]
    exact ⟨("result", r), hresult, (by decide : (("result" : String) == "result") = true)⟩
  rw [hany, if_pos rfl] at hc1
  rw [hf, hc1]
  exact ⟨_, rfl⟩

/-- C4 amended, at a stub answering the success envelope of the specification, and at a
stub answering the same envelope with its members in another order, with white space and a
final line feed: the payload returned is the bytes `800000`. -/
theorem callWithWallet_result_bytes_witness :
    (∃ id, ((stubClient "200 OK" 200
          "\x7b\"result\":800000,\"error\":null,\"id\":1\x7d").callWithWallet
        "getblockcount" (some []) "").result
        = .ok { Result := "800000".data, Error := none, ID := id }) ∧
    (∃ id, ((stubClient "200 OK" 200
          "\x7b \"id\" : 1, \"error\" : null,\n  \"result\" : 800000 \x7d\n").callWithWallet
        "getblockcount" (some []) "").result
        = .ok { Result := "800000".data, Error := none, ID := id }) :=
  ⟨callWithWallet_result_bytes
      (stubClient "200 OK" 200 "\x7b\"result\":800000,\"error\":null,\"id\":1\x7d")
      "getblockcount" (some []) ""
      { Method := "POST", URL := "http://127.0.0.1:8332"
        Body := "\x7b\"method\":\"getblockcount\",\"params\":[],\"id\":1,\"jsonrpc\":\"1.0\"\x7d".data
        Header := [("Content-Type", "application/json")]
        BasicAuth := some ("rpcuser", "rpcpass") }
      { Status := "200 OK", StatusCode := 200
        Body := .ok "\x7b\"result\":800000,\"error\":null,\"id\":1\x7d".data }
      "\x7b\"result\":800000,\"error\":null,\"id\":1\x7d".data "800000".data
      [("result", "800000".data), ("error", "null".data), ("id", "1".data)]
      (by decide!) rfl rfl rfl (by decide!) (by decide!)
      (by
        intro m hm
        simp only [List.mem_cons, List.mem_singleton, List.not_mem_nil, or_false] at hm
        rcases hm with h | h | h
        · exact Or.inl h
        · exact Or.inr (Or.inl h)
        · subst h
          exact Or.inr (Or.inr ⟨rfl, 1, by decide!⟩))
      (List.mem_cons_self _ _),
    callWithWallet_result_bytes
      (stubClient "200 OK" 200
        "\x7b \"id\" : 1, \"error\" : null,\n  \"result\" : 800000 \x7d\n")
      "getblockcount" (some []) ""
      { Method := "POST", URL := "http://127.0.0.1:8332"
        Body := "\x7b\"method\":\"getblockcount\",\"params\":[],\"id\":1,\"jsonrpc\":\"1.0\"\x7d".data
        Header := [("Content-Type", "application/json")]
        BasicAuth := some ("rpcuser", "rpcpass") }
      { Status := "200 OK", StatusCode := 200
        Body := .ok "\x7b \"id\" : 1, \"error\" : null,\n  \"result\" : 800000 \x7d\n".data }
      "\x7b \"id\" : 1, \"error\" : null,\n  \"result\" : 800000 \x7d\n".data "800000".data
      [("id", "1".data), ("error", "null".data), ("result", "800000".data)]
      (by decide!) rfl rfl rfl (by decide!) (by decide!)
      (by
        intro m hm
        simp only [List.mem_cons, List.mem_singleton, List.not_mem_nil, or_false] at hm
        rcases hm with h | h | h
        · subst h
          exact Or.inr (Or.inr ⟨rfl, 1, by decide!⟩)
        · exact Or.inr (Or.inl h)
        · exact Or.inl h)
      (by simp)⟩

/-! ### III.v  The request envelope, encoded and decoded again

The decoder of the specification reads the text the encoder writes for a Go value back
into the JSON value that the Go value is, whatever the value and however deep it is
nested. -/

/-- The walk over the digits of a number that has started with a digit other than 0. -/
theorem scanValueFrom_digits (ds : List Char) (h : ∀ c ∈ ds, isDigit c = true) :
    scanValueFrom ⟨.s1, []⟩ ds = some (ds, []) := by
  induction ds with
  | nil => rfl
  | cons c cs ih =>
    have hc := h c (List.mem_cons_self _ _)
    have hstep : scanStep ⟨.s1, []⟩ c = .ok ⟨.s1, []⟩ := by simp [scanStep, hc]
    rw [scanValueFrom_cons ⟨.s1, []⟩ ⟨.s1, []⟩ c cs (by simp [continuesNumber, hc]) hstep rfl,
      ih (fun c1 h1 => h c1 (List.mem_cons_of_mem _ h1))]
    rfl

/-- A digit from 1 to 9, by its code. -/
theorem isDigit19_cases (d : Char) (h : isDigit19 d = true) :
    d = '1' ∨ d = '2' ∨ d = '3' ∨ d = '4' ∨ d = '5' ∨ d = '6' ∨ d = '7' ∨ d = '8' ∨ d = '9' := by
  have h12 : 49 ≤ d.toNat ∧ d.toNat ≤ 57 := by
    simpa [isDigit19] using h
  obtain ⟨h1, h2⟩ := h12
  have hd : d = Char.ofNat d.toNat := (Char.ofNat_toNat d).symm
  generalize d.toNat = n at hd h1 h2
  subst hd
  interval_cases n <;> simp

/-- The decimal text of a positive number starts with a digit other than 0. -/
theorem decimalDigits_head (fuel : Nat) : ∀ n, n < fuel → 0 < n →
    ∃ d ds, decimalDigits fuel n = d :: ds ∧ isDigit19 d = true := by
  induction fuel with
  | zero => intro n h; omega
  | succ fuel ih =>
    intro n hn hpos
    unfold decimalDigits
    split
    · rename_i h10
      refine ⟨digitChar n, [], rfl, ?_⟩
      interval_cases n <;> rfl
    · rename_i h10
      obtain ⟨d, ds, hd, h19⟩ := ih (n / 10) (by omega) (by omega)
      exact ⟨d, ds ++ [digitChar (n % 10)], by rw [hd]; rfl, h19⟩

/-- The decimal text of a natural number is one number token. -/
theorem scanValue_formatNat (n : Nat) :
    scanValue (formatNat n) = some (formatNat n, []) ∧
    scanValueFrom ⟨.neg, []⟩ (formatNat (n + 1)) = some (formatNat (n + 1), []) := by
  have hpos : ∀ m, 0 < m → ∃ d ds, formatNat m = d :: ds ∧ isDigit19 d = true ∧
      ∀ c ∈ ds, isDigit c = true := by
    intro m hm
    obtain ⟨d, ds, hd, h19⟩ := decimalDigits_head (m + 1) m (by omega) hm
    refine ⟨d, ds, hd, h19, fun c hc => ?_⟩
    exact decimalDigits_isDigit (m + 1) m c (by rw [hd]; exact List.mem_cons_of_mem _ hc)
  constructor
  · rcases Nat.eq_zero_or_pos n with h0 | h0
    · subst h0; rfl
    · obtain ⟨d, ds, hd, h19, hds⟩ := hpos n h0
      rw [hd]
      have hstep : scanStep ⟨.beginValue, []⟩ d = .ok ⟨.s1, []⟩ := by
        rcases isDigit19_cases d h19 with h | h | h | h | h | h | h | h | h <;> subst h <;> rfl
      have hsp : isSpace d = false := by
        rcases isDigit19_cases d h19 with h | h | h | h | h | h | h | h | h <;> subst h <;> rfl
      simp only [scanValue, hsp, Scanner.reset]
      rw [scanValueFrom_cons ⟨.beginValue, []⟩ ⟨.s1, []⟩ d ds rfl hstep rfl,
        scanValueFrom_digits ds hds]
      rfl
  · obtain ⟨d, ds, hd, h19, hds⟩ := hpos (n + 1) (by omega)
    rw [hd]
    have hstep : scanStep ⟨.neg, []⟩ d = .ok ⟨.s1, []⟩ := by
      rcases isDigit19_cases d h19 with h | h | h | h | h | h | h | h | h <;> subst h <;> rfl
    rw [scanValueFrom_cons ⟨.neg, []⟩ ⟨.s1, []⟩ d ds rfl hstep rfl,
      scanValueFrom_digits ds hds]
    rfl

/-- The decimal text of an integer is one number token, and it starts like a number. -/
theorem scanValue_formatInt (i : Int) :
    scanValue (formatInt i) = some (formatInt i, []) ∧
    ∃ c cs, formatInt i = c :: cs ∧ (c == '-' || isDigit c) = true := by
  cases i with
  | ofNat n =>
    refine ⟨(scanValue_formatNat n).1, ?_⟩
    show ∃ c cs, formatNat n = c :: cs ∧ _
    cases hf : formatNat n with
    | nil => exact absurd hf (formatNat_ne_nil n)
    | cons c cs =>
      refine ⟨c, cs, rfl, ?_⟩
      have := decimalDigits_isDigit (n + 1) n c (by
        show c ∈ formatNat n
        rw [hf]; exact List.mem_cons_self _ _)
      simp [this]
  | negSucc n =>
    refine ⟨?_, '-', formatNat (n + 1), rfl, rfl⟩
    show scanValue ('-' :: formatNat (n + 1)) = some ('-' :: formatNat (n + 1), [])
    simp only [scanValue, Scanner.reset]
    rw [show isSpace '-' = false from rfl]
    simp only [Bool.false_eq_true, if_false]
    rw [scanValueFrom_cons ⟨.beginValue, []⟩ ⟨.neg, []⟩ '-' _ rfl rfl rfl,
      (scanValue_formatNat n).2]
    rfl

/-- White space is skipped only where there is some. -/
theorem skipSpace_cons_of_not_space (c : Char) (cs : List Char) (h : isSpace c = false) :
    skipSpace (c :: cs) = c :: cs := by
  simp [skipSpace, h]

/-- The parser on a token that is not an array or an object. -/
theorem parseValue_scalar (fuel : Nat) (c : Char) (cs raw rest : List Char) (j : JSONValue)
    (hsp : isSpace c = false) (h1 : c ≠ '[') (h2 : c ≠ '{')
    (hscan : scanValue (c :: cs) = some (raw, rest)) (hj : scalarOf raw = some j) :
    parseValue (fuel + 1) (c :: cs) = some (j, rest) := by
  rw [parseValue, skipSpace_cons_of_not_space c cs hsp]
  split
  · rename_i h; cases h
  · rename_i h; injection h with h; exact absurd h h1
  · rename_i h; injection h with h; exact absurd h h2
  · rename_i c1 cs1 _ _ h
    injection h with ha hb
    subst ha; subst hb
    rw [hscan]
    simp only [hj, Option.map_some']

/-- The parser on the empty array. -/
theorem parseValue_array_nil (fuel : Nat) (rest : List Char) :
    parseValue (fuel + 1) ('[' :: ']' :: rest) = some (.array [], rest) := by
  rfl

/-- The parser on the empty object. -/
theorem parseValue_object_nil (fuel : Nat) (rest : List Char) :
    parseValue (fuel + 1) ('{' :: '}' :: rest) = some (.object [], rest) := by
  rfl

/-- The parser on an array with elements. -/
theorem parseValue_array (fuel : Nat) (body : List Char) (c : Char) (cs rest : List Char)
    (js : List JSONValue) (hb : body = c :: cs) (hsp : isSpace c = false) (hc : c ≠ ']')
    (h : parseElems (parseValue fuel) body.length body = some (js, rest)) :
    parseValue (fuel + 1) ('[' :: body) = some (.array js, rest) := by
  subst hb
  rw [parseValue, skipSpace_cons_of_not_space '[' _ rfl]
  simp only [skipSpace_cons_of_not_space c cs hsp]
  split
  · rename_i h3; injection h3 with h3; exact absurd h3 hc
  · rw [h]; rfl

/-- The parser on an object with members. -/
theorem parseValue_object (fuel : Nat) (body : List Char) (c : Char) (cs rest : List Char)
    (ms : List (String × JSONValue)) (hb : body = c :: cs) (hsp : isSpace c = false)
    (hc : c ≠ '}')
    (h : parseMembers (parseValue fuel) body.length body = some (ms, rest)) :
    parseValue (fuel + 1) ('{' :: body) = some (.object ms, rest) := by
  subst hb
  rw [parseValue, skipSpace_cons_of_not_space '{' _ rfl]
  simp only [skipSpace_cons_of_not_space c cs hsp]
  split
  · rename_i h3; injection h3 with h3; exact absurd h3 hc
  · rw [h]; rfl

/-- A text is no longer than the texts joined by commas that it is one of. -/
theorem length_le_joinComma : ∀ (ts : List (List Char)) (t : List Char), t ∈ ts →
    t.length ≤ (joinComma ts).length
  | [], _, h => by cases h
  | [x], t, h => by
    have : t = x := by simpa using h
    subst this
    exact Nat.le_refl _
  | x :: y :: rest, t, h => by
    have ih := length_le_joinComma (y :: rest) t
    rw [joinComma]
    simp only [List.length_append, List.length_cons]
    rcases List.mem_cons.mp h with h1 | h1
    · subst h1; omega
    · have := ih h1
      omega

/-- Texts joined by commas have at least as many characters, with one more, as there are
texts. -/
theorem length_le_joinComma_succ : ∀ (ts : List (List Char)),
    ts.length ≤ (joinComma ts).length + 1
  | [] => by simp
  | [x] => by simp
  | x :: y :: rest => by
    have ih := length_le_joinComma_succ (y :: rest)
    rw [joinComma]
    simp only [List.length_append, List.length_cons] at ih ⊢
    omega

/-- A colon does not continue a number. -/
theorem continuesNumber_colon (st : Step) (hst : st.numberMayEnd = true) :
    continuesNumber st ':' = false := by
  cases st <;> first | rfl | cases hst

/-- The parser on one member of an object that a comma follows. -/
theorem parseMembers_comma (pv : List Char → Option (JSONValue × List Char)) (n : Nat)
    (k : String) (after rest3 : List Char) (v : JSONValue)
    (hpv : pv after = some (v, ',' :: rest3)) :
    parseMembers pv (n + 1) (quoteString k ++ ':' :: after)
      = (parseMembers pv n rest3).map (fun r => ((k, v) :: r.1, r.2)) := by
  have hscan : scanValue (quoteString k ++ ':' :: after) = some (quoteString k, ':' :: after) :=
    scanValue_append (quoteString k) (':' :: after)
      (fun c hc st hst => by
        have : c = ':' := by simpa using hc.symm
        subst this
        exact continuesNumber_colon st hst)
      (scanValue_quoteString k)
  have hq : quoteString k ++ ':' :: after
      = '"' :: (escapeString k.data ++ ['"'] ++ ':' :: after) := rfl
  rw [hq] at hscan ⊢
  rw [parseMembers, skipSpace_cons_of_not_space '"' _ rfl]
  simp only [hscan, unquote_quoteString, skipSpace_cons_of_not_space ':' _ rfl, hpv,
    skipSpace_cons_of_not_space ',' _ rfl]

/-- The parser on the last member of an object. -/
theorem parseMembers_last (pv : List Char → Option (JSONValue × List Char)) (n : Nat)
    (k : String) (after rest3 : List Char) (v : JSONValue)
    (hpv : pv after = some (v, '}' :: rest3)) :
    parseMembers pv (n + 1) (quoteString k ++ ':' :: after) = some ([(k, v)], rest3) := by
  have hscan : scanValue (quoteString k ++ ':' :: after) = some (quoteString k, ':' :: after) :=
    scanValue_append (quoteString k) (':' :: after)
      (fun c hc st hst => by
        have : c = ':' := by simpa using hc.symm
        subst this
        exact continuesNumber_colon st hst)
      (scanValue_quoteString k)
  have hq : quoteString k ++ ':' :: after
      = '"' :: (escapeString k.data ++ ['"'] ++ ':' :: after) := rfl
  rw [hq] at hscan ⊢
  rw [parseMembers, skipSpace_cons_of_not_space '"' _ rfl]
  simp only [hscan, unquote_quoteString, skipSpace_cons_of_not_space ':' _ rfl, hpv,
    skipSpace_cons_of_not_space '}' _ rfl]

/-- The parser on the elements of an array that the encoder wrote: each text reads as its
value, and the closing bracket ends the list. -/
theorem parseElems_joinComma (fuel : Nat) (rest : List Char) :
    ∀ (ts : List (List Char)) (js : List JSONValue), List.Forall₂ ReadsAs ts js → ts ≠ [] →
    (∀ t ∈ ts, t.length ≤ fuel) → ∀ n, ts.length ≤ n →
    parseElems (parseValue fuel) n (joinComma ts ++ ']' :: rest) = some (js, rest) := by
  intro ts
  induction ts with
  | nil => intro js _ hne; exact absurd rfl hne
  | cons t ts1 ih =>
    intro js hall _ hlen n hn
    cases hall with
    | cons hP htail =>
      rename_i j js1
      cases n with
      | zero => simp at hn
      | succ n1 =>
        cases ts1 with
        | nil =>
          cases htail
          have hpv := hP.2 fuel (']' :: rest) (hlen t (List.mem_cons_self _ _))
            (fun c hc => by
              have : c = ']' := by simpa using hc.symm
              exact Or.inr (Or.inr this))
          show parseElems (parseValue fuel) (n1 + 1) (t ++ ']' :: rest) = _
          rw [parseElems]
          simp only [hpv, skipSpace_cons_of_not_space ']' _ rfl]
        | cons t2 ts2 =>
          have hpv := hP.2 fuel (',' :: (joinComma (t2 :: ts2) ++ ']' :: rest))
            (hlen t (List.mem_cons_self _ _))
            (fun c hc => by
              have : c = ',' := by simpa using hc.symm
              exact Or.inl this)
          have hrec := ih js1 htail (by simp)
            (fun t1 h1 => hlen t1 (List.mem_cons_of_mem _ h1)) n1
            (by simp only [List.length_cons] at hn ⊢; omega)
          have htext : joinComma (t :: t2 :: ts2) ++ ']' :: rest
              = t ++ ',' :: (joinComma (t2 :: ts2) ++ ']' :: rest) := by
            simp [joinComma]
          rw [htext, parseElems]
          simp only [hpv, skipSpace_cons_of_not_space ',' _ rfl, hrec, Option.map_some']

/-- The parser on the members of an object that the encoder wrote: each name is read back,
each text reads as its value, and the closing brace ends the list. -/
theorem parseMembers_joinComma (fuel : Nat) (rest : List Char) :
    ∀ (es : List (String × List Char)) (ms : List (String × JSONValue)),
    List.Forall₂ (fun e m => e.1 = m.1 ∧ ReadsAs e.2 m.2) es ms → es ≠ [] →
    (∀ e ∈ es, e.2.length ≤ fuel) → ∀ n, es.length ≤ n →
    parseMembers (parseValue fuel) n (joinComma (es.map memberText) ++ '}' :: rest)
      = some (ms, rest) := by
  intro es
  induction es with
  | nil => intro ms _ hne; exact absurd rfl hne
  | cons e es1 ih =>
    intro ms hall _ hlen n hn
    cases hall with
    | cons hP htail =>
      rename_i m ms1
      obtain ⟨k, t⟩ := e
      obtain ⟨k1, j⟩ := m
      obtain ⟨hk, hR⟩ := hP
      simp only at hk hR
      subst hk
      cases n with
      | zero => simp at hn
      | succ n1 =>
        cases es1 with
        | nil =>
          cases htail
          have hpv := hR.2 fuel ('}' :: rest) (hlen (k, t) (List.mem_cons_self _ _))
            (fun c hc => by
              have : c = '}' := by simpa using hc.symm
              exact Or.inr (Or.inl this))
          have htext : joinComma ([(k, t)].map memberText) ++ '}' :: rest
              = quoteString k ++ ':' :: (t ++ '}' :: rest) := by
            simp [joinComma, memberText]
          rw [htext]
          exact parseMembers_last (parseValue fuel) n1 k _ rest j hpv
        | cons e2 es2 =>
          have hpv := hR.2 fuel
            (',' :: (joinComma ((e2 :: es2).map memberText) ++ '}' :: rest))
            (hlen (k, t) (List.mem_cons_self _ _))
            (fun c hc => by
              have : c = ',' := by simpa using hc.symm
              exact Or.inl this)
          have hrec := ih ms1 htail (by simp)
            (fun e1 h1 => hlen e1 (List.mem_cons_of_mem _ h1)) n1
            (by simp only [List.length_cons] at hn ⊢; omega)
          have htext : joinComma (((k, t) :: e2 :: es2).map memberText) ++ '}' :: rest
              = quoteString k ++ ':' :: (t ++
                  ',' :: (joinComma ((e2 :: es2).map memberText) ++ '}' :: rest)) := by
            simp [joinComma, memberText]
          rw [htext, parseMembers_comma (parseValue fuel) n1 k _ _ j hpv, hrec]
          rfl

/-- A token that is not an array or an object reads as its value. -/
theorem readsAs_scalar (t : List Char) (j : JSONValue) (hscan : scanValue t = some (t, []))
    (hhead : ∀ c ∈ t.head?, c ≠ '[' ∧ c ≠ '{') (hj : scalarOf t = some j) : ReadsAs t j := by
  obtain ⟨c, cs, ht, hsp, h1, h2⟩ := head_of_scanValue t hscan
  refine ⟨⟨c, cs, ht, hsp, h1, h2⟩, fun fuel rest hfuel hrest => ?_⟩
  have hs := scanValue_append t rest
    (fun d hd st hst => continuesNumber_delimiter d (hrest d hd) st hst) hscan
  subst ht
  cases fuel with
  | zero => simp at hfuel
  | succ f =>
    have hh := hhead c (by simp)
    exact parseValue_scalar f c (cs ++ rest) (c :: cs) rest j hsp hh.1 hh.2 hs hj

/-- The text of an array reads as the array of the values its elements read as. -/
theorem readsAs_array (ts : List (List Char)) (js : List JSONValue)
    (h : List.Forall₂ ReadsAs ts js) :
    ReadsAs ('[' :: joinComma ts ++ [']']) (.array js) := by
  refine ⟨⟨'[', joinComma ts ++ [']'], rfl, rfl, by decide, by decide⟩,
    fun fuel rest hfuel _ => ?_⟩
  cases fuel with
  | zero => simp at hfuel
  | succ f =>
    cases ts with
    | nil =>
      cases h
      exact parseValue_array_nil f rest
    | cons t ts1 =>
      cases h with
      | cons hP htail =>
        rename_i j js1
        obtain ⟨c, cs, ht, hsp, hc, _⟩ := hP.1
        obtain ⟨tail1, htail1⟩ := joinComma_cons t ts1 (']' :: rest)
        have hbody : ('[' :: joinComma (t :: ts1) ++ [']']) ++ rest
            = '[' :: (joinComma (t :: ts1) ++ ']' :: rest) := by simp
        rw [hbody]
        have hlen : (joinComma (t :: ts1)).length + 2 ≤ f + 1 := by
          simp only [List.cons_append, List.length_cons, List.length_append,
            List.length_nil] at hfuel
          omega
        refine parseValue_array f _ c (cs ++ tail1) rest (j :: js1)
          (by rw [htail1, ht]; rfl) hsp hc ?_
        refine parseElems_joinComma f rest (t :: ts1) (j :: js1) (.cons hP htail) (by simp)
          (fun t1 h1 => ?_) _ ?_
        · have := length_le_joinComma (t :: ts1) t1 h1
          omega
        · have := length_le_joinComma_succ (t :: ts1)
          simp only [List.length_cons] at this
          simp only [List.length_append, List.length_cons]
          omega

/-- The value of a member is no longer than the members joined by commas. -/
theorem length_le_joinComma_members (es : List (String × List Char)) (e : String × List Char)
    (h : e ∈ es) : e.2.length ≤ (joinComma (es.map memberText)).length := by
  have h1 := length_le_joinComma (es.map memberText) (memberText e) (List.mem_map_of_mem _ h)
  have h2 : e.2.length ≤ (memberText e).length := by
    simp only [memberText, List.length_append, List.length_cons]
    omega
  omega

/-- The text of an object reads as the object of its names with the values its members
read as. -/
theorem readsAs_object (es : List (String × List Char)) (ms : List (String × JSONValue))
    (h : List.Forall₂ (fun e m => e.1 = m.1 ∧ ReadsAs e.2 m.2) es ms) :
    ReadsAs ('{' :: joinComma (es.map memberText) ++ ['}']) (.object ms) := by
  refine ⟨⟨'{', joinComma (es.map memberText) ++ ['}'], rfl, rfl, by decide, by decide⟩,
    fun fuel rest hfuel _ => ?_⟩
  cases fuel with
  | zero => simp at hfuel
  | succ f =>
    cases es with
    | nil =>
      cases h
      exact parseValue_object_nil f rest
    | cons e es1 =>
      cases h with
      | cons hP htail =>
        rename_i m ms1
        obtain ⟨tail1, htail1⟩ :=
          joinComma_cons (memberText e) (es1.map memberText) ('}' :: rest)
        have hbody : ('{' :: joinComma ((e :: es1).map memberText) ++ ['}']) ++ rest
            = '{' :: (joinComma ((e :: es1).map memberText) ++ '}' :: rest) := by simp
        rw [hbody]
        have hlen : (joinComma ((e :: es1).map memberText)).length + 2 ≤ f + 1 := by
          simp only [List.cons_append, List.length_cons, List.length_append,
            List.length_nil] at hfuel
          omega
        refine parseValue_object f _ '"' (escapeString e.1.data ++ ['"'] ++ ':' :: e.2 ++ tail1)
          rest (m :: ms1) ?_ rfl (by decide) ?_
        · rw [List.map_cons, htail1]
          simp [memberText, quoteString]
        · refine parseMembers_joinComma f rest (e :: es1) (m :: ms1) (.cons hP htail) (by simp)
            (fun e1 h1 => ?_) _ ?_
          · have := length_le_joinComma_members (e :: es1) e1 h1
            omega
          · have := length_le_joinComma_succ ((e :: es1).map memberText)
            simp only [List.length_map, List.length_cons] at this
            simp only [List.length_append, List.length_cons]
            omega

/-- An entry and a member of the same name are put in the same place. -/
theorem insertEntry_insertMember (e : String × List Char) (m : String × JSONValue)
    (hem : e.1 = m.1 ∧ ReadsAs e.2 m.2) :
    ∀ (es : List (String × List Char)) (ms : List (String × JSONValue)),
    List.Forall₂ (fun e m => e.1 = m.1 ∧ ReadsAs e.2 m.2) es ms →
    List.Forall₂ (fun e m => e.1 = m.1 ∧ ReadsAs e.2 m.2) (insertEntry e es)
      (insertMember m ms) := by
  intro es ms h
  induction h with
  | nil => exact .cons hem .nil
  | cons h1 htail ih =>
    rename_i e1 m1 es1 ms1
    rw [insertEntry, insertMember, ← h1.1, ← hem.1]
    split
    · exact .cons h1 ih
    · exact .cons hem (.cons h1 htail)

/-- The entries and the members of the same names are sorted alike. -/
theorem sortEntries_sortMembers (es : List (String × List Char))
    (ms : List (String × JSONValue))
    (h : List.Forall₂ (fun e m => e.1 = m.1 ∧ ReadsAs e.2 m.2) es ms) :
    List.Forall₂ (fun e m => e.1 = m.1 ∧ ReadsAs e.2 m.2) (sortEntries es) (sortMembers ms) := by
  induction h with
  | nil => exact .nil
  | cons h1 _ ih => exact insertEntry_insertMember _ _ h1 _ _ ih

/-- A token that starts like a number is a number. -/
theorem scalarOf_number (c : Char) (cs : List Char) (h : (c == '-' || isDigit c) = true) :
    scalarOf (c :: cs) = some (.number (c :: cs)) ∧ c ≠ '[' ∧ c ≠ '{' := by
  refine ⟨?_, ?_, ?_⟩
  · unfold scalarOf
    split
    · rename_i h1; injection h1 with h1 _; subst h1; exact absurd h (by decide)
    · rename_i h1; injection h1 with h1 _; subst h1; exact absurd h (by decide)
    · rename_i h1; injection h1 with h1 _; subst h1; exact absurd h (by decide)
    · rename_i h1; injection h1 with h1 _; subst h1; exact absurd h (by decide)
    · rfl
  · intro hc; subst hc; exact absurd h (by decide)
  · intro hc; subst hc; exact absurd h (by decide)

/-- The text of an integer reads as the number with that literal. -/
theorem readsAs_int (i : Int) : ReadsAs (formatInt i) (.number (formatInt i)) := by
  obtain ⟨hscan, c, cs, hf, hc⟩ := scanValue_formatInt i
  have hn := scalarOf_number c cs hc
  refine readsAs_scalar _ _ hscan (fun d hd => ?_) (by rw [hf]; exact hn.1)
  rw [hf] at hd
  have : d = c := by simpa using hd.symm
  subst this
  exact hn.2

/-- The text of a finite `float64` reads as the number with that literal. -/
theorem readsAs_float (f : Float64) (h : f.isFinite = true) :
    ReadsAs f.text.data (.number f.text.data) := by
  unfold Float64.isFinite at h
  cases hf : f.text.data with
  | nil => rw [hf] at h; cases h
  | cons c cs =>
    rw [hf] at h
    simp only [Bool.and_eq_true, beq_iff_eq] at h
    have hn := scalarOf_number c cs h.1
    refine readsAs_scalar _ _ h.2 (fun d hd => ?_) hn.1
    have : d = c := by simpa using hd.symm
    subst this
    exact hn.2

/-- The literal of a Go string reads as that string. -/
theorem readsAs_str (s : String) : ReadsAs (quoteString s) (.str s) := by
  refine readsAs_scalar _ _ (scanValue_quoteString s) (fun d hd => ?_) ?_
  · have : d = '"' := by simpa [quoteString] using hd.symm
    subst this
    exact ⟨by decide, by decide⟩
  · show (unquote (quoteString s)).map JSONValue.str = _
    rw [unquote_quoteString]
    rfl

/-- The literals `null`, `true` and `false` read as their values. -/
theorem readsAs_literals : ReadsAs "null".data .null ∧ ReadsAs "true".data (.bool true) ∧
    ReadsAs "false".data (.bool false) := by
  refine ⟨readsAs_scalar _ _ (by decide) (fun d hd => ?_) rfl,
    readsAs_scalar _ _ (by decide) (fun d hd => ?_) rfl,
    readsAs_scalar _ _ (by decide) (fun d hd => ?_) rfl⟩
  · have : d = 'n' := by simpa using hd.symm
    subst this
    exact ⟨by decide, by decide⟩
  · have : d = 't' := by simpa using hd.symm
    subst this
    exact ⟨by decide, by decide⟩
  · have : d = 'f' := by simpa using hd.symm
    subst this
    exact ⟨by decide, by decide⟩

mutual
/-- Every Go value that is a JSON value has a text, and the text reads as the value. -/
theorem readsAs_value : ∀ (v : GoVal), v.isJSONValue = true →
    ∃ t, marshalValue v = .ok t ∧ ReadsAs t v.json
  | .nil, _ => ⟨"null".data, rfl, readsAs_literals.1⟩
  | .bool true, _ => ⟨"true".data, rfl, readsAs_literals.2.1⟩
  | .bool false, _ => ⟨"false".data, rfl, readsAs_literals.2.2⟩
  | .int i, _ => ⟨formatInt i, rfl, readsAs_int i⟩
  | .float f, h => by
    have hf : f.isFinite = true := by simpa only [GoVal.isJSONValue] using h
    refine ⟨f.text.data, ?_, readsAs_float f hf⟩
    simp only [marshalValue, hf, if_true]
  | .str s, _ => ⟨quoteString s, rfl, readsAs_str s⟩
  | .raw _, h => by simp only [GoVal.isJSONValue] at h; cases h
  | .slice xs, h => by
    obtain ⟨ts, hm, hall⟩ := readsAs_elems xs (by simpa only [GoVal.isJSONValue] using h)
    refine ⟨'[' :: joinComma ts ++ [']'], ?_, ?_⟩
    · simp only [marshalValue, hm]
    · simp only [GoVal.json]
      exact readsAs_array ts _ hall
  | .map kvs, h => by
    obtain ⟨es, hm, hall⟩ := readsAs_entries kvs (by simpa only [GoVal.isJSONValue] using h)
    refine ⟨'{' :: joinComma ((sortEntries es).map memberText) ++ ['}'], ?_, ?_⟩
    · simp only [marshalValue, hm]
    · simp only [GoVal.json]
      exact readsAs_object _ _ (sortEntries_sortMembers es _ hall)
  | .struct fields, h => by
    obtain ⟨es, hm, hall⟩ := readsAs_fields fields (by simpa only [GoVal.isJSONValue] using h)
    refine ⟨'{' :: joinComma (es.map memberText) ++ ['}'], ?_, ?_⟩
    · simp only [marshalValue, hm]
    · simp only [GoVal.json]
      exact readsAs_object _ _ hall
/-- The elements of a slice of JSON values have texts that read as the elements. -/
theorem readsAs_elems : ∀ (xs : List GoVal), GoVal.areJSONValues xs = true →
    ∃ ts, marshalElems xs = .ok ts ∧ List.Forall₂ ReadsAs ts (GoVal.jsonList xs)
  | [], _ => ⟨[], rfl, .nil⟩
  | x :: rest, h => by
    simp only [GoVal.areJSONValues, Bool.and_eq_true] at h
    obtain ⟨t, hm, hR⟩ := readsAs_value x h.1
    obtain ⟨ts, hms, hall⟩ := readsAs_elems rest h.2
    refine ⟨t :: ts, ?_, ?_⟩
    · simp only [marshalElems, hm, hms]
    · simp only [GoVal.jsonList]
      exact .cons hR hall
/-- The entries of a map of JSON values have texts that read as the entries. -/
theorem readsAs_entries : ∀ (kvs : List (String × GoVal)),
    GoVal.entriesAreJSONValues kvs = true →
    ∃ es, marshalEntries kvs = .ok es ∧
      List.Forall₂ (fun e m => e.1 = m.1 ∧ ReadsAs e.2 m.2) es (GoVal.jsonEntries kvs)
  | [], _ => ⟨[], rfl, .nil⟩
  | (k, x) :: rest, h => by
    simp only [GoVal.entriesAreJSONValues, Bool.and_eq_true] at h
    obtain ⟨t, hm, hR⟩ := readsAs_value x h.1
    obtain ⟨es, hms, hall⟩ := readsAs_entries rest h.2
    refine ⟨(k, t) :: es, ?_, ?_⟩
    · simp only [marshalEntries, hm, hms]
    · simp only [GoVal.jsonEntries]
      exact .cons ⟨rfl, hR⟩ hall
/-- The fields of a struct of JSON values have texts that read as the fields, those left
out by `omitempty` apart. -/
theorem readsAs_fields : ∀ (fields : List (FieldTag × GoVal)),
    GoVal.fieldsAreJSONValues fields = true →
    ∃ es, marshalFields fields = .ok es ∧
      List.Forall₂ (fun e m => e.1 = m.1 ∧ ReadsAs e.2 m.2) es (GoVal.jsonFields fields)
  | [], _ => ⟨[], rfl, .nil⟩
  | (tag, x) :: rest, h => by
    simp only [GoVal.fieldsAreJSONValues, Bool.and_eq_true] at h
    obtain ⟨t, hm, hR⟩ := readsAs_value x h.1
    obtain ⟨es, hms, hall⟩ := readsAs_fields rest h.2
    by_cases hom : (tag.omitempty && isEmptyValue x) = true
    · refine ⟨es, ?_, ?_⟩
      · simp only [marshalFields, hom, if_true, hms]
      · simp only [GoVal.jsonFields, hom, if_true]
        exact hall
    · refine ⟨(tag.name, t) :: es, ?_, ?_⟩
      · simp only [marshalFields, hom, Bool.false_eq_true, if_false, hm, hms]
      · simp only [GoVal.jsonFields, hom, Bool.false_eq_true, if_false]
        exact .cons ⟨rfl, hR⟩ hall
end

/-- The JSON values of the elements of a slice, one by one and in their order. -/
theorem jsonList_eq_map : ∀ (xs : List GoVal), GoVal.jsonList xs = xs.map GoVal.json
  | [] => rfl
  | x :: rest => by
    simp only [GoVal.jsonList, List.map_cons, jsonList_eq_map rest]

/-- A list of JSON values, value by value. -/
theorem areJSONValues_of_forall : ∀ (p : List GoVal), (∀ v ∈ p, v.isJSONValue = true) →
    GoVal.areJSONValues p = true
  | [], _ => rfl
  | x :: rest, h => by
    simp only [GoVal.areJSONValues, Bool.and_eq_true]
    exact ⟨h x (List.mem_cons_self _ _),
      areJSONValues_of_forall rest (fun v hv => h v (List.mem_cons_of_mem _ hv))⟩

/-- The text that reads as a value is well-formed JSON holding that value. -/
theorem parseJSON_of_readsAs (t : List Char) (j : JSONValue) (h : ReadsAs t j) :
    parseJSON t = some j := by
  have hp := h.2 (t.length + 1) [] (Nat.le_succ _) (fun c hc => by simp at hc)
  rw [List.append_nil] at hp
  simp only [parseJSON, hp]
  rfl

/-- The request that `callWithWallet` builds for a method and a list of JSON values has a
body, and the decoder of the specification reads the body back as the envelope with that
method, the values of the list in their order, the id 1 and the version `1.0`. -/
theorem decodeRequest_marshal (method : String) (p : List GoVal)
    (hp : GoVal.areJSONValues p = true) :
    ∃ body, marshalValue (RPCRequest.value ⟨method, some p, 1, "1.0"⟩) = .ok body ∧
      decodeRequest body = .ok ⟨method, p.map GoVal.json, 1, "1.0"⟩ := by
  have hv : (RPCRequest.value ⟨method, some p, 1, "1.0"⟩).isJSONValue = true := by
    simp only [RPCRequest.value, sliceValue, GoVal.isJSONValue, GoVal.fieldsAreJSONValues, hp,
      Bool.and_self]
  obtain ⟨body, hm, hR⟩ := readsAs_value _ hv
  refine ⟨body, hm, ?_⟩
  have hj : (RPCRequest.value ⟨method, some p, 1, "1.0"⟩).json
      = .object [("method", .str method), ("params", .array (p.map GoVal.json)),
          ("id", .number "1".data), ("jsonrpc", .str "1.0")] := by
    simp only [RPCRequest.value, sliceValue, GoVal.json, GoVal.jsonFields, Bool.false_and,
      Bool.false_eq_true, if_false, jsonList_eq_map]
    rfl
  rw [hj] at hR
  unfold decodeRequest
  rw [parseJSON_of_readsAs body _ hR]
  rfl

/-- The decoder of the specification refuses what is not a well-formed envelope: a body cut
short is malformed JSON, and the empty object, an envelope without `params`, one whose
`params` is `null` and one whose `id` is not an integer miss a required field. -/
theorem decodeRequest_refuses :
    decodeRequest "\x7b\"method\":\"getblockcount\",\"params\":[".data
      = .error "malformed JSON" ∧
    decodeRequest "\x7b\x7d".data = .error "missing required field: method" ∧
    decodeRequest "\x7b\"method\":\"getblockcount\",\"id\":1,\"jsonrpc\":\"1.0\"\x7d".data
      = .error "missing required field: params" ∧
    decodeRequest
        "\x7b\"method\":\"getblockcount\",\"params\":null,\"id\":1,\"jsonrpc\":\"1.0\"\x7d".data
      = .error "missing required field: params" ∧
    decodeRequest
        "\x7b\"method\":\"getblockcount\",\"params\":[],\"id\":1.5,\"jsonrpc\":\"1.0\"\x7d".data
      = .error "missing required field: id" :=
  ⟨rfl, rfl, rfl, rfl, rfl⟩

/-- Slices nested to any depth are JSON values. -/
theorem isJSONValue_nestedSlice : ∀ (k : Nat), (nestedSlice k).isJSONValue = true
  | 0 => rfl
  | k + 1 => by
    simp only [nestedSlice, GoVal.isJSONValue, GoVal.areJSONValues, isJSONValue_nestedSlice k,
      Bool.and_self]

/-- A parameter nested to any depth is read back: the decoder of the specification has no
bound on the nesting. -/
theorem deep_params_decoded (method : String) (k : Nat) :
    ∃ body, marshalValue (RPCRequest.value ⟨method, some [nestedSlice k], 1, "1.0"⟩) = .ok body ∧
      decodeRequest body = .ok ⟨method, [(nestedSlice k).json], 1, "1.0"⟩ :=
  decodeRequest_marshal method [nestedSlice k]
    (areJSONValues_of_forall _ (fun v hv => by
      have : v = nestedSlice k := by simpa using hv
      subst this
      exact isJSONValue_nestedSlice k))

/-- C7: for every method name and every positional parameter list of JSON values, the body of
every request that `callWithWallet` sends for them decodes, by the `decode` of the
specification, to the envelope with that method name, with the JSON values of the list
element by element in the same order, and with the id 1 (and the version `1.0`); and when
the URL is accepted the call sends one request, whose body decodes so. -/
theorem request_round_trip (c : Client) (method : String) (p : List GoVal)
    (walletName : String) (hjson : ∀ v ∈ p, v.isJSONValue = true) :
    (∀ req ∈ (c.callWithWallet method (some p) walletName).sent,
      decodeRequest req.Body = .ok ⟨method, p.map GoVal.json, 1, "1.0"⟩) ∧
    (c.client.NewRequest
        (if walletName ≠ "" then c.url ++ "/wallet/" ++ walletName else c.url) = none →
      (c.callWithWallet method (some p) walletName).sent.map (fun r => decodeRequest r.Body)
        = [.ok ⟨method, p.map GoVal.json, 1, "1.0"⟩]) := by
  obtain ⟨body, hm, hdec⟩ := decodeRequest_marshal method p (areJSONValues_of_forall p hjson)
  constructor
  · intro req hreq
    rcases callWithWallet_sent_cases c method (some p) walletName with h | ⟨body1, hb, _, h⟩
    · rw [h] at hreq; simp at hreq
    · rw [h] at hreq
      simp only [List.mem_singleton] at hreq
      rw [hm] at hb
      injection hb with hb
      subst hreq
      subst hb
      exact hdec
  · intro hu
    rw [callWithWallet_sent_of_built c method (some p) walletName body hm hu]
    show [decodeRequest body] = _
    rw [hdec]

set_option maxRecDepth 100000 in
/-- C7, for a request of `ListTransactions` with the parameters `["*", 10]` that the
package sends, followed by a negative integer, a number with a fraction, a null, a boolean,
a string that needs escaping, a slice, a map with its keys out of order and a struct with a
field left out by `omitempty`. -/
theorem request_round_trip_witness :
    (∀ v ∈ [GoVal.str "*", .int 10, .int (-3), .float ⟨"0.5"⟩, .nil, .bool true,
        .str "bc1q<a&b>\n", .slice [.int 1, .slice []],
        .map [("memo", .str ""), ("fee", .float ⟨"1e-5"⟩)],
        .struct [(⟨"txid", false⟩, .str "ab"), (⟨"vout", false⟩, .int 0),
          (⟨"sequence", true⟩, .int 0)]], v.isJSONValue = true) ∧
    ((stubClient "200 OK" 200 "\x7b\"result\":[],\"error\":null,\"id\":1\x7d").callWithWallet
      "listtransactions" (some [.str "*", .int 10, .int (-3), .float ⟨"0.5"⟩, .nil, .bool true,
        .str "bc1q<a&b>\n", .slice [.int 1, .slice []],
        .map [("memo", .str ""), ("fee", .float ⟨"1e-5"⟩)],
        .struct [(⟨"txid", false⟩, .str "ab"), (⟨"vout", false⟩, .int 0),
          (⟨"sequence", true⟩, .int 0)]]) "").sent.map (fun r => decodeRequest r.Body)
      = [.ok ⟨"listtransactions", [.str "*", .number "10".data, .number "-3".data,
          .number "0.5".data, .null, .bool true, .str "bc1q<a&b>\n",
          .array [.number "1".data, .array []],
          .object [("fee", .number "1e-5".data), ("memo", .str "")],
          .object [("txid", .str "ab"), ("vout", .number "0".data)]], 1, "1.0"⟩] :=
  ⟨by
      intro v hv
      simp only [List.mem_cons, List.mem_singleton, List.not_mem_nil, or_false] at hv
      rcases hv with h | h | h | h | h | h | h | h | h | h <;> subst h <;> rfl,
    (request_round_trip
      (stubClient "200 OK" 200 "\x7b\"result\":[],\"error\":null,\"id\":1\x7d")
      "listtransactions" [.str "*", .int 10, .int (-3), .float ⟨"0.5"⟩, .nil, .bool true,
        .str "bc1q<a&b>\n", .slice [.int 1, .slice []],
        .map [("memo", .str ""), ("fee", .float ⟨"1e-5"⟩)],
        .struct [(⟨"txid", false⟩, .str "ab"), (⟨"vout", false⟩, .int 0),
          (⟨"sequence", true⟩, .int 0)]] ""
      (by
        intro v hv
        simp only [List.mem_cons, List.mem_singleton, List.not_mem_nil, or_false] at hv
        rcases hv with h | h | h | h | h | h | h | h | h | h <;> subst h <;> rfl)).2 rfl⟩

end btcrpc
